import Mathlib

/-!
Verification development for the `blockfile2` block-addressed file store
(allocator / commit engine in `src/blockmap.rs` and its submodules).

The Rust sources are embedded shallowly:

* machine integers (`u32`, `usize`, `u64`) become `Nat`; the only place the
  `u32` width could matter is `Physical::pop_free`'s `self.max += 1`, which
  would wrap only after handing out `2^32` physical blocks, and that is noted
  where it is modelled;
* byte buffers that the source only ever accesses through one typed view
  (`cast_header_array` etc.) become structured values (`Slot`);
* the file is a list of block-sized slots, written with seek-and-write
  semantics (writing past the end zero-fills the gap, as a sparse write does);
* fallible code returns `Except MErr`;
* `debug_assert!` checks are omitted (release semantics); the always-on
  `assert_ne!(physical_block, PhysicalNr(0))` of `store_raw` is modelled as an
  error.

The header revision in `src/src/blockmap/header.rs` stores two `(types,
physical)` pairs and has no streams pointers, while `Alloc::store`/`load` in
`src/src/blockmap.rs` call `store_low/store_high/low_streams/high_streams`
with a streams member.  Those four functions are absent from the sources, so
they are modelled from the spec (triples at offsets 8 and 20); the byte-exact
header as found in `header.rs` is embedded separately further below for the
header-layout theorems.

`BlockType` is embedded from `src/src/blockmap/blocktype.rs`, which has no
`NotAllocated` variant (value 0 is `Free`).  Where other source files mention
`BlockType::NotAllocated`, the spec's note applies ("later versions collapse
them"): the zero-valued type is `Free`, and match arms on `NotAllocated`
collapse onto the `Free` value, first arm winning.
-/

/-- Block types, from `blocktype.rs`: `Free = 0`, `Header = 2`, `Types = 3`,
`Physical = 4`, `Streams = 5`, `User1..User16 = 16..31`. -/
inductive BlockType where
  | free
  | header
  | types
  | physicalT
  | streams
  | user1 | user2 | user3 | user4 | user5 | user6 | user7 | user8
  | user9 | user10 | user11 | user12 | user13 | user14 | user15 | user16
deriving DecidableEq, Repr

/-- Is this one of the application block types (values 16..31)? -/
def BlockType.isUser : BlockType → Bool
  | .free | .header | .types | .physicalT | .streams => false
  | _ => true

/-- Error kinds, from `FBErrorKind` in `lib.rs` (only the variants the
embedded code can produce). `storeRawZero` stands for the always-on
`assert_ne!` panic in `block_io::store_raw`/`load_raw`; `badSlotCast` stands
for re-reading a slot through a different typed view than it was written
with, which never happens in the verified executions. -/
inductive MErr where
  | storeRawZero
  | loadRawMiss (pnr : Nat)
  | badSlotCast (pnr : Nat)
  | notAllocated (nr : Nat)
  | accessDenied (nr : Nat)
  | noFreeBlocks
  | noBlockMap
  | noUserBlockType
  | maxStreams (n : Nat)
  | invalidBlock (nr : Nat)
  | invalidBlockSize (n : Nat)
  | noBlockType (nr : Nat)
  | invalidBlockType (nr : Nat)
  | invalidBlockSequence (nr start : Nat)
  | doubleAssignedPhysicalBlock (nr1 nr2 : Nat)
  | headerCorrupted
deriving DecidableEq, Repr

/-- `TypesBlock::len_types_g`: entries per type-map page,
`(block_size - 2 * size_of::<LogicalNr>()) / size_of::<BlockType>()`. -/
def lenTypesG (bs : Nat) : Nat := (bs - 4 - 4) / 4

/-- `PhysicalBlock::len_physical_g`: entries per physical-map page,
`(block_size - size_of::<PhysicalHeader>()) / size_of::<PhysicalNr>()`. -/
def lenPhysicalG (bs : Nat) : Nat := (bs - 8) / 4

/-- One page of the type map (`TypesBlock`): start/next logical numbers and
the `BlockType` array, plus the block flags that matter here. -/
structure TPage where
  blockNr : Nat
  startNr : Nat
  nextNr : Nat
  entries : List BlockType
  dirty : Bool
  gen : Nat
deriving DecidableEq, Repr

/-- `TypesBlock::end_nr`: exclusive end of the covered range
(`start_nr + len_types`, a constant computed from the block size). -/
def TPage.endNr (bs : Nat) (pg : TPage) : Nat := pg.startNr + lenTypesG bs

/-- `TypesBlock::contains`. -/
def TPage.containsNr (bs : Nat) (pg : TPage) (nr : Nat) : Bool :=
  pg.startNr ≤ nr && nr < pg.endNr bs

/-- `TypesBlock::new`: fresh zeroed page (all entries decode as `Free`). -/
def TPage.new (blockNr bs : Nat) : TPage :=
  { blockNr := blockNr, startNr := 0, nextNr := 0,
    entries := List.replicate (lenTypesG bs) BlockType.free,
    dirty := false, gen := 0 }

/-- `TypesBlock::init`: page with block-nr 1 carrying the four reserved
types at logical numbers 0..3. -/
def TPage.initPage (bs : Nat) : TPage :=
  { blockNr := 1, startNr := 0, nextNr := 0,
    entries :=
      ((((List.replicate (lenTypesG bs) BlockType.free).set 0 .header).set 1
        .types).set 2 .physicalT).set 3 .streams,
    dirty := false, gen := 0 }

/-- `TypesBlock::iter_block_type` as the list of `(logical nr, type)` pairs. -/
def TPage.pairs (pg : TPage) : List (Nat × BlockType) :=
  pg.entries.enum.map (fun p => (pg.startNr + p.1, p.2))

/-- The in-memory type map (`Types`): pages in chain order plus the free
list of logical numbers (a `Vec`, top at the end). -/
structure MTypes where
  bs : Nat
  blocks : List TPage
  free : List Nat
deriving DecidableEq, Repr

/-- One pass of `Types::init_free_list`: iterate the pages in reverse, each
page's pairs in reverse, pushing the `Free` logical numbers. -/
def typesFreeList (blocks : List TPage) : List Nat :=
  ((blocks.reverse.map
    (fun pg => (pg.pairs.reverse.filter (fun p => p.2 = BlockType.free)).map
      (fun p => p.1))).flatten)

/-- `Types::init`. -/
def MTypes.init (bs : Nat) : MTypes :=
  let pg : TPage := { TPage.initPage bs with dirty := true }
  { bs := bs, blocks := [pg], free := typesFreeList [pg] }

/-- `Types::free_len`. -/
def MTypes.freeLen (t : MTypes) : Nat := t.free.length

/-- `Types::pop_free` (`Vec::pop`: takes the last element). -/
def MTypes.popFree (t : MTypes) : Option Nat × MTypes :=
  (t.free.getLast?, { t with free := t.free.dropLast })

/-- `Types::push_free` (the `debug_assert!` is release-omitted). -/
def MTypes.pushFree (t : MTypes) (nr : Nat) : MTypes :=
  { t with free := t.free ++ [nr] }

/-- `Types::block_type`: O(1) page lookup by `nr / N`, then the page's
`contains` check and array read. -/
def MTypes.blockType (t : MTypes) (nr : Nat) : Except MErr BlockType :=
  match t.blocks.get? (nr / lenTypesG t.bs) with
  | none => .error (.invalidBlock nr)
  | some pg =>
    if pg.containsNr t.bs nr then
      match pg.entries.get? (nr - pg.startNr) with
      | some ty => .ok ty
      | none => .error (.invalidBlock nr)
    else .error (.invalidBlock nr)

/-- `Types::set_block_type` (marks the page dirty). -/
def MTypes.setBlockType (t : MTypes) (nr : Nat) (ty : BlockType) :
    Except MErr MTypes :=
  match t.blocks.get? (nr / lenTypesG t.bs) with
  | none => .error (.invalidBlock nr)
  | some pg =>
    if pg.containsNr t.bs nr then
      .ok { t with
        blocks := t.blocks.set (nr / lenTypesG t.bs)
          { pg with
            entries := pg.entries.set (nr - pg.startNr) ty
            dirty := true } }
    else .error (.invalidBlock nr)

/-- Replace the last element of a list. -/
def listModifyLast (f : α → α) : List α → List α
  | [] => []
  | [a] => [f a]
  | a :: b :: rest => a :: listModifyLast f (b :: rest)

/-- `Types::append_blockmap`: link a fresh page behind the last one and
prepend its whole range to the free list (descending). -/
def MTypes.appendBlockmap (t : MTypes) (newNr : Nat) : MTypes :=
  match t.blocks.getLast? with
  | none => t
  | some last =>
    let startNr := last.endNr t.bs
    let blocks := listModifyLast
      (fun pg : TPage => { pg with nextNr := newNr, dirty := true }) t.blocks
    let pg : TPage :=
      { TPage.new newNr t.bs with startNr := startNr, dirty := true }
    { t with
      blocks := blocks ++ [pg]
      free := ((List.range' startNr (lenTypesG t.bs)).reverse) ++ t.free }

/-- `Types::iter_dirty`: block numbers of the dirty pages, in vector order. -/
def MTypes.iterDirty (t : MTypes) : List Nat :=
  (t.blocks.filter (fun pg => pg.dirty)).map (fun pg => pg.blockNr)

/-- `Types::blockmap_mut` (lookup part; find by block-nr). -/
def MTypes.findPage (t : MTypes) (blockNr : Nat) : Except MErr TPage :=
  match t.blocks.find? (fun pg => pg.blockNr = blockNr) with
  | some pg => .ok pg
  | none => .error (.invalidBlock blockNr)

/-- Clear the dirty flag and set the generation of the page with the given
block-nr (the mutation done through `blockmap_mut` in `Alloc::store`). -/
def MTypes.clearDirty (t : MTypes) (blockNr g : Nat) : MTypes :=
  { t with
    blocks := t.blocks.map
      (fun pg => if pg.blockNr = blockNr then
        { pg with dirty := false, gen := g }
      else pg) }

/-- `Types::iter_block_type` (flattened over the pages, with a filter). -/
def MTypes.iterBlockType (t : MTypes) (f : Nat → BlockType → Bool) :
    List (Nat × BlockType) :=
  ((t.blocks.map (fun pg => pg.pairs.filter (fun p => f p.1 p.2))).flatten)

/-- One page of the physical map (`PhysicalBlock`). -/
structure PPage where
  blockNr : Nat
  startNr : Nat
  nextNr : Nat
  entries : List Nat
  dirty : Bool
  gen : Nat
deriving DecidableEq, Repr

/-- `PhysicalBlock::end_nr`. -/
def PPage.endNr (bs : Nat) (pg : PPage) : Nat := pg.startNr + lenPhysicalG bs

/-- `PhysicalBlock::contains`. -/
def PPage.containsNr (bs : Nat) (pg : PPage) (nr : Nat) : Bool :=
  pg.startNr ≤ nr && nr < pg.endNr bs

/-- `PhysicalBlock::new`: fresh zeroed page. -/
def PPage.new (blockNr bs : Nat) : PPage :=
  { blockNr := blockNr, startNr := 0, nextNr := 0,
    entries := List.replicate (lenPhysicalG bs) 0,
    dirty := false, gen := 0 }

/-- `PhysicalBlock::iter_nr` as `(logical nr, physical nr)` pairs. -/
def PPage.pairs (pg : PPage) : List (Nat × Nat) :=
  pg.entries.enum.map (fun p => (pg.startNr + p.1, p.2))

/-- The in-memory physical map (`Physical`): pages, high-water mark `max`,
free list of physical slots (a `Vec`, top at the end). -/
structure MPhysical where
  bs : Nat
  blocks : List PPage
  max : Nat
  free : List Nat
deriving DecidableEq, Repr

/-- Used-physical-slot test built by `Physical::init_free_list`: slot 0 is
inserted once per page (so only when some page exists), plus every non-zero
entry of every page. -/
def MPhysical.used (p : MPhysical) (i : Nat) : Bool :=
  (decide (i = 0) && !p.blocks.isEmpty) ||
    p.blocks.any (fun pg => pg.entries.any (fun e => decide (e ≠ 0) && decide (e = i)))

/-- The countdown loop of `Physical::init_free_list`: `i` runs from
`file_size / block_size - 1` down to `0`; unused slots are pushed onto the
free vector (hence in descending order), used slots raise `max`. -/
def physFreeLoop (used : Nat → Bool) : Nat → List Nat → Nat → List Nat × Nat
  | 0, acc, mx => (acc, mx)
  | i + 1, acc, mx =>
    if used i then physFreeLoop used i acc (Nat.max mx i)
    else physFreeLoop used i (acc ++ [i]) mx

/-- `Physical::init_free_list`.  Note: `self.max` is *not* reset first; the
loop only raises it. -/
def MPhysical.initFreeList (p : MPhysical) (fileSize : Nat) : MPhysical :=
  let res := physFreeLoop p.used (fileSize / p.bs) [] p.max
  { p with free := res.1, max := res.2 }

/-- `Physical::init`. -/
def MPhysical.init (bs : Nat) : MPhysical :=
  let pg : PPage := { PPage.new 2 bs with dirty := true }
  MPhysical.initFreeList { bs := bs, blocks := [pg], max := 0, free := [] } 0

/-- `Physical::pop_free`: top of the free vector, else `self.max += 1` and
return it.  The source increments a `u32`; the wrap-around (which would need
`2 ^ 32` physical blocks in one file) is not modelled. -/
def MPhysical.popFree (p : MPhysical) : Nat × MPhysical :=
  match p.free.getLast? with
  | some nr => (nr, { p with free := p.free.dropLast })
  | none => (p.max + 1, { p with max := p.max + 1 })

/-- `Physical::physical_nr`. -/
def MPhysical.physicalNr (p : MPhysical) (nr : Nat) : Except MErr Nat :=
  match p.blocks.get? (nr / lenPhysicalG p.bs) with
  | none => .error (.invalidBlock nr)
  | some pg =>
    if pg.containsNr p.bs nr then
      match pg.entries.get? (nr - pg.startNr) with
      | some v => .ok v
      | none => .error (.invalidBlock nr)
    else .error (.invalidBlock nr)

/-- `Physical::set_physical_nr` (marks the containing page dirty; the large
`debug_assert!` is release-omitted). -/
def MPhysical.setPhysicalNr (p : MPhysical) (nr v : Nat) :
    Except MErr MPhysical :=
  match p.blocks.get? (nr / lenPhysicalG p.bs) with
  | none => .error (.invalidBlock nr)
  | some pg =>
    if pg.containsNr p.bs nr then
      .ok { p with
        blocks := p.blocks.set (nr / lenPhysicalG p.bs)
          { pg with
            entries := pg.entries.set (nr - pg.startNr) v
            dirty := true } }
    else .error (.invalidBlock nr)

/-- `Physical::append_blockmap`. -/
def MPhysical.appendBlockmap (p : MPhysical) (nextNr : Nat) :
    Except MErr MPhysical :=
  match p.blocks.getLast? with
  | none => .error .noBlockMap
  | some last =>
    let startNr := last.endNr p.bs
    let blocks := listModifyLast
      (fun pg => { pg with nextNr := nextNr, dirty := true }) p.blocks
    let pg : PPage :=
      { PPage.new nextNr p.bs with startNr := startNr, dirty := true }
    .ok { p with blocks := blocks ++ [pg] }

/-- `Physical::iter_dirty`. -/
def MPhysical.iterDirty (p : MPhysical) : List Nat :=
  (p.blocks.filter (fun pg => pg.dirty)).map (fun pg => pg.blockNr)

/-- `Physical::blockmap_mut` (lookup part). -/
def MPhysical.findPage (p : MPhysical) (blockNr : Nat) : Except MErr PPage :=
  match p.blocks.find? (fun pg => pg.blockNr = blockNr) with
  | some pg => .ok pg
  | none => .error (.invalidBlock blockNr)

/-- Clear the dirty flag / set generation on one page. -/
def MPhysical.clearDirty (p : MPhysical) (blockNr g : Nat) : MPhysical :=
  { p with
    blocks := p.blocks.map
      (fun pg => if pg.blockNr = blockNr then
        { pg with dirty := false, gen := g }
      else pg) }

/-- The streams block (`StreamsBlock`): an array of `(block_type, head_idx)`
records over the block buffer, `block_size / 8` of them; the zero-valued
block type (`Free`, standing in for the collapsed `NotAllocated`) terminates
the used prefix.  Its logical block-nr is the constant 3. -/
structure MStreams where
  entries : List (BlockType × Nat)
  dirty : Bool
  gen : Nat
deriving DecidableEq, Repr

/-- `StreamsBlock::init` / `new`: zeroed block. -/
def MStreams.init (bs : Nat) : MStreams :=
  { entries := List.replicate (bs / 8) (BlockType.free, 0),
    dirty := false, gen := 0 }

/-- Scan of `StreamsBlock::set_head_idx`: first record of this type, else
the first terminator record, else `MaxStreams`. -/
def streamsSetScan (ty : BlockType) (idx : Nat) :
    List (BlockType × Nat) → Option (List (BlockType × Nat))
  | [] => none
  | (t, i) :: rest =>
    if t = ty then some ((ty, idx) :: rest)
    else if t = BlockType.free then some ((ty, idx) :: rest)
    else ((streamsSetScan ty idx rest).map (fun r => (t, i) :: r))

/-- `StreamsBlock::set_head_idx`.  The source sets the dirty flag before the
scan, so even the `MaxStreams` error path leaves the block dirty; the error
path is never reached in the verified executions, so the model returns the
error without that mutation. -/
def MStreams.setHeadIdx (s : MStreams) (ty : BlockType) (idx : Nat) :
    Except MErr MStreams :=
  match streamsSetScan ty idx s.entries with
  | some es => .ok { s with entries := es, dirty := true }
  | none => .error (.maxStreams s.entries.length)

/-- Scan of `StreamsBlock::head_idx`. -/
def streamsGetScan (ty : BlockType) : List (BlockType × Nat) → Nat
  | [] => 0
  | (t, i) :: rest =>
    if t = ty then i
    else if t = BlockType.free then 0
    else streamsGetScan ty rest

/-- `StreamsBlock::head_idx`. -/
def MStreams.headIdx (s : MStreams) (ty : BlockType) : Nat :=
  streamsGetScan ty s.entries

/-- Header state flag (`State`): which root copy is valid. -/
inductive MState where
  | low
  | high
deriving DecidableEq, Repr

/-- Flip a state. -/
def MState.other : MState → MState
  | .low => .high
  | .high => .low

/-- Modelled from the spec: the header view used by `Alloc::store`/`load`
(`store_low`, `store_high`, `low_streams`, `high_streams` and the streams
members are missing from `src/src/blockmap/header.rs`); per the spec the
header holds `state`, `block_size` and two parallel
`(types_pnr, physical_pnr, streams_pnr)` triples. -/
structure MHeader where
  state : MState
  blockSize : Nat
  lowTypes : Nat
  lowPhysical : Nat
  lowStreams : Nat
  highTypes : Nat
  highPhysical : Nat
  highStreams : Nat
deriving DecidableEq, Repr

/-- `HeaderBlock::init`: state starts `High` so the first commit writes the
`Low` triple; all pointers zero. -/
def MHeader.init (bs : Nat) : MHeader :=
  { state := .high, blockSize := bs,
    lowTypes := 0, lowPhysical := 0, lowStreams := 0,
    highTypes := 0, highPhysical := 0, highStreams := 0 }

/-- One block-sized slot of the file.  The source stores raw bytes and reads
them back through the same typed view; the model keeps the typed value.  A
slot created by seeking past the end of the file is all zero bytes
(`rawS (replicate bs 0)`). -/
inductive Slot where
  | hdrS (h : MHeader)
  | tyS (startNr nextNr : Nat) (entries : List BlockType)
  | phS (startNr nextNr : Nat) (entries : List Nat)
  | stS (entries : List (BlockType × Nat))
  | rawS (data : List Nat)
deriving DecidableEq, Repr

/-- The file: block-sized slots, slot `i` at byte offset `i * block_size`. -/
abbrev MFile := List Slot

/-- A zero-filled slot (sparse-write gap). -/
def zeroSlot (bs : Nat) : Slot := .rawS (List.replicate bs 0)

/-- Seek-and-write of one whole block: zero-fills any gap past the current
end of file. -/
def writeSlot (f : MFile) (bs i : Nat) (s : Slot) : MFile :=
  if i < f.length then f.set i s
  else (f ++ List.replicate (i - f.length) (zeroSlot bs)) ++ [s]

/-- Seek-and-read of one whole block; reading past the end of the file fails
(`read_exact`). -/
def readSlot (f : MFile) (i : Nat) : Option Slot := f.get? i

/-- `block_io::store_raw`: asserts the physical block is non-zero
(always-on `assert_ne!`), then writes the whole block. -/
def storeRaw (f : MFile) (bs pnr : Nat) (s : Slot) : Except MErr MFile :=
  if pnr = 0 then .error .storeRawZero else .ok (writeSlot f bs pnr s)

/-- `block_io::store_raw_0`: the dedicated whole-block write for slot 0. -/
def storeRaw0 (f : MFile) (bs : Nat) (s : Slot) : MFile := writeSlot f bs 0 s

/-- A cached user block (`Block`): buffer plus number, type and flags. -/
structure MBlock where
  blockNr : Nat
  ty : BlockType
  dirty : Bool
  discard : Bool
  gen : Nat
  data : List Nat
deriving DecidableEq, Repr

/-- `Block::new`: zero-initialized buffer, flags clear. -/
def MBlock.new (nr bs : Nat) (ty : BlockType) : MBlock :=
  { blockNr := nr, ty := ty, dirty := false, discard := false, gen := 0,
    data := List.replicate bs 0 }

/-- The allocator (`Alloc`): file handle, header, the three maps, the
user-block cache (a `BTreeMap`, modelled as a key-sorted association list)
and the commit generation. -/
structure MAlloc where
  bs : Nat
  file : MFile
  header : MHeader
  types : MTypes
  physical : MPhysical
  streams : MStreams
  user : List (Nat × MBlock)
  gen : Nat
deriving DecidableEq, Repr

/-- `BTreeMap::insert` on the sorted association list. -/
def cacheInsert (nr : Nat) (b : MBlock) :
    List (Nat × MBlock) → List (Nat × MBlock)
  | [] => [(nr, b)]
  | (k, v) :: rest =>
    if nr < k then (nr, b) :: (k, v) :: rest
    else if nr = k then (nr, b) :: rest
    else (k, v) :: cacheInsert nr b rest

/-- `BTreeMap::get`. -/
def cacheFind (u : List (Nat × MBlock)) (nr : Nat) : Option MBlock :=
  (u.find? (fun kv => kv.1 = nr)).map (fun kv => kv.2)

/-- `BTreeMap::remove` (dropping the entry). -/
def cacheRemove (u : List (Nat × MBlock)) (nr : Nat) : List (Nat × MBlock) :=
  u.filter (fun kv => kv.1 ≠ nr)

/-- `Alloc::init`. -/
def MAlloc.init (bs : Nat) : MAlloc :=
  { bs := bs, file := [], header := MHeader.init bs,
    types := MTypes.init bs, physical := MPhysical.init bs,
    streams := MStreams.init bs, user := [], gen := 0 }

/-- `Alloc::append_blockmap`: pop a logical number for a fresh type-map page
and one for a fresh physical-map page, type them, link them in. -/
def MAlloc.appendBlockmap (s : MAlloc) : Except MErr MAlloc := do
  match s.types.popFree with
  | (none, _) => .error .noFreeBlocks
  | (some typesNr, t1) => do
    let t2 ← t1.setBlockType typesNr .types
    let t3 := t2.appendBlockmap typesNr
    match t3.popFree with
    | (none, _) => .error .noFreeBlocks
    | (some physicalNr, t4) => do
      let t5 ← t4.setBlockType physicalNr .physicalT
      let p1 ← s.physical.appendBlockmap physicalNr
      .ok { s with types := t5, physical := p1 }

/-- `Alloc::alloc_block`: extend the maps when exactly two free slots
remain, then pop a free logical number, type it and cache a fresh block. -/
def MAlloc.allocBlock (s : MAlloc) (ty : BlockType) :
    Except MErr (Nat × MAlloc) := do
  let s ← if s.types.freeLen = 2 then s.appendBlockmap else .ok s
  match s.types.popFree with
  | (none, _) => .error .noFreeBlocks
  | (some allocNr, t1) => do
    let t2 ← t1.setBlockType allocNr ty
    let b := MBlock.new allocNr s.bs ty
    .ok (allocNr, { s with types := t2, user := cacheInsert allocNr b s.user })

/-- `Alloc::free_block`. -/
def MAlloc.freeBlock (s : MAlloc) (nr : Nat) : Except MErr MAlloc := do
  let u := cacheRemove s.user nr
  let t1 ← s.types.setBlockType nr .free
  let t2 := t1.pushFree nr
  let p1 ← s.physical.setPhysicalNr nr 0
  .ok { s with user := u, types := t2, physical := p1 }

/-- `Alloc::discard_block`. -/
def MAlloc.discardBlock (s : MAlloc) (nr : Nat) : MAlloc :=
  match cacheFind s.user nr with
  | none => s
  | some b =>
    if b.dirty then
      { s with user := cacheInsert nr { b with discard := true } s.user }
    else { s with user := cacheRemove s.user nr }

/-- `Alloc::retain_blocks`: the caller's predicate is overridden for the
internal types; the `NotAllocated` arm of the source collapses onto the
`Free` value. -/
def MAlloc.retainBlocks (s : MAlloc) (f : Nat → MBlock → Bool) : MAlloc :=
  { s with
    user := s.user.filter (fun kv =>
      match kv.2.ty with
      | .free => false
      | .header => true
      | .types => true
      | .physicalT => true
      | .streams => true
      | _ => f kv.1 kv.2) }

/-- `Alloc::load_block`: type lookup, the access gate, then the read.  The
first arm of the source match is `BlockType::NotAllocated`, which collapses
onto the zero type value `Free`, so the `Free` value takes that arm. -/
def MAlloc.loadBlock (s : MAlloc) (nr : Nat) : Except MErr MAlloc := do
  let ty ← s.types.blockType nr
  let pnr ← match ty with
    | .free => .error (.notAllocated nr)
    | .header => .error (.accessDenied nr)
    | .types => .error (.accessDenied nr)
    | .physicalT => .error (.accessDenied nr)
    | _ => s.physical.physicalNr nr
  let b := MBlock.new nr s.bs ty
  let b ← if pnr ≠ 0 then
      match readSlot s.file pnr with
      | some (.rawS d) => .ok { b with data := d }
      | some _ => .error (.badSlotCast pnr)
      | none => .error (.loadRawMiss pnr)
    else .ok b
  .ok { s with user := cacheInsert nr b s.user }

/-- `Alloc::block` (the read path of `FileBlocks::get`): return the cached
block, loading it first when absent. -/
def MAlloc.blockGet (s : MAlloc) (nr : Nat) : Except MErr (MBlock × MAlloc) := do
  let s ← if (cacheFind s.user nr).isSome then .ok s else s.loadBlock nr
  match cacheFind s.user nr with
  | some b => .ok (b, s)
  | none => .error (.invalidBlock nr)

/-- Mutate a cached block's buffer and mark it dirty (the caller-side
`get_mut` + `set_dirty(true)` pattern of the tests). -/
def MAlloc.dirtyWrite (s : MAlloc) (nr : Nat) (data : List Nat) : MAlloc :=
  match cacheFind s.user nr with
  | none => s
  | some b =>
    { s with user := cacheInsert nr { b with data := data, dirty := true } s.user }

/-- Modelled from the spec: `HeaderBlock::store_low` — update the in-memory
view and persist the Low `(types, physical, streams)` triple into block 0
(the function is absent from the `header.rs` revision in the sources; its
caller `Alloc::store` is in `blockmap.rs`).  The disk write is the
read-modify-write of exactly these fields of the header slot. -/
def MAlloc.storeLow (s : MAlloc) (t p st : Nat) : Except MErr MAlloc :=
  match readSlot s.file 0 with
  | some (.hdrS h) =>
    .ok { s with
      header := { s.header with lowTypes := t, lowPhysical := p, lowStreams := st }
      file := s.file.set 0
        (.hdrS { h with lowTypes := t, lowPhysical := p, lowStreams := st }) }
  | some _ => .error (.badSlotCast 0)
  | none => .error (.loadRawMiss 0)

/-- Modelled from the spec: `HeaderBlock::store_high` — the High triple. -/
def MAlloc.storeHigh (s : MAlloc) (t p st : Nat) : Except MErr MAlloc :=
  match readSlot s.file 0 with
  | some (.hdrS h) =>
    .ok { s with
      header := { s.header with highTypes := t, highPhysical := p, highStreams := st }
      file := s.file.set 0
        (.hdrS { h with highTypes := t, highPhysical := p, highStreams := st }) }
  | some _ => .error (.badSlotCast 0)
  | none => .error (.loadRawMiss 0)

/-- `HeaderBlock::store_state`: write the 4-byte state field of block 0 and
update the in-memory view. -/
def MAlloc.storeState (s : MAlloc) (st : MState) : Except MErr MAlloc :=
  match readSlot s.file 0 with
  | some (.hdrS h) =>
    .ok { s with
      header := { s.header with state := st }
      file := s.file.set 0 (.hdrS { h with state := st }) }
  | some _ => .error (.badSlotCast 0)
  | none => .error (.loadRawMiss 0)

/-- Step 3 of `Alloc::store` (user blocks): walk the cache; every dirty
block gets a popped physical number, a map update and a whole-block write,
then its dirty flag cleared and its generation stamped. -/
def storeUserGo (bs g : Nat) : List (Nat × MBlock) → MPhysical → MFile →
    Except MErr (List (Nat × MBlock) × MPhysical × MFile)
  | [], p, f => .ok ([], p, f)
  | (nr, b) :: rest, p, f =>
    if b.dirty then do
      let pf := p.popFree
      let p2 ← pf.2.setPhysicalNr nr pf.1
      let f1 ← storeRaw f bs pf.1 (.rawS b.data)
      let r ← storeUserGo bs g rest p2 f1
      .ok ((nr, { b with dirty := false, gen := g }) :: r.1, r.2.1, r.2.2)
    else do
      let r ← storeUserGo bs g rest p f
      .ok ((nr, b) :: r.1, r.2.1, r.2.2)

/-- Step 5 of `Alloc::store` (dirty type-map pages): pop a number, record
it, write the page, clear its dirty flag. -/
def storeTypesGo (bs g : Nat) : List Nat → MTypes → MPhysical → MFile →
    Except MErr (MTypes × MPhysical × MFile)
  | [], t, p, f => .ok (t, p, f)
  | nr :: rest, t, p, f => do
    let pf := p.popFree
    let p2 ← pf.2.setPhysicalNr nr pf.1
    let pg ← t.findPage nr
    let f1 ← storeRaw f bs pf.1 (.tyS pg.startNr pg.nextNr pg.entries)
    storeTypesGo bs g rest (t.clearDirty nr g) p2 f1

/-- Step 6 of `Alloc::store` (assignment pass): give every page of the
snapshot a fresh physical number; no writes. -/
def storeAssignGo : List Nat → MPhysical → Except MErr MPhysical
  | [], p => .ok p
  | nr :: rest, p => do
    let pf := p.popFree
    let p2 ← pf.2.setPhysicalNr nr pf.1
    storeAssignGo rest p2

/-- Step 7 of `Alloc::store` (write pass): look up each dirty page's number
(the `debug_assert_ne!` expects it non-zero; `store_raw`'s own assert is the
`storeRawZero` error) and write the page buffer there. -/
def storePhysGo (bs g : Nat) : List Nat → MPhysical → MFile →
    Except MErr (MPhysical × MFile)
  | [], p, f => .ok (p, f)
  | nr :: rest, p, f => do
    let v ← p.physicalNr nr
    let pg ← p.findPage nr
    let f1 ← storeRaw f bs v (.phS pg.startNr pg.nextNr pg.entries)
    storePhysGo bs g rest (p.clearDirty nr g) f1

/-- `Alloc::store`, steps 1 and 2: bump the generation; a zero-length file
first gets a default header block at slot 0. -/
def storePhase0 (s : MAlloc) : Except MErr MAlloc :=
  let s := { s with gen := s.gen + 1 }
  if s.file.length = 0 then
    .ok { s with file := storeRaw0 s.file s.bs (.hdrS (MHeader.init s.bs)) }
  else .ok s

/-- `Alloc::store`, step 3: user blocks. -/
def storePhase1 (s : MAlloc) : Except MErr MAlloc := do
  let r ← storeUserGo s.bs s.gen s.user s.physical s.file
  .ok { s with user := r.1, physical := r.2.1, file := r.2.2 }

/-- `Alloc::store`, step 4: the streams block, if dirty. -/
def storePhase2 (s : MAlloc) : Except MErr MAlloc :=
  if s.streams.dirty then do
    let pf := s.physical.popFree
    let p2 ← pf.2.setPhysicalNr 3 pf.1
    let f1 ← storeRaw s.file s.bs pf.1 (.stS s.streams.entries)
    .ok { s with
      physical := p2
      file := f1
      streams := { s.streams with dirty := false, gen := s.gen } }
  else .ok s

/-- `Alloc::store`, step 5: dirty type-map pages. -/
def storePhase3 (s : MAlloc) : Except MErr MAlloc := do
  let r ← storeTypesGo s.bs s.gen s.types.iterDirty s.types s.physical s.file
  .ok { s with types := r.1, physical := r.2.1, file := r.2.2 }

/-- `Alloc::store`, step 6: assignment pass over the dirty physical-map
pages (snapshot taken at entry). -/
def storePhase4 (s : MAlloc) : Except MErr MAlloc := do
  let p ← storeAssignGo s.physical.iterDirty s.physical
  .ok { s with physical := p }

/-- `Alloc::store`, step 7: write pass over the (re-snapshotted) dirty
physical-map pages. -/
def storePhase5 (s : MAlloc) : Except MErr MAlloc := do
  let r ← storePhysGo s.bs s.gen s.physical.iterDirty s.physical s.file
  .ok { s with physical := r.1, file := r.2 }

/-- `Alloc::store`, step 8: write the root triple into the inactive header
copy (Low when the state is High and vice versa) and sync. -/
def storePhase6 (s : MAlloc) : Except MErr MAlloc := do
  let tyP ← s.physical.physicalNr 1
  let phP ← s.physical.physicalNr 2
  let stP ← s.physical.physicalNr 3
  match s.header.state with
  | .low => s.storeHigh tyP phP stP
  | .high => s.storeLow tyP phP stP

/-- `Alloc::store`, step 9: flip the state field and sync — the commit
point. -/
def storePhase7 (s : MAlloc) : Except MErr MAlloc :=
  s.storeState s.header.state.other

/-- `Alloc::store`, steps 10 and 11: rebuild the physical free list from the
file length, then drop `discard`-flagged blocks from the cache. -/
def storePhase8 (s : MAlloc) : Except MErr MAlloc :=
  let p := s.physical.initFreeList (s.file.length * s.bs)
  .ok (MAlloc.retainBlocks { s with physical := p } (fun _ v => !v.discard))

/-- The phases of `Alloc::store` in order; the debug `store_panic` hook of
the source fires after phase `k` (for `k = 1..7`), so the file of a crash at
panic point `k` is the file of `storeUpTo k`. -/
def storePhases : List (MAlloc → Except MErr MAlloc) :=
  [storePhase0, storePhase1, storePhase2, storePhase3, storePhase4,
    storePhase5, storePhase6, storePhase7, storePhase8]

/-- Run the first `k` phases of `Alloc::store`. -/
def storeUpTo (k : Nat) (s : MAlloc) : Except MErr MAlloc :=
  (storePhases.take k).foldlM (fun st ph => ph st) s

/-- `Alloc::store`. -/
def MAlloc.store (s : MAlloc) : Except MErr MAlloc := storeUpTo 9 s

/-- `block_io::load_raw`: asserts the physical number non-zero, then reads
the whole block. -/
def loadRawSlot (f : MFile) (pnr : Nat) : Except MErr Slot :=
  if pnr = 0 then .error .storeRawZero
  else
    match readSlot f pnr with
    | some sl => .ok sl
    | none => .error (.loadRawMiss pnr)

/-- Chain walk of `Physical::load`: resolve each `next_nr` through the map
built so far.  The fuel argument only bounds the recursion; the source would
loop forever on a cyclic chain, and the callers pass more fuel than any
acyclic chain can use. -/
def MPhysical.loadChain (f : MFile) (bs : Nat) :
    Nat → MPhysical → Nat → Except MErr MPhysical
  | 0, _, next => .error (.invalidBlock next)
  | fuel + 1, acc, next =>
    if next = 0 then .ok acc
    else do
      let pnr ← acc.physicalNr next
      let sl ← loadRawSlot f pnr
      match sl with
      | .phS st nx es =>
        MPhysical.loadChain f bs fuel
          { acc with
            blocks := acc.blocks ++
              [{ blockNr := next, startNr := st, nextNr := nx,
                 entries := es, dirty := false, gen := 0 }] } nx
      | _ => .error (.badSlotCast pnr)

/-- The duplicate check of `Physical::verify`: `seen` maps each non-zero
physical number to the logical number that claimed it. -/
def physDupCheck : List (Nat × Nat) → List (Nat × Nat) →
    Except MErr (List (Nat × Nat))
  | [], seen => .ok seen
  | (nr, pnr) :: rest, seen =>
    match seen.find? (fun q => q.2 = pnr) with
    | some q => .error (.doubleAssignedPhysicalBlock q.1 nr)
    | none => physDupCheck rest ((nr, pnr) :: seen)

/-- Page walk of `Physical::verify`: chain contiguity plus the duplicate
check. -/
def physVerifyGo (bs : Nat) : List PPage → Nat → List (Nat × Nat) →
    Except MErr Unit
  | [], _, _ => .ok ()
  | pg :: rest, expectStart, seen =>
    if pg.startNr = expectStart then
      match physDupCheck (pg.pairs.filter (fun q => q.2 ≠ 0)) seen with
      | .ok seen2 => physVerifyGo bs rest (pg.endNr bs) seen2
      | .error e => .error e
    else .error (.invalidBlockSequence pg.blockNr pg.startNr)

/-- `Physical::verify`. -/
def MPhysical.verify (p : MPhysical) : Except MErr Unit :=
  physVerifyGo p.bs p.blocks 0 []

/-- `Physical::load`: read the root page (logical nr 2), walk the chain,
rebuild the free list from the file length, verify. -/
def MPhysical.load (f : MFile) (bs pnr : Nat) : Except MErr MPhysical := do
  let sl ← loadRawSlot f pnr
  match sl with
  | .phS st nx es => do
    let p0 : MPhysical :=
      { bs := bs,
        blocks := [{ blockNr := 2, startNr := st, nextNr := nx,
                     entries := es, dirty := false, gen := 0 }],
        max := 0, free := [] }
    let p1 ← MPhysical.loadChain f bs (f.length + 1) p0 nx
    let p2 := p1.initFreeList (f.length * bs)
    match p2.verify with
    | .ok _ => .ok p2
    | .error e => .error e
  | _ => .error (.badSlotCast pnr)

/-- Chain contiguity walk of `Types::verify` (the per-entry `BlockType`
decode of the source cannot fail in the typed model). -/
def typesVerifyGo (bs : Nat) : List TPage → Nat → Except MErr Unit
  | [], _ => .ok ()
  | pg :: rest, expectStart =>
    if pg.startNr = expectStart then typesVerifyGo bs rest (pg.endNr bs)
    else .error (.invalidBlockSequence pg.blockNr pg.startNr)

/-- `Types::verify`. -/
def MTypes.verify (t : MTypes) : Except MErr Unit :=
  typesVerifyGo t.bs t.blocks 0

/-- Chain walk of `Types::load`: `next_nr` is resolved through the already
loaded physical map. -/
def MTypes.loadChain (f : MFile) (bs : Nat) (phys : MPhysical) :
    Nat → MTypes → Nat → Except MErr MTypes
  | 0, _, next => .error (.invalidBlock next)
  | fuel + 1, acc, next =>
    if next = 0 then .ok acc
    else do
      let pnr ← phys.physicalNr next
      let sl ← loadRawSlot f pnr
      match sl with
      | .tyS st nx es =>
        MTypes.loadChain f bs phys fuel
          { acc with
            blocks := acc.blocks ++
              [{ blockNr := next, startNr := st, nextNr := nx,
                 entries := es, dirty := false, gen := 0 }] } nx
      | _ => .error (.badSlotCast pnr)

/-- `Types::load`: root page has logical nr 1; rebuild the free list,
verify. -/
def MTypes.load (f : MFile) (phys : MPhysical) (bs pnr : Nat) :
    Except MErr MTypes := do
  let sl ← loadRawSlot f pnr
  match sl with
  | .tyS st nx es => do
    let t0 : MTypes :=
      { bs := bs,
        blocks := [{ blockNr := 1, startNr := st, nextNr := nx,
                     entries := es, dirty := false, gen := 0 }],
        free := [] }
    let t1 ← MTypes.loadChain f bs phys (f.length + 1) t0 nx
    let t2 := { t1 with free := typesFreeList t1.blocks }
    match t2.verify with
    | .ok _ => .ok t2
    | .error e => .error e
  | _ => .error (.badSlotCast pnr)

/-- One role check of `Alloc::assert_block_type`. -/
def assertOneType (t : MTypes) (nr : Nat) (want : BlockType) :
    Except MErr Unit :=
  match t.blockType nr with
  | .error _ => .error (.noBlockType nr)
  | .ok ty => if ty = want then .ok () else .error (.invalidBlockType nr)

/-- Role checks over a list of block numbers. -/
def assertAllTypes (t : MTypes) (nrs : List Nat) (want : BlockType) :
    Except MErr Unit :=
  match nrs with
  | [] => .ok ()
  | nr :: rest =>
    match assertOneType t nr want with
    | .ok _ => assertAllTypes t rest want
    | .error e => .error e

/-- `Alloc::assert_block_type`: stored block size matches, logical nr 0 is a
`Header`, every type-map page nr is `Types`, every physical-map page nr is
`Physical`. -/
def MAlloc.assertBlockType (s : MAlloc) : Except MErr Unit := do
  if s.header.blockSize ≠ s.bs then
    .error (.invalidBlockSize s.header.blockSize)
  else do
    match assertOneType s.types 0 .header with
    | .error e => .error e
    | .ok _ =>
      match assertAllTypes s.types
          (s.types.blocks.map (fun pg => pg.blockNr)) .types with
      | .error e => .error e
      | .ok _ =>
        assertAllTypes s.types
          (s.physical.blocks.map (fun pg => pg.blockNr)) .physicalT

/-- `Alloc::load`: read the header block, select the active triple, load the
physical map, then the type map, then the streams block (or a default one),
and run the role checks.  The cache starts empty. -/
def MAlloc.load (bs : Nat) (f : MFile) : Except MErr MAlloc := do
  match readSlot f 0 with
  | none => .error (.loadRawMiss 0)
  | some (.hdrS h) => do
    let ppnr := match h.state with | .low => h.lowPhysical | .high => h.highPhysical
    if ppnr = 0 then .error .headerCorrupted
    else do
      let phys ← MPhysical.load f bs ppnr
      let tpnr := match h.state with | .low => h.lowTypes | .high => h.highTypes
      if tpnr = 0 then .error .headerCorrupted
      else do
        let ts ← MTypes.load f phys bs tpnr
        let spnr := match h.state with | .low => h.lowStreams | .high => h.highStreams
        let strm ← if spnr ≠ 0 then do
            let sl ← loadRawSlot f spnr
            match sl with
            | .stS es => .ok ({ entries := es, dirty := false, gen := 0 } : MStreams)
            | _ => .error (.badSlotCast spnr)
          else .ok (MStreams.init bs)
        let s : MAlloc :=
          { bs := bs, file := f, header := h, types := ts, physical := phys,
            streams := strm, user := [], gen := 0 }
        match s.assertBlockType with
        | .ok _ => .ok s
        | .error e => .error e
  | some _ => .error (.badSlotCast 0)

/-- Number of logical numbers covered by the type-map chain. -/
def MAlloc.maxLogical (s : MAlloc) : Nat :=
  s.types.blocks.length * lenTypesG s.bs

/-- The content a reader observes for one logical number: a dirty cached
buffer is pending and will be committed; otherwise the slot named by the
physical map; physical number 0 reads as all zeros. -/
def MAlloc.obsContent (s : MAlloc) (nr : Nat) : List Nat :=
  let fromFile :=
    match s.physical.physicalNr nr with
    | .ok 0 => List.replicate s.bs 0
    | .ok (p + 1) =>
      match readSlot s.file (p + 1) with
      | some (.rawS d) => d
      | _ => []
    | .error _ => []
  match cacheFind s.user nr with
  | some b => if b.dirty then b.data else fromFile
  | none => fromFile

/-- The observable state: for every covered logical number its block type,
and for user-typed numbers the observable content. -/
def MAlloc.obs (s : MAlloc) : List (BlockType × List Nat) :=
  (List.range s.maxLogical).map (fun nr =>
    match s.types.blockType nr with
    | .ok ty => (ty, if ty.isUser then s.obsContent nr else [])
    | .error _ => (.free, []))

/-! ## Concrete executions

A small store (`block_size = 32`, so six map entries per page) exercising
two commits and a crash between the root-triple write and the state flip
(the source's `store_panic` point 7; the same file corruption is already
present at panic point 6, right after the physical-map write pass). -/

/-- First content of the user block. -/
def scenAData : List Nat := List.replicate 32 7

/-- Second content of the user block (written by the interrupted commit). -/
def scenBData : List Nat := List.replicate 32 9

/-- Allocate one user block (logical nr 6, the first number of the second
map page, since the fresh map has exactly two free slots and extends
itself on the first `alloc`), fill it, commit. -/
def scenCommitA : Except MErr MAlloc := do
  let r ← (MAlloc.init 32).allocBlock .user1
  let s := r.2.dirtyWrite r.1 scenAData
  s.store

/-- Rewrite the block's content for the second commit. -/
def scenPreB : Except MErr MAlloc :=
  scenCommitA.map (fun s => s.dirtyWrite 6 scenBData)

/-- The on-disk file of the second commit when it crashes after step 8
(inactive root triple written and synced) and before the step-9 state
flip. -/
def scenCrashFile : Except MErr MFile := do
  let s ← scenPreB
  let s1 ← storeUpTo 7 s
  pure s1.file

/-- Reopening the crashed file. -/
def scenCrashLoad : Except MErr MAlloc := do
  let f ← scenCrashFile
  MAlloc.load 32 f

/-- The claim's "largest used slot index below `file_size / block_size`"
(zero when nothing is used). -/
def largestUsedBelow (used : Nat → Bool) (k : Nat) : Nat :=
  (List.range k).foldl (fun m i => if used i then Nat.max m i else m) 0

/-- A physical map whose `max` is stale: one `pop_free` on the fresh map
(empty free list) bumps `max` to 1 without recording any entry. -/
def stalePhys : MPhysical := ((MPhysical.init 32).popFree).2

/-- `u32::to_ne_bytes` (little endian on the reference target). -/
def u32Bytes (v : Nat) : List Nat :=
  [v % 256, v / 256 % 256, v / 65536 % 256, v / 16777216 % 256]

/-- Read a `u32` back from a byte buffer at an offset (missing bytes read
as zero only off the end, which the in-bounds theorems exclude). -/
def readU32 (data : List Nat) (off : Nat) : Nat :=
  data.getD off 0 + 256 * data.getD (off + 1) 0 +
    65536 * data.getD (off + 2) 0 + 16777216 * data.getD (off + 3) 0

/-- Overwrite a byte slice into a buffer starting at `off`. -/
def writeBytesAt (data : List Nat) (off : Nat) : List Nat → List Nat
  | [] => data
  | b :: rest => writeBytesAt (data.set off b) (off + 1) rest

/-- `block_io::sub_store_raw_0`: seek to `offset` inside block 0 and write
the slice (the `debug_assert!` bound is release-omitted; all callers stay
inside the 24-byte header). -/
def subStoreRaw0 (file : List Nat) (off : Nat) (bytes : List Nat) :
    List Nat :=
  writeBytesAt file off bytes

/-- `HeaderBlock::OFFSET_STATE`. -/
def offsetState : Nat := 0

/-- `HeaderBlock::OFFSET_LOW_TYPES`. -/
def offsetLowTypes : Nat := 8

/-- `HeaderBlock::OFFSET_LOW_PHYSICAL`. -/
def offsetLowPhysical : Nat := 12

/-- `HeaderBlock::OFFSET_HIGH_TYPES`. -/
def offsetHighTypes : Nat := 16

/-- `HeaderBlock::OFFSET_HIGH_PHYSICAL`. -/
def offsetHighPhysical : Nat := 20

/-- The header block's own byte buffer (`HeaderBlock.0.data`). -/
structure HdrBytes where
  data : List Nat
deriving DecidableEq, Repr

/-- `HeaderBlock::high_types` (reads the in-memory view). -/
def HdrBytes.highTypes (hb : HdrBytes) : Nat :=
  readU32 hb.data offsetHighTypes

/-- `HeaderBlock::store_high_types`: one `sub_store_raw` of the four field
bytes into the file, plus the same field write into the in-memory view. -/
def HdrBytes.storeHighTypes (hb : HdrBytes) (file : List Nat) (v : Nat) :
    HdrBytes × List Nat :=
  (⟨writeBytesAt hb.data offsetHighTypes (u32Bytes v)⟩,
    subStoreRaw0 file offsetHighTypes (u32Bytes v))

/-- `HeaderBlock::store_low_types`. -/
def HdrBytes.storeLowTypes (hb : HdrBytes) (file : List Nat) (v : Nat) :
    HdrBytes × List Nat :=
  (⟨writeBytesAt hb.data offsetLowTypes (u32Bytes v)⟩,
    subStoreRaw0 file offsetLowTypes (u32Bytes v))

/-- `HeaderBlock::store_low_physical`. -/
def HdrBytes.storeLowPhysical (hb : HdrBytes) (file : List Nat) (v : Nat) :
    HdrBytes × List Nat :=
  (⟨writeBytesAt hb.data offsetLowPhysical (u32Bytes v)⟩,
    subStoreRaw0 file offsetLowPhysical (u32Bytes v))

/-- `HeaderBlock::store_high_physical`. -/
def HdrBytes.storeHighPhysical (hb : HdrBytes) (file : List Nat) (v : Nat) :
    HdrBytes × List Nat :=
  (⟨writeBytesAt hb.data offsetHighPhysical (u32Bytes v)⟩,
    subStoreRaw0 file offsetHighPhysical (u32Bytes v))

/-- `HeaderBlock::low_types`. -/
def HdrBytes.lowTypes (hb : HdrBytes) : Nat := readU32 hb.data offsetLowTypes

/-- `HeaderBlock::low_physical`. -/
def HdrBytes.lowPhysical (hb : HdrBytes) : Nat :=
  readU32 hb.data offsetLowPhysical

/-- `HeaderBlock::high_physical`. -/
def HdrBytes.highPhysical (hb : HdrBytes) : Nat :=
  readU32 hb.data offsetHighPhysical

/-- A 24-byte zero header buffer. -/
def hdrZero : HdrBytes := ⟨List.replicate 24 0⟩

/-- The descending list of unused slot indices below `k`. -/
def descUnused (used : Nat → Bool) (k : Nat) : List Nat :=
  ((List.range k).filter (fun i => !used i)).reverse

/-- Contiguity of the type-map pages: page `i` covers
`[i * N, (i + 1) * N)` and holds exactly `N` entries. -/
def typesContig (t : MTypes) : Prop :=
  ∀ i pg, t.blocks.get? i = some pg →
    pg.startNr = i * lenTypesG t.bs ∧
    pg.entries.length = lenTypesG t.bs

/-- Invariant for the alloc/free induction. -/
def SInv (s : MAlloc) : Prop :=
  s.types.bs = s.bs ∧ 6 ≤ lenTypesG s.types.bs ∧ typesContig s.types ∧
  (∀ x ∈ s.types.free, x < s.types.blocks.length * lenTypesG s.types.bs) ∧
  s.types.blocks ≠ [] ∧ s.physical.blocks ≠ [] ∧ 2 ≤ s.types.freeLen

/-- The reserved roles claimed by `Types::init`. -/
def roleInv (s : MAlloc) : Prop :=
  s.types.blockType 0 = .ok .header ∧ s.types.blockType 1 = .ok .types ∧
  s.types.blockType 2 = .ok .physicalT ∧ s.types.blockType 3 = .ok .streams

/-- Combined reachability invariant. -/
def GInv (s : MAlloc) : Prop :=
  SInv s ∧ (∀ x ∈ s.types.free, 4 ≤ x) ∧ roleInv s

/-- An allocator call made by client code. -/
inductive AOp where
  | allocB (ty : BlockType)
  | freeB (nr : Nat)

/-- Run one call, keeping the previous state when the call errors. -/
def applyOp (s : MAlloc) : AOp → MAlloc
  | .allocB ty =>
    match s.allocBlock ty with
    | .ok (_, s1) => s1
    | .error _ => s
  | .freeB nr =>
    match s.freeBlock nr with
    | .ok s1 => s1
    | .error _ => s

def applyOps (s : MAlloc) (ops : List AOp) : MAlloc := ops.foldl applyOp s

/-- Client calls that keep their hands off the reserved numbers 0..3. -/
def AOp.legal : AOp → Prop
  | .allocB _ => True
  | .freeB nr => 4 ≤ nr

/-- Contiguity of the physical-map page chain. -/
def physContig (p : MPhysical) : Prop :=
  ∀ i pg, p.blocks.get? i = some pg →
    pg.startNr = i * lenPhysicalG p.bs ∧
    pg.entries.length = lenPhysicalG p.bs

/-- Decidable form of `physContig` for concrete states. -/
def physContigB (p : MPhysical) : Bool :=
  p.blocks.enum.all (fun ipg =>
    decide (ipg.2.startNr = ipg.1 * lenPhysicalG p.bs) &&
    decide (ipg.2.entries.length = lenPhysicalG p.bs))

/-- The physical number recorded for a logical number (0 when the lookup
fails or nothing is assigned). -/
def pnrP (p : MPhysical) (nr : Nat) : Nat :=
  (p.physicalNr nr).toOption.getD 0

/-- Logical numbers covered by the physical map. -/
def coverP (p : MPhysical) : Nat := p.blocks.length * lenPhysicalG p.bs

/-- The serialized identity of a type-map page (everything `Types::store`
writes). -/
def tpCore (pg : TPage) : Nat × Nat × Nat × List BlockType :=
  (pg.blockNr, pg.startNr, pg.nextNr, pg.entries)

/-- The full content of a physical-map page. -/
def ppCore (pg : PPage) : Nat × Nat × Nat × List Nat :=
  (pg.blockNr, pg.startNr, pg.nextNr, pg.entries)

/-- The chain identity of a physical-map page (entries excluded: the
store passes reassign them). -/
def ppShape (pg : PPage) : Nat × Nat × Nat :=
  (pg.blockNr, pg.startNr, pg.nextNr)

/-- The on-disk image of a type-map page. -/
def tySlot (pg : TPage) : Slot := .tyS pg.startNr pg.nextNr pg.entries

/-- The on-disk image of a physical-map page. -/
def phSlot (pg : PPage) : Slot := .phS pg.startNr pg.nextNr pg.entries

/-- A `(blockNr, nextNr)` list forms a chain rooted at `r` and terminated
by next-nr 0. -/
def chainOk : Nat → List (Nat × Nat) → Prop
  | _, [] => False
  | r, [(b, nx)] => b = r ∧ nx = 0
  | r, (b, nx) :: q :: rest => b = r ∧ chainOk nx (q :: rest)

/-- Well-formedness of an allocator state: everything `Alloc::store` needs
to succeed and everything `Alloc::load` finds in the resulting file.  The
file-sync fields say that every *clean* map page is faithfully stored at its
recorded slot — the discipline the commit protocol maintains. -/
structure WF (s : MAlloc) : Prop where
  pbs : s.physical.bs = s.bs
  tbs : s.types.bs = s.bs
  hdrbs : s.header.blockSize = s.bs
  nt6 : 6 ≤ lenTypesG s.bs
  pcontig : physContig s.physical
  tcontig : typesContig s.types
  plen : s.physical.blocks.length = s.types.blocks.length
  tchain : chainOk 1 (s.types.blocks.map (fun pg => (pg.blockNr, pg.nextNr)))
  pchain : chainOk 2
    (s.physical.blocks.map (fun pg => (pg.blockNr, pg.nextNr)))
  tnodup : (s.types.blocks.map (fun pg => pg.blockNr)).Nodup
  pnodup : (s.physical.blocks.map (fun pg => pg.blockNr)).Nodup
  trole : ∀ pg ∈ s.types.blocks, s.types.blockType pg.blockNr = .ok .types
  prole : ∀ pg ∈ s.physical.blocks,
    s.types.blockType pg.blockNr = .ok .physicalT
  hrole : s.types.blockType 0 = .ok .header
  srole : s.types.blockType 3 = .ok .streams
  tcovP : ∀ pg ∈ s.types.blocks, pg.blockNr < coverP s.physical
  pcovP : ∀ i pg, s.physical.blocks.get? i = some pg →
    pg.blockNr < (Nat.max i 1) * lenPhysicalG s.bs
  zfree : 0 ∉ s.physical.free
  fnodup : s.physical.free.Nodup
  fmax : ∀ v ∈ s.physical.free, v ≤ s.physical.max
  emax : ∀ nr, nr < coverP s.physical → pnrP s.physical nr ≤ s.physical.max
  einj : ∀ a b, a < coverP s.physical → b < coverP s.physical →
    pnrP s.physical a ≠ 0 → pnrP s.physical a = pnrP s.physical b → a = b
  efree : ∀ nr, nr < coverP s.physical → pnrP s.physical nr ∉ s.physical.free
  elen : ∀ nr, nr < coverP s.physical → pnrP s.physical nr ≠ 0 →
    pnrP s.physical nr < s.file.length
  lenmax : s.file.length ≤ s.physical.max + 1
  hdr : readSlot s.file 0 = some (.hdrS s.header) ∨
    (s.file = [] ∧ s.header = MHeader.init s.bs)
  tsync : ∀ pg ∈ s.types.blocks, pg.dirty = false →
    pnrP s.physical pg.blockNr ≠ 0 ∧
    readSlot s.file (pnrP s.physical pg.blockNr) = some (tySlot pg)
  psync : ∀ pg ∈ s.physical.blocks, pg.dirty = false →
    pnrP s.physical pg.blockNr ≠ 0 ∧
    readSlot s.file (pnrP s.physical pg.blockNr) = some (phSlot pg)
  ssync : s.streams.dirty = false → pnrP s.physical 3 ≠ 0 →
    ∃ es, readSlot s.file (pnrP s.physical 3) = some (.stS es)
  cnodup : (s.user.map Prod.fst).Nodup
  ccov : ∀ kv ∈ s.user, kv.1 < coverP s.physical
  cuser : ∀ kv ∈ s.user, ∃ ty, s.types.blockType kv.1 = .ok ty ∧
    ty.isUser = true

/-- The bookkeeping regime the store passes maintain on the physical map
and the file. -/
structure PF (cover : Nat) (p : MPhysical) (f : MFile) : Prop where
  contig : physContig p
  cov : cover = p.blocks.length * lenPhysicalG p.bs
  z : 0 ∉ p.free
  nd : p.free.Nodup
  fm : ∀ v ∈ p.free, v ≤ p.max
  em : ∀ m, m < cover → pnrP p m ≤ p.max
  ef : ∀ m, m < cover → pnrP p m ∉ p.free
  inj : ∀ a b, a < cover → b < cover → pnrP p a ≠ 0 →
    pnrP p a = pnrP p b → a = b
  lm : f.length ≤ p.max + 1
  f0 : 0 < f.length

/-- The root triple named by the header's state field. -/
def activeTriple (h : MHeader) : Nat × Nat × Nat :=
  match h.state with
  | .low => (h.lowTypes, h.lowPhysical, h.lowStreams)
  | .high => (h.highTypes, h.highPhysical, h.highStreams)

/-- What a successful `Alloc::store` guarantees, relating the input state
`x` to the result `y`; everything `Alloc::load` needs to rebuild `x`'s
observable state from `y.file`. -/
structure StoreRel (x y : MAlloc) : Prop where
  bs : y.bs = x.bs
  tcore : y.types.blocks.map tpCore = x.types.blocks.map tpCore
  tfree : y.types.free = x.types.free
  tbs : y.types.bs = x.types.bs
  tclean : ∀ pg ∈ y.types.blocks, pg.dirty = false
  pshape : y.physical.blocks.map ppShape = x.physical.blocks.map ppShape
  pbs : y.physical.bs = x.physical.bs
  pclean : ∀ pg ∈ y.physical.blocks, pg.dirty = false
  pcontig : physContig y.physical
  zfree : 0 ∉ y.physical.free
  fnodup : y.physical.free.Nodup
  fmax : ∀ v ∈ y.physical.free, v ≤ y.physical.max
  emax : ∀ m, m < coverP y.physical → pnrP y.physical m ≤ y.physical.max
  einj : ∀ a b, a < coverP y.physical → b < coverP y.physical →
    pnrP y.physical a ≠ 0 → pnrP y.physical a = pnrP y.physical b → a = b
  efree : ∀ m, m < coverP y.physical → pnrP y.physical m ∉ y.physical.free
  elen : ∀ m, m < coverP y.physical → pnrP y.physical m ≠ 0 →
    pnrP y.physical m < y.file.length
  lenmax : y.file.length ≤ y.physical.max + 1
  flen : x.file.length ≤ y.file.length
  yf0 : 0 < y.file.length
  hdr0 : readSlot y.file 0 = some (.hdrS y.header)
  hdrbs : y.header.blockSize = x.bs
  active : activeTriple y.header =
    (pnrP y.physical 1, pnrP y.physical 2, pnrP y.physical 3)
  tmap : ∀ pg ∈ y.types.blocks, pnrP y.physical pg.blockNr ≠ 0 ∧
    readSlot y.file (pnrP y.physical pg.blockNr) = some (tySlot pg)
  pmap : ∀ pg ∈ y.physical.blocks, pnrP y.physical pg.blockNr ≠ 0 ∧
    readSlot y.file (pnrP y.physical pg.blockNr) = some (phSlot pg)
  ssync : pnrP y.physical 3 ≠ 0 →
    ∃ es, readSlot y.file (pnrP y.physical 3) = some (.stS es)
  sclean : y.streams.dirty = false
  udirty : ∀ kv ∈ x.user, kv.2.dirty = true →
    pnrP y.physical kv.1 ≠ 0 ∧
    readSlot y.file (pnrP y.physical kv.1) = some (.rawS kv.2.data)
  untouched : ∀ nr, nr < coverP x.physical →
    (∀ kv ∈ x.user, kv.1 = nr → kv.2.dirty = false) → nr ≠ 3 →
    (∀ pg ∈ x.types.blocks, pg.blockNr ≠ nr) →
    (∀ pg ∈ x.physical.blocks, pg.blockNr ≠ nr) →
    pnrP y.physical nr = pnrP x.physical nr ∧
    (pnrP x.physical nr ≠ 0 →
      readSlot y.file (pnrP x.physical nr) =
        readSlot x.file (pnrP x.physical nr))
  ukeys : (y.user.map Prod.fst).Nodup
  ukeysub : (y.user.map Prod.fst).Sublist (x.user.map Prod.fst)
  umem : ∀ kv ∈ y.user, ∃ b, (kv.1, b) ∈ x.user ∧ kv.2.ty = b.ty ∧
    kv.2.dirty = false

/-- The in-memory form of a freshly loaded physical-map page. -/
def loadedP (pg : PPage) : PPage :=
  { blockNr := pg.blockNr, startNr := pg.startNr, nextNr := pg.nextNr,
    entries := pg.entries, dirty := false, gen := 0 }

/-- The in-memory form of a freshly loaded type-map page. -/
def loadedT (pg : TPage) : TPage :=
  { blockNr := pg.blockNr, startNr := pg.startNr, nextNr := pg.nextNr,
    entries := pg.entries, dirty := false, gen := 0 }

/-- The types free list is typed `Free` and covered; what `alloc` needs on
top of `WF`. -/
def FreeOK (s : MAlloc) : Prop :=
  (∀ nr ∈ s.types.free, s.types.blockType nr = .ok .free) ∧
  (∀ nr ∈ s.types.free, nr < coverP s.physical) ∧
  s.types.free.Nodup

/-- A public allocator call made by client code between commits. -/
inductive POp where
  | allocB (ty : BlockType)
  | freeB (nr : Nat)
  | writeB (nr : Nat) (data : List Nat)
  | storeB

/-- Run one call, keeping the previous state when the call errors. -/
def applyPOp (s : MAlloc) : POp → MAlloc
  | .allocB ty =>
    match s.allocBlock ty with
    | .ok (_, s1) => s1
    | .error _ => s
  | .freeB nr =>
    match s.freeBlock nr with
    | .ok s1 => s1
    | .error _ => s
  | .writeB nr d => s.dirtyWrite nr d
  | .storeB =>
    match s.store with
    | .ok s1 => s1
    | .error _ => s

def applyPOps (s : MAlloc) (ops : List POp) : MAlloc := ops.foldl applyPOp s

/-- Legality of one call in a state: `alloc_block` is called with a user
block type and `free_block` only on a block currently of user type (the
contract of the public typed API). -/
def POp.okIn (s : MAlloc) : POp → Prop
  | .allocB ty => ty.isUser = true
  | .freeB nr => ∃ t, s.types.blockType nr = .ok t ∧ t.isUser = true
  | .writeB _ _ => True
  | .storeB => True

/-- Stepwise legality of a call sequence. -/
def POps.okFrom (s : MAlloc) : List POp → Prop
  | [] => True
  | op :: rest => op.okIn s ∧ POps.okFrom (applyPOp s op) rest

/-- `Physical::pop_free` with the `u32` increment `self.max += 1` made
explicit: in release Rust the add wraps at `u32::MAX`.  Below the wrap this
coincides with `MPhysical.popFree` (`popFreeU32_eq_popFree`). -/
def MPhysical.popFreeU32 (p : MPhysical) : Nat × MPhysical :=
  match p.free.getLast? with
  | some nr => (nr, { p with free := p.free.dropLast })
  | none => ((p.max + 1) % 4294967296,
      { p with max := (p.max + 1) % 4294967296 })

/-- A physical map whose high-water mark sits at `u32::MAX`: the fresh map
after `2 ^ 32 - 1` fallback pops. -/
def wrapPhys : MPhysical := { MPhysical.init 32 with max := 4294967295 }

/-- The type-map slots on file are well-formed: entry arrays of the page
size, and the page starting at logical 0 carries `Streams` at entry 3. -/
def tyFileOK (bs : Nat) (f : MFile) : Prop :=
  ∀ pnr st nx es, readSlot f pnr = some (.tyS st nx es) →
    es.length = lenTypesG bs ∧
    (st = 0 → es.get? 3 = some BlockType.streams)

/-- The reachability invariant of the fixed-role claim: a self-consistent
type map whose free list avoids the reserved numbers, the four roles in
place, and well-formed type-map slots on file. -/
def RInv (s : MAlloc) : Prop :=
  s.types.bs = s.bs ∧ 4 ≤ lenTypesG s.bs ∧ typesContig s.types ∧
  s.types.blocks ≠ [] ∧ (∀ m ∈ s.types.free, 4 ≤ m) ∧ roleInv s ∧
  tyFileOK s.bs s.file

/-- A public call on the allocator, as exercised by client code: allocate,
free, read (`get`), write (`get_mut` plus a buffer write), discard, stream
head read/write, commit (`store`) and reopen (`load` of the current file). -/
inductive PubOp where
  | allocB (ty : BlockType)
  | freeB (nr : Nat)
  | getB (nr : Nat)
  | writeB (nr : Nat) (data : List Nat)
  | discardB (nr : Nat)
  | streamReadB (ty : BlockType)
  | streamWriteB (ty : BlockType) (idx : Nat)
  | storeB
  | loadB

/-- Run one public call, keeping the previous state when the call errors
(`head_idx` takes `&self` and cannot change the state). -/
def applyPubOp (s : MAlloc) : PubOp → MAlloc
  | .allocB ty =>
    match s.allocBlock ty with
    | .ok (_, s1) => s1
    | .error _ => s
  | .freeB nr =>
    match s.freeBlock nr with
    | .ok s1 => s1
    | .error _ => s
  | .getB nr =>
    match s.blockGet nr with
    | .ok (_, s1) => s1
    | .error _ => s
  | .writeB nr data =>
    match s.blockGet nr with
    | .ok (_, s1) => s1.dirtyWrite nr data
    | .error _ => s
  | .discardB nr => s.discardBlock nr
  | .streamReadB _ => s
  | .streamWriteB ty idx =>
    match s.streams.setHeadIdx ty idx with
    | .ok st => { s with streams := st }
    | .error _ => s
  | .storeB =>
    match s.store with
    | .ok s1 => s1
    | .error _ => s
  | .loadB =>
    match MAlloc.load s.bs s.file with
    | .ok s1 => s1
    | .error _ => s

def applyPubOps (s : MAlloc) (ops : List PubOp) : MAlloc :=
  ops.foldl applyPubOp s

/-- Public calls that keep `free_block` away from the reserved numbers
0..3; every other call is unrestricted. -/
def PubOp.legal : PubOp → Prop
  | .freeB nr => 4 ≤ nr
  | _ => True

/-- C1: the commit protocol is *not* crash safe on this code.  In the second
commit the only dirty physical-map page is page 5 (it holds the entry of
user block 6); the assignment pass gives it a fresh slot, which dirties page
2 (the root physical page, which holds page 5's entry) *after* the
assignment snapshot was taken, so the write pass rewrites page 2 in place at
its old committed slot 4 — the very slot the still-active Low root triple
points at.  Reopening the file after a crash before the state flip therefore
does not yield the state of the previous successful commit: block 6 reads
back the uncommitted content `scenBData` instead of the committed
`scenAData`. -/
theorem store_crash_before_flip_leaks_uncommitted_content :
    scenCommitA.map (fun s => s.obsContent 6) = .ok scenAData ∧
    scenCrashLoad.map (fun s => s.obsContent 6) = .ok scenBData ∧
    scenAData ≠ scenBData := by
  refine ⟨rfl, rfl, by decide⟩

/-- C4: evaluation of the user `get` path on a freshly created store with
the test suite's block size 128.  `get(0)`, `get(1)`, `get(2)` fail with
`AccessDenied` as claimed, but `get(3)` *succeeds*: `TypesBlock::init` types
logical nr 3 as `Streams`, and `Alloc::load_block` only rejects
`Header`/`Types`/`Physical`, so nr 3 takes the default arm, finds physical
number 0 and returns a zeroed cached block — whereas the claim (and the
repository's own `test_illegal`) expect `Err(NotAllocated(3))`. -/
theorem get_on_fresh_store_rejects_0_1_2_but_not_3 :
    (MAlloc.init 128).blockGet 0 = .error (.accessDenied 0) ∧
    (MAlloc.init 128).blockGet 1 = .error (.accessDenied 1) ∧
    (MAlloc.init 128).blockGet 2 = .error (.accessDenied 2) ∧
    ((MAlloc.init 128).blockGet 3).isOk = true := by
  exact ⟨rfl, rfl, rfl, rfl⟩

/-- C5 counterexample: at the minimum block size 24 a type-map page holds
`(24 - 8) / 4 = 4` entries, all four taken by the reserved numbers, so a
fresh store starts with an *empty* free list.  `0 ≤ 2` slots remain, yet
`alloc_block` does not run `append_blockmap` (its guard is `free_len() == 2`,
not `≤ 2`) and fails with `NoFreeBlocks`. -/
theorem alloc_with_at_most_two_free_slots_can_fail :
    (MAlloc.init 24).types.freeLen = 0 ∧
    (MAlloc.init 24).allocBlock .user1 = .error .noFreeBlocks := by
  exact ⟨rfl, rfl⟩

/-- C6 counterexample: in the second commit of the concrete scenario the
assignment pass snapshot holds only page 5, assigning it a slot dirties page
2 after the snapshot, and at the write pass the dirty list is `[2, 5]` while
page 2's looked-up number is still its pre-commit number 4 — no fresh
physical number was assigned to it before the page buffers were written
(the fresh numbers popped in this commit are 6 and 7). -/
theorem write_pass_page_without_fresh_assignment :
    (do let s ← scenPreB; let s4 ← storeUpTo 4 s;
        pure s4.physical.iterDirty) = .ok [5] ∧
    (do let s ← scenPreB; let s5 ← storeUpTo 5 s;
        pure s5.physical.iterDirty) = .ok [2, 5] ∧
    (do let s ← scenPreB; s.physical.physicalNr 2) = .ok 4 ∧
    (do let s ← scenPreB; let s5 ← storeUpTo 5 s;
        s5.physical.physicalNr 2) = .ok 4 := by
  exact ⟨rfl, rfl, rfl, rfl⟩

/-- C7 counterexample: `Alloc::free_block` does not guard the reserved
numbers; `free(1)` on a fresh store is a public operation that retypes the
first type-map page's number to `Free`, breaking
`type_map[1] = Types`. -/
theorem free_of_reserved_nr_clears_its_type :
    (do let s ← (MAlloc.init 32).freeBlock 1
        s.types.blockType 1) = .ok .free ∧
    (MAlloc.init 32).types.blockType 1 = .ok .types ∧
    BlockType.free ≠ BlockType.types := by
  exact ⟨rfl, rfl, by decide⟩

/-- C8 counterexample: `Physical::init_free_list` never resets `self.max`,
it only raises it.  On `stalePhys` with a one-block file the only used slot
below `32 / 32 = 1` is slot 0, so the claimed value of `max_pnr` is 0, but
the code keeps the stale 1. -/
theorem init_free_list_keeps_stale_max :
    stalePhys.max = 1 ∧
    (stalePhys.initFreeList 32).free = [] ∧
    (stalePhys.initFreeList 32).max = 1 ∧
    largestUsedBelow stalePhys.used (32 / 32) = 0 ∧
    (stalePhys.initFreeList 32).max ≠
      largestUsedBelow stalePhys.used (32 / 32) := by
  exact ⟨rfl, rfl, rfl, rfl, by decide⟩

/-! ## The physical free list and `pop_free` -/

/-- Membership in the free vector built by the countdown loop of
`Physical::init_free_list`. -/
theorem mem_physFreeLoop (used : Nat → Bool) (k : Nat) :
    ∀ (acc : List Nat) (mx x : Nat),
      (x ∈ (physFreeLoop used k acc mx).1 ↔
        x ∈ acc ∨ (x < k ∧ used x = false)) := by
  induction k with
  | zero => intro acc mx x; simp [physFreeLoop]
  | succ k ih =>
    intro acc mx x
    by_cases h : used k
    · rw [physFreeLoop, if_pos h, ih]
      constructor
      · rintro (hx | ⟨hk, hu⟩)
        · exact Or.inl hx
        · exact Or.inr ⟨Nat.lt_succ_of_lt hk, hu⟩
      · rintro (hx | ⟨hk, hu⟩)
        · exact Or.inl hx
        · refine Or.inr ⟨?_, hu⟩
          rcases Nat.lt_succ_iff_lt_or_eq.mp hk with h' | h'
          · exact h'
          · exact absurd (h' ▸ h) (by simp [hu])
    · rw [physFreeLoop, if_neg h, ih]
      simp only [List.mem_append, List.mem_singleton]
      constructor
      · rintro ((hx | rfl) | ⟨hk, hu⟩)
        · exact Or.inl hx
        · exact Or.inr ⟨Nat.lt_succ_self _, by simpa using h⟩
        · exact Or.inr ⟨Nat.lt_succ_of_lt hk, hu⟩
      · rintro (hx | ⟨hk, hu⟩)
        · exact Or.inl (Or.inl hx)
        · rcases Nat.lt_succ_iff_lt_or_eq.mp hk with h' | h'
          · exact Or.inr ⟨h', hu⟩
          · exact Or.inl (Or.inr h')

/-- C9: `Physical::pop_free` cannot produce the header's slot 0.  The
rebuilt free list never contains slot 0 (the rebuild always marks slot 0
used, as the map has at least one page), and on an empty free list
`pop_free` returns `max + 1 ≥ 1`.  (The `u32` wrap of `max += 1`, which
would need `2^32` physical blocks, is outside the model.) -/
theorem pop_free_never_returns_zero (p : MPhysical) (fs : Nat)
    (hblocks : p.blocks ≠ []) (hfree : 0 ∉ p.free) :
    0 ∉ (p.initFreeList fs).free ∧ (p.popFree).1 ≠ 0 := by
  constructor
  · intro hmem
    rw [MPhysical.initFreeList] at hmem
    rcases (mem_physFreeLoop _ _ _ _ _).mp hmem with h | ⟨_, hu⟩
    · exact absurd h (List.not_mem_nil 0)
    · rw [MPhysical.used] at hu
      simp [List.isEmpty_iff, hblocks] at hu
  · rw [MPhysical.popFree]
    cases hl : p.free.getLast? with
    | none => simp
    | some nr =>
      simp only
      intro h0
      have hnr : nr ∈ p.free := by
        rcases List.mem_getLast?_eq_getLast (Option.mem_def.mpr hl) with ⟨hne, heq⟩
        exact heq ▸ List.getLast_mem hne
      exact hfree (h0 ▸ hnr)

/-- Closed instance for `pop_free_never_returns_zero`: the fresh physical
map of a 32-byte-block store with a three-block file. -/
theorem pop_free_never_returns_zero_witness :
    0 ∉ ((MPhysical.init 32).initFreeList 96).free ∧
    ((MPhysical.init 32).popFree).1 ≠ 0 := by
  exact pop_free_never_returns_zero (MPhysical.init 32) 96
    (by decide) (by decide)

/-! ## `retain_blocks` -/

/-- C10: `Alloc::retain_blocks` never consults the caller's predicate for
the internal block types: cached `Header`/`Types`/`Physical`/`Streams`
blocks are always kept, cached blocks of the zero type (`Free`, the
collapsed `NotAllocated`) are always dropped, and for user-typed blocks
membership after the call is exactly the predicate's verdict. -/
theorem retain_blocks_overrides_predicate (s : MAlloc)
    (f : Nat → MBlock → Bool) (nr : Nat) (b : MBlock)
    (hmem : (nr, b) ∈ s.user) :
    ((b.ty = .header ∨ b.ty = .types ∨ b.ty = .physicalT ∨ b.ty = .streams) →
      (nr, b) ∈ (s.retainBlocks f).user) ∧
    (b.ty = .free → (nr, b) ∉ (s.retainBlocks f).user) ∧
    (b.ty.isUser = true →
      ((nr, b) ∈ (s.retainBlocks f).user ↔ f nr b = true)) := by
  refine ⟨?_, ?_, ?_⟩
  · rintro (h | h | h | h) <;>
      simp [MAlloc.retainBlocks, List.mem_filter, hmem, h]
  · intro h
    simp [MAlloc.retainBlocks, List.mem_filter, h]
  · intro h
    cases hb : b.ty <;> rw [hb] at h <;>
      first
        | exact absurd h (by decide)
        | simp [MAlloc.retainBlocks, List.mem_filter, hmem, hb]

/-- Closed instance for `retain_blocks_overrides_predicate`: a cached
`User1` block is dropped by an always-false predicate. -/
theorem retain_blocks_overrides_predicate_witness :
    (4, MBlock.new 4 32 .user1) ∉
      (({ MAlloc.init 32 with
            user := [(4, MBlock.new 4 32 .user1)] } : MAlloc).retainBlocks
        (fun _ _ => false)).user := by
  have h := retain_blocks_overrides_predicate
    { MAlloc.init 32 with user := [(4, MBlock.new 4 32 .user1)] }
    (fun _ _ => false) 4 (MBlock.new 4 32 .user1) (by decide)
  intro hmem
  exact absurd ((h.2.2 (by decide)).mp hmem) (by decide)

/-! ## Byte-exact header layout, from `src/src/blockmap/header.rs`

The `BlockMapHeader` of the sources is
`state@0, block_size@4, low_types@8, low_physical@12, high_types@16,
high_physical@20` — two parallel `(types, physical)` *pairs* and no streams
pointers — and the store functions are per-field
(`store_low_types` etc.), each persisting one `u32`. -/

/-- C3 counterexample: the claim places the High root copy at byte offset
20 (as a 12-byte `(types, physical, streams)` triple over 20..31, with the
Low triple over 8..19).  Storing the high types pointer on a zeroed header
writes its four bytes at offsets 16..19 — *inside* the claimed Low region —
and leaves bytes 20..23 untouched: the layout is two 8-byte pairs at
offsets 8 and 16, with no streams member. -/
theorem store_high_types_writes_offset_16_not_20 :
    offsetHighTypes = 16 ∧
    ((hdrZero.storeHighTypes (List.replicate 24 0) 7).2.getD 16 0 = 7 ∧
      (hdrZero.storeHighTypes (List.replicate 24 0) 7).2.getD 20 0 = 0) ∧
    (hdrZero.storeHighTypes (List.replicate 24 0) 7).1.highTypes = 7 ∧
    offsetHighTypes ≠ 20 := by
  exact ⟨rfl, ⟨rfl, rfl⟩, rfl, by decide⟩

/-- `getD` through a `set` at a different index. -/
theorem getD_set_ne (d : List Nat) (j a i : Nat) (h : ¬ j = i) :
    (d.set j a).getD i 0 = d.getD i 0 := by
  simp [List.getD_eq_getElem?_getD, List.getElem?_set, h]

/-- `getD` of an in-bounds `set` at its own index. -/
theorem getD_set_self (d : List Nat) (j a : Nat) (h : j < d.length) :
    (d.set j a).getD j 0 = a := by
  simp [List.getD_eq_getElem?_getD, List.getElem?_set, h]

/-- Byte reads through a four-byte `writeBytesAt`. -/
theorem writeBytes4_getD (d : List Nat) (off b0 b1 b2 b3 i : Nat)
    (hlen : off + 4 ≤ d.length) :
    (writeBytesAt d off [b0, b1, b2, b3]).getD i 0 =
      if i = off then b0 else if i = off + 1 then b1
      else if i = off + 2 then b2 else if i = off + 3 then b3
      else d.getD i 0 := by
  show ((((d.set off b0).set (off + 1) b1).set (off + 2) b2).set
      (off + 3) b3).getD i 0 = _
  by_cases h0 : i = off
  · subst h0
    rw [getD_set_ne _ _ _ _ (by omega), getD_set_ne _ _ _ _ (by omega),
      getD_set_ne _ _ _ _ (by omega), getD_set_self _ _ _ (by omega)]
    simp
  · by_cases h1 : i = off + 1
    · subst h1
      rw [getD_set_ne _ _ _ _ (by omega), getD_set_ne _ _ _ _ (by omega),
        getD_set_self _ _ _ (by simp; omega)]
      simp
    · by_cases h2 : i = off + 2
      · subst h2
        rw [getD_set_ne _ _ _ _ (by omega),
          getD_set_self _ _ _ (by simp; omega)]
        simp
      · by_cases h3 : i = off + 3
        · subst h3
          rw [getD_set_self _ _ _ (by simp; omega)]
          simp
        · rw [getD_set_ne _ _ _ _ (by omega), getD_set_ne _ _ _ _ (by omega),
            getD_set_ne _ _ _ _ (by omega), getD_set_ne _ _ _ _ (by omega)]
          simp [h0, h1, h2, h3]

/-- A four-byte field store reads back as the stored value. -/
theorem readU32_subStoreRaw0 (file : List Nat) (off v : Nat)
    (hv : v < 4294967296) (hlen : off + 4 ≤ file.length) :
    readU32 (subStoreRaw0 file off (u32Bytes v)) off = v := by
  rw [subStoreRaw0, u32Bytes, readU32,
    writeBytes4_getD _ _ _ _ _ _ _ hlen, writeBytes4_getD _ _ _ _ _ _ _ hlen,
    writeBytes4_getD _ _ _ _ _ _ _ hlen, writeBytes4_getD _ _ _ _ _ _ _ hlen]
  have h10 : ¬ (off + 1 = off) := by omega
  have h20 : ¬ (off + 2 = off) := by omega
  have h21 : ¬ (off + 2 = off + 1) := by omega
  have h30 : ¬ (off + 3 = off) := by omega
  have h31 : ¬ (off + 3 = off + 1) := by omega
  have h32 : ¬ (off + 3 = off + 2) := by omega
  simp only [if_neg h10, if_neg h20, if_neg h21, if_neg h30, if_neg h31,
    if_neg h32, eq_self_iff_true, ite_true]
  omega

/-- A four-byte field store touches nothing outside its four bytes. -/
theorem subStoreRaw0_outside (file : List Nat) (off v i : Nat)
    (hlen : off + 4 ≤ file.length) (hi : i < off ∨ off + 4 ≤ i) :
    (subStoreRaw0 file off (u32Bytes v)).getD i 0 = file.getD i 0 := by
  rw [subStoreRaw0, u32Bytes, writeBytes4_getD _ _ _ _ _ _ _ hlen,
    if_neg (by omega), if_neg (by omega), if_neg (by omega),
    if_neg (by omega)]

/-- C3 amended: the header stores two parallel `(types_pnr, physical_pnr)`
*pairs* — the Low copy at byte offsets 8 and 12, the High copy at 16 and 20,
with no streams pointer — and the per-field store functions
(`store_low_types`, `store_low_physical`, `store_high_types`,
`store_high_physical`) each update the in-memory view and persist exactly
the 4 bytes of the chosen field at its fixed offset. -/
theorem header_field_stores_are_exact (file : List Nat) (hb : HdrBytes)
    (v : Nat) (hv : v < 4294967296) (hlen : 24 ≤ file.length)
    (hhb : 24 ≤ hb.data.length) :
    (offsetLowTypes = 8 ∧ offsetLowPhysical = 12 ∧
      offsetHighTypes = 16 ∧ offsetHighPhysical = 20) ∧
    (readU32 (hb.storeLowTypes file v).2 offsetLowTypes = v ∧
      (hb.storeLowTypes file v).1.lowTypes = v ∧
      ∀ i, i < 8 ∨ 12 ≤ i →
        (hb.storeLowTypes file v).2.getD i 0 = file.getD i 0) ∧
    (readU32 (hb.storeLowPhysical file v).2 offsetLowPhysical = v ∧
      (hb.storeLowPhysical file v).1.lowPhysical = v ∧
      ∀ i, i < 12 ∨ 16 ≤ i →
        (hb.storeLowPhysical file v).2.getD i 0 = file.getD i 0) ∧
    (readU32 (hb.storeHighTypes file v).2 offsetHighTypes = v ∧
      (hb.storeHighTypes file v).1.highTypes = v ∧
      ∀ i, i < 16 ∨ 20 ≤ i →
        (hb.storeHighTypes file v).2.getD i 0 = file.getD i 0) ∧
    (readU32 (hb.storeHighPhysical file v).2 offsetHighPhysical = v ∧
      (hb.storeHighPhysical file v).1.highPhysical = v ∧
      ∀ i, i < 20 ∨ 24 ≤ i →
        (hb.storeHighPhysical file v).2.getD i 0 = file.getD i 0) := by
  refine ⟨⟨rfl, rfl, rfl, rfl⟩, ⟨?_, ?_, ?_⟩, ⟨?_, ?_, ?_⟩, ⟨?_, ?_, ?_⟩,
    ⟨?_, ?_, ?_⟩⟩
  · exact readU32_subStoreRaw0 file offsetLowTypes v hv (by rw [offsetLowTypes]; omega)
  · exact readU32_subStoreRaw0 hb.data offsetLowTypes v hv (by rw [offsetLowTypes]; omega)
  · exact fun i hi => subStoreRaw0_outside file offsetLowTypes v i
      (by rw [offsetLowTypes]; omega) (by rw [offsetLowTypes]; omega)
  · exact readU32_subStoreRaw0 file offsetLowPhysical v hv (by rw [offsetLowPhysical]; omega)
  · exact readU32_subStoreRaw0 hb.data offsetLowPhysical v hv (by rw [offsetLowPhysical]; omega)
  · exact fun i hi => subStoreRaw0_outside file offsetLowPhysical v i
      (by rw [offsetLowPhysical]; omega) (by rw [offsetLowPhysical]; omega)
  · exact readU32_subStoreRaw0 file offsetHighTypes v hv (by rw [offsetHighTypes]; omega)
  · exact readU32_subStoreRaw0 hb.data offsetHighTypes v hv (by rw [offsetHighTypes]; omega)
  · exact fun i hi => subStoreRaw0_outside file offsetHighTypes v i
      (by rw [offsetHighTypes]; omega) (by rw [offsetHighTypes]; omega)
  · exact readU32_subStoreRaw0 file offsetHighPhysical v hv (by rw [offsetHighPhysical]; omega)
  · exact readU32_subStoreRaw0 hb.data offsetHighPhysical v hv (by rw [offsetHighPhysical]; omega)
  · exact fun i hi => subStoreRaw0_outside file offsetHighPhysical v i
      (by rw [offsetHighPhysical]; omega) (by rw [offsetHighPhysical]; omega)

/-- Closed instance for `header_field_stores_are_exact` at a zeroed 24-byte
header and `v = 7`. -/
theorem header_field_stores_are_exact_witness :
    readU32 (hdrZero.storeHighTypes (List.replicate 24 0) 7).2
      offsetHighTypes = 7 ∧
    (hdrZero.storeHighTypes (List.replicate 24 0) 7).2.getD 20 0 =
      (List.replicate 24 0).getD 20 0 := by
  have h := header_field_stores_are_exact (List.replicate 24 0) hdrZero 7
    (by decide) (by decide) (by decide)
  exact ⟨h.2.2.2.1.1, h.2.2.2.1.2.2 20 (by decide)⟩

/-- Associate-rotate for `Nat.max`. -/
theorem natMax_rot (a b c : Nat) : (a.max b).max c = a.max (c.max b) := by
  apply Nat.le_antisymm
  · exact Nat.max_le.mpr ⟨Nat.max_le.mpr ⟨Nat.le_max_left _ _,
      Nat.le_trans (Nat.le_max_right c b) (Nat.le_max_right _ _)⟩,
      Nat.le_trans (Nat.le_max_left c b) (Nat.le_max_right _ _)⟩
  · exact Nat.max_le.mpr ⟨Nat.le_trans (Nat.le_max_left a b)
      (Nat.le_max_left _ _),
      Nat.max_le.mpr ⟨Nat.le_max_right _ _,
        Nat.le_trans (Nat.le_max_right a b) (Nat.le_max_left _ _)⟩⟩

/-- Full characterization of the countdown loop of
`Physical::init_free_list`: it appends the unused indices below `k` in
descending order and raises `max` to the largest used index (never lowering
it). -/
theorem physFreeLoop_spec (used : Nat → Bool) (k : Nat) :
    ∀ (acc : List Nat) (mx : Nat),
      physFreeLoop used k acc mx =
        (acc ++ descUnused used k, Nat.max mx (largestUsedBelow used k)) := by
  induction k with
  | zero =>
    intro acc mx
    simp [physFreeLoop, descUnused, largestUsedBelow]
  | succ k ih =>
    intro acc mx
    have hdesc : descUnused used (k + 1) =
        (if used k then ([] : List Nat) else [k]) ++ descUnused used k := by
      rw [descUnused, descUnused, List.range_succ, List.filter_append,
        List.reverse_append]
      cases h : used k <;> simp [h]
    have hlub : largestUsedBelow used (k + 1) =
        if used k then Nat.max (largestUsedBelow used k) k
        else largestUsedBelow used k := by
      rw [largestUsedBelow, largestUsedBelow, List.range_succ,
        List.foldl_append]
      cases h : used k <;> simp [h]
    cases h : used k with
    | true =>
      simp only [h, if_true] at hdesc hlub
      rw [physFreeLoop, if_pos h, ih, hdesc, hlub]
      refine Prod.ext (by simp) ?_
      simp only
      exact natMax_rot mx k (largestUsedBelow used k)
    | false =>
      simp only [h, Bool.false_eq_true, if_false] at hdesc hlub
      rw [physFreeLoop, if_neg (by simp [h]), ih, hdesc, hlub]
      refine Prod.ext (by simp) rfl

/-- C8 amended: after `init_free_list(file_size)` the free list is exactly
the descending list of the slot indices below `file_size / block_size` that
appear in no physical-map entry (slot 0 always counted used), and `max_pnr`
becomes the *maximum of its previous value* and the largest used slot index
below the bound (the code never resets `max`; at its call sites the previous
value never exceeds the largest used slot, so the two coincide there).
`pop_free` returns the top of the free vector when it is non-empty and
otherwise increments `max_pnr` and returns it. -/
theorem init_free_list_and_pop_free_spec (p : MPhysical) (fs : Nat) :
    (p.initFreeList fs).free = descUnused p.used (fs / p.bs) ∧
    (p.initFreeList fs).max =
      Nat.max p.max (largestUsedBelow p.used (fs / p.bs)) ∧
    (p.free = [] → p.popFree = (p.max + 1, { p with max := p.max + 1 })) ∧
    (∀ l x, p.free = l ++ [x] → p.popFree = (x, { p with free := l })) := by
  refine ⟨?_, ?_, ?_, ?_⟩
  · rw [MPhysical.initFreeList, physFreeLoop_spec]
    simp
  · rw [MPhysical.initFreeList, physFreeLoop_spec]
  · intro h
    rw [MPhysical.popFree, h]
    rfl
  · intro l x h
    rw [MPhysical.popFree, h, List.getLast?_concat]
    simp [List.dropLast_concat]

/-- Closed instance for `init_free_list_and_pop_free_spec`: the fresh
physical map with a three-block file (slots 1 and 2 unused, slot 0 the
header), and a `pop_free` on its empty free list. -/
theorem init_free_list_and_pop_free_spec_witness :
    ((MPhysical.init 32).initFreeList 96).free =
      descUnused (MPhysical.init 32).used 3 ∧
    (MPhysical.init 32).popFree =
      (1, { MPhysical.init 32 with max := 1 }) := by
  have h := init_free_list_and_pop_free_spec (MPhysical.init 32) 96
  exact ⟨h.1, h.2.2.1 rfl⟩

/-! ## Structure of the type map under the public operations -/

/-- Replacing the last element preserves the length. -/
theorem listModifyLast_length (f : α → α) (l : List α) :
    (listModifyLast f l).length = l.length := by
  induction l with
  | nil => rfl
  | cons a rest ih =>
    cases rest with
    | nil => rfl
    | cons b rest2 => simpa [listModifyLast] using ih

/-- Pointwise view of `listModifyLast`. -/
theorem listModifyLast_get? (f : α → α) (l : List α) (j : Nat) :
    (listModifyLast f l).get? j =
      if j + 1 = l.length then (l.get? j).map f else l.get? j := by
  induction l generalizing j with
  | nil => simp [listModifyLast]
  | cons a rest ih =>
    cases rest with
    | nil =>
      cases j with
      | zero => simp [listModifyLast]
      | succ j' => simp [listModifyLast]
    | cons b rest2 =>
      cases j with
      | zero => simp [listModifyLast]
      | succ j' =>
        have := ih j'
        simpa [listModifyLast] using this

/-- A covered number lands in its page. -/
theorem types_lookup (t : MTypes) (x : Nat) (hc : typesContig t)
    (hN : 0 < lenTypesG t.bs)
    (hx : x < t.blocks.length * lenTypesG t.bs) :
    ∃ pg, t.blocks.get? (x / lenTypesG t.bs) = some pg ∧
      pg.containsNr t.bs x = true ∧
      pg.startNr = (x / lenTypesG t.bs) * lenTypesG t.bs ∧
      pg.entries.length = lenTypesG t.bs ∧
      x - pg.startNr < lenTypesG t.bs := by
  set N := lenTypesG t.bs with hNdef
  have hi : x / N < t.blocks.length := (Nat.div_lt_iff_lt_mul hN).mpr hx
  obtain ⟨pg, hpg⟩ : ∃ pg, t.blocks.get? (x / N) = some pg :=
    ⟨t.blocks.get ⟨x / N, hi⟩, List.get?_eq_get hi⟩
  have hfacts := hc _ _ hpg
  have hle : x / N * N ≤ x := Nat.div_mul_le_self x N
  have hlt : x < x / N * N + N := by
    conv_lhs => rw [← Nat.div_add_mod x N]
    have h2 := Nat.mod_lt x hN
    have h3 : N * (x / N) = x / N * N := Nat.mul_comm _ _
    omega
  refine ⟨pg, hpg, ?_, hfacts.1, hfacts.2, ?_⟩
  · rw [TPage.containsNr, TPage.endNr, hfacts.1]
    simp only [Bool.and_eq_true, decide_eq_true_eq]
    exact ⟨hle, hlt⟩
  · rw [hfacts.1, ← hNdef]
    omega

theorem blockType_eq_of_get (t : MTypes) (nr : Nat) (pg : TPage)
    (h : t.blocks.get? (nr / lenTypesG t.bs) = some pg) :
    t.blockType nr =
      if pg.containsNr t.bs nr then
        match pg.entries.get? (nr - pg.startNr) with
        | some ty => .ok ty
        | none => .error (.invalidBlock nr)
      else .error (.invalidBlock nr) := by
  simp only [MTypes.blockType, h]

theorem setBlockType_eq_of_get (t : MTypes) (nr : Nat) (ty : BlockType)
    (pg : TPage) (h : t.blocks.get? (nr / lenTypesG t.bs) = some pg)
    (hcont : pg.containsNr t.bs nr = true) :
    t.setBlockType nr ty = .ok { t with
      blocks := t.blocks.set (nr / lenTypesG t.bs)
        { pg with
          entries := pg.entries.set (nr - pg.startNr) ty
          dirty := true } } := by
  simp only [MTypes.setBlockType, h, hcont, if_true]

theorem setBlockType_ok (t : MTypes) (x : Nat) (ty : BlockType)
    (hc : typesContig t) (hN : 0 < lenTypesG t.bs)
    (hx : x < t.blocks.length * lenTypesG t.bs) :
    ∃ t', t.setBlockType x ty = .ok t' ∧
      t'.bs = t.bs ∧ t'.free = t.free ∧
      t'.blocks.length = t.blocks.length ∧
      typesContig t' ∧
      (∀ y, y ≠ x → t'.blockType y = t.blockType y) ∧
      t'.blockType x = .ok ty := by
  obtain ⟨pg, hpg, hcont, hstart, hlen, hidx⟩ := types_lookup t x hc hN hx
  have hij : x / lenTypesG t.bs < t.blocks.length :=
    (Nat.div_lt_iff_lt_mul hN).mpr hx
  have hstle : pg.startNr ≤ x := by
    rw [hstart]; exact Nat.div_mul_le_self x _
  set pg' : TPage := { pg with
    entries := pg.entries.set (x - pg.startNr) ty
    dirty := true } with hpgdef
  set t' : MTypes := { t with
    blocks := t.blocks.set (x / lenTypesG t.bs) pg' } with htdef
  have hbs' : t'.bs = t.bs := rfl
  have hget' : ∀ j, t'.blocks.get? j =
      if x / lenTypesG t.bs = j ∧ x / lenTypesG t.bs < t.blocks.length
      then some pg' else t.blocks.get? j := by
    intro j
    rw [htdef]
    simp only [List.get?_eq_getElem?, List.getElem?_set]
    by_cases hj : x / lenTypesG t.bs = j
    · rw [if_pos hj, if_pos hij, if_pos ⟨hj, hij⟩]
    · rw [if_neg hj, if_neg (by tauto)]
  have hcontig' : typesContig t' := by
    intro i pgi hpgi
    rw [hget'] at hpgi
    by_cases hcase : x / lenTypesG t.bs = i ∧ x / lenTypesG t.bs < t.blocks.length
    · rw [if_pos hcase] at hpgi
      cases hpgi
      constructor
      · rw [hpgdef]; simpa [← hcase.1] using hstart
      · rw [hpgdef]; simpa using hlen
    · rw [if_neg hcase] at hpgi
      exact hc i pgi hpgi
  refine ⟨t', setBlockType_eq_of_get t x ty pg hpg hcont, hbs', rfl,
    by rw [htdef]; simp, hcontig', ?_, ?_⟩
  · intro y hy
    by_cases hj : x / lenTypesG t.bs = y / lenTypesG t.bs
    · have hgy : t'.blocks.get? (y / lenTypesG t'.bs) = some pg' := by
        rw [hbs', hget']
        exact if_pos ⟨hj, hij⟩
      rw [blockType_eq_of_get t' y pg' hgy, blockType_eq_of_get t y pg
        (by rw [← hj]; exact hpg)]
      have hcsame : pg'.containsNr t'.bs y = pg.containsNr t.bs y := by
        rw [hbs', hpgdef]
        simp [TPage.containsNr, TPage.endNr]
      rw [hcsame]
      by_cases hcy : pg.containsNr t.bs y = true
      · rw [if_pos hcy, if_pos hcy]
        have hyge : pg.startNr ≤ y := by
          simp only [TPage.containsNr, Bool.and_eq_true, decide_eq_true_eq] at hcy
          exact hcy.1
        have hne2 : ¬ (x - pg.startNr = y - pg.startNr) := by omega
        rw [hpgdef]
        simp only [List.get?_eq_getElem?, List.getElem?_set, if_neg hne2]
      · rw [if_neg hcy, if_neg hcy]
    · have hgy : t'.blocks.get? (y / lenTypesG t'.bs) =
          t.blocks.get? (y / lenTypesG t.bs) := by
        rw [hbs', hget', if_neg (by tauto)]
      simp only [MTypes.blockType, hbs', hgy]
  · have hgx : t'.blocks.get? (x / lenTypesG t'.bs) = some pg' := by
      rw [hbs', hget']
      exact if_pos ⟨rfl, hij⟩
    rw [blockType_eq_of_get t' x pg' hgx]
    have hcont' : pg'.containsNr t'.bs x = true := by
      rw [hbs', hpgdef]
      simpa [TPage.containsNr, TPage.endNr] using hcont
    rw [if_pos hcont']
    have : pg'.entries.get? (x - pg'.startNr) = some ty := by
      rw [hpgdef]
      simp only [List.get?_eq_getElem?, List.getElem?_set]
      simp [hlen, hidx]
    rw [this]

theorem except_bind_ok (a : α) (f : α → Except MErr β) :
    (Except.ok a : Except MErr α) >>= f = f a := rfl

theorem popFree_concat (t : MTypes) (l : List Nat) (x : Nat)
    (h : t.free = l ++ [x]) :
    t.popFree = (some x, { t with free := l }) := by
  rw [MTypes.popFree, h, List.getLast?_concat]
  simp [List.dropLast_concat]

theorem appendBlockmap_facts (t : MTypes) (newNr : Nat)
    (hc : typesContig t) (hne : t.blocks ≠ []) :
    (t.appendBlockmap newNr).bs = t.bs ∧
    (t.appendBlockmap newNr).blocks.length = t.blocks.length + 1 ∧
    typesContig (t.appendBlockmap newNr) ∧
    (t.appendBlockmap newNr).free =
      (List.range' (t.blocks.length * lenTypesG t.bs)
        (lenTypesG t.bs)).reverse ++ t.free ∧
    (∀ y, y < t.blocks.length * lenTypesG t.bs →
      (t.appendBlockmap newNr).blockType y = t.blockType y) := by
  obtain ⟨m, hm⟩ : ∃ m, t.blocks.length = m + 1 := by
    cases hbl : t.blocks with
    | nil => exact absurd hbl hne
    | cons a rest => exact ⟨rest.length, by simp⟩
  have hlast? : t.blocks.getLast? = some (t.blocks.getLast hne) :=
    List.getLast?_eq_getLast_of_ne_nil hne
  have hlastget : t.blocks.get? m = some (t.blocks.getLast hne) := by
    rw [show m = t.blocks.length - 1 by omega, List.get?_eq_getElem?,
      ← List.getLast?_eq_getElem?, hlast?]
  have hlastfacts := hc m _ hlastget
  have hend : (t.blocks.getLast hne).endNr t.bs =
      t.blocks.length * lenTypesG t.bs := by
    rw [TPage.endNr, hlastfacts.1, hm, Nat.succ_mul]
  have happ : t.appendBlockmap newNr =
      { t with
        blocks := listModifyLast
            (fun pg : TPage => { pg with nextNr := newNr, dirty := true }) t.blocks ++
          [{ TPage.new newNr t.bs with
              startNr := (t.blocks.getLast hne).endNr t.bs, dirty := true }]
        free := ((List.range' ((t.blocks.getLast hne).endNr t.bs)
          (lenTypesG t.bs)).reverse) ++ t.free } := by
    simp only [MTypes.appendBlockmap, hlast?]
  rw [happ]
  have hAlen : (listModifyLast
      (fun pg : TPage => { pg with nextNr := newNr, dirty := true })
      t.blocks).length = t.blocks.length := listModifyLast_length _ _
  refine ⟨rfl, by simp [hAlen], ?_, by rw [hend], ?_⟩
  · intro i pgi hpgi
    simp only at hpgi
    by_cases hi : i < t.blocks.length
    · rw [List.get?_append (by rw [hAlen]; exact hi),
        listModifyLast_get?] at hpgi
      by_cases hi1 : i + 1 = t.blocks.length
      · rw [if_pos hi1] at hpgi
        cases hget : t.blocks.get? i with
        | none => rw [hget] at hpgi; simp at hpgi
        | some pgo =>
          rw [hget] at hpgi
          simp only [Option.map_some'] at hpgi
          cases hpgi
          have := hc i pgo hget
          exact ⟨this.1, this.2⟩
      · rw [if_neg hi1] at hpgi
        exact hc i pgi hpgi
    · have hi2 : i = t.blocks.length ∨ t.blocks.length < i := by omega
      rcases hi2 with rfl | hgt
      · rw [List.get?_append_right (by rw [hAlen])] at hpgi
        rw [hAlen] at hpgi
        simp only [Nat.sub_self, List.get?] at hpgi
        cases hpgi
        refine ⟨by simpa using hend, by simp [TPage.new]⟩
      · rw [List.get?_append_right (by rw [hAlen]; omega)] at hpgi
        rw [hAlen] at hpgi
        have : i - t.blocks.length = (i - t.blocks.length - 1) + 1 := by omega
        rw [this] at hpgi
        simp at hpgi
  · intro y hy
    have hN : 0 < lenTypesG t.bs := by
      rcases Nat.eq_zero_or_pos (lenTypesG t.bs) with h0 | h1
      · rw [h0] at hy; omega
      · exact h1
    have hj : y / lenTypesG t.bs < t.blocks.length :=
      (Nat.div_lt_iff_lt_mul hN).mpr hy
    have hgA : (listModifyLast
        (fun pg : TPage => { pg with nextNr := newNr, dirty := true }) t.blocks ++
        [{ TPage.new newNr t.bs with
            startNr := (t.blocks.getLast hne).endNr t.bs,
            dirty := true }]).get? (y / lenTypesG t.bs) =
        (listModifyLast (fun pg : TPage => { pg with nextNr := newNr, dirty := true })
          t.blocks).get? (y / lenTypesG t.bs) :=
      List.get?_append (by rw [hAlen]; exact hj)
    obtain ⟨pgj, hpgj⟩ : ∃ pgj, t.blocks.get? (y / lenTypesG t.bs) = some pgj := by
      rcases hget : t.blocks.get? (y / lenTypesG t.bs) with _ | pgj
      · rw [List.get?_eq_none] at hget; omega
      · exact ⟨pgj, rfl⟩
    by_cases hj1 : y / lenTypesG t.bs + 1 = t.blocks.length
    · have hg' : (listModifyLast
          (fun pg : TPage => { pg with nextNr := newNr, dirty := true })
          t.blocks).get? (y / lenTypesG t.bs) =
          some { pgj with nextNr := newNr, dirty := true } := by
        rw [listModifyLast_get?, if_pos hj1, hpgj, Option.map_some']
      rw [blockType_eq_of_get _ y { pgj with nextNr := newNr, dirty := true }
        (hgA.trans hg'), blockType_eq_of_get t y pgj hpgj]
      rfl
    · have hg' : (listModifyLast
          (fun pg : TPage => { pg with nextNr := newNr, dirty := true })
          t.blocks).get? (y / lenTypesG t.bs) = some pgj := by
        rw [listModifyLast_get?, if_neg hj1, hpgj]
      rw [blockType_eq_of_get _ y pgj (hgA.trans hg'),
        blockType_eq_of_get t y pgj hpgj]

theorem popFree_of_ne_nil (t : MTypes) (h : t.free ≠ []) :
    ∃ x l, t.free = l ++ [x] ∧
      t.popFree = (some x, { t with free := l }) := by
  rcases List.eq_nil_or_concat t.free with h0 | ⟨l, x, hlx⟩
  · exact absurd h0 h
  · rw [List.concat_eq_append] at hlx
    exact ⟨x, l, hlx, popFree_concat t l x hlx⟩

theorem physAppendBlockmap_ok (p : MPhysical) (nextNr : Nat)
    (hne : p.blocks ≠ []) :
    ∃ p1, p.appendBlockmap nextNr = .ok p1 ∧
      p1.blocks.length = p.blocks.length + 1 ∧ p1.blocks ≠ [] ∧
      p1.bs = p.bs := by
  have hlast? : p.blocks.getLast? = some (p.blocks.getLast hne) :=
    List.getLast?_eq_getLast_of_ne_nil hne
  have happ : p.appendBlockmap nextNr = .ok { p with
      blocks := listModifyLast
          (fun pg : PPage => { pg with nextNr := nextNr, dirty := true })
          p.blocks ++
        [{ PPage.new nextNr p.bs with
            startNr := (p.blocks.getLast hne).endNr p.bs
            dirty := true }] } := by
    simp only [MPhysical.appendBlockmap, hlast?]
  refine ⟨_, happ, ?_, ?_, rfl⟩
  · simp [listModifyLast_length]
  · simp

theorem appendBlockmapA_ok (s : MAlloc) (hS : SInv s) :
    ∃ s', s.appendBlockmap = .ok s' ∧
      s'.bs = s.bs ∧ s'.types.bs = s.types.bs ∧
      typesContig s'.types ∧
      s'.types.blocks.length = s.types.blocks.length + 1 ∧
      s'.physical.blocks.length = s.physical.blocks.length + 1 ∧
      s'.physical.blocks ≠ [] ∧
      s'.types.blocks ≠ [] ∧
      s'.user = s.user ∧
      s'.types.freeLen = s.types.freeLen - 2 + lenTypesG s.types.bs ∧
      (∀ x ∈ s'.types.free, x ∈ s.types.free ∨
        s.types.blocks.length * lenTypesG s.types.bs ≤ x) ∧
      (∀ x ∈ s'.types.free,
        x < s'.types.blocks.length * lenTypesG s.types.bs) ∧
      (∃ a b, a ∈ s.types.free ∧
        (b ∈ s.types.free ∨
          s.types.blocks.length * lenTypesG s.types.bs ≤ b) ∧
        (∀ y, y < s.types.blocks.length * lenTypesG s.types.bs →
          y ≠ a → y ≠ b →
          s'.types.blockType y = s.types.blockType y)) := by
  obtain ⟨hbs, hN6, hcontig, hbound, htne, hpne, hflen⟩ := hS
  rw [MTypes.freeLen] at hflen
  have hN : 0 < lenTypesG s.types.bs := by omega
  have hLpos : 0 < s.types.blocks.length := List.length_pos.mpr htne
  have hfne : s.types.free ≠ [] := by
    intro h0
    rw [h0] at hflen
    simp at hflen
  obtain ⟨a, l1, hfeq, hpop1⟩ := popFree_of_ne_nil s.types hfne
  have hamem : a ∈ s.types.free := by rw [hfeq]; simp
  have ht1c : typesContig { s.types with free := l1 } :=
    fun i pg h => hcontig i pg h
  obtain ⟨t2, hset1, ht2bs, ht2free, ht2len, ht2contig, ht2pres, ht2new⟩ :=
    setBlockType_ok { s.types with free := l1 } a .types ht1c hN
      (hbound a hamem)
  have ht2bs' : t2.bs = s.types.bs := ht2bs
  have ht2len' : t2.blocks.length = s.types.blocks.length := ht2len
  have ht2ne : t2.blocks ≠ [] := by
    intro h0
    rw [h0] at ht2len'
    simp at ht2len'
    omega
  obtain ⟨habs, hablen, habcontig, habfree, habpres⟩ :=
    appendBlockmap_facts t2 a ht2contig ht2ne
  have habfree' : (t2.appendBlockmap a).free =
      (List.range' (s.types.blocks.length * lenTypesG s.types.bs)
        (lenTypesG s.types.bs)).reverse ++ l1 := by
    rw [habfree, ht2free, ht2bs', ht2len']
  have hfree3ne : (t2.appendBlockmap a).free ≠ [] := by
    rw [habfree']
    intro h0
    have := congrArg List.length h0
    simp at this
    omega
  obtain ⟨b, l2, hfeq3, hpop2⟩ := popFree_of_ne_nil _ hfree3ne
  have hbmem : b ∈ (t2.appendBlockmap a).free := by rw [hfeq3]; simp
  have hbcase : b ∈ l1 ∨
      (s.types.blocks.length * lenTypesG s.types.bs ≤ b ∧
        b < (s.types.blocks.length + 1) * lenTypesG s.types.bs) := by
    rw [habfree'] at hbmem
    rcases List.mem_append.mp hbmem with hr | hl
    · right
      rw [List.mem_reverse, List.mem_range'_1] at hr
      constructor
      · exact hr.1
      · have := hr.2
        rw [Nat.succ_mul]
        omega
    · exact Or.inl hl
  have hl1sub : ∀ x ∈ l1, x ∈ s.types.free := by
    intro x hx
    rw [hfeq]
    exact List.mem_append.mpr (Or.inl hx)
  have ht4c : typesContig { t2.appendBlockmap a with free := l2 } :=
    fun i pg h => habcontig i pg h
  have ht4bs : ({ t2.appendBlockmap a with free := l2 } : MTypes).bs =
      s.types.bs := by
    show (t2.appendBlockmap a).bs = s.types.bs
    rw [habs, ht2bs']
  have ht4len : ({ t2.appendBlockmap a with free := l2 } : MTypes).blocks.length =
      s.types.blocks.length + 1 := by
    show (t2.appendBlockmap a).blocks.length = _
    rw [hablen, ht2len']
  have hbcov : b < ({ t2.appendBlockmap a with free := l2 } : MTypes).blocks.length *
      lenTypesG ({ t2.appendBlockmap a with free := l2 } : MTypes).bs := by
    rw [ht4bs, ht4len]
    rcases hbcase with hbl | ⟨_, hlt⟩
    · have := hbound b (hl1sub b hbl)
      have h2 : s.types.blocks.length * lenTypesG s.types.bs ≤
          (s.types.blocks.length + 1) * lenTypesG s.types.bs :=
        Nat.mul_le_mul_right _ (by omega)
      omega
    · exact hlt
  obtain ⟨t5, hset2, ht5bs, ht5free, ht5len, ht5contig, ht5pres, ht5new⟩ :=
    setBlockType_ok { t2.appendBlockmap a with free := l2 } b .physicalT
      ht4c (by rw [ht4bs]; exact hN) hbcov
  obtain ⟨p1, hphys, hp1len, hp1ne, hp1bs⟩ :=
    physAppendBlockmap_ok s.physical b hpne
  have hrun : s.appendBlockmap = .ok { s with types := t5, physical := p1 } := by
    simp only [MAlloc.appendBlockmap, hpop1, hset1, except_bind_ok, hpop2,
      hset2, hphys]
  refine ⟨_, hrun, rfl, ?_, ht5contig, ?_, ?_, hp1ne, ?_, rfl, ?_, ?_, ?_,
    ⟨a, b, hamem, ?_, ?_⟩⟩
  · show t5.bs = s.types.bs
    rw [ht5bs, ht4bs]
  · show t5.blocks.length = _
    rw [ht5len, ht4len]
  · show p1.blocks.length = _
    exact hp1len
  · show t5.blocks ≠ []
    intro h0
    rw [h0] at ht5len
    rw [ht4len] at ht5len
    simp at ht5len
  · have hlenfeq3 := congrArg List.length hfeq3
    rw [habfree'] at hlenfeq3
    have hlenfeq := congrArg List.length hfeq
    simp at hlenfeq3 hlenfeq
    have hgoal : t5.freeLen = l2.length := by
      rw [MTypes.freeLen, ht5free]
    rw [hgoal, MTypes.freeLen]
    omega
  · intro x hx
    rw [ht5free] at hx
    have hx3 : x ∈ (t2.appendBlockmap a).free := by
      rw [hfeq3]
      exact List.mem_append.mpr (Or.inl hx)
    rw [habfree'] at hx3
    rcases List.mem_append.mp hx3 with hr | hl
    · right
      rw [List.mem_reverse, List.mem_range'_1] at hr
      exact hr.1
    · exact Or.inl (hl1sub x hl)
  · intro x hx
    rw [ht5free] at hx
    have hx3 : x ∈ (t2.appendBlockmap a).free := by
      rw [hfeq3]
      exact List.mem_append.mpr (Or.inl hx)
    rw [habfree'] at hx3
    have hlen5 : t5.blocks.length = s.types.blocks.length + 1 := by
      rw [ht5len, ht4len]
    have hbs5 : t5.bs = s.types.bs := by rw [ht5bs, ht4bs]
    rcases List.mem_append.mp hx3 with hr | hl
    · rw [List.mem_reverse, List.mem_range'_1] at hr
      show x < t5.blocks.length * lenTypesG s.types.bs
      rw [hlen5, Nat.succ_mul]
      omega
    · have := hbound x (hl1sub x hl)
      show x < t5.blocks.length * lenTypesG s.types.bs
      rw [hlen5, Nat.succ_mul]
      omega
  · rcases hbcase with hbl | ⟨hge, _⟩
    · exact Or.inl (hl1sub b hbl)
    · exact Or.inr hge
  · intro y hy hya hyb
    have h1 : t5.blockType y =
        ({ t2.appendBlockmap a with free := l2 } : MTypes).blockType y :=
      ht5pres y hyb
    have h2 : ({ t2.appendBlockmap a with free := l2 } : MTypes).blockType y =
        (t2.appendBlockmap a).blockType y := rfl
    have h3 : (t2.appendBlockmap a).blockType y = t2.blockType y := by
      apply habpres
      rw [ht2bs', ht2len']
      exact hy
    have h4 : t2.blockType y =
        ({ s.types with free := l1 } : MTypes).blockType y :=
      ht2pres y hya
    have h5 : ({ s.types with free := l1 } : MTypes).blockType y =
        s.types.blockType y := rfl
    rw [h1, h2, h3, h4, h5]

theorem allocBlock_ok (s : MAlloc) (ty : BlockType) (hS : SInv s) :
    ∃ nr s', s.allocBlock ty = .ok (nr, s') ∧ SInv s' ∧ s'.bs = s.bs ∧
      (s.types.freeLen = 2 →
        s'.types.blocks.length = s.types.blocks.length + 1 ∧
        s'.physical.blocks.length = s.physical.blocks.length + 1) ∧
      ((∀ x ∈ s.types.free, 4 ≤ x) →
        (∀ y, y < 4 → s'.types.blockType y = s.types.blockType y) ∧
        (∀ x ∈ s'.types.free, 4 ≤ x)) := by
  obtain ⟨hbs, hN6, hcontig, hbound, htne, hpne, hflen⟩ := hS
  rw [MTypes.freeLen] at hflen
  have hN : 0 < lenTypesG s.types.bs := by omega
  have hLpos : 0 < s.types.blocks.length := List.length_pos.mpr htne
  have hcovge : 4 ≤ s.types.blocks.length * lenTypesG s.types.bs := by
    have : lenTypesG s.types.bs ≤
        s.types.blocks.length * lenTypesG s.types.bs := by
      calc lenTypesG s.types.bs = 1 * lenTypesG s.types.bs := by omega
        _ ≤ s.types.blocks.length * lenTypesG s.types.bs :=
          Nat.mul_le_mul_right _ hLpos
    omega
  by_cases h2 : s.types.freeLen = 2
  · obtain ⟨s1, hrun1, hs1bs, hs1tbs, hs1contig, hs1tlen, hs1plen, hs1pne,
      hs1tne, hs1user, hs1flen, hs1mem, hs1bound, a, b, hamem, hbmem,
      hpres1⟩ := appendBlockmapA_ok s ⟨hbs, hN6, hcontig, hbound, htne,
        hpne, by rw [MTypes.freeLen]; omega⟩
    have hs1fne : s1.types.free ≠ [] := by
      intro h0
      rw [MTypes.freeLen, h0] at hs1flen
      simp at hs1flen
      omega
    obtain ⟨x, l1, hfeq1, hpop1⟩ := popFree_of_ne_nil s1.types hs1fne
    have hxmem : x ∈ s1.types.free := by rw [hfeq1]; simp
    have hxb : x < s1.types.blocks.length * lenTypesG s1.types.bs := by
      rw [hs1tbs]
      exact hs1bound x hxmem
    have ht1c : typesContig { s1.types with free := l1 } :=
      fun i pg h => hs1contig i pg h
    obtain ⟨t2, hset1, ht2bs, ht2free, ht2len, ht2contig, ht2pres, ht2new⟩ :=
      setBlockType_ok { s1.types with free := l1 } x ty ht1c
        (by show 0 < lenTypesG s1.types.bs; rw [hs1tbs]; exact hN) hxb
    have hrun : s.allocBlock ty = .ok (x,
        { s1 with types := t2, user := cacheInsert x (MBlock.new x s1.bs ty) s1.user }) := by
      simp only [MAlloc.allocBlock, if_pos h2, hrun1, except_bind_ok, hpop1,
        hset1]
    refine ⟨x, _, hrun, ⟨?_, ?_, ht2contig, ?_, ?_, hs1pne, ?_⟩, ?_, ?_, ?_⟩
    · show t2.bs = s1.bs
      rw [ht2bs, hs1tbs, hbs, hs1bs]
    · show 6 ≤ lenTypesG t2.bs
      rw [ht2bs]
      show 6 ≤ lenTypesG s1.types.bs
      rw [hs1tbs]; exact hN6
    · intro y hy
      rw [ht2free] at hy
      have hy1 : y ∈ s1.types.free := by
        rw [hfeq1]
        exact List.mem_append.mpr (Or.inl hy)
      have := hs1bound y hy1
      show y < t2.blocks.length * lenTypesG t2.bs
      rw [ht2len, ht2bs]
      show y < s1.types.blocks.length * lenTypesG s1.types.bs
      rw [hs1tbs]
      exact this
    · show t2.blocks ≠ []
      intro h0
      rw [h0] at ht2len
      simp at ht2len
      exact hs1tne (List.length_eq_zero.mp ht2len.symm)
    · show 2 ≤ t2.freeLen
      rw [MTypes.freeLen, ht2free]
      show 2 ≤ l1.length
      have := congrArg List.length hfeq1
      rw [MTypes.freeLen] at hs1flen
      simp at this
      omega
    · exact hs1bs
    · intro _
      constructor
      · show t2.blocks.length = _
        rw [ht2len]
        show s1.types.blocks.length = _
        exact hs1tlen
      · show s1.physical.blocks.length = _
        exact hs1plen
    · intro hfour
      have ha4 : 4 ≤ a := hfour a hamem
      have hb4 : 4 ≤ b := by
        rcases hbmem with hb | hb
        · exact hfour b hb
        · omega
      have hx4 : 4 ≤ x := by
        rcases hs1mem x hxmem with hx | hx
        · exact hfour x hx
        · omega
      constructor
      · intro y hy
        have e1 : t2.blockType y =
            ({ s1.types with free := l1 } : MTypes).blockType y :=
          ht2pres y (by omega)
        have e2 : ({ s1.types with free := l1 } : MTypes).blockType y =
            s1.types.blockType y := rfl
        have e3 : s1.types.blockType y = s.types.blockType y :=
          hpres1 y (by omega) (by omega) (by omega)
        show t2.blockType y = s.types.blockType y
        rw [e1, e2, e3]
      · intro z hz
        rw [ht2free] at hz
        have hz1 : z ∈ s1.types.free := by
          rw [hfeq1]
          exact List.mem_append.mpr (Or.inl hz)
        rcases hs1mem z hz1 with hzf | hzc
        · exact hfour z hzf
        · omega
  · have hfne : s.types.free ≠ [] := by
      intro h0
      rw [h0] at hflen
      simp at hflen
    obtain ⟨x, l1, hfeq1, hpop1⟩ := popFree_of_ne_nil s.types hfne
    have hxmem : x ∈ s.types.free := by rw [hfeq1]; simp
    have ht1c : typesContig { s.types with free := l1 } :=
      fun i pg h => hcontig i pg h
    obtain ⟨t2, hset1, ht2bs, ht2free, ht2len, ht2contig, ht2pres, ht2new⟩ :=
      setBlockType_ok { s.types with free := l1 } x ty ht1c hN
        (hbound x hxmem)
    have hrun : s.allocBlock ty = .ok (x,
        { s with types := t2, user := cacheInsert x (MBlock.new x s.bs ty) s.user }) := by
      simp only [MAlloc.allocBlock, if_neg h2, except_bind_ok, hpop1, hset1]
    have hlen2 : l1.length + 1 = s.types.free.length := by
      have := congrArg List.length hfeq1
      simp at this
      omega
    have hflen2 : s.types.free.length ≠ 2 := by
      rw [MTypes.freeLen] at h2
      exact h2
    refine ⟨x, _, hrun, ⟨?_, ?_, ht2contig, ?_, ?_, hpne, ?_⟩, rfl, ?_, ?_⟩
    · show t2.bs = s.bs
      rw [ht2bs]
      exact hbs
    · show 6 ≤ lenTypesG t2.bs
      rw [ht2bs]
      exact hN6
    · intro y hy
      rw [ht2free] at hy
      have hy1 : y ∈ s.types.free := by
        rw [hfeq1]
        exact List.mem_append.mpr (Or.inl hy)
      show y < t2.blocks.length * lenTypesG t2.bs
      rw [ht2len, ht2bs]
      exact hbound y hy1
    · show t2.blocks ≠ []
      intro h0
      rw [h0] at ht2len
      simp at ht2len
      exact htne (List.length_eq_zero.mp ht2len.symm)
    · show 2 ≤ t2.freeLen
      rw [MTypes.freeLen, ht2free]
      show 2 ≤ l1.length
      omega
    · intro hc
      exact absurd hc h2
    · intro hfour
      have hx4 : 4 ≤ x := hfour x hxmem
      constructor
      · intro y hy
        have e1 : t2.blockType y =
            ({ s.types with free := l1 } : MTypes).blockType y :=
          ht2pres y (by omega)
        exact e1
      · intro z hz
        rw [ht2free] at hz
        have hz1 : z ∈ s.types.free := by
          rw [hfeq1]
          exact List.mem_append.mpr (Or.inl hz)
        exact hfour z hz1

theorem except_bind_err (e : MErr) (f : α → Except MErr β) :
    (Except.error e : Except MErr α) >>= f = .error e := rfl

theorem setPhysicalNr_inv (p : MPhysical) (nr v : Nat) (p1 : MPhysical)
    (h : p.setPhysicalNr nr v = .ok p1) :
    p1.blocks.length = p.blocks.length ∧ p1.bs = p.bs ∧
    p1.free = p.free ∧ p1.max = p.max := by
  rw [MPhysical.setPhysicalNr] at h
  split at h
  · exact absurd h (by simp)
  · split at h
    · injection h with h
      subst h
      simp
    · exact absurd h (by simp)

theorem freeBlock_ok (s : MAlloc) (nr : Nat) (hS : SInv s) :
    (∃ e, s.freeBlock nr = .error e) ∨
    ∃ s', s.freeBlock nr = .ok s' ∧ SInv s' ∧ s'.bs = s.bs ∧
      s'.types.free = s.types.free ++ [nr] ∧
      nr < s.types.blocks.length * lenTypesG s.types.bs ∧
      (∀ y, y ≠ nr → s'.types.blockType y = s.types.blockType y) := by
  obtain ⟨hbs, hN6, hcontig, hbound, htne, hpne, hflen⟩ := hS
  have hN : 0 < lenTypesG s.types.bs := by omega
  by_cases hcov : nr < s.types.blocks.length * lenTypesG s.types.bs
  · obtain ⟨t1, hset1, ht1bs, ht1free, ht1len, ht1contig, ht1pres, ht1new⟩ :=
      setBlockType_ok s.types nr .free hcontig hN hcov
    cases hp : s.physical.setPhysicalNr nr 0 with
    | error e =>
      refine Or.inl ⟨e, ?_⟩
      simp only [MAlloc.freeBlock, hset1, except_bind_ok, hp, except_bind_err]
    | ok p1 =>
      obtain ⟨hp1len, hp1bs, hp1free, hp1max⟩ := setPhysicalNr_inv _ _ _ _ hp
      have hrun : s.freeBlock nr = .ok
          { s with user := cacheRemove s.user nr, types := t1.pushFree nr, physical := p1 } := by
        simp only [MAlloc.freeBlock, hset1, except_bind_ok, hp]
      refine Or.inr ⟨_, hrun, ⟨?_, ?_, ?_, ?_, ?_, ?_, ?_⟩, rfl, ?_, hcov, ?_⟩
      · show t1.bs = s.bs
        rw [ht1bs]; exact hbs
      · show 6 ≤ lenTypesG t1.bs
        rw [ht1bs]; exact hN6
      · intro i pg h
        exact ht1contig i pg h
      · intro y hy
        show y < t1.blocks.length * lenTypesG t1.bs
        rw [ht1len, ht1bs]
        have : y ∈ t1.free ++ [nr] := hy
        rcases List.mem_append.mp this with hy1 | hy1
        · rw [ht1free] at hy1
          exact hbound y hy1
        · have : y = nr := List.mem_singleton.mp hy1
          omega
      · show t1.blocks ≠ []
        intro h0
        have := congrArg List.length h0
        rw [ht1len] at this
        simp at this
        exact htne this
      · show p1.blocks ≠ []
        intro h0
        have := congrArg List.length h0
        rw [hp1len] at this
        simp at this
        exact hpne this
      · show 2 ≤ (t1.free ++ [nr]).length
        rw [ht1free]
        rw [MTypes.freeLen] at hflen
        simp
        omega
      · show t1.free ++ [nr] = s.types.free ++ [nr]
        rw [ht1free]
      · intro y hy
        show (t1.pushFree nr).blockType y = s.types.blockType y
        have e1 : (t1.pushFree nr).blockType y = t1.blockType y := rfl
        rw [e1]
        exact ht1pres y hy
  · refine Or.inl ⟨.invalidBlock nr, ?_⟩
    have hnone : s.types.blocks.get? (nr / lenTypesG s.types.bs) = none := by
      apply List.get?_eq_none.mpr
      rw [Nat.le_div_iff_mul_le hN]
      omega
    simp only [MAlloc.freeBlock, MTypes.setBlockType, hnone, except_bind_err]

theorem enumFrom_replicate_free (m k : Nat) :
    ((List.enumFrom k (List.replicate m BlockType.free)).filter
      (fun p => p.2 = BlockType.free)).map Prod.fst = List.range' k m := by
  induction m generalizing k with
  | zero => rfl
  | succ n ih =>
    simp only [List.replicate_succ, List.enumFrom, List.filter_cons,
      decide_eq_true_eq, if_true]
    simp only [List.map_cons, List.range'_succ]
    rw [ih (k + 1)]

theorem typesFreeList_initPage (bs : Nat) (h : 4 ≤ lenTypesG bs) :
    typesFreeList [{ TPage.initPage bs with dirty := true }] =
      (List.range' 4 (lenTypesG bs - 4)).reverse := by
  obtain ⟨m, hm⟩ : ∃ m, lenTypesG bs = m + 4 := ⟨lenTypesG bs - 4, by omega⟩
  have hrep : List.replicate (lenTypesG bs) BlockType.free =
      BlockType.free :: BlockType.free :: BlockType.free :: BlockType.free ::
        List.replicate m BlockType.free := by
    rw [hm]
    show List.replicate (m + 1 + 1 + 1 + 1) BlockType.free = _
    simp [List.replicate_succ]
  simp only [typesFreeList, TPage.initPage, List.reverse_singleton,
    List.map_cons, List.map_nil, List.flatten, TPage.pairs, hrep,
    List.set, List.enum, List.enumFrom, List.append_nil]
  rw [hm]
  simp only [Nat.add_sub_cancel]
  rw [List.filter_reverse, List.map_reverse]
  congr 1
  simp only [List.filter_cons, decide_eq_true_eq]
  norm_num
  rw [if_neg (by simp), if_neg (by simp), if_neg (by simp), if_neg (by simp)]
  have := enumFrom_replicate_free m 4
  simp only [this]

theorem lenTypesG_ge (bs : Nat) (h : 32 ≤ bs) : 6 ≤ lenTypesG bs := by
  rw [lenTypesG]
  rw [Nat.le_div_iff_mul_le (by omega)]
  omega

theorem init_types_blocks (bs : Nat) :
    (MAlloc.init bs).types.blocks =
      [{ TPage.initPage bs with dirty := true }] := rfl

theorem init_types_free (bs : Nat) (h : 32 ≤ bs) :
    (MAlloc.init bs).types.free =
      (List.range' 4 (lenTypesG bs - 4)).reverse := by
  have h6 := lenTypesG_ge bs h
  exact typesFreeList_initPage bs (by omega)

theorem init_blockType_lt4 (bs : Nat) (h : 32 ≤ bs) (y : Nat) (hy : y < 4) :
    (MAlloc.init bs).types.blockType y =
      match ((((List.replicate (lenTypesG bs) BlockType.free).set 0
          .header).set 1 .types).set 2 .physicalT).set 3 .streams |>.get? y with
      | some ty => .ok ty
      | none => .error (.invalidBlock y) := by
  have h6 := lenTypesG_ge bs h
  have hdiv : y / lenTypesG bs = 0 := Nat.div_eq_of_lt (by omega)
  have hget : (MAlloc.init bs).types.blocks.get?
      (y / lenTypesG (MAlloc.init bs).types.bs) =
      some { TPage.initPage bs with dirty := true } := by
    show ([{ TPage.initPage bs with dirty := true }] : List TPage).get?
      (y / lenTypesG bs) = _
    rw [hdiv]
    rfl
  rw [blockType_eq_of_get _ _ _ hget]
  have hcont : ({ TPage.initPage bs with dirty := true } : TPage).containsNr
      (MAlloc.init bs).types.bs y = true := by
    show (decide (0 ≤ y) && decide (y < 0 + lenTypesG bs)) = true
    simp
    omega
  rw [if_pos hcont]
  rfl

theorem GInv_init (bs : Nat) (h : 32 ≤ bs) : GInv (MAlloc.init bs) := by
  have h6 := lenTypesG_ge bs h
  have hlen : (((((List.replicate (lenTypesG bs) BlockType.free).set 0
      .header).set 1 .types).set 2 .physicalT).set 3 .streams).length =
      lenTypesG bs := by
    simp
  refine ⟨⟨rfl, h6, ?_, ?_, by simp [init_types_blocks], ?_, ?_⟩, ?_, ?_, ?_,
    ?_, ?_⟩
  · intro i pg hpg
    rw [init_types_blocks] at hpg
    match i, hpg with
    | n + 1, hpg => simp at hpg
    | 0, hpg =>
      simp only [List.get?_cons_zero, Option.some_inj] at hpg
      subst hpg
      refine ⟨by simp [TPage.initPage], ?_⟩
      show (((((List.replicate (lenTypesG bs) BlockType.free).set 0
        .header).set 1 .types).set 2 .physicalT).set 3 .streams).length = _
      rw [hlen]
      rfl
  · intro x hx
    rw [init_types_free bs h] at hx
    rw [List.mem_reverse, List.mem_range'_1] at hx
    rw [init_types_blocks]
    simp only [List.length_singleton, Nat.one_mul]
    show x < lenTypesG bs
    omega
  · show ((MPhysical.init bs).blocks : List PPage) ≠ []
    show ([{ PPage.new 2 bs with dirty := true }] : List PPage) ≠ []
    simp
  · show 2 ≤ (MAlloc.init bs).types.free.length
    rw [init_types_free bs h]
    simp
    omega
  · intro x hx
    rw [init_types_free bs h] at hx
    rw [List.mem_reverse, List.mem_range'_1] at hx
    omega
  · rw [init_blockType_lt4 bs h 0 (by omega)]
    obtain ⟨m, hm⟩ : ∃ m, lenTypesG bs = m + 4 := ⟨lenTypesG bs - 4, by omega⟩
    rw [hm]
    have hrep : List.replicate (m + 4) BlockType.free =
        BlockType.free :: BlockType.free :: BlockType.free :: BlockType.free ::
          List.replicate m BlockType.free := by
      show List.replicate (m + 1 + 1 + 1 + 1) BlockType.free = _
      simp [List.replicate_succ]
    rw [hrep]
    simp [List.set]
  · rw [init_blockType_lt4 bs h 1 (by omega)]
    obtain ⟨m, hm⟩ : ∃ m, lenTypesG bs = m + 4 := ⟨lenTypesG bs - 4, by omega⟩
    rw [hm]
    have hrep : List.replicate (m + 4) BlockType.free =
        BlockType.free :: BlockType.free :: BlockType.free :: BlockType.free ::
          List.replicate m BlockType.free := by
      show List.replicate (m + 1 + 1 + 1 + 1) BlockType.free = _
      simp [List.replicate_succ]
    rw [hrep]
    simp [List.set]
  · rw [init_blockType_lt4 bs h 2 (by omega)]
    obtain ⟨m, hm⟩ : ∃ m, lenTypesG bs = m + 4 := ⟨lenTypesG bs - 4, by omega⟩
    rw [hm]
    have hrep : List.replicate (m + 4) BlockType.free =
        BlockType.free :: BlockType.free :: BlockType.free :: BlockType.free ::
          List.replicate m BlockType.free := by
      show List.replicate (m + 1 + 1 + 1 + 1) BlockType.free = _
      simp [List.replicate_succ]
    rw [hrep]
    simp [List.set]
  · rw [init_blockType_lt4 bs h 3 (by omega)]
    obtain ⟨m, hm⟩ : ∃ m, lenTypesG bs = m + 4 := ⟨lenTypesG bs - 4, by omega⟩
    rw [hm]
    have hrep : List.replicate (m + 4) BlockType.free =
        BlockType.free :: BlockType.free :: BlockType.free :: BlockType.free ::
          List.replicate m BlockType.free := by
      show List.replicate (m + 1 + 1 + 1 + 1) BlockType.free = _
      simp [List.replicate_succ]
    rw [hrep]
    simp [List.set]

theorem applyOp_GInv (s : MAlloc) (op : AOp) (hG : GInv s)
    (hl : op.legal) : GInv (applyOp s op) := by
  obtain ⟨hS, hfour, hr0, hr1, hr2, hr3⟩ := hG
  cases op with
  | allocB ty =>
    obtain ⟨nr, s', hrun, hS', _, _, hpres⟩ := allocBlock_ok s ty hS
    obtain ⟨hrole, hfour'⟩ := hpres hfour
    have : applyOp s (.allocB ty) = s' := by
      simp only [applyOp, hrun]
    rw [this]
    exact ⟨hS', hfour', by rw [hrole 0 (by omega)]; exact hr0,
      by rw [hrole 1 (by omega)]; exact hr1,
      by rw [hrole 2 (by omega)]; exact hr2,
      by rw [hrole 3 (by omega)]; exact hr3⟩
  | freeB nr =>
    have hl4 : 4 ≤ nr := hl
    rcases freeBlock_ok s nr hS with ⟨e, herr⟩ | ⟨s', hrun, hS', _, hfree,
      _, hpres⟩
    · have : applyOp s (.freeB nr) = s := by
        simp only [applyOp, herr]
      rw [this]
      exact ⟨hS, hfour, hr0, hr1, hr2, hr3⟩
    · have : applyOp s (.freeB nr) = s' := by
        simp only [applyOp, hrun]
      rw [this]
      refine ⟨hS', ?_, by rw [hpres 0 (by omega)]; exact hr0,
        by rw [hpres 1 (by omega)]; exact hr1,
        by rw [hpres 2 (by omega)]; exact hr2,
        by rw [hpres 3 (by omega)]; exact hr3⟩
      intro x hx
      rw [hfree] at hx
      rcases List.mem_append.mp hx with hx1 | hx1
      · exact hfour x hx1
      · have : x = nr := List.mem_singleton.mp hx1
        omega

theorem applyOps_GInv (s : MAlloc) (ops : List AOp) (hG : GInv s)
    (hops : ∀ op ∈ ops, op.legal) : GInv (applyOps s ops) := by
  induction ops generalizing s with
  | nil => exact hG
  | cons op rest ih =>
    show GInv (applyOps (applyOp s op) rest)
    exact ih (applyOp s op)
      (applyOp_GInv s op hG (hops op (by simp)))
      (fun o ho => hops o (by simp [ho]))

/-- The structural invariant survives every `alloc_block`/`free_block`
call, with no restriction on the freed number: a free either errors (the
state is kept) or appends the freed number to the free list. -/
theorem applyOp_SInv (s : MAlloc) (op : AOp) (hS : SInv s) :
    SInv (applyOp s op) := by
  cases op with
  | allocB ty =>
    obtain ⟨nr, s', hrun, hS', _, _, _⟩ := allocBlock_ok s ty hS
    have heq : applyOp s (.allocB ty) = s' := by
      simp only [applyOp, hrun]
    rw [heq]
    exact hS'
  | freeB nr =>
    rcases freeBlock_ok s nr hS with ⟨e, herr⟩ | ⟨s', hrun, hS', _, _, _, _⟩
    · have heq : applyOp s (.freeB nr) = s := by
        simp only [applyOp, herr]
      rw [heq]
      exact hS
    · have heq : applyOp s (.freeB nr) = s' := by
        simp only [applyOp, hrun]
      rw [heq]
      exact hS'

theorem applyOps_SInv (s : MAlloc) (ops : List AOp) (hS : SInv s) :
    SInv (applyOps s ops) := by
  induction ops generalizing s with
  | nil => exact hS
  | cons op rest ih =>
    show SInv (applyOps (applyOp s op) rest)
    exact ih (applyOp s op) (applyOp_SInv s op hS)

/-- C5 (amended): in any state reached from `Alloc::init` (block size ≥ 32)
by *any* sequence of `alloc_block`/`free_block` calls — frees with
arbitrary arguments included — the types free list always keeps at least
two entries, `alloc_block` always succeeds, and when exactly two free slots
remain it first appends one page to the type map and one to the physical
map.  The block-size bound is forced: at the minimum block size 24 the
fresh free list is empty and the `free_len() == 2` guard never fires. -/
theorem alloc_block_extends_maps_in_reachable_states (bs : Nat)
    (ops : List AOp) (ty : BlockType) (h32 : 32 ≤ bs) :
    2 ≤ (applyOps (MAlloc.init bs) ops).types.freeLen ∧
    ∃ nr s', (applyOps (MAlloc.init bs) ops).allocBlock ty = .ok (nr, s') ∧
      ((applyOps (MAlloc.init bs) ops).types.freeLen = 2 →
        s'.types.blocks.length =
          (applyOps (MAlloc.init bs) ops).types.blocks.length + 1 ∧
        s'.physical.blocks.length =
          (applyOps (MAlloc.init bs) ops).physical.blocks.length + 1) := by
  have hS := applyOps_SInv (MAlloc.init bs) ops (GInv_init bs h32).1
  refine ⟨hS.2.2.2.2.2.2, ?_⟩
  obtain ⟨nr, s', hrun, _, _, hext, _⟩ :=
    allocBlock_ok (applyOps (MAlloc.init bs) ops) ty hS
  exact ⟨nr, s', hrun, hext⟩

/-- Closed instance for `alloc_block_extends_maps_in_reachable_states`,
after a `free_block` of the reserved number 1. -/
theorem alloc_block_extends_maps_in_reachable_states_witness :
    2 ≤ (applyOps (MAlloc.init 32) [.freeB 1]).types.freeLen ∧
    ∃ nr s',
      (applyOps (MAlloc.init 32) [.freeB 1]).allocBlock .user1 =
        .ok (nr, s') ∧
      ((applyOps (MAlloc.init 32) [.freeB 1]).types.freeLen = 2 →
        s'.types.blocks.length =
          (applyOps (MAlloc.init 32) [.freeB 1]).types.blocks.length + 1 ∧
        s'.physical.blocks.length =
          (applyOps (MAlloc.init 32) [.freeB 1]).physical.blocks.length
            + 1) :=
  alloc_block_extends_maps_in_reachable_states 32 [.freeB 1] .user1
    (by decide)

theorem physContig_of_B (p : MPhysical) (h : physContigB p = true) :
    physContig p := by
  intro i pg hpg
  rw [physContigB, List.all_eq_true] at h
  have hmem : (i, pg) ∈ p.blocks.enum := by
    rw [List.mem_enum_iff_get?]
    exact hpg
  have := h (i, pg) hmem
  simp only [Bool.and_eq_true, decide_eq_true_eq] at this
  exact this

theorem list_set_self (l : List α) (i : Nat) (v : α)
    (h : l.get? i = some v) : l.set i v = l := by
  apply List.ext_get?
  intro n
  rw [List.get?_set]
  by_cases hn : i = n
  · subst hn
    rw [List.get?_eq_getElem?] at h
    simp [h]
  · simp [hn]

theorem phys_lookup (p : MPhysical) (x : Nat) (hc : physContig p)
    (hN : 0 < lenPhysicalG p.bs)
    (hx : x < p.blocks.length * lenPhysicalG p.bs) :
    ∃ pg, p.blocks.get? (x / lenPhysicalG p.bs) = some pg ∧
      pg.containsNr p.bs x = true ∧
      pg.startNr = (x / lenPhysicalG p.bs) * lenPhysicalG p.bs ∧
      pg.entries.length = lenPhysicalG p.bs ∧
      x - pg.startNr < lenPhysicalG p.bs := by
  set N := lenPhysicalG p.bs with hNdef
  have hi : x / N < p.blocks.length := (Nat.div_lt_iff_lt_mul hN).mpr hx
  obtain ⟨pg, hpg⟩ : ∃ pg, p.blocks.get? (x / N) = some pg :=
    ⟨p.blocks.get ⟨x / N, hi⟩, List.get?_eq_get hi⟩
  have hfacts := hc _ _ hpg
  have hle : x / N * N ≤ x := Nat.div_mul_le_self x N
  have hlt : x < x / N * N + N := by
    conv_lhs => rw [← Nat.div_add_mod x N]
    have h2 := Nat.mod_lt x hN
    have h3 : N * (x / N) = x / N * N := Nat.mul_comm _ _
    omega
  refine ⟨pg, hpg, ?_, hfacts.1, hfacts.2, ?_⟩
  · rw [PPage.containsNr, PPage.endNr, hfacts.1]
    simp only [Bool.and_eq_true, decide_eq_true_eq]
    exact ⟨hle, hlt⟩
  · rw [hfacts.1, ← hNdef]
    omega

theorem physicalNr_eq_of_get (p : MPhysical) (nr : Nat) (pg : PPage)
    (h : p.blocks.get? (nr / lenPhysicalG p.bs) = some pg) :
    p.physicalNr nr =
      if pg.containsNr p.bs nr then
        match pg.entries.get? (nr - pg.startNr) with
        | some v => .ok v
        | none => .error (.invalidBlock nr)
      else .error (.invalidBlock nr) := by
  simp only [MPhysical.physicalNr, h]

theorem setPhysicalNr_eq_of_get (p : MPhysical) (nr v : Nat)
    (pg : PPage) (h : p.blocks.get? (nr / lenPhysicalG p.bs) = some pg)
    (hcont : pg.containsNr p.bs nr = true) :
    p.setPhysicalNr nr v = .ok { p with
      blocks := p.blocks.set (nr / lenPhysicalG p.bs)
        { pg with
          entries := pg.entries.set (nr - pg.startNr) v
          dirty := true } } := by
  simp only [MPhysical.setPhysicalNr, h, hcont, if_true]

theorem setPhysicalNr_ok (p : MPhysical) (x v : Nat)
    (hc : physContig p) (hN : 0 < lenPhysicalG p.bs)
    (hx : x < p.blocks.length * lenPhysicalG p.bs) :
    ∃ p', p.setPhysicalNr x v = .ok p' ∧
      p'.bs = p.bs ∧ p'.free = p.free ∧ p'.max = p.max ∧
      p'.blocks.length = p.blocks.length ∧
      p'.blocks.map (fun pg => pg.blockNr) =
        p.blocks.map (fun pg => pg.blockNr) ∧
      physContig p' ∧
      (∀ y, y ≠ x → p'.physicalNr y = p.physicalNr y) ∧
      p'.physicalNr x = .ok v := by
  obtain ⟨pg, hpg, hcont, hstart, hlen, hidx⟩ := phys_lookup p x hc hN hx
  have hij : x / lenPhysicalG p.bs < p.blocks.length :=
    (Nat.div_lt_iff_lt_mul hN).mpr hx
  have hstle : pg.startNr ≤ x := by
    rw [hstart]; exact Nat.div_mul_le_self x _
  set pg' : PPage := { pg with
    entries := pg.entries.set (x - pg.startNr) v
    dirty := true } with hpgdef
  set p' : MPhysical := { p with
    blocks := p.blocks.set (x / lenPhysicalG p.bs) pg' } with hpdef
  have hbs' : p'.bs = p.bs := rfl
  have hget' : ∀ j, p'.blocks.get? j =
      if x / lenPhysicalG p.bs = j ∧ x / lenPhysicalG p.bs < p.blocks.length
      then some pg' else p.blocks.get? j := by
    intro j
    rw [hpdef]
    simp only [List.get?_eq_getElem?, List.getElem?_set]
    by_cases hj : x / lenPhysicalG p.bs = j
    · rw [if_pos hj, if_pos hij, if_pos ⟨hj, hij⟩]
    · rw [if_neg hj, if_neg (by tauto)]
  have hcontig' : physContig p' := by
    intro i pgi hpgi
    rw [hget'] at hpgi
    by_cases hcase : x / lenPhysicalG p.bs = i ∧
        x / lenPhysicalG p.bs < p.blocks.length
    · rw [if_pos hcase] at hpgi
      cases hpgi
      constructor
      · rw [hpgdef]; simpa [← hcase.1] using hstart
      · rw [hpgdef]; simpa using hlen
    · rw [if_neg hcase] at hpgi
      exact hc i pgi hpgi
  have hmapnr : p'.blocks.map (fun q => q.blockNr) =
      p.blocks.map (fun q => q.blockNr) := by
    rw [hpdef]
    have : (pg' : PPage).blockNr = pg.blockNr := by rw [hpgdef]
    calc (p.blocks.set (x / lenPhysicalG p.bs) pg').map
          (fun q : PPage => q.blockNr)
        = (p.blocks.map (fun q : PPage => q.blockNr)).set
            (x / lenPhysicalG p.bs) pg'.blockNr := by
          rw [List.map_set]
      _ = (p.blocks.map (fun q : PPage => q.blockNr)).set
            (x / lenPhysicalG p.bs) pg.blockNr := by rw [this]
      _ = p.blocks.map (fun q : PPage => q.blockNr) := by
          apply list_set_self
          rw [List.get?_map, hpg]
          rfl
  refine ⟨p', setPhysicalNr_eq_of_get p x v pg hpg hcont, hbs', rfl, rfl,
    by rw [hpdef]; simp, hmapnr, hcontig', ?_, ?_⟩
  · intro y hy
    by_cases hj : x / lenPhysicalG p.bs = y / lenPhysicalG p.bs
    · have hgy : p'.blocks.get? (y / lenPhysicalG p'.bs) = some pg' := by
        rw [hbs', hget']
        exact if_pos ⟨hj, hij⟩
      rw [physicalNr_eq_of_get p' y pg' hgy, physicalNr_eq_of_get p y pg
        (by rw [← hj]; exact hpg)]
      have hcsame : pg'.containsNr p'.bs y = pg.containsNr p.bs y := by
        rw [hbs', hpgdef]
        simp [PPage.containsNr, PPage.endNr]
      rw [hcsame]
      by_cases hcy : pg.containsNr p.bs y = true
      · rw [if_pos hcy, if_pos hcy]
        have hyge : pg.startNr ≤ y := by
          simp only [PPage.containsNr, Bool.and_eq_true,
            decide_eq_true_eq] at hcy
          exact hcy.1
        have hne2 : ¬ (x - pg.startNr = y - pg.startNr) := by omega
        rw [hpgdef]
        simp only [List.get?_eq_getElem?, List.getElem?_set, if_neg hne2]
      · rw [if_neg hcy, if_neg hcy]
    · have hgy : p'.blocks.get? (y / lenPhysicalG p'.bs) =
          p.blocks.get? (y / lenPhysicalG p.bs) := by
        rw [hbs', hget', if_neg (by tauto)]
      simp only [MPhysical.physicalNr, hbs', hgy]
  · have hgx : p'.blocks.get? (x / lenPhysicalG p'.bs) = some pg' := by
      rw [hbs', hget']
      exact if_pos ⟨rfl, hij⟩
    rw [physicalNr_eq_of_get p' x pg' hgx]
    have hcont' : pg'.containsNr p'.bs x = true := by
      rw [hbs', hpgdef]
      simpa [PPage.containsNr, PPage.endNr] using hcont
    rw [if_pos hcont']
    have : pg'.entries.get? (x - pg'.startNr) = some v := by
      rw [hpgdef]
      simp only [List.get?_eq_getElem?, List.getElem?_set]
      simp [hlen, hidx]
    rw [this]

theorem physPopFree_facts (p : MPhysical) (hz : 0 ∉ p.free) :
    (p.popFree).1 ≠ 0 ∧ (p.popFree).2.blocks = p.blocks ∧
    (p.popFree).2.bs = p.bs ∧ 0 ∉ (p.popFree).2.free := by
  rw [MPhysical.popFree]
  cases hl : p.free.getLast? with
  | some nr =>
    have hmem : nr ∈ p.free := by
      have := List.mem_getLast?_eq_getLast (Option.mem_def.mpr hl)
      obtain ⟨h1, h2⟩ := this
      rw [h2]
      exact List.getLast_mem h1
    refine ⟨fun h0 => hz (h0 ▸ hmem), rfl, rfl, ?_⟩
    intro h0
    exact hz (List.dropLast_subset _ h0)
  | none => exact ⟨Nat.succ_ne_zero _, rfl, rfl, hz⟩

theorem storeAssignGo_ok (todo : List Nat) (p : MPhysical)
    (hc : physContig p) (hN : 0 < lenPhysicalG p.bs) (hz : 0 ∉ p.free)
    (hcov : ∀ nr ∈ todo, nr < p.blocks.length * lenPhysicalG p.bs) :
    ∃ p', storeAssignGo todo p = .ok p' ∧
      p'.bs = p.bs ∧ p'.blocks.length = p.blocks.length ∧
      p'.blocks.map (fun pg => pg.blockNr) =
        p.blocks.map (fun pg => pg.blockNr) ∧
      physContig p' ∧
      (∀ x, p'.physicalNr x = p.physicalNr x ∨
        ∃ v, p'.physicalNr x = .ok v ∧ v ≠ 0) ∧
      (∀ nr ∈ todo, ∃ v, p'.physicalNr nr = .ok v ∧ v ≠ 0) := by
  induction todo generalizing p with
  | nil => exact ⟨p, rfl, rfl, rfl, rfl, hc, fun x => Or.inl rfl, by simp⟩
  | cons nr rest ih =>
    obtain ⟨hv0, hblocks2, hbs2, hz2⟩ := physPopFree_facts p hz
    have hc2 : physContig (p.popFree).2 := by
      intro i pg h
      rw [hblocks2] at h
      rw [hbs2]
      exact hc i pg h
    have hN2 : 0 < lenPhysicalG (p.popFree).2.bs := by rw [hbs2]; exact hN
    have hcovnr : nr < (p.popFree).2.blocks.length *
        lenPhysicalG (p.popFree).2.bs := by
      rw [hblocks2, hbs2]
      exact hcov nr (by simp)
    obtain ⟨p3, hset, hp3bs, hp3free, hp3max, hp3len, hp3map, hp3c,
      hp3pres, hp3new⟩ :=
      setPhysicalNr_ok (p.popFree).2 nr (p.popFree).1 hc2 hN2 hcovnr
    have hphys2 : ∀ x, (p.popFree).2.physicalNr x = p.physicalNr x := by
      intro x
      rw [MPhysical.physicalNr, MPhysical.physicalNr, hbs2, hblocks2]
    have hz3 : 0 ∉ p3.free := by rw [hp3free]; exact hz2
    have hbs3 : p3.bs = p.bs := by rw [hp3bs, hbs2]
    have hlen3 : p3.blocks.length = p.blocks.length := by
      rw [hp3len]
      rw [hblocks2]
    have hcov3 : ∀ x ∈ rest, x < p3.blocks.length * lenPhysicalG p3.bs := by
      intro x hx
      rw [hlen3, hbs3]
      exact hcov x (by simp [hx])
    obtain ⟨p', hrun', hbs', hlen', hmap', hc', hor', htodo'⟩ :=
      ih p3 hp3c (by rw [hbs3]; exact hN) hz3 hcov3
    have hrun : storeAssignGo (nr :: rest) p = .ok p' := by
      simp only [storeAssignGo, hset, except_bind_ok, hrun']
    have hornr : ∀ x, p'.physicalNr x = p.physicalNr x ∨
        ∃ v, p'.physicalNr x = .ok v ∧ v ≠ 0 := by
      intro x
      rcases hor' x with h1 | h1
      · by_cases hxnr : x = nr
        · subst hxnr
          exact Or.inr ⟨(p.popFree).1, by rw [h1]; exact hp3new, hv0⟩
        · rw [h1, hp3pres x hxnr, hphys2 x]
          exact Or.inl rfl
      · exact Or.inr h1
    refine ⟨p', hrun, by rw [hbs', hbs3], by rw [hlen', hlen3], ?_, hc',
      hornr, ?_⟩
    · rw [hmap', hp3map]
      have : ((p.popFree).2.blocks.map (fun pg => pg.blockNr)) =
          p.blocks.map (fun pg => pg.blockNr) := by rw [hblocks2]
      rw [this]
    · intro x hx
      rcases List.mem_cons.mp hx with hx1 | hx1
      · subst hx1
        rcases hor' x with h1 | h1
        · exact ⟨(p.popFree).1, by rw [h1]; exact hp3new, hv0⟩
        · exact h1
      · exact htodo' x hx1

theorem mem_iterDirty_phys (p : MPhysical) (nr : Nat)
    (h : nr ∈ p.iterDirty) : ∃ pg, pg ∈ p.blocks ∧ pg.blockNr = nr := by
  rw [MPhysical.iterDirty] at h
  simp only [List.mem_map, List.mem_filter] at h
  obtain ⟨pg, ⟨hmem, _⟩, hnr⟩ := h
  exact ⟨pg, hmem, hnr⟩

/-- C6 (amended): within `Alloc::store`, after the assignment pass (which
pops a fresh non-zero number only for the pages dirty at its start), every
dirty physical-map page — including pages dirtied during the pass itself,
which keep their previously committed non-zero number instead of getting a
fresh one — looks up a non-zero physical number, so the write pass's
non-zero assertion never fails. -/
theorem write_pass_numbers_are_nonzero (s : MAlloc)
    (hcB : physContigB s.physical = true)
    (hN : 0 < lenPhysicalG s.physical.bs)
    (hz : 0 ∉ s.physical.free)
    (hcov : ∀ nr ∈ s.physical.iterDirty,
      nr < s.physical.blocks.length * lenPhysicalG s.physical.bs)
    (hcommitted : ∀ pg ∈ s.physical.blocks,
      pg.blockNr ∈ s.physical.iterDirty ∨
      ((s.physical.physicalNr pg.blockNr).toOption.getD 0 ≠ 0)) :
    ∃ s', storePhase4 s = .ok s' ∧
      ∀ nr ∈ s'.physical.iterDirty,
        ∃ v, s'.physical.physicalNr nr = .ok v ∧ v ≠ 0 := by
  obtain ⟨p', hrun, hbs', hlen', hmap', hc', hor', htodo'⟩ :=
    storeAssignGo_ok s.physical.iterDirty s.physical
      (physContig_of_B _ hcB) hN hz hcov
  refine ⟨{ s with physical := p' }, ?_, ?_⟩
  · simp only [storePhase4, hrun, except_bind_ok]
  · intro nr hnr
    obtain ⟨pg', hpg'mem, hpg'nr⟩ := mem_iterDirty_phys p' nr hnr
    have hnr_mem : nr ∈ p'.blocks.map (fun pg => pg.blockNr) :=
      List.mem_map.mpr ⟨pg', hpg'mem, hpg'nr⟩
    rw [hmap'] at hnr_mem
    obtain ⟨pg, hpgmem, hpgnr⟩ := List.mem_map.mp hnr_mem
    rcases hcommitted pg hpgmem with hd | hnz
    · rw [hpgnr] at hd
      exact htodo' nr hd
    · rw [hpgnr] at hnz
      rcases hor' nr with h1 | h1
      · cases hv : s.physical.physicalNr nr with
        | ok v =>
          refine ⟨v, by rw [h1, hv], ?_⟩
          rw [hv] at hnz
          simpa using hnz
        | error e =>
          rw [hv] at hnz
          simp [Except.toOption] at hnz
      · exact h1

theorem write_pass_numbers_are_nonzero_witness :
    physContigB (MAlloc.init 32).physical = true ∧
    ∃ s', storePhase4 (MAlloc.init 32) = .ok s' ∧
      ∀ nr ∈ s'.physical.iterDirty,
        ∃ v, s'.physical.physicalNr nr = .ok v ∧ v ≠ 0 :=
  ⟨by decide, write_pass_numbers_are_nonzero (MAlloc.init 32) (by decide)
    (by decide) (by decide) (by decide) (by decide)⟩

/-! ## Round-trip machinery: well-formedness of a committed-or-mutated
allocator state -/

theorem lenPhysicalG_eq (bs : Nat) : lenPhysicalG bs = lenTypesG bs := by
  rw [lenPhysicalG, lenTypesG]
  omega

theorem pnrP_congr (p q : MPhysical) (hb : p.blocks = q.blocks)
    (hs : p.bs = q.bs) (nr : Nat) : pnrP p nr = pnrP q nr := by
  rw [pnrP, pnrP, MPhysical.physicalNr, MPhysical.physicalNr, hb, hs]

theorem readSlot_writeSlot (f : MFile) (bs i : Nat) (sl : Slot) :
    readSlot (writeSlot f bs i sl) i = some sl ∧
    (∀ j, j ≠ i → j < f.length →
      readSlot (writeSlot f bs i sl) j = readSlot f j) ∧
    f.length ≤ (writeSlot f bs i sl).length ∧
    (writeSlot f bs i sl).length ≤ Nat.max f.length (i + 1) ∧
    i < (writeSlot f bs i sl).length := by
  rw [writeSlot]
  by_cases hi : i < f.length
  · rw [if_pos hi]
    refine ⟨?_, ?_, by simp, by simp [Nat.le_max_left], by simpa⟩
    · show (f.set i sl).get? i = some sl
      rw [List.get?_eq_getElem?, List.getElem?_set]
      simp [hi]
    · intro j hj hjlen
      show (f.set i sl).get? j = f.get? j
      rw [List.get?_eq_getElem?, List.getElem?_set, if_neg (by omega),
        List.get?_eq_getElem?]
  · rw [if_neg hi]
    have hlen : (f ++ List.replicate (i - f.length) (zeroSlot bs)).length
        = i := by
      rw [List.length_append, List.length_replicate]
      omega
    have hlen2 : ((f ++ List.replicate (i - f.length) (zeroSlot bs)) ++
        [sl]).length = i + 1 := by
      rw [List.length_append, hlen, List.length_singleton]
    refine ⟨?_, ?_, by rw [hlen2]; omega,
      by rw [hlen2]; exact Nat.le_max_right _ _, by rw [hlen2]; omega⟩
    · show ((f ++ _) ++ [sl]).get? i = some sl
      rw [List.get?_eq_getElem?, List.getElem?_append_right (by omega)]
      rw [hlen]
      simp
    · intro j hj hjlen
      show ((f ++ _) ++ [sl]).get? j = f.get? j
      rw [List.get?_eq_getElem?, List.getElem?_append_left (by omega),
        List.getElem?_append_left (by omega), List.get?_eq_getElem?]

theorem popFree_fresh (p : MPhysical) (cover : Nat)
    (hz : 0 ∉ p.free) (hnd : p.free.Nodup) (hfm : ∀ v ∈ p.free, v ≤ p.max)
    (hem : ∀ nr, nr < cover → pnrP p nr ≤ p.max)
    (hef : ∀ nr, nr < cover → pnrP p nr ∉ p.free) :
    (p.popFree).1 ≠ 0 ∧ (p.popFree).2.blocks = p.blocks ∧
    (p.popFree).2.bs = p.bs ∧
    p.max ≤ (p.popFree).2.max ∧ (p.popFree).1 ≤ (p.popFree).2.max ∧
    0 ∉ (p.popFree).2.free ∧ (p.popFree).2.free.Nodup ∧
    (∀ v ∈ (p.popFree).2.free, v ≤ (p.popFree).2.max) ∧
    (∀ nr, nr < cover → pnrP p nr ∉ (p.popFree).2.free) ∧
    (∀ nr, nr < cover → pnrP p nr ≠ (p.popFree).1) ∧
    (p.popFree).1 ∉ (p.popFree).2.free := by
  cases hl : p.free.getLast? with
  | some v =>
    have heq : p.popFree = (v, { p with free := p.free.dropLast }) := by
      rw [MPhysical.popFree, hl]
    have hne : p.free ≠ [] := by
      intro h0; rw [h0] at hl; simp at hl
    have hsplit : p.free.dropLast ++ [v] = p.free := by
      have h2 := List.dropLast_append_getLast hne
      rw [List.getLast?_eq_getLast _ hne] at hl
      rw [Option.some_inj.mp hl] at h2
      exact h2
    have hvmem : v ∈ p.free := by
      rw [← hsplit]; simp
    have hdsub : ∀ w ∈ p.free.dropLast, w ∈ p.free := by
      intro w hw
      rw [← hsplit]
      exact List.mem_append.mpr (Or.inl hw)
    have hvnotd : v ∉ p.free.dropLast := by
      have hnd2 : (p.free.dropLast ++ [v]).Nodup := by
        rw [hsplit]; exact hnd
      rcases List.nodup_append.mp hnd2 with ⟨_, _, hdisj⟩
      intro hvd
      exact hdisj hvd (by simp)
    rw [heq]
    refine ⟨fun h0 => hz (h0 ▸ hvmem), rfl, rfl, Nat.le_refl _,
      hfm v hvmem, ?_, hnd.sublist (List.dropLast_sublist _), ?_, ?_, ?_, ?_⟩
    · intro h0
      exact hz (hdsub 0 h0)
    · intro w hw
      exact hfm w (hdsub w hw)
    · intro nr hnr h0
      exact hef nr hnr (hdsub _ h0)
    · intro nr hnr h0
      exact hef nr hnr (h0 ▸ hvmem)
    · exact hvnotd
  | none =>
    have heq : p.popFree = (p.max + 1, { p with max := p.max + 1 }) := by
      rw [MPhysical.popFree, hl]
    have hne : p.free = [] := List.getLast?_eq_none_iff.mp hl
    rw [heq]
    refine ⟨Nat.succ_ne_zero _, rfl, rfl, Nat.le_succ _, Nat.le_refl _,
      ?_, hnd, ?_, ?_, ?_, ?_⟩
    · rw [hne] at hz ⊢; exact hz
    · intro v hv
      exact Nat.le_succ_of_le (hfm v hv)
    · intro nr hnr h0
      exact hef nr hnr h0
    · intro nr hnr h0
      have := hem nr hnr
      omega
    · rw [hne]
      simp

theorem setPhysicalNr_shape (p : MPhysical) (nr v : Nat) (p1 : MPhysical)
    (h : p.setPhysicalNr nr v = .ok p1) :
    p1.blocks.map ppShape = p.blocks.map ppShape := by
  rw [MPhysical.setPhysicalNr] at h
  split at h
  · exact absurd h (by simp)
  · rename_i pg hget
    split at h
    · injection h with h
      subst h
      show (p.blocks.set _ _).map ppShape = _
      rw [List.map_set]
      apply list_set_self
      rw [List.get?_map, hget]
      rfl
    · exact absurd h (by simp)

theorem setPhysicalNr_cleanKeep (p : MPhysical) (nr v : Nat)
    (p1 : MPhysical) (h : p.setPhysicalNr nr v = .ok p1) :
    ∀ i pg', p1.blocks.get? i = some pg' → pg'.dirty = false →
      p.blocks.get? i = some pg' := by
  rw [MPhysical.setPhysicalNr] at h
  split at h
  · exact absurd h (by simp)
  · rename_i pg hget
    split at h
    · injection h with h
      subst h
      intro i pg' hpg' hcl
      have : (p.blocks.set (nr / lenPhysicalG p.bs)
          { pg with entries := pg.entries.set (nr - pg.startNr) v, dirty := true }).get? i = some pg' := hpg'
      rw [List.get?_eq_getElem?, List.getElem?_set] at this
      by_cases hi : nr / lenPhysicalG p.bs = i
      · rw [if_pos hi] at this
        split at this
        · cases Option.some_inj.mp this
          simp at hcl
        · simp at this
      · rw [if_neg hi] at this
        rw [List.get?_eq_getElem?]
        exact this
    · exact absurd h (by simp)

theorem popSet_fresh (p : MPhysical) (nr : Nat) (cover : Nat)
    (hcov : cover = p.blocks.length * lenPhysicalG p.bs)
    (hc : physContig p) (hN : 0 < lenPhysicalG p.bs) (hnr : nr < cover)
    (hz : 0 ∉ p.free) (hnd : p.free.Nodup) (hfm : ∀ v ∈ p.free, v ≤ p.max)
    (hem : ∀ m, m < cover → pnrP p m ≤ p.max)
    (hef : ∀ m, m < cover → pnrP p m ∉ p.free)
    (heinj : ∀ a b, a < cover → b < cover → pnrP p a ≠ 0 →
      pnrP p a = pnrP p b → a = b) :
    ∃ p2, (p.popFree).2.setPhysicalNr nr (p.popFree).1 = .ok p2 ∧
      p2.bs = p.bs ∧ p2.blocks.length = p.blocks.length ∧
      p2.blocks.map ppShape = p.blocks.map ppShape ∧
      physContig p2 ∧ p.max ≤ p2.max ∧
      0 ∉ p2.free ∧ p2.free.Nodup ∧ (∀ v ∈ p2.free, v ≤ p2.max) ∧
      (∀ m, m < cover → pnrP p2 m ≤ p2.max) ∧
      (∀ m, m < cover → pnrP p2 m ∉ p2.free) ∧
      (∀ a b, a < cover → b < cover → pnrP p2 a ≠ 0 →
        pnrP p2 a = pnrP p2 b → a = b) ∧
      pnrP p2 nr = (p.popFree).1 ∧ (p.popFree).1 ≠ 0 ∧
      (p.popFree).1 ≤ p2.max ∧
      (∀ m, m ≠ nr → pnrP p2 m = pnrP p m) ∧
      (∀ m, m < cover → pnrP p m ≠ (p.popFree).1) ∧
      (∀ i pg', p2.blocks.get? i = some pg' → pg'.dirty = false →
        p.blocks.get? i = some pg') := by
  obtain ⟨hv0, hqb, hqbs, hqmax, hvmax, hqz, hqnd, hqfm, hqef, hfresh,
    hvnf⟩ := popFree_fresh p cover hz hnd hfm hem hef
  have hqc : physContig (p.popFree).2 := by
    intro i pg h
    rw [hqb] at h
    rw [hqbs]
    exact hc i pg h
  have hqN : 0 < lenPhysicalG (p.popFree).2.bs := by rw [hqbs]; exact hN
  have hqcov : nr < (p.popFree).2.blocks.length *
      lenPhysicalG (p.popFree).2.bs := by
    rw [hqb, hqbs]
    omega
  obtain ⟨p2, hset, h2bs, h2free, h2max, h2len, _, h2c, h2pres, h2new⟩ :=
    setPhysicalNr_ok (p.popFree).2 nr (p.popFree).1 hqc hqN hqcov
  have hpnr2 : ∀ m, m ≠ nr → pnrP p2 m = pnrP p m := by
    intro m hm
    rw [pnrP, h2pres m hm]
    exact pnrP_congr _ _ hqb hqbs m
  have hpnr2nr : pnrP p2 nr = (p.popFree).1 := by
    rw [pnrP, h2new]
    rfl
  refine ⟨p2, hset, by rw [h2bs, hqbs], by rw [h2len, hqb],
    by rw [setPhysicalNr_shape _ _ _ _ hset, hqb], h2c,
    by rw [h2max]; exact hqmax, by rw [h2free]; exact hqz,
    by rw [h2free]; exact hqnd, ?_, ?_, ?_, ?_, hpnr2nr, hv0,
    by rw [h2max]; exact hvmax, hpnr2, hfresh, ?_⟩
  · intro v hv
    rw [h2free] at hv
    rw [h2max]
    exact hqfm v hv
  · intro m hm
    rw [h2max]
    by_cases hmnr : m = nr
    · subst hmnr
      rw [hpnr2nr]
      exact hvmax
    · rw [hpnr2 m hmnr]
      exact Nat.le_trans (hem m hm) hqmax
  · intro m hm
    rw [h2free]
    by_cases hmnr : m = nr
    · subst hmnr
      rw [hpnr2nr]
      exact hvnf
    · rw [hpnr2 m hmnr]
      exact hqef m hm
  · intro a b ha hb ha0 hab
    by_cases hanr : a = nr
    · by_cases hbnr : b = nr
      · rw [hanr, hbnr]
      · rw [hanr, hpnr2nr] at hab
        rw [hpnr2 b hbnr] at hab
        exact absurd hab.symm (hfresh b hb)
    · by_cases hbnr : b = nr
      · rw [hpnr2 a hanr] at hab ha0
        rw [hbnr, hpnr2nr] at hab
        exact absurd hab (hfresh a ha)
      · rw [hpnr2 a hanr] at hab ha0
        rw [hpnr2 b hbnr] at hab
        exact heinj a b ha hb ha0 hab
  · intro i pg' hpg' hcl
    have := setPhysicalNr_cleanKeep _ _ _ _ hset i pg' hpg' hcl
    rw [hqb] at this
    exact this

theorem storeUserGo_ok (bs g : Nat) (u : List (Nat × MBlock))
    (p : MPhysical) (f : MFile) (cover : Nat)
    (hcov : cover = p.blocks.length * lenPhysicalG p.bs)
    (hc : physContig p) (hN : 0 < lenPhysicalG p.bs)
    (hz : 0 ∉ p.free) (hnd : p.free.Nodup) (hfm : ∀ v ∈ p.free, v ≤ p.max)
    (hem : ∀ m, m < cover → pnrP p m ≤ p.max)
    (hef : ∀ m, m < cover → pnrP p m ∉ p.free)
    (heinj : ∀ a b, a < cover → b < cover → pnrP p a ≠ 0 →
      pnrP p a = pnrP p b → a = b)
    (hlm : f.length ≤ p.max + 1) (hf0 : 0 < f.length)
    (hucov : ∀ kv ∈ u, kv.1 < cover)
    (hkeys : (u.map Prod.fst).Nodup) :
    ∃ u' p' f', storeUserGo bs g u p f = .ok (u', p', f') ∧
      u' = u.map (fun kv =>
        if kv.2.dirty then (kv.1, { kv.2 with dirty := false, gen := g })
        else kv) ∧
      p'.bs = p.bs ∧ p'.blocks.length = p.blocks.length ∧
      p'.blocks.map ppShape = p.blocks.map ppShape ∧
      physContig p' ∧ p.max ≤ p'.max ∧
      0 ∉ p'.free ∧ p'.free.Nodup ∧ (∀ v ∈ p'.free, v ≤ p'.max) ∧
      (∀ m, m < cover → pnrP p' m ≤ p'.max) ∧
      (∀ m, m < cover → pnrP p' m ∉ p'.free) ∧
      (∀ a b, a < cover → b < cover → pnrP p' a ≠ 0 →
        pnrP p' a = pnrP p' b → a = b) ∧
      f.length ≤ f'.length ∧ f'.length ≤ p'.max + 1 ∧
      readSlot f' 0 = readSlot f 0 ∧
      (∀ kv ∈ u, kv.2.dirty = true →
        pnrP p' kv.1 ≠ 0 ∧ pnrP p' kv.1 < f'.length ∧
        readSlot f' (pnrP p' kv.1) = some (.rawS kv.2.data)) ∧
      (∀ m, m < cover → (∀ kv ∈ u, kv.1 = m → kv.2.dirty = false) →
        pnrP p' m = pnrP p m) ∧
      (∀ j, j < f.length → j ≠ 0 →
        (∃ m, m < cover ∧ pnrP p m = j ∧
          (∀ kv ∈ u, kv.1 = m → kv.2.dirty = false)) →
        readSlot f' j = readSlot f j) ∧
      (∀ i pg', p'.blocks.get? i = some pg' → pg'.dirty = false →
        p.blocks.get? i = some pg') := by
  induction u generalizing p f with
  | nil =>
    refine ⟨[], p, f, rfl, rfl, rfl, rfl, rfl, hc, Nat.le_refl _, hz, hnd,
      hfm, hem, hef, heinj, Nat.le_refl _, hlm, rfl, by simp,
      fun m _ _ => rfl, fun j _ _ _ => rfl, fun i pg' h _ => h⟩
  | cons kv rest ih =>
    obtain ⟨nr, b⟩ := kv
    have hnrcov : nr < cover := hucov (nr, b) (by simp)
    have hrestcov : ∀ kv ∈ rest, kv.1 < cover := by
      intro kv hkv
      exact hucov kv (by simp [hkv])
    have hrestkeys : (rest.map Prod.fst).Nodup := by
      simp only [List.map_cons, List.nodup_cons] at hkeys
      exact hkeys.2
    have hnrrest : ∀ kv ∈ rest, kv.1 ≠ nr := by
      simp only [List.map_cons, List.nodup_cons] at hkeys
      intro kv hkv h0
      exact hkeys.1 (List.mem_map.mpr ⟨kv, hkv, h0⟩)
    by_cases hd : b.dirty
    · obtain ⟨p2, hset, h2bs, h2len, h2shape, h2c, h2maxmono, h2z, h2nd,
        h2fm, h2em, h2ef, h2einj, h2nr, hv0, hvmax, h2pres, hfresh,
        h2clean⟩ :=
        popSet_fresh p nr cover hcov hc hN hnrcov hz hnd hfm hem hef heinj
      set v := (p.popFree).1 with hvdef
      obtain ⟨hw1, hw2, hw3, hw4, hw5⟩ :=
        readSlot_writeSlot f bs v (.rawS b.data)
      have hraw : storeRaw f bs v (.rawS b.data) =
          .ok (writeSlot f bs v (.rawS b.data)) := by
        rw [storeRaw, if_neg hv0]
      set f1 := writeSlot f bs v (.rawS b.data) with hf1def
      have hcov2 : cover = p2.blocks.length * lenPhysicalG p2.bs := by
        rw [h2len, h2bs]
        exact hcov
      have hN2 : 0 < lenPhysicalG p2.bs := by rw [h2bs]; exact hN
      have hlm2 : f1.length ≤ p2.max + 1 := by
        have h1 : f1.length ≤ Nat.max f.length (v + 1) := hw4
        have h2 : f.length ≤ p2.max + 1 := Nat.le_trans hlm (by omega)
        have h3 : v + 1 ≤ p2.max + 1 := by omega
        exact Nat.le_trans h1 (Nat.max_le.mpr ⟨h2, h3⟩)
      obtain ⟨u', p', f', hrun, hu', h'bs, h'len, h'shape, h'c, h'maxmono,
        h'z, h'nd, h'fm, h'em, h'ef, h'einj, h'flen, h'lm, h'slot0,
        h'touch, h'keep, h'fkeep, h'clean⟩ :=
        ih p2 f1 hcov2 h2c hN2 h2z h2nd h2fm h2em h2ef h2einj hlm2
          (Nat.lt_of_lt_of_le hf0 hw3) hrestcov hrestkeys
      have hvkeep : pnrP p' nr = v := by
        rw [h'keep nr hnrcov (fun kv hkv h0 => absurd h0 (hnrrest kv hkv)),
          h2nr]
      have hvslot : readSlot f' v = some (.rawS b.data) := by
        rw [h'fkeep v hw5 hv0 ⟨nr, hnrcov, h2nr,
          fun kv hkv h0 => absurd h0 (hnrrest kv hkv)⟩]
        exact hw1
      refine ⟨(nr, { b with dirty := false, gen := g }) :: u', p', f',
        ?_, ?_, by rw [h'bs, h2bs], by rw [h'len, h2len],
        by rw [h'shape, h2shape], h'c,
        Nat.le_trans h2maxmono h'maxmono, h'z, h'nd, h'fm, h'em, h'ef,
        h'einj, ?_, h'lm, by rw [h'slot0]; exact hw2 0 (Ne.symm hv0) hf0,
        ?_, ?_, ?_, ?_⟩
      · show storeUserGo bs g ((nr, b) :: rest) p f = _
        simp only [storeUserGo, hd, if_true, hset, except_bind_ok, hraw,
          hrun]
      · simp only [List.map_cons, hd, if_true, hu']
      · exact Nat.le_trans (Nat.le_trans hw3 h'flen) (Nat.le_refl _)
      · intro kv hkv hkvd
        rcases List.mem_cons.mp hkv with hkv1 | hkv1
        · cases hkv1
          exact ⟨by rw [hvkeep]; exact hv0,
            by rw [hvkeep]; exact Nat.lt_of_lt_of_le hw5 h'flen, by
              rw [hvkeep]; exact hvslot⟩
        · exact h'touch kv hkv1 hkvd
      · intro m hm hmu
        have hmnr : m ≠ nr := by
          intro h0
          have := hmu (nr, b) (by simp) (by rw [h0])
          rw [hd] at this
          cases this
        rw [h'keep m hm (fun kv hkv h0 => hmu kv (by simp [hkv]) h0),
          h2pres m hmnr]
      · intro j hj hj0 hex
        obtain ⟨m, hm, hpm, hmu⟩ := hex
        have hmnr : m ≠ nr := by
          intro h0
          have := hmu (nr, b) (by simp) (by rw [h0])
          rw [hd] at this
          cases this
        have hjv : j ≠ v := by
          intro h0
          exact (hfresh m hm) (by rw [hpm, h0])
        rw [h'fkeep j (Nat.lt_of_lt_of_le hj hw3) hj0
          ⟨m, hm, by rw [h2pres m hmnr]; exact hpm,
            fun kv hkv h0 => hmu kv (by simp [hkv]) h0⟩]
        exact hw2 j hjv hj
      · intro i pg' hpg' hclean
        exact h2clean i pg' (h'clean i pg' hpg' hclean) hclean
    · have hbd : b.dirty = false := by
        cases hbb : b.dirty
        · rfl
        · exact absurd hbb hd
      obtain ⟨u', p', f', hrun, hu', h'bs, h'len, h'shape, h'c, h'maxmono,
        h'z, h'nd, h'fm, h'em, h'ef, h'einj, h'flen, h'lm, h'slot0,
        h'touch, h'keep, h'fkeep, h'clean⟩ :=
        ih p f hcov hc hN hz hnd hfm hem hef heinj hlm hf0 hrestcov
          hrestkeys
      refine ⟨(nr, b) :: u', p', f', ?_, ?_, h'bs, h'len, h'shape, h'c,
        h'maxmono, h'z, h'nd, h'fm, h'em, h'ef, h'einj, h'flen, h'lm,
        h'slot0, ?_, ?_, ?_, h'clean⟩
      · show storeUserGo bs g ((nr, b) :: rest) p f = _
        simp only [storeUserGo, hbd, if_false, Bool.false_eq_true, hrun,
          except_bind_ok]
      · simp only [List.map_cons, hbd, if_false, Bool.false_eq_true, hu']
      · intro kv hkv hkvd
        rcases List.mem_cons.mp hkv with hkv1 | hkv1
        · cases hkv1
          rw [hbd] at hkvd
          cases hkvd
        · exact h'touch kv hkv1 hkvd
      · intro m hm hmu
        exact h'keep m hm (fun kv hkv h0 => hmu kv (by simp [hkv]) h0)
      · intro j hj hj0 hex
        obtain ⟨m, hm, hpm, hmu⟩ := hex
        exact h'fkeep j hj hj0
          ⟨m, hm, hpm, fun kv hkv h0 => hmu kv (by simp [hkv]) h0⟩

theorem storePhase2_ok (s : MAlloc) (cover : Nat)
    (hpf : PF cover s.physical s.file) (hN : 0 < lenPhysicalG s.physical.bs)
    (h3 : 3 < cover) :
    ∃ s2, storePhase2 s = .ok s2 ∧
      s2.bs = s.bs ∧ s2.types = s.types ∧ s2.user = s.user ∧
      s2.header = s.header ∧ s2.gen = s.gen ∧
      s2.streams.entries = s.streams.entries ∧ s2.streams.dirty = false ∧
      PF cover s2.physical s2.file ∧
      s.physical.max ≤ s2.physical.max ∧
      s.file.length ≤ s2.file.length ∧
      s2.physical.blocks.length = s.physical.blocks.length ∧
      s2.physical.blocks.map ppShape = s.physical.blocks.map ppShape ∧
      s2.physical.bs = s.physical.bs ∧
      readSlot s2.file 0 = readSlot s.file 0 ∧
      (s.streams.dirty = true →
        pnrP s2.physical 3 ≠ 0 ∧ pnrP s2.physical 3 < s2.file.length ∧
        readSlot s2.file (pnrP s2.physical 3) =
          some (.stS s.streams.entries)) ∧
      (∀ m, m < cover → (s.streams.dirty = true → m ≠ 3) →
        pnrP s2.physical m = pnrP s.physical m) ∧
      (∀ j, j < s.file.length → j ≠ 0 →
        (∃ m, m < cover ∧ pnrP s.physical m = j ∧
          (s.streams.dirty = true → m ≠ 3)) →
        readSlot s2.file j = readSlot s.file j) ∧
      (∀ i pg', s2.physical.blocks.get? i = some pg' → pg'.dirty = false →
        s.physical.blocks.get? i = some pg') := by
  obtain ⟨hc, hcov, hz, hnd, hfm, hem, hef, heinj, hlm, hf0⟩ := hpf
  by_cases hd : s.streams.dirty
  · obtain ⟨p2, hset, h2bs, h2len, h2shape, h2c, h2maxmono, h2z, h2nd,
      h2fm, h2em, h2ef, h2einj, h2nr, hv0, hvmax, h2pres, hfresh,
      h2clean⟩ :=
      popSet_fresh s.physical 3 cover hcov hc hN h3 hz hnd hfm hem hef
        heinj
    set v := (s.physical.popFree).1 with hvdef
    obtain ⟨hw1, hw2, hw3, hw4, hw5⟩ :=
      readSlot_writeSlot s.file s.bs v (.stS s.streams.entries)
    have hraw : storeRaw s.file s.bs v (.stS s.streams.entries) =
        .ok (writeSlot s.file s.bs v (.stS s.streams.entries)) := by
      rw [storeRaw, if_neg hv0]
    have hrun : storePhase2 s = .ok { s with
        physical := p2,
        file := writeSlot s.file s.bs v (.stS s.streams.entries),
        streams := { s.streams with dirty := false, gen := s.gen } } := by
      simp only [storePhase2, hd, if_true, hset, except_bind_ok, hraw]
    refine ⟨_, hrun, rfl, rfl, rfl, rfl, rfl, rfl, rfl,
      ⟨h2c, by rw [h2len, h2bs]; exact hcov, h2z, h2nd, h2fm, h2em, h2ef,
        h2einj, ?_, Nat.lt_of_lt_of_le hf0 hw3⟩,
      h2maxmono, hw3, h2len, h2shape, h2bs,
      hw2 0 (Ne.symm hv0) hf0, ?_, ?_, ?_, h2clean⟩
    · exact Nat.le_trans hw4 (Nat.max_le.mpr
        ⟨Nat.le_trans hlm (Nat.succ_le_succ h2maxmono),
          Nat.succ_le_succ hvmax⟩)
    · intro _
      exact ⟨by rw [h2nr]; exact hv0, by rw [h2nr]; exact hw5,
        by rw [h2nr]; exact hw1⟩
    · intro m hm hm3
      exact h2pres m (hm3 hd)
    · intro j hj hj0 hex
      obtain ⟨m, hm, hpm, hm3⟩ := hex
      have hjv : j ≠ v := by
        intro h0
        exact (hfresh m hm) (by rw [hpm, h0])
      exact hw2 j hjv hj
  · have hbd : s.streams.dirty = false := by
      cases hbb : s.streams.dirty
      · rfl
      · exact absurd hbb hd
    have hrun : storePhase2 s = .ok s := by
      simp only [storePhase2, hbd, if_false, Bool.false_eq_true]
    refine ⟨s, hrun, rfl, rfl, rfl, rfl, rfl, rfl, hbd,
      ⟨hc, hcov, hz, hnd, hfm, hem, hef, heinj, hlm, hf0⟩, Nat.le_refl _,
      Nat.le_refl _, rfl, rfl, rfl, rfl, ?_, fun m _ _ => rfl,
      fun j _ _ _ => rfl, fun i pg' h _ => h⟩
    intro h0
    rw [h0] at hbd
    cases hbd

theorem find_blockNr_nodup (l : List TPage) (pg : TPage) (hmem : pg ∈ l)
    (hnd : (l.map (fun q => q.blockNr)).Nodup) :
    l.find? (fun q => q.blockNr = pg.blockNr) = some pg := by
  induction l with
  | nil => cases hmem
  | cons a rest ih =>
    rcases List.mem_cons.mp hmem with h1 | h1
    · subst h1
      rw [List.find?_cons, decide_eq_true (Eq.refl pg.blockNr)]
    · have hane : a.blockNr ≠ pg.blockNr := by
        simp only [List.map_cons, List.nodup_cons] at hnd
        intro h0
        exact hnd.1 (List.mem_map.mpr ⟨pg, h1, h0.symm⟩)
      rw [List.find?_cons, decide_eq_false hane]
      exact ih h1 (by
        simp only [List.map_cons, List.nodup_cons] at hnd
        exact hnd.2)

theorem findPage_eq (t : MTypes) (nr : Nat) (pg : TPage)
    (hmem : pg ∈ t.blocks) (hnr : pg.blockNr = nr)
    (hnd : (t.blocks.map (fun q => q.blockNr)).Nodup) :
    t.findPage nr = .ok pg := by
  rw [MTypes.findPage]
  subst hnr
  rw [find_blockNr_nodup t.blocks pg hmem hnd]

theorem clearDirty_facts (t : MTypes) (nr g : Nat) :
    (t.clearDirty nr g).bs = t.bs ∧ (t.clearDirty nr g).free = t.free ∧
    (t.clearDirty nr g).blocks.map tpCore = t.blocks.map tpCore ∧
    (t.clearDirty nr g).blocks.length = t.blocks.length ∧
    (∀ i pg', (t.clearDirty nr g).blocks.get? i = some pg' →
      ∃ pg, t.blocks.get? i = some pg ∧ tpCore pg' = tpCore pg ∧
        (pg'.dirty = true → pg.dirty = true ∧ pg.blockNr ≠ nr)) := by
  refine ⟨rfl, rfl, ?_,
    by show (t.blocks.map _).length = _; rw [List.length_map], ?_⟩
  · show (t.blocks.map _).map tpCore = _
    rw [List.map_map]
    apply List.map_congr_left
    intro pg _
    show tpCore (if pg.blockNr = nr then
      { pg with dirty := false, gen := g } else pg) = tpCore pg
    by_cases h : pg.blockNr = nr
    · rw [if_pos h]
      rfl
    · rw [if_neg h]
  · intro i pg' hpg'
    have : (t.blocks.map (fun pg => if pg.blockNr = nr then
        { pg with dirty := false, gen := g } else pg)).get? i
        = some pg' := hpg'
    rw [List.get?_map] at this
    cases hget : t.blocks.get? i with
    | none => rw [hget] at this; cases this
    | some pg =>
      rw [hget] at this
      rw [show Option.map (fun pg : TPage => if pg.blockNr = nr then
          { pg with dirty := false, gen := g } else pg) (some pg) =
          some (if pg.blockNr = nr then
            { pg with dirty := false, gen := g } else pg) from rfl] at this
      refine ⟨pg, rfl, ?_, ?_⟩
      · rw [← Option.some_inj.mp this]
        by_cases h : pg.blockNr = nr
        · rw [if_pos h]
          rfl
        · rw [if_neg h]
      · intro hd
        by_cases h : pg.blockNr = nr
        · rw [if_pos h] at this
          rw [← Option.some_inj.mp this] at hd
          cases hd
        · rw [if_neg h] at this
          rw [← Option.some_inj.mp this] at hd
          exact ⟨hd, h⟩

theorem tpCore_fields {a b : TPage} (h : tpCore a = tpCore b) :
    a.blockNr = b.blockNr ∧ a.startNr = b.startNr ∧ a.nextNr = b.nextNr ∧
    a.entries = b.entries := by
  rw [tpCore, tpCore, Prod.mk.injEq, Prod.mk.injEq, Prod.mk.injEq] at h
  exact ⟨h.1, h.2.1, h.2.2.1, h.2.2.2⟩

theorem tySlot_of_core {a b : TPage} (h : tpCore a = tpCore b) :
    tySlot a = tySlot b := by
  obtain ⟨_, h2, h3, h4⟩ := tpCore_fields h
  rw [tySlot, tySlot, h2, h3, h4]

theorem mem_of_core_map {l l2 : List TPage}
    (h : l2.map tpCore = l.map tpCore) (pg : TPage) (hm : pg ∈ l2) :
    ∃ q ∈ l, tpCore q = tpCore pg := by
  have h2 : tpCore pg ∈ l.map tpCore := by
    rw [← h]
    exact List.mem_map_of_mem _ hm
  obtain ⟨q, hq, he⟩ := List.mem_map.mp h2
  exact ⟨q, hq, he⟩

theorem blockNr_map_of_core {l l2 : List TPage}
    (h : l2.map tpCore = l.map tpCore) :
    l2.map (fun pg => pg.blockNr) = l.map (fun pg => pg.blockNr) := by
  have h2 := congrArg (List.map Prod.fst) h
  rw [List.map_map, List.map_map] at h2
  exact h2

theorem storeTypesGo_ok (bs g : Nat) (todo : List Nat) (t : MTypes)
    (p : MPhysical) (f : MFile) (cover : Nat)
    (hpf : PF cover p f) (hN : 0 < lenPhysicalG p.bs)
    (htodo : ∀ nr ∈ todo, nr < cover)
    (htmem : ∀ nr ∈ todo, nr ∈ t.blocks.map (fun pg => pg.blockNr))
    (htnd : todo.Nodup)
    (hbnd : (t.blocks.map (fun pg => pg.blockNr)).Nodup) :
    ∃ t' p' f', storeTypesGo bs g todo t p f = .ok (t', p', f') ∧
      t'.bs = t.bs ∧ t'.free = t.free ∧
      t'.blocks.map tpCore = t.blocks.map tpCore ∧
      t'.blocks.length = t.blocks.length ∧
      (∀ i pg', t'.blocks.get? i = some pg' →
        ∃ pg, t.blocks.get? i = some pg ∧ tpCore pg' = tpCore pg ∧
          (pg'.dirty = true → pg.dirty = true ∧ pg.blockNr ∉ todo)) ∧
      PF cover p' f' ∧
      p.max ≤ p'.max ∧ f.length ≤ f'.length ∧
      p'.blocks.length = p.blocks.length ∧
      p'.blocks.map ppShape = p.blocks.map ppShape ∧
      p'.bs = p.bs ∧
      readSlot f' 0 = readSlot f 0 ∧
      (∀ nr ∈ todo, ∃ pg, pg ∈ t.blocks ∧ pg.blockNr = nr ∧
        pnrP p' nr ≠ 0 ∧ pnrP p' nr < f'.length ∧
        readSlot f' (pnrP p' nr) = some (tySlot pg)) ∧
      (∀ m, m < cover → m ∉ todo → pnrP p' m = pnrP p m) ∧
      (∀ j, j < f.length → j ≠ 0 →
        (∃ m, m < cover ∧ pnrP p m = j ∧ m ∉ todo) →
        readSlot f' j = readSlot f j) ∧
      (∀ i pg', p'.blocks.get? i = some pg' → pg'.dirty = false →
        p.blocks.get? i = some pg') := by
  induction todo generalizing t p f with
  | nil =>
    exact ⟨t, p, f, rfl, rfl, rfl, rfl, rfl,
      fun i pg' h => ⟨pg', h, rfl, fun hd => ⟨hd, by simp⟩⟩, hpf,
      Nat.le_refl _, Nat.le_refl _, rfl, rfl, rfl, rfl, by simp,
      fun m _ _ => rfl, fun j _ _ _ => rfl, fun i pg' h _ => h⟩
  | cons nr rest ih =>
    obtain ⟨hc, hcov, hz, hnd, hfm, hem, hef, heinj, hlm, hf0⟩ := hpf
    have hnrcov : nr < cover := htodo nr (by simp)
    obtain ⟨pg, hpgmem, hpgnr⟩ : ∃ pg ∈ t.blocks, pg.blockNr = nr := by
      obtain ⟨pg, hm, he⟩ := List.mem_map.mp (htmem nr (by simp))
      exact ⟨pg, hm, he⟩
    have hfind : t.findPage nr = .ok pg := findPage_eq t nr pg hpgmem hpgnr
      hbnd
    obtain ⟨p2, hset, h2bs, h2len, h2shape, h2c, h2maxmono, h2z, h2nd,
      h2fm, h2em, h2ef, h2einj, h2nr, hv0, hvmax, h2pres, hfresh,
      h2clean⟩ :=
      popSet_fresh p nr cover hcov hc hN hnrcov hz hnd hfm hem hef heinj
    set v := (p.popFree).1 with hvdef
    obtain ⟨hw1, hw2, hw3, hw4, hw5⟩ :=
      readSlot_writeSlot f bs v (.tyS pg.startNr pg.nextNr pg.entries)
    have hraw : storeRaw f bs v (.tyS pg.startNr pg.nextNr pg.entries) =
        .ok (writeSlot f bs v (.tyS pg.startNr pg.nextNr pg.entries)) := by
      rw [storeRaw, if_neg hv0]
    set f1 := writeSlot f bs v (.tyS pg.startNr pg.nextNr pg.entries)
      with hf1def
    obtain ⟨hcd_bs, hcd_free, hcd_core, hcd_len, hcd_get⟩ :=
      clearDirty_facts t nr g
    have hpf2 : PF cover p2 f1 := by
      refine ⟨h2c, by rw [h2len, h2bs]; exact hcov, h2z, h2nd, h2fm, h2em,
        h2ef, h2einj, ?_, Nat.lt_of_lt_of_le hf0 hw3⟩
      exact Nat.le_trans hw4 (Nat.max_le.mpr
        ⟨Nat.le_trans hlm (Nat.succ_le_succ h2maxmono),
          Nat.succ_le_succ hvmax⟩)
    have hrestcov : ∀ m ∈ rest, m < cover := fun m hm =>
      htodo m (by simp [hm])
    have hrestmem : ∀ m ∈ rest,
        m ∈ (t.clearDirty nr g).blocks.map (fun q => q.blockNr) := by
      intro m hm
      rw [blockNr_map_of_core hcd_core]
      exact htmem m (by simp [hm])
    have hrestnd : rest.Nodup := (List.nodup_cons.mp htnd).2
    have hnrrest : nr ∉ rest := (List.nodup_cons.mp htnd).1
    have hbnd2 : ((t.clearDirty nr g).blocks.map
        (fun q => q.blockNr)).Nodup := by
      rw [blockNr_map_of_core hcd_core]
      exact hbnd
    obtain ⟨t', p', f', hrun', ht'bs, ht'free, ht'core, ht'len, ht'get,
      hpf', h'maxmono, h'flen, h'plen, h'pshape, h'pbs, h'slot0, h'touch,
      h'keep, h'fkeep, h'clean⟩ :=
      ih (t.clearDirty nr g) p2 f1 hpf2 (by rw [h2bs]; exact hN) hrestcov
        hrestmem hrestnd hbnd2
    have hvkeep : pnrP p' nr = v := by
      rw [h'keep nr hnrcov hnrrest, h2nr]
    have hvslot : readSlot f' v = some (tySlot pg) := by
      rw [h'fkeep v hw5 hv0 ⟨nr, hnrcov, h2nr, hnrrest⟩]
      exact hw1
    refine ⟨t', p', f', ?_, by rw [ht'bs, hcd_bs],
      by rw [ht'free, hcd_free], by rw [ht'core, hcd_core],
      by rw [ht'len, hcd_len], ?_, hpf',
      Nat.le_trans h2maxmono h'maxmono, Nat.le_trans hw3 h'flen,
      by rw [h'plen, h2len], by rw [h'pshape, h2shape],
      by rw [h'pbs, h2bs], by rw [h'slot0]; exact hw2 0 (Ne.symm hv0) hf0,
      ?_, ?_, ?_, ?_⟩
    · show storeTypesGo bs g (nr :: rest) t p f = _
      simp only [storeTypesGo, hset, except_bind_ok, hfind, hraw, hrun']
    · intro i pg' hpg'
      obtain ⟨pgm, hpgm, hcm, hdm⟩ := ht'get i pg' hpg'
      obtain ⟨pg0, hpg0, hc0, hd0⟩ := hcd_get i pgm hpgm
      refine ⟨pg0, hpg0, by rw [hcm, hc0], ?_⟩
      intro hd'
      obtain ⟨hdm1, hdm2⟩ := hdm hd'
      obtain ⟨hd01, hd02⟩ := hd0 hdm1
      refine ⟨hd01, ?_⟩
      intro hmem0
      rcases List.mem_cons.mp hmem0 with h0 | h0
      · exact hd02 h0
      · have : pgm.blockNr = pg0.blockNr := (tpCore_fields hc0).1
        rw [← this] at h0
        exact hdm2 h0
    · intro m hm
      rcases List.mem_cons.mp hm with h0 | h0
      · subst h0
        exact ⟨pg, hpgmem, hpgnr, by rw [hvkeep]; exact hv0,
          by rw [hvkeep]; exact Nat.lt_of_lt_of_le hw5 h'flen,
          by rw [hvkeep]; exact hvslot⟩
      · obtain ⟨pgm, hpgm, hpgnr', hnz, hlt, hslot⟩ := h'touch m h0
        obtain ⟨q, hq, hcq⟩ := mem_of_core_map hcd_core pgm hpgm
        refine ⟨q, hq, ?_, hnz, hlt, ?_⟩
        · rw [(tpCore_fields hcq).1, hpgnr']
        · rw [hslot]
          rw [tySlot_of_core hcq]
    · intro m hm hmr
      have hmnr : m ≠ nr := fun h0 => hmr (by simp [h0])
      rw [h'keep m hm (fun h0 => hmr (by simp [h0])), h2pres m hmnr]
    · intro j hj hj0 hex
      obtain ⟨m, hm, hpm, hmr⟩ := hex
      have hmnr : m ≠ nr := fun h0 => hmr (by simp [h0])
      have hjv : j ≠ v := by
        intro h0
        exact (hfresh m hm) (by rw [hpm, h0])
      rw [h'fkeep j (Nat.lt_of_lt_of_le hj hw3) hj0
        ⟨m, hm, by rw [h2pres m hmnr]; exact hpm,
          fun h0 => hmr (by simp [h0])⟩]
      exact hw2 j hjv hj
    · intro i pg' hpg' hclean
      exact h2clean i pg' (h'clean i pg' hpg' hclean) hclean

theorem storeAssignGo_fr (todo : List Nat) (p : MPhysical) (f : MFile)
    (cover : Nat) (hpf : PF cover p f) (hN : 0 < lenPhysicalG p.bs)
    (htodo : ∀ nr ∈ todo, nr < cover) (htnd : todo.Nodup) :
    ∃ p', storeAssignGo todo p = .ok p' ∧
      PF cover p' f ∧
      p.max ≤ p'.max ∧
      p'.blocks.length = p.blocks.length ∧
      p'.blocks.map ppShape = p.blocks.map ppShape ∧
      p'.bs = p.bs ∧
      (∀ nr ∈ todo, pnrP p' nr ≠ 0) ∧
      (∀ m, m < cover → m ∉ todo → pnrP p' m = pnrP p m) ∧
      (∀ i pg', p'.blocks.get? i = some pg' → pg'.dirty = false →
        p.blocks.get? i = some pg') := by
  induction todo generalizing p with
  | nil =>
    exact ⟨p, rfl, hpf, Nat.le_refl _, rfl, rfl, rfl, by simp,
      fun m _ _ => rfl, fun i pg' h _ => h⟩
  | cons nr rest ih =>
    obtain ⟨hc, hcov, hz, hnd, hfm, hem, hef, heinj, hlm, hf0⟩ := hpf
    have hnrcov : nr < cover := htodo nr (by simp)
    obtain ⟨p2, hset, h2bs, h2len, h2shape, h2c, h2maxmono, h2z, h2nd,
      h2fm, h2em, h2ef, h2einj, h2nr, hv0, hvmax, h2pres, hfresh,
      h2clean⟩ :=
      popSet_fresh p nr cover hcov hc hN hnrcov hz hnd hfm hem hef heinj
    have hpf2 : PF cover p2 f := by
      refine ⟨h2c, by rw [h2len, h2bs]; exact hcov, h2z, h2nd, h2fm, h2em,
        h2ef, h2einj, Nat.le_trans hlm (Nat.succ_le_succ h2maxmono), hf0⟩
    have hnrrest : nr ∉ rest := (List.nodup_cons.mp htnd).1
    obtain ⟨p', hrun', hpf', h'maxmono, h'len, h'shape, h'bs, h'touch,
      h'keep, h'clean⟩ :=
      ih p2 hpf2 (by rw [h2bs]; exact hN)
        (fun m hm => htodo m (by simp [hm])) (List.nodup_cons.mp htnd).2
    refine ⟨p', ?_, hpf', Nat.le_trans h2maxmono h'maxmono,
      by rw [h'len, h2len], by rw [h'shape, h2shape], by rw [h'bs, h2bs],
      ?_, ?_, ?_⟩
    · show storeAssignGo (nr :: rest) p = _
      simp only [storeAssignGo, hset, except_bind_ok, hrun']
    · intro m hm
      rcases List.mem_cons.mp hm with h0 | h0
      · subst h0
        rw [h'keep m hnrcov hnrrest, h2nr]
        exact hv0
      · exact h'touch m h0
    · intro m hm hmr
      have hmnr : m ≠ nr := fun h0 => hmr (by simp [h0])
      rw [h'keep m hm (fun h0 => hmr (by simp [h0])), h2pres m hmnr]
    · intro i pg' hpg' hclean
      exact h2clean i pg' (h'clean i pg' hpg' hclean) hclean

theorem find_pblockNr_nodup (l : List PPage) (pg : PPage) (hmem : pg ∈ l)
    (hnd : (l.map (fun q => q.blockNr)).Nodup) :
    l.find? (fun q => q.blockNr = pg.blockNr) = some pg := by
  induction l with
  | nil => cases hmem
  | cons a rest ih =>
    rcases List.mem_cons.mp hmem with h1 | h1
    · subst h1
      rw [List.find?_cons, decide_eq_true (Eq.refl pg.blockNr)]
    · have hane : a.blockNr ≠ pg.blockNr := by
        simp only [List.map_cons, List.nodup_cons] at hnd
        intro h0
        exact hnd.1 (List.mem_map.mpr ⟨pg, h1, h0.symm⟩)
      rw [List.find?_cons, decide_eq_false hane]
      exact ih h1 (by
        simp only [List.map_cons, List.nodup_cons] at hnd
        exact hnd.2)

theorem pfindPage_eq (p : MPhysical) (nr : Nat) (pg : PPage)
    (hmem : pg ∈ p.blocks) (hnr : pg.blockNr = nr)
    (hnd : (p.blocks.map (fun q => q.blockNr)).Nodup) :
    p.findPage nr = .ok pg := by
  rw [MPhysical.findPage]
  subst hnr
  rw [find_pblockNr_nodup p.blocks pg hmem hnd]

theorem ppCore_fields {a b : PPage} (h : ppCore a = ppCore b) :
    a.blockNr = b.blockNr ∧ a.startNr = b.startNr ∧ a.nextNr = b.nextNr ∧
    a.entries = b.entries := by
  rw [ppCore, ppCore, Prod.mk.injEq, Prod.mk.injEq, Prod.mk.injEq] at h
  exact ⟨h.1, h.2.1, h.2.2.1, h.2.2.2⟩

theorem phSlot_of_core {a b : PPage} (h : ppCore a = ppCore b) :
    phSlot a = phSlot b := by
  obtain ⟨_, h2, h3, h4⟩ := ppCore_fields h
  rw [phSlot, phSlot, h2, h3, h4]

theorem pClearDirty_facts (p : MPhysical) (nr g : Nat) :
    (p.clearDirty nr g).bs = p.bs ∧ (p.clearDirty nr g).free = p.free ∧
    (p.clearDirty nr g).max = p.max ∧
    (p.clearDirty nr g).blocks.map ppCore = p.blocks.map ppCore ∧
    (p.clearDirty nr g).blocks.length = p.blocks.length ∧
    (∀ i pg', (p.clearDirty nr g).blocks.get? i = some pg' →
      ∃ pg, p.blocks.get? i = some pg ∧ ppCore pg' = ppCore pg ∧
        (pg'.dirty = true → pg.dirty = true ∧ pg.blockNr ≠ nr)) := by
  refine ⟨rfl, rfl, rfl, ?_,
    by show (p.blocks.map _).length = _; rw [List.length_map], ?_⟩
  · show (p.blocks.map _).map ppCore = _
    rw [List.map_map]
    apply List.map_congr_left
    intro pg _
    show ppCore (if pg.blockNr = nr then
      { pg with dirty := false, gen := g } else pg) = ppCore pg
    by_cases h : pg.blockNr = nr
    · rw [if_pos h]
      rfl
    · rw [if_neg h]
  · intro i pg' hpg'
    have h2 : (p.blocks.map (fun pg => if pg.blockNr = nr then
        { pg with dirty := false, gen := g } else pg)).get? i
        = some pg' := hpg'
    rw [List.get?_map] at h2
    cases hget : p.blocks.get? i with
    | none => rw [hget] at h2; cases h2
    | some pg =>
      rw [hget] at h2
      rw [show Option.map (fun pg : PPage => if pg.blockNr = nr then
          { pg with dirty := false, gen := g } else pg) (some pg) =
          some (if pg.blockNr = nr then
            { pg with dirty := false, gen := g } else pg) from rfl] at h2
      refine ⟨pg, rfl, ?_, ?_⟩
      · rw [← Option.some_inj.mp h2]
        by_cases h : pg.blockNr = nr
        · rw [if_pos h]
          rfl
        · rw [if_neg h]
      · intro hd
        by_cases h : pg.blockNr = nr
        · rw [if_pos h] at h2
          rw [← Option.some_inj.mp h2] at hd
          cases hd
        · rw [if_neg h] at h2
          rw [← Option.some_inj.mp h2] at hd
          exact ⟨hd, h⟩

theorem physicalNr_of_pnrP (p : MPhysical) (nr : Nat)
    (h : pnrP p nr ≠ 0) : p.physicalNr nr = .ok (pnrP p nr) := by
  cases hv : p.physicalNr nr with
  | ok w =>
    rw [pnrP, hv]
    rfl
  | error e =>
    rw [pnrP, hv] at h
    simp [Except.toOption] at h

theorem physicalNr_of_cores (p1 p2 : MPhysical) (hbs : p1.bs = p2.bs)
    (hcore : p1.blocks.map ppCore = p2.blocks.map ppCore) (m : Nat) :
    p1.physicalNr m = p2.physicalNr m := by
  have hget : ∀ i, Option.map ppCore (p1.blocks.get? i) =
      Option.map ppCore (p2.blocks.get? i) := by
    intro i
    rw [← List.get?_map, ← List.get?_map, hcore]
  have hN2 : lenPhysicalG p2.bs = lenPhysicalG p1.bs := by rw [hbs]
  have h2 := hget (m / lenPhysicalG p1.bs)
  cases hg1 : p1.blocks.get? (m / lenPhysicalG p1.bs) with
  | none =>
    rw [hg1] at h2
    cases hg2 : p2.blocks.get? (m / lenPhysicalG p1.bs) with
    | none =>
      rw [MPhysical.physicalNr, MPhysical.physicalNr, hN2, hg1, hg2]
    | some q => rw [hg2] at h2; cases h2
  | some q1 =>
    rw [hg1] at h2
    cases hg2 : p2.blocks.get? (m / lenPhysicalG p1.bs) with
    | none => rw [hg2] at h2; cases h2
    | some q2 =>
      rw [hg2] at h2
      have hc : ppCore q1 = ppCore q2 := Option.some_inj.mp (by
        show some (ppCore q1) = some (ppCore q2)
        exact h2)
      obtain ⟨_, hs, _, he⟩ := ppCore_fields hc
      have hq2i : p2.blocks.get? (m / lenPhysicalG p2.bs) = some q2 := by
        rw [hN2]
        exact hg2
      rw [physicalNr_eq_of_get p1 m q1 hg1, physicalNr_eq_of_get p2 m q2
        hq2i]
      have hcont : PPage.containsNr p1.bs q1 m =
          PPage.containsNr p2.bs q2 m := by
        rw [PPage.containsNr, PPage.containsNr, PPage.endNr, PPage.endNr,
          hs, hbs]
      rw [hcont, hs, he]

theorem physContig_of_cores (p1 p2 : MPhysical) (hbs : p1.bs = p2.bs)
    (hcore : p1.blocks.map ppCore = p2.blocks.map ppCore)
    (h : physContig p2) : physContig p1 := by
  intro i pg hpg
  have hget : Option.map ppCore (p1.blocks.get? i) =
      Option.map ppCore (p2.blocks.get? i) := by
    rw [← List.get?_map, ← List.get?_map, hcore]
  rw [hpg] at hget
  cases hg2 : p2.blocks.get? i with
  | none => rw [hg2] at hget; cases hget
  | some q =>
    rw [hg2] at hget
    have hc := Option.some_inj.mp (by
      show some (ppCore pg) = some (ppCore q)
      exact hget)
    obtain ⟨_, hs, _, he⟩ := ppCore_fields hc
    obtain ⟨h1, h2⟩ := h i q hg2
    rw [hbs, hs, he]
    exact ⟨h1, h2⟩

theorem pmem_of_core_map {l l2 : List PPage}
    (h : l2.map ppCore = l.map ppCore) (pg : PPage) (hm : pg ∈ l2) :
    ∃ q ∈ l, ppCore q = ppCore pg := by
  have h2 : ppCore pg ∈ l.map ppCore := by
    rw [← h]
    exact List.mem_map_of_mem _ hm
  obtain ⟨q, hq, he⟩ := List.mem_map.mp h2
  exact ⟨q, hq, he⟩

theorem pblockNr_map_of_core {l l2 : List PPage}
    (h : l2.map ppCore = l.map ppCore) :
    l2.map (fun pg => pg.blockNr) = l.map (fun pg => pg.blockNr) := by
  have h2 := congrArg (List.map Prod.fst) h
  rw [List.map_map, List.map_map] at h2
  exact h2

theorem storePhysGo_ok (bs g : Nat) (todo : List Nat) (p : MPhysical)
    (f : MFile) (cover : Nat) (hpf : PF cover p f)
    (htodo : ∀ nr ∈ todo, nr < cover) (htnd : todo.Nodup)
    (hbnd : (p.blocks.map (fun q => q.blockNr)).Nodup)
    (htmem : ∀ nr ∈ todo, nr ∈ p.blocks.map (fun q => q.blockNr))
    (hdnz : ∀ nr ∈ todo, pnrP p nr ≠ 0) :
    ∃ p' f', storePhysGo bs g todo p f = .ok (p', f') ∧
      p'.bs = p.bs ∧ p'.free = p.free ∧ p'.max = p.max ∧
      p'.blocks.map ppCore = p.blocks.map ppCore ∧
      p'.blocks.length = p.blocks.length ∧
      (∀ m, pnrP p' m = pnrP p m) ∧
      (∀ i pg', p'.blocks.get? i = some pg' →
        ∃ pg, p.blocks.get? i = some pg ∧ ppCore pg' = ppCore pg ∧
          (pg'.dirty = true → pg.dirty = true ∧ pg.blockNr ∉ todo)) ∧
      PF cover p' f' ∧
      f.length ≤ f'.length ∧
      readSlot f' 0 = readSlot f 0 ∧
      (∀ nr ∈ todo, ∃ pg, pg ∈ p.blocks ∧ pg.blockNr = nr ∧
        pnrP p nr < f'.length ∧
        readSlot f' (pnrP p nr) = some (phSlot pg)) ∧
      (∀ j, j < f.length → j ≠ 0 →
        (∃ m, m < cover ∧ pnrP p m = j ∧ m ∉ todo) →
        readSlot f' j = readSlot f j) := by
  induction todo generalizing p f with
  | nil =>
    exact ⟨p, f, rfl, rfl, rfl, rfl, rfl, rfl, fun m => rfl,
      fun i pg' h => ⟨pg', h, rfl, fun hd => ⟨hd, by simp⟩⟩, hpf,
      Nat.le_refl _, rfl, by simp, fun j _ _ _ => rfl⟩
  | cons nr rest ih =>
    obtain ⟨hc, hcov, hz, hnd, hfm, hem, hef, heinj, hlm, hf0⟩ := hpf
    have hnrcov : nr < cover := htodo nr (by simp)
    have hw0 : pnrP p nr ≠ 0 := hdnz nr (by simp)
    set w := pnrP p nr with hwdef
    have hlook : p.physicalNr nr = .ok w := physicalNr_of_pnrP p nr hw0
    obtain ⟨pg, hpgmem, hpgnr⟩ : ∃ pg ∈ p.blocks, pg.blockNr = nr := by
      obtain ⟨pg, hm, he⟩ := List.mem_map.mp (htmem nr (by simp))
      exact ⟨pg, hm, he⟩
    have hfind : p.findPage nr = .ok pg := pfindPage_eq p nr pg hpgmem
      hpgnr hbnd
    obtain ⟨hw1, hw2, hw3, hw4, hw5⟩ :=
      readSlot_writeSlot f bs w (.phS pg.startNr pg.nextNr pg.entries)
    have hraw : storeRaw f bs w (.phS pg.startNr pg.nextNr pg.entries) =
        .ok (writeSlot f bs w (.phS pg.startNr pg.nextNr pg.entries)) := by
      rw [storeRaw, if_neg hw0]
    set f1 := writeSlot f bs w (.phS pg.startNr pg.nextNr pg.entries)
      with hf1def
    obtain ⟨hcd_bs, hcd_free, hcd_max, hcd_core, hcd_len, hcd_get⟩ :=
      pClearDirty_facts p nr g
    have hcd_pnr : ∀ m, pnrP (p.clearDirty nr g) m = pnrP p m := by
      intro m
      rw [pnrP, pnrP, physicalNr_of_cores (p.clearDirty nr g) p hcd_bs
        hcd_core m]
    have hpf2 : PF cover (p.clearDirty nr g) f1 := by
      refine ⟨physContig_of_cores _ p hcd_bs hcd_core hc,
        by rw [hcd_len, hcd_bs]; exact hcov,
        by rw [hcd_free]; exact hz, by rw [hcd_free]; exact hnd, ?_, ?_,
        ?_, ?_, ?_, Nat.lt_of_lt_of_le hf0 hw3⟩
      · intro v hv
        rw [hcd_free] at hv
        rw [hcd_max]
        exact hfm v hv
      · intro m hm
        rw [hcd_pnr, hcd_max]
        exact hem m hm
      · intro m hm
        rw [hcd_pnr, hcd_free]
        exact hef m hm
      · intro a b ha hb h0 hab
        rw [hcd_pnr] at h0 hab
        rw [hcd_pnr] at hab
        exact heinj a b ha hb h0 hab
      · rw [hcd_max]
        exact Nat.le_trans hw4 (Nat.max_le.mpr
          ⟨hlm, Nat.succ_le_succ (hem nr hnrcov)⟩)
    have hnrrest : nr ∉ rest := (List.nodup_cons.mp htnd).1
    obtain ⟨p', f', hrun', h'bs, h'free, h'max, h'core, h'len, h'pnr,
      h'get, hpf', h'flen, h'slot0, h'touch, h'fkeep⟩ :=
      ih (p.clearDirty nr g) f1 hpf2
        (fun m hm => htodo m (by simp [hm])) (List.nodup_cons.mp htnd).2
        (by rw [pblockNr_map_of_core hcd_core]; exact hbnd)
        (by
          intro m hm
          rw [pblockNr_map_of_core hcd_core]
          exact htmem m (by simp [hm]))
        (by
          intro m hm
          rw [hcd_pnr]
          exact hdnz m (by simp [hm]))
    have hwslot : readSlot f' w = some (phSlot pg) := by
      rw [h'fkeep w hw5 hw0 ⟨nr, hnrcov, by rw [hcd_pnr], hnrrest⟩]
      exact hw1
    refine ⟨p', f', ?_, by rw [h'bs, hcd_bs], by rw [h'free, hcd_free],
      by rw [h'max, hcd_max], by rw [h'core, hcd_core],
      by rw [h'len, hcd_len], ?_, ?_, hpf', Nat.le_trans hw3 h'flen,
      by rw [h'slot0]; exact hw2 0 (Ne.symm hw0) hf0, ?_, ?_⟩
    · show storePhysGo bs g (nr :: rest) p f = _
      simp only [storePhysGo, hlook, except_bind_ok, hfind, hraw, hrun']
    · intro m
      rw [h'pnr, hcd_pnr]
    · intro i pg' hpg'
      obtain ⟨pgm, hpgm, hcm, hdm⟩ := h'get i pg' hpg'
      obtain ⟨pg0, hpg0, hc0, hd0⟩ := hcd_get i pgm hpgm
      refine ⟨pg0, hpg0, by rw [hcm, hc0], ?_⟩
      intro hd'
      obtain ⟨hdm1, hdm2⟩ := hdm hd'
      obtain ⟨hd01, hd02⟩ := hd0 hdm1
      refine ⟨hd01, ?_⟩
      intro hmem0
      rcases List.mem_cons.mp hmem0 with h0 | h0
      · exact hd02 h0
      · have : pgm.blockNr = pg0.blockNr := (ppCore_fields hc0).1
        rw [← this] at h0
        exact hdm2 h0
    · intro m hm
      rcases List.mem_cons.mp hm with h0 | h0
      · subst h0
        exact ⟨pg, hpgmem, hpgnr, Nat.lt_of_lt_of_le hw5 h'flen, hwslot⟩
      · obtain ⟨pgm, hpgm, hpgnr', hlt, hslot⟩ := h'touch m h0
        obtain ⟨q, hq, hcq⟩ := pmem_of_core_map hcd_core pgm hpgm
        rw [hcd_pnr] at hlt hslot
        refine ⟨q, hq, ?_, hlt, ?_⟩
        · rw [(ppCore_fields hcq).1, hpgnr']
        · rw [hslot, phSlot_of_core hcq]
    · intro j hj hj0 hex
      obtain ⟨m, hm, hpm, hmr⟩ := hex
      have hmnr : m ≠ nr := fun h0 => hmr (by simp [h0])
      have hjw : j ≠ w := by
        intro h0
        rw [h0, hwdef] at hpm
        have hj00 : pnrP p m ≠ 0 := by rw [hpm, ← hwdef]; exact hw0
        exact hmnr (heinj m nr hm hnrcov hj00 hpm)
      rw [h'fkeep j (Nat.lt_of_lt_of_le hj hw3) hj0
        ⟨m, hm, by rw [hcd_pnr]; exact hpm, fun h0 => hmr (by simp [h0])⟩]
      exact hw2 j hjw hj

theorem readSlot_set0 (f : MFile) (sl : Slot) (hf0 : 0 < f.length) :
    readSlot (f.set 0 sl) 0 = some sl ∧
    (∀ j, j ≠ 0 → readSlot (f.set 0 sl) j = readSlot f j) ∧
    (f.set 0 sl).length = f.length := by
  refine ⟨?_, ?_, by simp⟩
  · show (f.set 0 sl).get? 0 = some sl
    rw [List.get?_eq_getElem?, List.getElem?_set]
    simp [hf0]
  · intro j hj
    show (f.set 0 sl).get? j = f.get? j
    rw [List.get?_eq_getElem?, List.getElem?_set, if_neg (by omega),
      List.get?_eq_getElem?]

theorem storeLow_ok (s : MAlloc) (t p st : Nat) (h : MHeader)
    (hrd : readSlot s.file 0 = some (.hdrS h)) (hf0 : 0 < s.file.length) :
    ∃ s', s.storeLow t p st = .ok s' ∧
      s'.header = { s.header with
        lowTypes := t, lowPhysical := p, lowStreams := st } ∧
      s'.file = s.file.set 0 (.hdrS { h with
        lowTypes := t, lowPhysical := p, lowStreams := st }) ∧
      s'.bs = s.bs ∧ s'.types = s.types ∧ s'.physical = s.physical ∧
      s'.streams = s.streams ∧ s'.user = s.user ∧ s'.gen = s.gen ∧
      readSlot s'.file 0 = some (.hdrS { h with
        lowTypes := t, lowPhysical := p, lowStreams := st }) ∧
      (∀ j, j ≠ 0 → readSlot s'.file j = readSlot s.file j) ∧
      s'.file.length = s.file.length := by
  obtain ⟨hs1, hs2, hs3⟩ := readSlot_set0 s.file (.hdrS { h with
    lowTypes := t, lowPhysical := p, lowStreams := st }) hf0
  refine ⟨{ s with
      header := { s.header with lowTypes := t, lowPhysical := p, lowStreams := st }
      file := s.file.set 0 (.hdrS { h with lowTypes := t, lowPhysical := p, lowStreams := st }) },
    by rw [MAlloc.storeLow, hrd], rfl, rfl, rfl, rfl, rfl, rfl, rfl, rfl,
    hs1, hs2, hs3⟩

theorem storeHigh_ok (s : MAlloc) (t p st : Nat) (h : MHeader)
    (hrd : readSlot s.file 0 = some (.hdrS h)) (hf0 : 0 < s.file.length) :
    ∃ s', s.storeHigh t p st = .ok s' ∧
      s'.header = { s.header with
        highTypes := t, highPhysical := p, highStreams := st } ∧
      s'.file = s.file.set 0 (.hdrS { h with
        highTypes := t, highPhysical := p, highStreams := st }) ∧
      s'.bs = s.bs ∧ s'.types = s.types ∧ s'.physical = s.physical ∧
      s'.streams = s.streams ∧ s'.user = s.user ∧ s'.gen = s.gen ∧
      readSlot s'.file 0 = some (.hdrS { h with
        highTypes := t, highPhysical := p, highStreams := st }) ∧
      (∀ j, j ≠ 0 → readSlot s'.file j = readSlot s.file j) ∧
      s'.file.length = s.file.length := by
  obtain ⟨hs1, hs2, hs3⟩ := readSlot_set0 s.file (.hdrS { h with
    highTypes := t, highPhysical := p, highStreams := st }) hf0
  refine ⟨{ s with
      header := { s.header with highTypes := t, highPhysical := p, highStreams := st }
      file := s.file.set 0 (.hdrS { h with highTypes := t, highPhysical := p, highStreams := st }) },
    by rw [MAlloc.storeHigh, hrd], rfl, rfl, rfl, rfl, rfl, rfl, rfl, rfl,
    hs1, hs2, hs3⟩

theorem storeState_ok (s : MAlloc) (st : MState) (h : MHeader)
    (hrd : readSlot s.file 0 = some (.hdrS h)) (hf0 : 0 < s.file.length) :
    ∃ s', s.storeState st = .ok s' ∧
      s'.header = { s.header with state := st } ∧
      s'.file = s.file.set 0 (.hdrS { h with state := st }) ∧
      s'.bs = s.bs ∧ s'.types = s.types ∧ s'.physical = s.physical ∧
      s'.streams = s.streams ∧ s'.user = s.user ∧ s'.gen = s.gen ∧
      readSlot s'.file 0 = some (.hdrS { h with state := st }) ∧
      (∀ j, j ≠ 0 → readSlot s'.file j = readSlot s.file j) ∧
      s'.file.length = s.file.length := by
  obtain ⟨hs1, hs2, hs3⟩ := readSlot_set0 s.file
    (.hdrS { h with state := st }) hf0
  refine ⟨{ s with
      header := { s.header with state := st }
      file := s.file.set 0 (.hdrS { h with state := st }) },
    by rw [MAlloc.storeState, hrd], rfl, rfl, rfl, rfl, rfl, rfl, rfl, rfl,
    hs1, hs2, hs3⟩

theorem chainOk_head (r : Nat) (m : List (Nat × Nat)) (h : chainOk r m) :
    ∃ nx rest, m = (r, nx) :: rest := by
  cases m with
  | nil => cases h
  | cons bn rest =>
    obtain ⟨b, nx⟩ := bn
    cases rest with
    | nil =>
      obtain ⟨h1, h2⟩ := h
      exact ⟨nx, [], by rw [h1]⟩
    | cons q tl =>
      obtain ⟨h1, _⟩ := h
      exact ⟨nx, q :: tl, by rw [h1]⟩

theorem mem_descUnused (used : Nat → Bool) (k x : Nat) :
    x ∈ descUnused used k ↔ x < k ∧ used x = false := by
  rw [descUnused, List.mem_reverse, List.mem_filter, List.mem_range]
  simp

theorem descUnused_nodup (used : Nat → Bool) (k : Nat) :
    (descUnused used k).Nodup := by
  rw [descUnused, List.nodup_reverse]
  exact List.Nodup.filter _ (List.nodup_range k)

theorem physicalNr_inv (p : MPhysical) (m v : Nat)
    (h : p.physicalNr m = .ok v) : ∃ pg, pg ∈ p.blocks ∧ v ∈ pg.entries := by
  rw [MPhysical.physicalNr] at h
  split at h
  · exact absurd h (by simp)
  · rename_i pg hget
    split at h
    · split at h
      · rename_i w hw
        injection h with h
        subst h
        exact ⟨pg, List.get?_mem hget, List.get?_mem hw⟩
      · exact absurd h (by simp)
    · exact absurd h (by simp)

theorem used_of_pnrP (p : MPhysical) (m : Nat) (h0 : pnrP p m ≠ 0) :
    p.used (pnrP p m) = true := by
  obtain ⟨pg, hpg, hmem⟩ := physicalNr_inv p m (pnrP p m)
    (physicalNr_of_pnrP p m h0)
  rw [MPhysical.used]
  simp only [Bool.or_eq_true, List.any_eq_true]
  right
  refine ⟨pg, hpg, pnrP p m, hmem, ?_⟩
  simp [h0]

theorem used_zero (p : MPhysical) (hne : p.blocks ≠ []) :
    p.used 0 = true := by
  rw [MPhysical.used]
  simp only [Bool.or_eq_true, Bool.and_eq_true]
  left
  simp [List.isEmpty_iff, hne]

theorem storePhase8_ok (s : MAlloc) (hbs0 : 0 < s.bs)
    (hpbs : s.physical.bs = s.bs) (hpne : s.physical.blocks ≠ []) :
    ∃ s9, storePhase8 s = .ok s9 ∧
      s9.bs = s.bs ∧ s9.file = s.file ∧ s9.header = s.header ∧
      s9.types = s.types ∧ s9.streams = s.streams ∧ s9.gen = s.gen ∧
      s9.physical.blocks = s.physical.blocks ∧
      s9.physical.bs = s.physical.bs ∧
      s.physical.max ≤ s9.physical.max ∧
      0 ∉ s9.physical.free ∧ s9.physical.free.Nodup ∧
      (∀ v ∈ s9.physical.free, v < s.file.length) ∧
      (∀ m, pnrP s.physical m ≠ 0 →
        pnrP s.physical m ∉ s9.physical.free) ∧
      (∀ kv ∈ s9.user, kv ∈ s.user) ∧
      (s9.user.map Prod.fst).Sublist (s.user.map Prod.fst) ∧
      ((s.user.map Prod.fst).Nodup → (s9.user.map Prod.fst).Nodup) := by
  have hk : s.file.length * s.bs / s.physical.bs = s.file.length := by
    rw [hpbs]
    exact Nat.mul_div_cancel _ hbs0
  have hspec := physFreeLoop_spec s.physical.used
    (s.file.length * s.bs / s.physical.bs) [] s.physical.max
  have hphys : s.physical.initFreeList (s.file.length * s.bs) =
      { s.physical with
        free := descUnused s.physical.used s.file.length
        max := Nat.max s.physical.max (largestUsedBelow s.physical.used
          s.file.length) } := by
    rw [MPhysical.initFreeList, hspec, hk]
    rfl
  refine ⟨MAlloc.retainBlocks { s with physical := { s.physical with
      free := descUnused s.physical.used s.file.length
      max := Nat.max s.physical.max (largestUsedBelow s.physical.used
        s.file.length) } } (fun _ v => !v.discard),
    by rw [storePhase8, hphys], rfl, rfl, rfl, rfl, rfl, rfl,
    rfl, rfl, Nat.le_max_left _ _, ?_, descUnused_nodup _ _, ?_, ?_, ?_,
    ?_, ?_⟩
  · show 0 ∉ descUnused s.physical.used s.file.length
    intro h0
    rw [mem_descUnused] at h0
    rw [used_zero s.physical hpne] at h0
    cases h0.2
  · intro v hv
    have hv2 : v ∈ descUnused s.physical.used s.file.length := hv
    rw [mem_descUnused] at hv2
    exact hv2.1
  · intro m h0 hmem
    have hm2 : pnrP s.physical m ∈
        descUnused s.physical.used s.file.length := hmem
    rw [mem_descUnused] at hm2
    rw [used_of_pnrP s.physical m h0] at hm2
    cases hm2.2
  · intro kv hkv
    exact List.mem_filter.mp hkv |>.1
  · exact List.Sublist.map _ (List.filter_sublist _)
  · intro hnd
    exact hnd.sublist (List.Sublist.map _ (List.filter_sublist _))

theorem iterDirty_sublist_t (t : MTypes) :
    t.iterDirty.Sublist (t.blocks.map (fun pg => pg.blockNr)) := by
  rw [MTypes.iterDirty]
  exact List.Sublist.map _ (List.filter_sublist _)

theorem iterDirty_sublist_p (p : MPhysical) :
    p.iterDirty.Sublist (p.blocks.map (fun pg => pg.blockNr)) := by
  rw [MPhysical.iterDirty]
  exact List.Sublist.map _ (List.filter_sublist _)

theorem mem_iterDirty_t_intro (t : MTypes) (pg : TPage)
    (hm : pg ∈ t.blocks) (hd : pg.dirty = true) :
    pg.blockNr ∈ t.iterDirty := by
  rw [MTypes.iterDirty]
  exact List.mem_map_of_mem _ (List.mem_filter.mpr ⟨hm, by simp [hd]⟩)

theorem mem_iterDirty_p_intro (p : MPhysical) (pg : PPage)
    (hm : pg ∈ p.blocks) (hd : pg.dirty = true) :
    pg.blockNr ∈ p.iterDirty := by
  rw [MPhysical.iterDirty]
  exact List.mem_map_of_mem _ (List.mem_filter.mpr ⟨hm, by simp [hd]⟩)

theorem mem_iterDirty_t_elim (t : MTypes) (nr : Nat)
    (h : nr ∈ t.iterDirty) : ∃ pg, pg ∈ t.blocks ∧ pg.blockNr = nr ∧
      pg.dirty = true := by
  rw [MTypes.iterDirty] at h
  obtain ⟨pg, hpg, he⟩ := List.mem_map.mp h
  obtain ⟨hm, hd⟩ := List.mem_filter.mp hpg
  exact ⟨pg, hm, he, by simpa using hd⟩

theorem mem_iterDirty_p_elim (p : MPhysical) (nr : Nat)
    (h : nr ∈ p.iterDirty) : ∃ pg, pg ∈ p.blocks ∧ pg.blockNr = nr ∧
      pg.dirty = true := by
  rw [MPhysical.iterDirty] at h
  obtain ⟨pg, hpg, he⟩ := List.mem_map.mp h
  obtain ⟨hm, hd⟩ := List.mem_filter.mp hpg
  exact ⟨pg, hm, he, by simpa using hd⟩

theorem pblockNr_map_of_shape {l l2 : List PPage}
    (h : l2.map ppShape = l.map ppShape) :
    l2.map (fun pg => pg.blockNr) = l.map (fun pg => pg.blockNr) := by
  have h2 := congrArg (List.map Prod.fst) h
  rw [List.map_map, List.map_map] at h2
  exact h2

theorem ppShape_get (l l2 : List PPage)
    (h : l2.map ppShape = l.map ppShape) (i : Nat) :
    Option.map ppShape (l2.get? i) = Option.map ppShape (l.get? i) := by
  rw [← List.get?_map, ← List.get?_map, h]

theorem ppShape_fields {a b : PPage} (h : ppShape a = ppShape b) :
    a.blockNr = b.blockNr ∧ a.startNr = b.startNr ∧
    a.nextNr = b.nextNr := by
  rw [ppShape, ppShape, Prod.mk.injEq, Prod.mk.injEq] at h
  exact ⟨h.1, h.2.1, h.2.2⟩

theorem pcov_all (s : MAlloc) (W : WF s) :
    ∀ pg ∈ s.physical.blocks, pg.blockNr < coverP s.physical := by
  intro pg hpg
  obtain ⟨i, hi⟩ := List.mem_iff_get?.mp hpg
  have h := W.pcovP i pg hi
  have hiL : i < s.physical.blocks.length := by
    by_contra h0
    rw [List.get?_eq_none.mpr (by omega)] at hi
    cases hi
  have hL1 : 1 ≤ s.physical.blocks.length := by omega
  rw [coverP, W.pbs]
  have : Nat.max i 1 ≤ s.physical.blocks.length := by
    rw [Nat.max_le]
    omega
  calc pg.blockNr < Nat.max i 1 * lenPhysicalG s.bs := h
    _ ≤ s.physical.blocks.length * lenPhysicalG s.bs :=
      Nat.mul_le_mul_right _ this

theorem bs32_of_WF (s : MAlloc) (W : WF s) : 32 ≤ s.bs := by
  have h := W.nt6
  rw [lenTypesG] at h
  omega

theorem physicalNr_ok_of_covered (p : MPhysical) (m : Nat)
    (hc : physContig p) (hN : 0 < lenPhysicalG p.bs)
    (hm : m < p.blocks.length * lenPhysicalG p.bs) :
    p.physicalNr m = .ok (pnrP p m) := by
  obtain ⟨pg, hpg, hcont, hstart, hlen, hidx⟩ := phys_lookup p m hc hN hm
  have hsome : pg.entries.get? (m - pg.startNr) =
      some (pg.entries.get ⟨m - pg.startNr, by rw [hlen]; exact hidx⟩) :=
    List.get?_eq_get (by rw [hlen]; exact hidx)
  rw [physicalNr_eq_of_get p m pg hpg, if_pos hcont, hsome, pnrP,
    physicalNr_eq_of_get p m pg hpg, if_pos hcont, hsome]
  rfl

theorem storePhase0_ok (s : MAlloc)
    (hhdr : readSlot s.file 0 = some (.hdrS s.header) ∨
      (s.file = [] ∧ s.header = MHeader.init s.bs))
    (hlm : s.file.length ≤ s.physical.max + 1) :
    ∃ s0, storePhase0 s = .ok s0 ∧
      s0.bs = s.bs ∧ s0.types = s.types ∧ s0.physical = s.physical ∧
      s0.streams = s.streams ∧ s0.user = s.user ∧ s0.header = s.header ∧
      s0.gen = s.gen + 1 ∧
      0 < s0.file.length ∧ s.file.length ≤ s0.file.length ∧
      s0.file.length ≤ s.physical.max + 1 ∧
      readSlot s0.file 0 = some (.hdrS s.header) ∧
      (∀ j, j ≠ 0 → readSlot s0.file j = readSlot s.file j) := by
  by_cases hfl : s.file.length = 0
  · have hfe : s.file = [] := List.length_eq_zero.mp hfl
    have hhd : s.header = MHeader.init s.bs := by
      rcases hhdr with h1 | h1
      · rw [hfe] at h1
        cases h1
      · exact h1.2
    have hw : storeRaw0 s.file s.bs (.hdrS (MHeader.init s.bs)) =
        [.hdrS (MHeader.init s.bs)] := by
      rw [hfe]
      rfl
    have hrun : storePhase0 s = .ok { s with
        gen := s.gen + 1, file := [.hdrS (MHeader.init s.bs)] } := by
      rw [storePhase0]
      have : ({ s with gen := s.gen + 1 } : MAlloc).file.length = 0 := hfl
      rw [if_pos this]
      rw [show ({ s with gen := s.gen + 1 } : MAlloc).file = s.file from
        rfl, hw]
    refine ⟨{ s with gen := s.gen + 1, file := [.hdrS (MHeader.init s.bs)] }, hrun, rfl, rfl, rfl, rfl,
      rfl, rfl, rfl, by simp, by omega,
      by show (1 : Nat) ≤ s.physical.max + 1; omega, ?_, ?_⟩
    · show (some (Slot.hdrS (MHeader.init s.bs)) : Option Slot) =
        some (.hdrS s.header)
      rw [hhd]
    · intro j hj
      show ([Slot.hdrS (MHeader.init s.bs)] : MFile).get? j = s.file.get? j
      rw [hfe]
      cases j with
      | zero => exact absurd rfl hj
      | succ n => simp
  · have hsync : readSlot s.file 0 = some (.hdrS s.header) := by
      rcases hhdr with h1 | h1
      · exact h1
      · rw [h1.1] at hfl
        simp at hfl
    have hrun : storePhase0 s = .ok { s with gen := s.gen + 1 } := by
      rw [storePhase0]
      have : ¬ ({ s with gen := s.gen + 1 } : MAlloc).file.length = 0 := hfl
      rw [if_neg this]
    exact ⟨{ s with gen := s.gen + 1 }, hrun, rfl, rfl, rfl, rfl, rfl,
      rfl, rfl, by show 0 < s.file.length; omega, Nat.le_refl _, hlm,
      hsync, fun j _ => rfl⟩

theorem storePhase67_ok (s : MAlloc) (t p st : Nat) (h : MHeader)
    (hrd : readSlot s.file 0 = some (.hdrS h)) (hf0 : 0 < s.file.length)
    (hhd : s.header = h)
    (hty : s.physical.physicalNr 1 = .ok t)
    (hph : s.physical.physicalNr 2 = .ok p)
    (hst : s.physical.physicalNr 3 = .ok st) :
    ∃ s6 s7, storePhase6 s = .ok s6 ∧ storePhase7 s6 = .ok s7 ∧
      s7.bs = s.bs ∧ s7.types = s.types ∧ s7.physical = s.physical ∧
      s7.streams = s.streams ∧ s7.user = s.user ∧ s7.gen = s.gen ∧
      s7.file.length = s.file.length ∧
      (∀ j, j ≠ 0 → readSlot s7.file j = readSlot s.file j) ∧
      readSlot s7.file 0 = some (.hdrS s7.header) ∧
      s7.header.blockSize = h.blockSize ∧
      activeTriple s7.header = (t, p, st) := by
  subst hhd
  cases hstate : s.header.state with
  | low =>
    obtain ⟨s6, hrun6, h6hdr, h6file, h6bs, h6ty, h6ph, h6st, h6us, h6gen,
      h6rd, h6keep, h6len⟩ := storeHigh_ok s t p st s.header hrd hf0
    have hrun6' : storePhase6 s = .ok s6 := by
      rw [storePhase6, hty, hph, hst, except_bind_ok, except_bind_ok,
        except_bind_ok, hstate]
      exact hrun6
    have h6state : s6.header.state = .low := by
      rw [h6hdr]
      show s.header.state = .low
      rw [hstate]
    obtain ⟨s7, hrun7, h7hdr, h7file, h7bs, h7ty, h7ph, h7st, h7us, h7gen,
      h7rd, h7keep, h7len⟩ := storeState_ok s6 .high
      { s.header with highTypes := t, highPhysical := p, highStreams := st }
      h6rd (by rw [h6len]; exact hf0)
    have hrun7' : storePhase7 s6 = .ok s7 := by
      rw [storePhase7, h6state]
      exact hrun7
    refine ⟨s6, s7, hrun6', hrun7', by rw [h7bs, h6bs],
      by rw [h7ty, h6ty], by rw [h7ph, h6ph], by rw [h7st, h6st],
      by rw [h7us, h6us], by rw [h7gen, h6gen], by rw [h7len, h6len],
      ?_, ?_, ?_, ?_⟩
    · intro j hj
      rw [h7keep j hj, h6keep j hj]
    · rw [h7rd, h7hdr, h6hdr]
    · rw [h7hdr, h6hdr]
    · rw [h7hdr, h6hdr]
      rfl
  | high =>
    obtain ⟨s6, hrun6, h6hdr, h6file, h6bs, h6ty, h6ph, h6st, h6us, h6gen,
      h6rd, h6keep, h6len⟩ := storeLow_ok s t p st s.header hrd hf0
    have hrun6' : storePhase6 s = .ok s6 := by
      rw [storePhase6, hty, hph, hst, except_bind_ok, except_bind_ok,
        except_bind_ok, hstate]
      exact hrun6
    have h6state : s6.header.state = .high := by
      rw [h6hdr]
      show s.header.state = .high
      rw [hstate]
    obtain ⟨s7, hrun7, h7hdr, h7file, h7bs, h7ty, h7ph, h7st, h7us, h7gen,
      h7rd, h7keep, h7len⟩ := storeState_ok s6 .low
      { s.header with lowTypes := t, lowPhysical := p, lowStreams := st }
      h6rd (by rw [h6len]; exact hf0)
    have hrun7' : storePhase7 s6 = .ok s7 := by
      rw [storePhase7, h6state]
      exact hrun7
    refine ⟨s6, s7, hrun6', hrun7', by rw [h7bs, h6bs],
      by rw [h7ty, h6ty], by rw [h7ph, h6ph], by rw [h7st, h6st],
      by rw [h7us, h6us], by rw [h7gen, h6gen], by rw [h7len, h6len],
      ?_, ?_, ?_, ?_⟩
    · intro j hj
      rw [h7keep j hj, h6keep j hj]
    · rw [h7rd, h7hdr, h6hdr]
    · rw [h7hdr, h6hdr]
    · rw [h7hdr, h6hdr]
      rfl

theorem pshape_of_core {l l2 : List PPage}
    (h : l2.map ppCore = l.map ppCore) :
    l2.map ppShape = l.map ppShape := by
  have h2 := congrArg (List.map (fun c : Nat × Nat × Nat × List Nat =>
    (c.1, c.2.1, c.2.2.1))) h
  rw [List.map_map, List.map_map] at h2
  exact h2

theorem tpage_unique {l : List TPage}
    (hnd : (l.map (fun q => q.blockNr)).Nodup) {a b : TPage}
    (ha : a ∈ l) (hb : b ∈ l) (he : a.blockNr = b.blockNr) : a = b :=
  List.inj_on_of_nodup_map hnd ha hb he

theorem ppage_unique {l : List PPage}
    (hnd : (l.map (fun q => q.blockNr)).Nodup) {a b : PPage}
    (ha : a ∈ l) (hb : b ∈ l) (he : a.blockNr = b.blockNr) : a = b :=
  List.inj_on_of_nodup_map hnd ha hb he

theorem map_fst_clear (g : Nat) (u : List (Nat × MBlock)) :
    (u.map (fun kv =>
      if kv.2.dirty then (kv.1, { kv.2 with dirty := false, gen := g })
      else kv)).map Prod.fst = u.map Prod.fst := by
  induction u with
  | nil => rfl
  | cons kv rest ih =>
    simp only [List.map_cons]
    rw [ih]
    by_cases hd : kv.2.dirty
    · rw [if_pos hd]
    · rw [if_neg hd]

theorem store_ok (x : MAlloc) (W : WF x) :
    ∃ y, x.store = .ok y ∧ StoreRel x y := by
  have hbs32 : 32 ≤ x.bs := bs32_of_WF x W
  have hNt : 6 ≤ lenTypesG x.bs := W.nt6
  have hNp6 : 6 ≤ lenPhysicalG x.bs := by rw [lenPhysicalG_eq]; exact hNt
  have hNpx : 0 < lenPhysicalG x.physical.bs := by rw [W.pbs]; omega
  obtain ⟨nx2, rest2, hpch⟩ := chainOk_head 2 _ W.pchain
  obtain ⟨pgP0, tlP, hpxblocks, hpgP0nr⟩ :
      ∃ pg tl, x.physical.blocks = pg :: tl ∧ pg.blockNr = 2 := by
    cases hb : x.physical.blocks with
    | nil => rw [hb] at hpch; cases hpch
    | cons pg tl =>
      rw [hb] at hpch
      simp only [List.map_cons] at hpch
      have := List.head_eq_of_cons_eq hpch
      exact ⟨pg, tl, rfl, by
        have h2 := congrArg Prod.fst this
        exact h2⟩
  obtain ⟨nx1, rest1, htch⟩ := chainOk_head 1 _ W.tchain
  obtain ⟨pgT0, tlT, htxblocks, hpgT0nr⟩ :
      ∃ pg tl, x.types.blocks = pg :: tl ∧ pg.blockNr = 1 := by
    cases hb : x.types.blocks with
    | nil => rw [hb] at htch; cases htch
    | cons pg tl =>
      rw [hb] at htch
      simp only [List.map_cons] at htch
      have := List.head_eq_of_cons_eq htch
      exact ⟨pg, tl, rfl, by
        have h2 := congrArg Prod.fst this
        exact h2⟩
  have hLp : 0 < x.physical.blocks.length := by
    rw [hpxblocks]
    simp
  have hcover6 : 6 ≤ coverP x.physical := by
    rw [coverP, W.pbs]
    calc (6 : Nat) ≤ lenPhysicalG x.bs := hNp6
      _ = 1 * lenPhysicalG x.bs := by omega
      _ ≤ x.physical.blocks.length * lenPhysicalG x.bs :=
        Nat.mul_le_mul_right _ hLp
  -- phase 0
  obtain ⟨s0, hrun0, h0bs, h0ty, h0ph, h0st, h0us, h0hd, h0gen, h0f0,
    h0flen, h0lm, h0rd, h0keep⟩ := storePhase0_ok x W.hdr W.lenmax
  -- phase 1 (user blocks)
  obtain ⟨u1, p1, f1, hgo1, hu1, h1bs, h1len, h1shape, h1c, h1maxmono,
    h1z, h1nd, h1fm, h1em, h1ef, h1einj, h1flen, h1lm, h1slot0, h1touch,
    h1keep, h1fkeep, h1clean⟩ :=
    storeUserGo_ok s0.bs s0.gen s0.user s0.physical s0.file
      (coverP x.physical)
      (by rw [h0ph]; rfl) (by rw [h0ph]; exact W.pcontig)
      (by rw [h0ph]; exact hNpx) (by rw [h0ph]; exact W.zfree)
      (by rw [h0ph]; exact W.fnodup) (by rw [h0ph]; exact W.fmax)
      (by rw [h0ph]; exact W.emax) (by rw [h0ph]; exact W.efree)
      (by rw [h0ph]; exact W.einj) (by rw [h0ph]; exact h0lm) h0f0
      (by rw [h0us]; exact W.ccov) (by rw [h0us]; exact W.cnodup)
  set s1 : MAlloc := { s0 with user := u1, physical := p1, file := f1 }
    with hs1def
  have hrun1 : storePhase1 s0 = .ok s1 := by
    rw [storePhase1, hgo1]
    rfl
  -- phase 2 (streams)
  have hpf1 : PF (coverP x.physical) s1.physical s1.file := by
    refine ⟨h1c, ?_, h1z, h1nd, h1fm, h1em, h1ef, h1einj, h1lm,
      Nat.lt_of_lt_of_le h0f0 h1flen⟩
    show coverP x.physical = p1.blocks.length * lenPhysicalG p1.bs
    rw [h1len, h1bs, h0ph]
    rfl
  obtain ⟨s2, hrun2, h2bs, h2ty, h2us, h2hd, h2gen, h2stent, h2stcl,
    hpf2, h2maxmono, h2flen, h2plen, h2pshape, h2pbs, h2slot0, h2touch,
    h2keep, h2fkeep, h2clean⟩ :=
    storePhase2_ok s1 (coverP x.physical) hpf1
      (by show 0 < lenPhysicalG p1.bs; rw [h1bs, h0ph]; exact hNpx)
      (by omega)
  -- phase 3 (dirty type-map pages)
  have h2tyx : s2.types = x.types := by rw [h2ty]; show s0.types = x.types; exact h0ty
  obtain ⟨t3, p3, f3, hgo3, ht3bs, ht3free, ht3core, ht3len, ht3get,
    hpf3, h3maxmono, h3flen, h3plen, h3pshape, h3pbs, h3slot0, h3touch,
    h3keep, h3fkeep, h3clean⟩ :=
    storeTypesGo_ok s2.bs s2.gen s2.types.iterDirty s2.types s2.physical
      s2.file (coverP x.physical) hpf2
      (by show 0 < lenPhysicalG s2.physical.bs
          rw [h2pbs, h1bs, h0ph]; exact hNpx)
      (by
        rw [h2tyx]
        intro nr hnr
        obtain ⟨pg, hm, he, _⟩ := mem_iterDirty_t_elim x.types nr hnr
        rw [← he]
        exact W.tcovP pg hm)
      (by
        rw [h2tyx]
        intro nr hnr
        exact (iterDirty_sublist_t x.types).subset hnr)
      (by rw [h2tyx]; exact (iterDirty_sublist_t x.types).nodup W.tnodup)
      (by rw [h2tyx]; exact W.tnodup)
  set s3 : MAlloc := { s2 with types := t3, physical := p3, file := f3 }
    with hs3def
  have hrun3 : storePhase3 s2 = .ok s3 := by
    rw [storePhase3, hgo3]
    rfl
  -- phase 4 (assignment pass)
  have h3pshapex : s3.physical.blocks.map ppShape =
      x.physical.blocks.map ppShape := by
    show p3.blocks.map ppShape = _
    rw [h3pshape, h2pshape]
    show p1.blocks.map ppShape = _
    rw [h1shape, h0ph]
  have h3bnrx : s3.physical.blocks.map (fun pg => pg.blockNr) =
      x.physical.blocks.map (fun pg => pg.blockNr) :=
    pblockNr_map_of_shape h3pshapex
  obtain ⟨p4, hgo4, hpf4, h4maxmono, h4plen, h4pshape, h4pbs, h4touch,
    h4keep, h4clean⟩ :=
    storeAssignGo_fr s3.physical.iterDirty s3.physical s3.file
      (coverP x.physical) hpf3
      (by show 0 < lenPhysicalG p3.bs; rw [h3pbs, h2pbs, h1bs, h0ph]
          exact hNpx)
      (by
        intro nr hnr
        have := (iterDirty_sublist_p s3.physical).subset hnr
        rw [h3bnrx] at this
        obtain ⟨pg, hm, he⟩ := List.mem_map.mp this
        rw [← he]
        exact pcov_all x W pg hm)
      (by
        refine (iterDirty_sublist_p s3.physical).nodup ?_
        rw [h3bnrx]
        exact W.pnodup)
  set s4 : MAlloc := { s3 with physical := p4 } with hs4def
  have hrun4 : storePhase4 s3 = .ok s4 := by
    rw [storePhase4, hgo4]
    rfl
  -- phase 5 (write pass)
  have h4pshapex : s4.physical.blocks.map ppShape =
      x.physical.blocks.map ppShape := by
    show p4.blocks.map ppShape = _
    rw [h4pshape]
    exact h3pshapex
  have h4bnrx : s4.physical.blocks.map (fun pg => pg.blockNr) =
      x.physical.blocks.map (fun pg => pg.blockNr) :=
    pblockNr_map_of_shape h4pshapex
  -- composite entry-preservation through phases 0-4
  have hkeep014 : ∀ m, m < coverP x.physical →
      (∀ kv ∈ x.user, kv.1 = m → kv.2.dirty = false) →
      (x.streams.dirty = true → m ≠ 3) →
      m ∉ s2.types.iterDirty →
      m ∉ s3.physical.iterDirty →
      pnrP s4.physical m = pnrP x.physical m := by
    intro m hm hu hs3 h3m h4m
    have e4 : pnrP s4.physical m = pnrP p3 m := h4keep m hm h4m
    have e3 : pnrP p3 m = pnrP s2.physical m := h3keep m hm h3m
    have e2 : pnrP s2.physical m = pnrP s1.physical m := by
      refine h2keep m hm ?_
      intro hd
      refine hs3 ?_
      have hd2 : s0.streams.dirty = true := hd
      rw [h0st] at hd2
      exact hd2
    have e1 : pnrP p1 m = pnrP s0.physical m := by
      refine h1keep m hm ?_
      intro kv hkv he
      refine hu kv ?_ he
      rw [← h0us]
      exact hkv
    have e0 : pnrP s0.physical m = pnrP x.physical m := by
      rw [h0ph]
    rw [e4, e3, e2]
    show pnrP p1 m = _
    rw [e1, e0]
  -- role disambiguation helpers
  have hty_not_phys : ∀ m, x.types.blockType m = .ok .physicalT →
      m ∉ s2.types.iterDirty := by
    intro m hbt hmem
    rw [h2tyx] at hmem
    obtain ⟨pg, hm, he, _⟩ := mem_iterDirty_t_elim x.types m hmem
    have hr := W.trole pg hm
    rw [he, hbt] at hr
    cases hr
  have h3_not_phys : ∀ m, x.types.blockType m = .ok .physicalT →
      m ≠ 3 := by
    intro m hbt h0
    rw [h0] at hbt
    rw [W.srole] at hbt
    cases hbt
  have huser_not_phys : ∀ m, x.types.blockType m = .ok .physicalT →
      ∀ kv ∈ x.user, kv.1 = m → kv.2.dirty = false := by
    intro m hbt kv hkv he
    obtain ⟨ty, hty, hui⟩ := W.cuser kv hkv
    rw [he, hbt] at hty
    injection hty with hty
    rw [← hty] at hui
    cases hui
  -- the page of x behind a clean page of the phase-3 physical map
  have hcleanback : ∀ i pg, p3.blocks.get? i = some pg →
      pg.dirty = false → x.physical.blocks.get? i = some pg := by
    intro i pg hget hcl
    have hc2 := h3clean i pg hget hcl
    have hc1 := h2clean i pg hc2 hcl
    have hc0 : p1.blocks.get? i = some pg := hc1
    have hcx := h1clean i pg hc0 hcl
    rw [h0ph] at hcx
    exact hcx
  have hdnz5 : ∀ nr ∈ s4.physical.iterDirty, pnrP s4.physical nr ≠ 0 := by
    intro nr hnr
    by_cases h4d : nr ∈ s3.physical.iterDirty
    · exact h4touch nr h4d
    · obtain ⟨pg4, hpg4, hpg4nr, hpg4d⟩ :=
        mem_iterDirty_p_elim s4.physical nr hnr
      obtain ⟨i, hi4⟩ := List.mem_iff_get?.mp hpg4
      have hsh := ppShape_get p3.blocks p4.blocks
        (by rw [h4pshape]) i
      have hi4' : p4.blocks.get? i = some pg4 := hi4
      rw [hi4'] at hsh
      cases hg3 : p3.blocks.get? i with
      | none => rw [hg3] at hsh; cases hsh
      | some pg3 =>
        rw [hg3] at hsh
        have hshf := ppShape_fields (Option.some_inj.mp (by
          show some (ppShape pg4) = some (ppShape pg3)
          exact hsh))
        have hpg3nr : pg3.blockNr = nr := by rw [← hshf.1, hpg4nr]
        have hpg3cl : pg3.dirty = false := by
          cases hd3 : pg3.dirty
          · rfl
          · exfalso
            refine h4d ?_
            rw [← hpg3nr]
            exact mem_iterDirty_p_intro s3.physical pg3
              (List.get?_mem hg3) hd3
        have hgx := hcleanback i pg3 hg3 hpg3cl
        have hpg3x : pg3 ∈ x.physical.blocks := List.get?_mem hgx
        have hmcov : nr < coverP x.physical := by
          rw [← hpg3nr]
          exact pcov_all x W pg3 hpg3x
        have hrole : x.types.blockType nr = .ok .physicalT := by
          rw [← hpg3nr]
          exact W.prole pg3 hpg3x
        have hx := W.psync pg3 hpg3x hpg3cl
        rw [hpg3nr] at hx
        rw [hkeep014 nr hmcov (huser_not_phys nr hrole)
          (fun _ => h3_not_phys nr hrole) (hty_not_phys nr hrole) h4d]
        exact hx.1
  obtain ⟨p5, f5, hgo5, h5bs, h5free, h5max, h5core, h5len, h5pnr, h5get,
    hpf5, h5flen, h5slot0, h5touch, h5fkeep⟩ :=
    storePhysGo_ok s4.bs s4.gen s4.physical.iterDirty s4.physical s4.file
      (coverP x.physical) hpf4
      (by
        intro nr hnr
        have hsub := (iterDirty_sublist_p s4.physical).subset hnr
        rw [h4bnrx] at hsub
        obtain ⟨pg, hm, he⟩ := List.mem_map.mp hsub
        rw [← he]
        exact pcov_all x W pg hm)
      (by
        refine (iterDirty_sublist_p s4.physical).nodup ?_
        rw [h4bnrx]
        exact W.pnodup)
      (by rw [h4bnrx]; exact W.pnodup)
      (fun nr hnr => (iterDirty_sublist_p s4.physical).subset hnr)
      hdnz5
  set s5 : MAlloc := { s4 with physical := p5, file := f5 } with hs5def
  have hrun5 : storePhase5 s4 = .ok s5 := by
    rw [storePhase5, hgo5]
    rfl
  -- phases 6 and 7 (root triple and state flip)
  have h5hdr : s5.header = x.header := by
    show s2.header = x.header
    rw [h2hd]
    show s0.header = x.header
    exact h0hd
  have hrd5 : readSlot s5.file 0 = some (.hdrS x.header) := by
    show readSlot f5 0 = _
    rw [h5slot0]
    show readSlot f3 0 = _
    rw [h3slot0, h2slot0]
    show readSlot f1 0 = _
    rw [h1slot0]
    exact h0rd
  have hf05 : 0 < s5.file.length := by
    show 0 < f5.length
    have h1 : s0.file.length ≤ f1.length := h1flen
    have h2 : f1.length ≤ s2.file.length := h2flen
    have h3 : s2.file.length ≤ f3.length := h3flen
    have h5 : f3.length ≤ f5.length := h5flen
    omega
  have hcov5 : coverP x.physical = p5.blocks.length * lenPhysicalG p5.bs :=
    hpf5.cov
  have hN5 : 0 < lenPhysicalG p5.bs := by
    rw [h5bs]
    show 0 < lenPhysicalG p4.bs
    rw [h4pbs, h3pbs, h2pbs, h1bs, h0ph]
    exact hNpx
  have hty6 : s5.physical.physicalNr 1 = .ok (pnrP p5 1) :=
    physicalNr_ok_of_covered p5 1 hpf5.contig hN5 (by rw [← hcov5]; omega)
  have hph6 : s5.physical.physicalNr 2 = .ok (pnrP p5 2) :=
    physicalNr_ok_of_covered p5 2 hpf5.contig hN5 (by rw [← hcov5]; omega)
  have hst6 : s5.physical.physicalNr 3 = .ok (pnrP p5 3) :=
    physicalNr_ok_of_covered p5 3 hpf5.contig hN5 (by rw [← hcov5]; omega)
  obtain ⟨s6, s7, hrun6, hrun7, h7bs, h7ty, h7ph, h7st, h7us, h7gen,
    h7len, h7keep, h7rd, h7hbs, h7active⟩ :=
    storePhase67_ok s5 (pnrP p5 1) (pnrP p5 2) (pnrP p5 3) x.header hrd5
      hf05 h5hdr hty6 hph6 hst6
  -- phase 8 (free-list rebuild and cache cleanup)
  have h7bsx : s7.bs = x.bs := by
    rw [h7bs]
    show s2.bs = x.bs
    rw [h2bs]
    show s0.bs = x.bs
    exact h0bs
  have h5pbsx : p5.bs = x.bs := by
    rw [h5bs]
    show p4.bs = x.bs
    rw [h4pbs, h3pbs, h2pbs]
    show p1.bs = x.bs
    rw [h1bs]
    show s0.physical.bs = x.bs
    rw [h0ph]
    exact W.pbs
  have h5plenx : p5.blocks.length = x.physical.blocks.length := by
    rw [h5len]
    show p4.blocks.length = _
    rw [h4plen, h3plen, h2plen, h1len, h0ph]
  obtain ⟨s8, hrun8, h8bs, h8file, h8hd, h8ty, h8st, h8gen, h8pblocks,
    h8pbs, h8maxmono, h8zfree, h8fnodup, h8fbound, h8efree, h8usub,
    h8uksub, h8ukeys⟩ :=
    storePhase8_ok s7 (by rw [h7bsx]; omega)
      (by
        show s7.physical.bs = s7.bs
        rw [h7ph, h7bsx]
        show p5.bs = x.bs
        exact h5pbsx)
      (by
        show s7.physical.blocks ≠ []
        rw [h7ph]
        show p5.blocks ≠ []
        intro h0
        have hlen0 := congrArg List.length h0
        rw [h5plenx] at hlen0
        simp only [List.length_nil] at hlen0
        omega)
  -- the full run
  have hstore : x.store = .ok s8 := by
    rw [MAlloc.store, storeUpTo, storePhases]
    simp only [List.take, List.foldlM, hrun0, except_bind_ok, hrun1,
      hrun2, hrun3, hrun4, hrun5, hrun6, hrun7, hrun8]
    rfl
  -- dirty physical pages only accumulate between phases 3 and 4
  have htodo45 : ∀ m ∈ s3.physical.iterDirty, m ∈ s4.physical.iterDirty := by
    intro m hm
    obtain ⟨pg3, hpg3, hnr3, hd3⟩ := mem_iterDirty_p_elim s3.physical m hm
    obtain ⟨i, hi⟩ := List.mem_iff_get?.mp hpg3
    have hsh := ppShape_get p3.blocks p4.blocks
      (by rw [h4pshape]) i
    have hi' : p3.blocks.get? i = some pg3 := hi
    rw [hi'] at hsh
    cases hg4 : p4.blocks.get? i with
    | none => rw [hg4] at hsh; cases hsh
    | some pg4 =>
      rw [hg4] at hsh
      have hshf := ppShape_fields (Option.some_inj.mp (by
        show some (ppShape pg4) = some (ppShape pg3)
        exact hsh))
      have hd4 : pg4.dirty = true := by
        cases hd : pg4.dirty
        · exfalso
          have hc := h4clean i pg4 hg4 hd
          have hc' : p3.blocks.get? i = some pg4 := hc
          rw [hi'] at hc'
          have heq : pg3 = pg4 := Option.some_inj.mp hc'
          rw [← heq, hd3] at hd
          cases hd
        · rfl
      rw [← hnr3, ← hshf.1]
      exact mem_iterDirty_p_intro s4.physical pg4 (List.get?_mem hg4) hd4
  -- entry preservation from the end of phase 1 to the end of phase 5
  have hkeep15 : ∀ m, m < coverP x.physical →
      (x.streams.dirty = true → m ≠ 3) →
      m ∉ s2.types.iterDirty → m ∉ s4.physical.iterDirty →
      pnrP p4 m = pnrP p1 m := by
    intro m hm hs3 ht3m ht5m
    have ht4m : m ∉ s3.physical.iterDirty := fun h0 => ht5m (htodo45 m h0)
    have e2 : pnrP s2.physical m = pnrP p1 m := by
      refine h2keep m hm ?_
      intro hd
      exact hs3 (by
        have hd2 : s0.streams.dirty = true := hd
        rw [h0st] at hd2
        exact hd2)
    have e3 : pnrP p3 m = pnrP p1 m := by
      rw [h3keep m hm ht3m, e2]
    rw [h4keep m hm ht4m]
    exact e3
  -- slot preservation from the end of phase 1 to the end of phase 5
  have hfile15 : ∀ m j, m < coverP x.physical → j ≠ 0 →
      pnrP p1 m = j → j < f1.length →
      (x.streams.dirty = true → m ≠ 3) →
      m ∉ s2.types.iterDirty → m ∉ s4.physical.iterDirty →
      readSlot f5 j = readSlot f1 j := by
    intro m j hm hj0 hpj hjlen hs3 ht3m ht5m
    have e2 : pnrP s2.physical m = pnrP p1 m := by
      refine h2keep m hm ?_
      intro hd
      exact hs3 (by
        have hd2 : s0.streams.dirty = true := hd
        rw [h0st] at hd2
        exact hd2)
    have w2 : readSlot s2.file j = readSlot f1 j := by
      refine h2fkeep j hjlen hj0 ⟨m, hm, hpj, ?_⟩
      intro hd
      exact hs3 (by
        have hd2 : s0.streams.dirty = true := hd
        rw [h0st] at hd2
        exact hd2)
    have hjlen2 : j < s2.file.length := Nat.lt_of_lt_of_le hjlen h2flen
    have w3 : readSlot f3 j = readSlot s2.file j :=
      h3fkeep j hjlen2 hj0 ⟨m, hm, by rw [e2]; exact hpj, ht3m⟩
    have hjlen3 : j < f3.length := Nat.lt_of_lt_of_le hjlen2 h3flen
    have w5 : readSlot f5 j = readSlot f3 j := by
      refine h5fkeep j hjlen3 hj0 ⟨m, hm, ?_, ht5m⟩
      show pnrP p4 m = j
      rw [hkeep15 m hm hs3 ht3m ht5m]
      exact hpj
    rw [w5, w3, w2]
  -- entry and slot preservation for a number untouched by the whole store
  have hmaster : ∀ m, m < coverP x.physical →
      (∀ kv ∈ x.user, kv.1 = m → kv.2.dirty = false) →
      (x.streams.dirty = true → m ≠ 3) →
      m ∉ s2.types.iterDirty → m ∉ s4.physical.iterDirty →
      pnrP p4 m = pnrP x.physical m ∧
      (pnrP x.physical m ≠ 0 → pnrP x.physical m < x.file.length →
        readSlot f5 (pnrP x.physical m) =
          readSlot x.file (pnrP x.physical m)) := by
    intro m hm hu hs3 ht3m ht5m
    have hcl : ∀ kv ∈ s0.user, kv.1 = m → kv.2.dirty = false := by
      intro kv hkv he
      refine hu kv ?_ he
      rw [← h0us]
      exact hkv
    have e1 : pnrP p1 m = pnrP x.physical m := by
      rw [h1keep m hm hcl]
      show pnrP s0.physical m = _
      rw [h0ph]
    refine ⟨by rw [hkeep15 m hm hs3 ht3m ht5m]; exact e1, ?_⟩
    intro h00 hxlen
    have hjf0 : pnrP x.physical m < s0.file.length :=
      Nat.lt_of_lt_of_le hxlen h0flen
    have w1 : readSlot f1 (pnrP x.physical m) =
        readSlot s0.file (pnrP x.physical m) := by
      refine h1fkeep (pnrP x.physical m) hjf0 h00 ⟨m, hm, ?_, hcl⟩
      show pnrP s0.physical m = _
      rw [h0ph]
    have w0 : readSlot s0.file (pnrP x.physical m) =
        readSlot x.file (pnrP x.physical m) := h0keep _ h00
    have w15 : readSlot f5 (pnrP x.physical m) =
        readSlot f1 (pnrP x.physical m) := by
      refine hfile15 m (pnrP x.physical m) hm h00 e1
        (Nat.lt_of_lt_of_le hjf0 h1flen) hs3 ht3m ht5m
    rw [w15, w1, w0]
  -- the view from the final state
  have hyblocks : s8.physical.blocks = p5.blocks := by
    rw [h8pblocks, h7ph]
  have hybs : s8.physical.bs = p5.bs := by
    rw [h8pbs, h7ph]
  have hypnr : ∀ m, pnrP s8.physical m = pnrP p4 m := by
    intro m
    rw [pnrP_congr s8.physical p5 hyblocks hybs m]
    exact h5pnr m
  have hyfile : s8.file = s7.file := h8file
  have hyflen : s8.file.length = f5.length := by
    rw [hyfile, h7len]
  have hyread : ∀ j, j ≠ 0 → readSlot s8.file j = readSlot f5 j := by
    intro j hj
    rw [hyfile]
    exact h7keep j hj
  have hcovy : coverP s8.physical = coverP x.physical := by
    rw [coverP, hyblocks, hybs, h5plenx, h5pbsx, coverP, W.pbs]
  have hflen05 : x.file.length ≤ f5.length := by
    have h1 : s0.file.length ≤ f1.length := h1flen
    have h2 : f1.length ≤ s2.file.length := h2flen
    have h3 : s2.file.length ≤ f3.length := h3flen
    have h5 : f3.length ≤ f5.length := h5flen
    omega
  refine ⟨s8, hstore, ?_⟩
  have hyT : s8.types = t3 := by
    rw [h8ty, h7ty]
  have hm57 : s7.physical.max = p5.max := by rw [h7ph]
  have hp54max : p5.max = p4.max := h5max
  have h2f : f1.length ≤ s2.file.length := h2flen
  have h3f : s2.file.length ≤ f3.length := h3flen
  have h5f : f3.length ≤ f5.length := h5flen
  have hnd4 : (s4.physical.blocks.map (fun pg => pg.blockNr)).Nodup := by
    rw [h4bnrx]
    exact W.pnodup
  have hrole_not4 : ∀ m ty, x.types.blockType m = .ok ty →
      ty ≠ .physicalT → m ∉ s4.physical.iterDirty := by
    intro m ty hbt hne hmem
    have hsub := (iterDirty_sublist_p s4.physical).subset hmem
    rw [h4bnrx] at hsub
    obtain ⟨pg, hpg, he⟩ := List.mem_map.mp hsub
    have hr := W.prole pg hpg
    rw [he, hbt] at hr
    injection hr with hr
    exact hne hr
  have hrole_not3p : ∀ m ty, x.types.blockType m = .ok ty →
      ty ≠ .physicalT → m ∉ s3.physical.iterDirty := by
    intro m ty hbt hne hmem
    have hsub := (iterDirty_sublist_p s3.physical).subset hmem
    rw [h3bnrx] at hsub
    obtain ⟨pg, hpg, he⟩ := List.mem_map.mp hsub
    have hr := W.prole pg hpg
    rw [he, hbt] at hr
    injection hr with hr
    exact hne hr
  have hrole_not3t : ∀ m ty, x.types.blockType m = .ok ty →
      ty ≠ .types → m ∉ s2.types.iterDirty := by
    intro m ty hbt hne hmem
    rw [h2tyx] at hmem
    obtain ⟨pg, hpg, he, _⟩ := mem_iterDirty_t_elim x.types m hmem
    have hr := W.trole pg hpg
    rw [he, hbt] at hr
    injection hr with hr
    exact hne hr
  have hrole_not_s : ∀ m ty, x.types.blockType m = .ok ty →
      ty ≠ .streams → x.streams.dirty = true → m ≠ 3 := by
    intro m ty hbt hne _ h3
    rw [h3, W.srole] at hbt
    injection hbt with h
    exact hne h.symm
  have hrole_not_u : ∀ m ty, x.types.blockType m = .ok ty →
      ty.isUser = false → ∀ kv ∈ x.user, kv.1 = m → kv.2.dirty = false := by
    intro m ty hbt hiu kv hkv he
    obtain ⟨ty2, hty2, hui⟩ := W.cuser kv hkv
    rw [he, hbt] at hty2
    injection hty2 with h
    rw [← h, hiu] at hui
    cases hui
  have h7u : s7.user = u1 := by
    rw [h7us]
    show s2.user = u1
    rw [h2us]
  refine ⟨?_, ?_, ?_, ?_, ?_, ?_, ?_, ?_, ?_, ?_, ?_, ?_, ?_,
    ?_, ?_, ?_, ?_, ?_, ?_, ?_, ?_, ?_, ?_, ?_, ?_, ?_, ?_, ?_, ?_, ?_, ?_⟩
  · rw [h8bs, h7bsx]
  · rw [hyT, ht3core, h2tyx]
  · rw [hyT, ht3free, h2tyx]
  · rw [hyT, ht3bs, h2tyx]
  · intro pg hpg
    rw [hyT] at hpg
    cases hd : pg.dirty
    · rfl
    · exfalso
      obtain ⟨i, hi⟩ := List.mem_iff_get?.mp hpg
      obtain ⟨pgx, hgx, hcx, hdx⟩ := ht3get i pg hi
      obtain ⟨hdx1, hdx2⟩ := hdx hd
      exact hdx2 (mem_iterDirty_t_intro s2.types pgx (List.get?_mem hgx)
        hdx1)
  · rw [hyblocks, pshape_of_core h5core]
    exact h4pshapex
  · rw [hybs, h5pbsx]
    exact W.pbs.symm
  · intro pg hpg
    rw [hyblocks] at hpg
    cases hd : pg.dirty
    · rfl
    · exfalso
      obtain ⟨i, hi⟩ := List.mem_iff_get?.mp hpg
      obtain ⟨pgm, hgm, hcm, hdm⟩ := h5get i pg hi
      obtain ⟨hdm1, hdm2⟩ := hdm hd
      exact hdm2 (mem_iterDirty_p_intro s4.physical pgm
        (List.get?_mem hgm) hdm1)
  · intro i pg h
    rw [hyblocks] at h
    rw [hybs]
    exact hpf5.contig i pg h
  · exact h8zfree
  · exact h8fnodup
  · intro v hv
    have h1 := h8fbound v hv
    rw [h7len] at h1
    have h1' : v < f5.length := h1
    have h2 : f5.length ≤ p5.max + 1 := hpf5.lm
    have h3 := h8maxmono
    rw [hm57] at h3
    omega
  · intro m hm
    rw [hcovy] at hm
    rw [hypnr m]
    have h1 := hpf4.em m hm
    have h3 := h8maxmono
    rw [hm57, hp54max] at h3
    have h2 : pnrP p4 m ≤ p4.max := h1
    omega
  · intro a b ha hb h0 hab
    rw [hcovy] at ha hb
    rw [hypnr a] at h0
    rw [hypnr a, hypnr b] at hab
    exact hpf4.inj a b ha hb h0 hab
  · intro m hm
    rw [hcovy] at hm
    rw [hypnr m]
    by_cases h0 : pnrP p4 m = 0
    · rw [h0]
      exact h8zfree
    · have h1 := h8efree m (by
        show pnrP s7.physical m ≠ 0
        rw [show pnrP s7.physical m = pnrP p4 m from by
          rw [pnrP_congr s7.physical p5 (by rw [h7ph]) (by rw [h7ph]) m]
          exact h5pnr m]
        exact h0)
      rw [show pnrP s7.physical m = pnrP p4 m from by
        rw [pnrP_congr s7.physical p5 (by rw [h7ph]) (by rw [h7ph]) m]
        exact h5pnr m] at h1
      exact h1
  · -- elen
    intro m hm h0
    rw [hcovy] at hm
    rw [hypnr m] at h0 ⊢
    rw [hyflen]
    by_cases hA : m ∈ s4.physical.iterDirty
    · obtain ⟨pg, hpgm, hpgnr, hlt, hrd⟩ := h5touch m hA
      exact hlt
    · have ht4m : m ∉ s3.physical.iterDirty := fun h1 => hA (htodo45 m h1)
      by_cases hB : m ∈ s2.types.iterDirty
      · obtain ⟨pg, hpgm, hpgnr, hnz3, hlt3, hrd3⟩ := h3touch m hB
        have e4 : pnrP p4 m = pnrP p3 m := h4keep m hm ht4m
        rw [e4]
        exact Nat.lt_of_lt_of_le hlt3 h5f
      · by_cases hC : x.streams.dirty = true ∧ m = 3
        · have hsd1 : s1.streams.dirty = true := by
            show s0.streams.dirty = true
            rw [h0st]
            exact hC.1
          obtain ⟨hnz2, hlt2, hrd2⟩ := h2touch hsd1
          have e3 : pnrP p3 m = pnrP s2.physical m := h3keep m hm hB
          have e4 : pnrP p4 m = pnrP p3 m := h4keep m hm ht4m
          rw [e4, e3, hC.2]
          calc pnrP s2.physical 3 < s2.file.length := hlt2
            _ ≤ f3.length := h3f
            _ ≤ f5.length := h5f
        · have hs3 : x.streams.dirty = true → m ≠ 3 :=
            fun hd h3 => hC ⟨hd, h3⟩
          by_cases hD : ∃ kv, kv ∈ x.user ∧ kv.1 = m ∧ kv.2.dirty = true
          · obtain ⟨kv, hkv, hke, hkd⟩ := hD
            obtain ⟨hnz1, hlt1, hrd1⟩ :=
              h1touch kv (by rw [h0us]; exact hkv) hkd
            have e15 : pnrP p4 m = pnrP p1 m := hkeep15 m hm hs3 hB hA
            rw [e15, ← hke]
            calc pnrP p1 kv.1 < f1.length := hlt1
              _ ≤ s2.file.length := h2f
              _ ≤ f3.length := h3f
              _ ≤ f5.length := h5f
          · have hu : ∀ kv ∈ x.user, kv.1 = m → kv.2.dirty = false := by
              intro kv hkv hke
              cases hdd : kv.2.dirty with
              | false => rfl
              | true => exact absurd ⟨kv, hkv, hke, hdd⟩ hD
            obtain ⟨e, hw⟩ := hmaster m hm hu hs3 hB hA
            rw [e] at h0 ⊢
            exact Nat.lt_of_lt_of_le (W.elen m hm h0) hflen05
  · rw [hyflen]
    have h2 : f5.length ≤ p5.max + 1 := hpf5.lm
    have h3 := h8maxmono
    rw [hm57] at h3
    omega
  · rw [hyflen]
    exact hflen05
  · rw [hyflen]
    exact hf05
  · rw [hyfile, h8hd]
    exact h7rd
  · rw [h8hd, h7hbs]
    exact W.hdrbs
  · rw [h8hd, h7active, hypnr 1, hypnr 2, hypnr 3]
    rw [h5pnr 1, h5pnr 2, h5pnr 3]
  · -- tmap
    intro pg hpg
    rw [hyT] at hpg
    have hcore : t3.blocks.map tpCore = x.types.blocks.map tpCore := by
      rw [ht3core, h2tyx]
    obtain ⟨q, hq, hqc⟩ := mem_of_core_map hcore pg hpg
    have hqnr : q.blockNr = pg.blockNr := (tpCore_fields hqc).1
    have hrole : x.types.blockType pg.blockNr = .ok .types := by
      rw [← hqnr]
      exact W.trole q hq
    have hcov : pg.blockNr < coverP x.physical := by
      rw [← hqnr]
      exact W.tcovP q hq
    have hA : pg.blockNr ∉ s4.physical.iterDirty :=
      hrole_not4 pg.blockNr .types hrole (by intro hx; cases hx)
    have hB3 : pg.blockNr ∉ s3.physical.iterDirty :=
      hrole_not3p pg.blockNr .types hrole (by intro hx; cases hx)
    by_cases hqd : q.dirty = true
    · have hmem3 : pg.blockNr ∈ s2.types.iterDirty := by
        rw [h2tyx, ← hqnr]
        exact mem_iterDirty_t_intro x.types q hq hqd
      obtain ⟨pgw, hpgwm, hpgwnr, hnz3, hlt3, hrd3⟩ :=
        h3touch pg.blockNr hmem3
      have hpgwx : pgw ∈ x.types.blocks := by
        rw [← h2tyx]
        exact hpgwm
      have hpq : pgw = q := tpage_unique W.tnodup hpgwx hq
        (by rw [hpgwnr, hqnr])
      have hslot : tySlot pgw = tySlot pg := by
        rw [hpq]
        exact tySlot_of_core hqc
      have e4 : pnrP p4 pg.blockNr = pnrP p3 pg.blockNr :=
        h4keep pg.blockNr hcov hB3
      have w5 : readSlot f5 (pnrP p3 pg.blockNr) =
          readSlot f3 (pnrP p3 pg.blockNr) :=
        h5fkeep (pnrP p3 pg.blockNr) hlt3 hnz3 ⟨pg.blockNr, hcov, e4, hA⟩
      refine ⟨?_, ?_⟩
      · rw [hypnr pg.blockNr, e4]
        exact hnz3
      · rw [hypnr pg.blockNr, e4, hyread (pnrP p3 pg.blockNr) hnz3, w5,
          hrd3, hslot]
    · have hqcl : q.dirty = false := by
        cases hh : q.dirty with
        | false => rfl
        | true => exact absurd hh hqd
      obtain ⟨hnzx, hrdx⟩ := W.tsync q hq hqcl
      rw [hqnr] at hnzx hrdx
      have hB : pg.blockNr ∉ s2.types.iterDirty := by
        intro hmem
        rw [h2tyx] at hmem
        obtain ⟨pg2, hpg2, hpg2nr, hpg2d⟩ :=
          mem_iterDirty_t_elim x.types pg.blockNr hmem
        have hpq : pg2 = q := tpage_unique W.tnodup hpg2 hq
          (by rw [hpg2nr, hqnr])
        rw [hpq, hqcl] at hpg2d
        cases hpg2d
      have hs3 : x.streams.dirty = true → pg.blockNr ≠ 3 :=
        hrole_not_s pg.blockNr .types hrole (by intro hx; cases hx)
      have hu : ∀ kv ∈ x.user, kv.1 = pg.blockNr → kv.2.dirty = false :=
        hrole_not_u pg.blockNr .types hrole rfl
      obtain ⟨e, hw⟩ := hmaster pg.blockNr hcov hu hs3 hB hA
      have hlen : pnrP x.physical pg.blockNr < x.file.length :=
        W.elen pg.blockNr hcov hnzx
      refine ⟨?_, ?_⟩
      · rw [hypnr pg.blockNr, e]
        exact hnzx
      · rw [hypnr pg.blockNr, e, hyread (pnrP x.physical pg.blockNr) hnzx,
          hw hnzx hlen, hrdx, tySlot_of_core hqc]
  · -- pmap
    intro pg hpg
    rw [hyblocks] at hpg
    obtain ⟨i, hi⟩ := List.mem_iff_get?.mp hpg
    obtain ⟨pgm, hgm, hcm, _⟩ := h5get i pg hi
    have hnreq : pg.blockNr = pgm.blockNr := (ppCore_fields hcm).1
    by_cases hd4 : pgm.dirty = true
    · have hmem5 : pg.blockNr ∈ s4.physical.iterDirty := by
        rw [hnreq]
        exact mem_iterDirty_p_intro s4.physical pgm (List.get?_mem hgm) hd4
      obtain ⟨pgw, hpgwm, hpgwnr, hlt5, hrd5w⟩ := h5touch pg.blockNr hmem5
      have hpq : pgw = pgm := ppage_unique hnd4 hpgwm (List.get?_mem hgm)
        (by rw [hpgwnr, hnreq])
      have hslot : phSlot pgw = phSlot pg := by
        rw [hpq]
        exact (phSlot_of_core hcm).symm
      have hnz : pnrP p4 pg.blockNr ≠ 0 := hdnz5 pg.blockNr hmem5
      have hrdw : readSlot f5 (pnrP p4 pg.blockNr) = some (phSlot pgw) :=
        hrd5w
      refine ⟨?_, ?_⟩
      · rw [hypnr pg.blockNr]
        exact hnz
      · rw [hypnr pg.blockNr, hyread (pnrP p4 pg.blockNr) hnz, hrdw, hslot]
    · have hdf : pgm.dirty = false := by
        cases hh : pgm.dirty with
        | false => rfl
        | true => exact absurd hh hd4
      have hg3 : p3.blocks.get? i = some pgm := h4clean i pgm hgm hdf
      have hgx := hcleanback i pgm hg3 hdf
      have hpgmx : pgm ∈ x.physical.blocks := List.get?_mem hgx
      obtain ⟨hnzx, hrdx⟩ := W.psync pgm hpgmx hdf
      rw [← hnreq] at hnzx hrdx
      have hrole : x.types.blockType pg.blockNr = .ok .physicalT := by
        rw [hnreq]
        exact W.prole pgm hpgmx
      have hcov : pg.blockNr < coverP x.physical := by
        rw [hnreq]
        exact pcov_all x W pgm hpgmx
      have hA : pg.blockNr ∉ s4.physical.iterDirty := by
        intro hmem
        obtain ⟨pg2, hpg2, hpg2nr, hpg2d⟩ :=
          mem_iterDirty_p_elim s4.physical pg.blockNr hmem
        have hpq : pg2 = pgm := ppage_unique hnd4 hpg2 (List.get?_mem hgm)
          (by rw [hpg2nr, hnreq])
        rw [hpq, hdf] at hpg2d
        cases hpg2d
      have hB : pg.blockNr ∉ s2.types.iterDirty :=
        hrole_not3t pg.blockNr .physicalT hrole (by intro hx; cases hx)
      have hs3 : x.streams.dirty = true → pg.blockNr ≠ 3 :=
        hrole_not_s pg.blockNr .physicalT hrole (by intro hx; cases hx)
      have hu : ∀ kv ∈ x.user, kv.1 = pg.blockNr → kv.2.dirty = false :=
        hrole_not_u pg.blockNr .physicalT hrole rfl
      obtain ⟨e, hw⟩ := hmaster pg.blockNr hcov hu hs3 hB hA
      have hlen : pnrP x.physical pg.blockNr < x.file.length :=
        W.elen pg.blockNr hcov hnzx
      refine ⟨?_, ?_⟩
      · rw [hypnr pg.blockNr, e]
        exact hnzx
      · rw [hypnr pg.blockNr, e,
          hyread (pnrP x.physical pg.blockNr) hnzx, hw hnzx hlen, hrdx,
          phSlot_of_core hcm]
  · -- ssync
    intro hnz
    rw [hypnr 3] at hnz ⊢
    have hcov3 : (3 : Nat) < coverP x.physical := by omega
    have hB : (3 : Nat) ∉ s2.types.iterDirty :=
      hrole_not3t 3 .streams W.srole (by intro hx; cases hx)
    have hB3 : (3 : Nat) ∉ s3.physical.iterDirty :=
      hrole_not3p 3 .streams W.srole (by intro hx; cases hx)
    have hA : (3 : Nat) ∉ s4.physical.iterDirty :=
      hrole_not4 3 .streams W.srole (by intro hx; cases hx)
    cases hsd : x.streams.dirty with
    | true =>
      have hsd1 : s1.streams.dirty = true := by
        show s0.streams.dirty = true
        rw [h0st]
        exact hsd
      obtain ⟨hnz2, hlt2, hrd2⟩ := h2touch hsd1
      have e3 : pnrP p3 3 = pnrP s2.physical 3 := h3keep 3 hcov3 hB
      have e4 : pnrP p4 3 = pnrP p3 3 := h4keep 3 hcov3 hB3
      have w3 : readSlot f3 (pnrP s2.physical 3) =
          readSlot s2.file (pnrP s2.physical 3) :=
        h3fkeep (pnrP s2.physical 3) hlt2 hnz2 ⟨3, hcov3, rfl, hB⟩
      have w5 : readSlot f5 (pnrP s2.physical 3) =
          readSlot f3 (pnrP s2.physical 3) :=
        h5fkeep (pnrP s2.physical 3) (Nat.lt_of_lt_of_le hlt2 h3f) hnz2
          ⟨3, hcov3, e4.trans e3, hA⟩
      refine ⟨s1.streams.entries, ?_⟩
      rw [e4, e3, hyread (pnrP s2.physical 3) hnz2, w5, w3, hrd2]
    | false =>
      have hu : ∀ kv ∈ x.user, kv.1 = 3 → kv.2.dirty = false :=
        hrole_not_u 3 .streams W.srole rfl
      have hs3 : x.streams.dirty = true → (3 : Nat) ≠ 3 := by
        intro hd
        rw [hsd] at hd
        cases hd
      obtain ⟨e, hw⟩ := hmaster 3 hcov3 hu hs3 hB hA
      rw [e] at hnz ⊢
      obtain ⟨es, hes⟩ := W.ssync hsd hnz
      have hlen : pnrP x.physical 3 < x.file.length := W.elen 3 hcov3 hnz
      refine ⟨es, ?_⟩
      rw [hyread (pnrP x.physical 3) hnz, hw hnz hlen]
      exact hes
  · rw [h8st, h7st]
    exact h2stcl
  · -- udirty
    intro kv hkv hd
    obtain ⟨hnz1, hlt1, hrd1⟩ := h1touch kv (by rw [h0us]; exact hkv) hd
    have hcov : kv.1 < coverP x.physical := W.ccov kv hkv
    obtain ⟨ty, hty, hui⟩ := W.cuser kv hkv
    have hB : kv.1 ∉ s2.types.iterDirty :=
      hrole_not3t kv.1 ty hty (by intro hx; rw [hx] at hui; cases hui)
    have hA : kv.1 ∉ s4.physical.iterDirty :=
      hrole_not4 kv.1 ty hty (by intro hx; rw [hx] at hui; cases hui)
    have hs3 : x.streams.dirty = true → kv.1 ≠ 3 :=
      hrole_not_s kv.1 ty hty (by intro hx; rw [hx] at hui; cases hui)
    have e15 : pnrP p4 kv.1 = pnrP p1 kv.1 := hkeep15 kv.1 hcov hs3 hB hA
    have w15 : readSlot f5 (pnrP p1 kv.1) = readSlot f1 (pnrP p1 kv.1) :=
      hfile15 kv.1 (pnrP p1 kv.1) hcov hnz1 rfl hlt1 hs3 hB hA
    refine ⟨?_, ?_⟩
    · rw [hypnr kv.1, e15]
      exact hnz1
    · rw [hypnr kv.1, e15, hyread (pnrP p1 kv.1) hnz1, w15, hrd1]
  · -- untouched
    intro nr hcov hu hn3 hnt hnp
    have hs3 : x.streams.dirty = true → nr ≠ 3 := fun _ => hn3
    have hB : nr ∉ s2.types.iterDirty := by
      intro hmem
      rw [h2tyx] at hmem
      obtain ⟨pg, hpg, he, _⟩ := mem_iterDirty_t_elim x.types nr hmem
      exact hnt pg hpg he
    have hA : nr ∉ s4.physical.iterDirty := by
      intro hmem
      have hsub := (iterDirty_sublist_p s4.physical).subset hmem
      rw [h4bnrx] at hsub
      obtain ⟨pg, hpg, he⟩ := List.mem_map.mp hsub
      exact hnp pg hpg he
    obtain ⟨e, hw⟩ := hmaster nr hcov hu hs3 hB hA
    refine ⟨?_, ?_⟩
    · rw [hypnr nr]
      exact e
    · intro hnz
      rw [hyread (pnrP x.physical nr) hnz]
      exact hw hnz (W.elen nr hcov hnz)
  · -- ukeys
    refine h8ukeys ?_
    have hfst : s7.user.map Prod.fst = s0.user.map Prod.fst := by
      rw [h7u, hu1, map_fst_clear]
    rw [hfst, h0us]
    exact W.cnodup
  · -- ukeysub
    have h := h8uksub
    have hfst : s7.user.map Prod.fst = x.user.map Prod.fst := by
      rw [h7u, hu1, map_fst_clear, h0us]
    rw [hfst] at h
    exact h
  · -- umem
    intro kv hkv
    have hkv7 : kv ∈ s7.user := h8usub kv hkv
    rw [h7u, hu1] at hkv7
    obtain ⟨kv0, hkv0, he⟩ := List.mem_map.mp hkv7
    rw [h0us] at hkv0
    by_cases hdd : kv0.2.dirty
    · rw [if_pos hdd] at he
      refine ⟨kv0.2, ?_, ?_, ?_⟩
      · rw [← he]
        exact hkv0
      · rw [← he]
      · rw [← he]
    · rw [if_neg hdd] at he
      rw [← he]
      refine ⟨kv0.2, hkv0, rfl, ?_⟩
      cases hh : kv0.2.dirty with
      | false => rfl
      | true => exact absurd hh hdd

/-! ## Loading the committed file -/

theorem loadedP_core (pg : PPage) : ppCore (loadedP pg) = ppCore pg := rfl

theorem loadedT_core (pg : TPage) : tpCore (loadedT pg) = tpCore pg := rfl

theorem physicalNr_ext (P Q : MPhysical) (hbs : P.bs = Q.bs) (i : Nat)
    (hg : P.blocks.get? (i / lenPhysicalG Q.bs) =
      (Q.blocks.get? (i / lenPhysicalG Q.bs)).map loadedP) :
    P.physicalNr i = Q.physicalNr i := by
  rw [MPhysical.physicalNr, MPhysical.physicalNr, hbs, hg]
  cases hq : Q.blocks.get? (i / lenPhysicalG Q.bs) with
  | none => rfl
  | some pg => rfl

theorem chainOk_head_eq {r : Nat} {p : Nat × Nat} {l : List (Nat × Nat)}
    (h : chainOk r (p :: l)) : p.1 = r := by
  obtain ⟨b, nx⟩ := p
  cases l with
  | nil => exact h.1
  | cons q rest => exact h.1

theorem chainOk_tail {r : Nat} {p q : Nat × Nat} {l : List (Nat × Nat)}
    (h : chainOk r (p :: q :: l)) : chainOk p.2 (q :: l) := by
  obtain ⟨b, nx⟩ := p
  exact h.2

theorem chainOk_single {r : Nat} {p : Nat × Nat}
    (h : chainOk r [p]) : p.2 = 0 := by
  obtain ⟨b, nx⟩ := p
  exact h.2

theorem drop_eq_cons_of_get? {l : List α} {k : Nat} {a : α}
    (h : l.get? k = some a) : l.drop k = a :: l.drop (k + 1) := by
  induction l generalizing k with
  | nil => cases h
  | cons b rest ih =>
    cases k with
    | zero =>
      injection h with h
      subst h
      rfl
    | succ k2 =>
      show rest.drop k2 = a :: rest.drop (k2 + 1)
      exact ih h

theorem take_succ_of_get? {l : List α} {k : Nat} {a : α}
    (h : l.get? k = some a) : l.take (k + 1) = l.take k ++ [a] := by
  induction l generalizing k with
  | nil => cases h
  | cons b rest ih =>
    cases k with
    | zero =>
      injection h with h
      subst h
      rfl
    | succ k2 =>
      show b :: rest.take (k2 + 1) = b :: rest.take k2 ++ [a]
      rw [ih h]
      rfl

theorem get?_take_lt {l : List α} {k i : Nat} (h : i < k) :
    (l.take k).get? i = l.get? i := by
  induction l generalizing k i with
  | nil => rw [List.take_nil]
  | cons b rest ih =>
    cases k with
    | zero => omega
    | succ k2 =>
      cases i with
      | zero => rfl
      | succ i2 =>
        show (rest.take k2).get? i2 = rest.get? i2
        exact ih (by omega)

theorem loadChainP_ok (f : MFile) (Y : MPhysical) (B : Nat)
    (hN : 0 < lenPhysicalG Y.bs)
    (hc : physContig Y)
    (hcov : ∀ i pg, Y.blocks.get? i = some pg →
      pg.blockNr < (Nat.max i 1) * lenPhysicalG Y.bs)
    (hpm : ∀ pg ∈ Y.blocks, pnrP Y pg.blockNr ≠ 0 ∧
      readSlot f (pnrP Y pg.blockNr) = some (phSlot pg))
    (hnz : ∀ pg ∈ Y.blocks, pg.blockNr ≠ 0) :
    ∀ fuel k next,
      Y.blocks.length + 1 ≤ k + fuel →
      1 ≤ k → k ≤ Y.blocks.length →
      (k = Y.blocks.length ∧ next = 0 ∨
        chainOk next ((Y.blocks.drop k).map
          (fun pg => (pg.blockNr, pg.nextNr)))) →
      MPhysical.loadChain f B fuel
        { bs := Y.bs, blocks := (Y.blocks.take k).map loadedP,
          max := 0, free := [] } next =
      .ok { bs := Y.bs, blocks := Y.blocks.map loadedP,
            max := 0, free := [] } := by
  intro fuel
  induction fuel with
  | zero =>
    intro k next h1 h2 h3 h4
    exfalso
    omega
  | succ fuel ih =>
    intro k next h1 h2 h3 h4
    rcases h4 with ⟨hkl, hn0⟩ | hch
    · subst hn0
      rw [MPhysical.loadChain, if_pos rfl, hkl, List.take_length]
    · have hklt : k < Y.blocks.length := by
        rcases Nat.lt_or_ge k Y.blocks.length with h | h
        · exact h
        · exfalso
          rw [List.drop_eq_nil_of_le h] at hch
          exact hch
      obtain ⟨pgk, hgk⟩ : ∃ pg, Y.blocks.get? k = some pg :=
        ⟨Y.blocks.get ⟨k, hklt⟩, List.get?_eq_get hklt⟩
      have hdropk := drop_eq_cons_of_get? hgk
      rw [hdropk, List.map_cons] at hch
      have hnext : pgk.blockNr = next := chainOk_head_eq hch
      have hne0 : next ≠ 0 := by
        rw [← hnext]
        exact hnz pgk (List.get?_mem hgk)
      have hcovk : pgk.blockNr < k * lenPhysicalG Y.bs := by
        have h5 := hcov k pgk hgk
        have h6 : Nat.max k 1 ≤ k := by rw [Nat.max_le]; omega
        exact Nat.lt_of_lt_of_le h5 (Nat.mul_le_mul_right _ h6)
      have hdiv : next / lenPhysicalG Y.bs < k := by
        have h5 : pgk.blockNr / lenPhysicalG Y.bs < k :=
          (Nat.div_lt_iff_lt_mul hN).mpr hcovk
        rw [← hnext]
        exact h5
      have hcovnext : next < Y.blocks.length * lenPhysicalG Y.bs := by
        rw [← hnext]
        calc pgk.blockNr < k * lenPhysicalG Y.bs := hcovk
          _ ≤ Y.blocks.length * lenPhysicalG Y.bs :=
            Nat.mul_le_mul_right _ (Nat.le_of_lt hklt)
      have hgpre : (({ bs := Y.bs, blocks := (Y.blocks.take k).map loadedP, max := 0, free := [] } : MPhysical)).blocks.get? (next / lenPhysicalG Y.bs) = (Y.blocks.get? (next / lenPhysicalG Y.bs)).map loadedP := by
        show ((Y.blocks.take k).map loadedP).get?
          (next / lenPhysicalG Y.bs) = _
        rw [List.get?_map, get?_take_lt hdiv]
      have hres : MPhysical.physicalNr { bs := Y.bs, blocks := (Y.blocks.take k).map loadedP, max := 0, free := [] } next = .ok (pnrP Y next) := by
        rw [physicalNr_ext { bs := Y.bs, blocks := (Y.blocks.take k).map loadedP, max := 0, free := [] } Y rfl next hgpre]
        exact physicalNr_ok_of_covered Y next hc hN hcovnext
      obtain ⟨hw0, hread⟩ := hpm pgk (List.get?_mem hgk)
      rw [hnext] at hw0 hread
      have hraw : loadRawSlot f (pnrP Y next) = .ok (phSlot pgk) := by
        rw [loadRawSlot, if_neg hw0, hread]
      have hlist : (Y.blocks.take k).map loadedP ++ [{ blockNr := next, startNr := pgk.startNr, nextNr := pgk.nextNr, entries := pgk.entries, dirty := false, gen := 0 }] = (Y.blocks.take (k + 1)).map loadedP := by
        rw [take_succ_of_get? hgk, List.map_append, ← hnext]
        rfl
      have hstep : MPhysical.loadChain f B (fuel + 1) { bs := Y.bs, blocks := (Y.blocks.take k).map loadedP, max := 0, free := [] } next = MPhysical.loadChain f B fuel { bs := Y.bs, blocks := (Y.blocks.take (k + 1)).map loadedP, max := 0, free := [] } pgk.nextNr := by
        rw [MPhysical.loadChain, if_neg hne0, hres, except_bind_ok, hraw,
          except_bind_ok]
        show MPhysical.loadChain f B fuel { bs := Y.bs, blocks := (Y.blocks.take k).map loadedP ++ [{ blockNr := next, startNr := pgk.startNr, nextNr := pgk.nextNr, entries := pgk.entries, dirty := false, gen := 0 }], max := 0, free := [] } pgk.nextNr = _
        rw [hlist]
      rw [hstep]
      refine ih (k + 1) pgk.nextNr (by omega) (by omega) (by omega) ?_
      cases hrest : Y.blocks.drop (k + 1) with
      | nil =>
        left
        have hlen0 := congrArg List.length hrest
        rw [List.length_drop] at hlen0
        simp only [List.length_nil] at hlen0
        refine ⟨by omega, ?_⟩
        rw [hrest, List.map_nil] at hch
        exact chainOk_single hch
      | cons q rest2 =>
        right
        rw [hrest, List.map_cons] at hch
        rw [List.map_cons]
        exact chainOk_tail hch

theorem loadChainT_ok (f : MFile) (phys : MPhysical) (T : MTypes)
    (B BS : Nat) (FR : List Nat)
    (hpm : ∀ pg ∈ T.blocks, ∃ w, phys.physicalNr pg.blockNr = .ok w ∧
      w ≠ 0 ∧ readSlot f w = some (tySlot pg))
    (hnz : ∀ pg ∈ T.blocks, pg.blockNr ≠ 0) :
    ∀ fuel k next,
      T.blocks.length + 1 ≤ k + fuel →
      1 ≤ k → k ≤ T.blocks.length →
      (k = T.blocks.length ∧ next = 0 ∨
        chainOk next ((T.blocks.drop k).map
          (fun pg => (pg.blockNr, pg.nextNr)))) →
      MTypes.loadChain f B phys fuel
        { bs := BS, blocks := (T.blocks.take k).map loadedT, free := FR }
        next =
      .ok { bs := BS, blocks := T.blocks.map loadedT, free := FR } := by
  intro fuel
  induction fuel with
  | zero =>
    intro k next h1 h2 h3 h4
    exfalso
    omega
  | succ fuel ih =>
    intro k next h1 h2 h3 h4
    rcases h4 with ⟨hkl, hn0⟩ | hch
    · subst hn0
      rw [MTypes.loadChain, if_pos rfl, hkl, List.take_length]
    · have hklt : k < T.blocks.length := by
        rcases Nat.lt_or_ge k T.blocks.length with h | h
        · exact h
        · exfalso
          rw [List.drop_eq_nil_of_le h] at hch
          exact hch
      obtain ⟨pgk, hgk⟩ : ∃ pg, T.blocks.get? k = some pg :=
        ⟨T.blocks.get ⟨k, hklt⟩, List.get?_eq_get hklt⟩
      have hdropk := drop_eq_cons_of_get? hgk
      rw [hdropk, List.map_cons] at hch
      have hnext : pgk.blockNr = next := chainOk_head_eq hch
      have hne0 : next ≠ 0 := by
        rw [← hnext]
        exact hnz pgk (List.get?_mem hgk)
      obtain ⟨w, hres, hw0, hread⟩ := hpm pgk (List.get?_mem hgk)
      rw [hnext] at hres
      have hraw : loadRawSlot f w = .ok (tySlot pgk) := by
        rw [loadRawSlot, if_neg hw0, hread]
      have hlist : (T.blocks.take k).map loadedT ++ [{ blockNr := next, startNr := pgk.startNr, nextNr := pgk.nextNr, entries := pgk.entries, dirty := false, gen := 0 }] = (T.blocks.take (k + 1)).map loadedT := by
        rw [take_succ_of_get? hgk, List.map_append, ← hnext]
        rfl
      have hstep : MTypes.loadChain f B phys (fuel + 1) { bs := BS, blocks := (T.blocks.take k).map loadedT, free := FR } next = MTypes.loadChain f B phys fuel { bs := BS, blocks := (T.blocks.take (k + 1)).map loadedT, free := FR } pgk.nextNr := by
        rw [MTypes.loadChain, if_neg hne0, hres, except_bind_ok, hraw,
          except_bind_ok]
        show MTypes.loadChain f B phys fuel { bs := BS, blocks := (T.blocks.take k).map loadedT ++ [{ blockNr := next, startNr := pgk.startNr, nextNr := pgk.nextNr, entries := pgk.entries, dirty := false, gen := 0 }], free := FR } pgk.nextNr = _
        rw [hlist]
      rw [hstep]
      refine ih (k + 1) pgk.nextNr (by omega) (by omega) (by omega) ?_
      cases hrest : T.blocks.drop (k + 1) with
      | nil =>
        left
        have hlen0 := congrArg List.length hrest
        rw [List.length_drop] at hlen0
        simp only [List.length_nil] at hlen0
        refine ⟨by omega, ?_⟩
        rw [hrest, List.map_nil] at hch
        exact chainOk_single hch
      | cons q rest2 =>
        right
        rw [hrest, List.map_cons] at hch
        rw [List.map_cons]
        exact chainOk_tail hch

theorem pairs_mem_P (pg : PPage) (q : Nat × Nat) (hq : q ∈ pg.pairs) :
    ∃ j, pg.entries.get? j = some q.2 ∧ q.1 = pg.startNr + j := by
  rw [PPage.pairs] at hq
  obtain ⟨p, hp, he⟩ := List.mem_map.mp hq
  obtain ⟨j, w⟩ := p
  rw [List.mem_enum_iff_get?] at hp
  refine ⟨j, ?_, ?_⟩
  · rw [← he]
    exact hp
  · rw [← he]

theorem pairs_fst_nodup (pg : PPage) : (pg.pairs.map Prod.fst).Nodup := by
  rw [PPage.pairs, List.map_map]
  have h1 : (Prod.fst ∘ fun p : Nat × Nat => (pg.startNr + p.1, p.2)) =
      ((fun i => pg.startNr + i) ∘ Prod.fst) := rfl
  rw [h1, ← List.map_map, List.enum_map_fst]
  refine List.Nodup.map ?_ (List.nodup_range _)
  intro a b hab
  have hab2 : pg.startNr + a = pg.startNr + b := hab
  omega

theorem physDupCheck_ok (v : Nat → Nat) (C : Nat)
    (hinj : ∀ a b, a < C → b < C → v a ≠ 0 → v a = v b → a = b) :
    ∀ (l seen : List (Nat × Nat)),
      (∀ q ∈ l, q.2 = v q.1 ∧ q.2 ≠ 0 ∧ q.1 < C) →
      (∀ q ∈ seen, q.2 = v q.1 ∧ q.2 ≠ 0 ∧ q.1 < C) →
      (∀ a ∈ l, ∀ b ∈ seen, a.1 ≠ b.1) →
      (l.map Prod.fst).Nodup →
      ∃ seen2, physDupCheck l seen = .ok seen2 ∧
        ∀ q ∈ seen2, q ∈ l ∨ q ∈ seen := by
  intro l
  induction l with
  | nil =>
    intro seen hl hs hd hnd
    exact ⟨seen, rfl, fun q hq => Or.inr hq⟩
  | cons a rest ih =>
    intro seen hl hs hd hnd
    obtain ⟨nr, w⟩ := a
    have ha := hl (nr, w) (by simp)
    have hfind : seen.find? (fun q => q.2 = w) = none := by
      cases hf : seen.find? (fun q => q.2 = w) with
      | none => rfl
      | some q =>
        exfalso
        have hqmem := List.mem_of_find?_eq_some hf
        have hqp := List.find?_some hf
        simp only [decide_eq_true_eq] at hqp
        have hseenq := hs q hqmem
        have hq1 : q.1 = nr := by
          refine hinj q.1 nr hseenq.2.2 ha.2.2 ?_ ?_
          · rw [← hseenq.1]
            exact hseenq.2.1
          · rw [← hseenq.1, hqp]
            exact ha.1
        exact hd (nr, w) (by simp) q hqmem hq1.symm
    rw [physDupCheck, hfind]
    obtain ⟨seen2, hrun, hmem⟩ := ih ((nr, w) :: seen)
      (fun q hq => hl q (by simp [hq]))
      (by
        intro q hq
        rcases List.mem_cons.mp hq with h | h
        · rw [h]
          exact ha
        · exact hs q h)
      (by
        intro a2 ha2 b hb
        rcases List.mem_cons.mp hb with h | h
        · rw [h]
          simp only [List.map_cons, List.nodup_cons] at hnd
          intro h0
          exact hnd.1 (List.mem_map.mpr ⟨a2, ha2, h0⟩)
        · exact hd a2 (by simp [ha2]) b h)
      (by
        simp only [List.map_cons, List.nodup_cons] at hnd
        exact hnd.2)
    refine ⟨seen2, hrun, ?_⟩
    intro q hq
    rcases hmem q hq with h | h
    · exact Or.inl (List.mem_cons_of_mem _ h)
    · rcases List.mem_cons.mp h with h2 | h2
      · exact Or.inl (by rw [h2]; simp)
      · exact Or.inr h2

theorem physVerifyGo_ok (bs : Nat) (v : Nat → Nat) (C : Nat)
    (hinj : ∀ a b, a < C → b < C → v a ≠ 0 → v a = v b → a = b) :
    ∀ (l : List PPage) (e : Nat) (seen : List (Nat × Nat)),
      (∀ i pg, l.get? i = some pg →
        pg.startNr = e + i * lenPhysicalG bs) →
      (∀ pg ∈ l, pg.entries.length = lenPhysicalG bs) →
      (∀ pg ∈ l, ∀ j u, pg.entries.get? j = some u →
        u = v (pg.startNr + j) ∧ pg.startNr + j < C) →
      (∀ q ∈ seen, q.2 = v q.1 ∧ q.2 ≠ 0 ∧ q.1 < C ∧ q.1 < e) →
      physVerifyGo bs l e seen = .ok () := by
  intro l
  induction l with
  | nil =>
    intro e seen h1 hlen h2 h3
    rfl
  | cons pg rest ih =>
    intro e seen h1 hlen h2 h3
    have hstart : pg.startNr = e := by
      have h0 := h1 0 pg rfl
      omega
    have hfl : ∀ q ∈ pg.pairs.filter (fun q => q.2 ≠ 0),
        q.2 = v q.1 ∧ q.2 ≠ 0 ∧ q.1 < C ∧ pg.startNr ≤ q.1 ∧
        q.1 < pg.startNr + lenPhysicalG bs := by
      intro q hq
      have hmem := (List.mem_filter.mp hq).1
      have hne := (List.mem_filter.mp hq).2
      obtain ⟨j, hj, he⟩ := pairs_mem_P pg q hmem
      obtain ⟨hv, hc⟩ := h2 pg (by simp) j q.2 hj
      have hjlen : j < pg.entries.length := by
        by_contra h0
        rw [List.get?_eq_none.mpr (by omega)] at hj
        cases hj
      rw [hlen pg (by simp)] at hjlen
      refine ⟨by rw [he]; exact hv, by simpa using hne, by rw [he]; exact hc,
        by rw [he]; omega, by rw [he]; omega⟩
    have hfnd : ((pg.pairs.filter (fun q => q.2 ≠ 0)).map Prod.fst).Nodup :=
      (pairs_fst_nodup pg).sublist
        (List.Sublist.map _ (List.filter_sublist _))
    have hdisj : ∀ a ∈ pg.pairs.filter (fun q => q.2 ≠ 0), ∀ b ∈ seen,
        a.1 ≠ b.1 := by
      intro a ha b hb
      have h4 := (hfl a ha).2.2.2.1
      have h5 := (h3 b hb).2.2.2
      omega
    obtain ⟨seen2, hrun, hmem2⟩ := physDupCheck_ok v C hinj
      (pg.pairs.filter (fun q => q.2 ≠ 0)) seen
      (fun q hq => ⟨(hfl q hq).1, (hfl q hq).2.1, (hfl q hq).2.2.1⟩)
      (fun q hq => ⟨(h3 q hq).1, (h3 q hq).2.1, (h3 q hq).2.2.1⟩)
      hdisj hfnd
    rw [physVerifyGo, if_pos hstart, hrun]
    apply ih
    · intro i pg2 hg
      have h6 := h1 (i + 1) pg2 hg
      rw [Nat.succ_mul] at h6
      rw [PPage.endNr, hstart]
      omega
    · intro pg2 hpg2
      exact hlen pg2 (by simp [hpg2])
    · intro pg2 hpg2 j u hj
      exact h2 pg2 (by simp [hpg2]) j u hj
    · intro q hq
      rcases hmem2 q hq with h | h
      · have h6 := hfl q h
        refine ⟨h6.1, h6.2.1, h6.2.2.1, ?_⟩
        rw [PPage.endNr, hstart]
        rw [hstart] at h6
        exact h6.2.2.2.2
      · have h6 := h3 q h
        refine ⟨h6.1, h6.2.1, h6.2.2.1, ?_⟩
        rw [PPage.endNr]
        have h7 := h6.2.2.2
        omega

theorem typesVerifyGo_ok (bs : Nat) :
    ∀ (l : List TPage) (e : Nat),
      (∀ i pg, l.get? i = some pg →
        pg.startNr = e + i * lenTypesG bs) →
      typesVerifyGo bs l e = .ok () := by
  intro l
  induction l with
  | nil =>
    intro e h
    rfl
  | cons pg rest ih =>
    intro e h
    have hstart : pg.startNr = e := by
      have h0 := h 0 pg rfl
      omega
    rw [typesVerifyGo, if_pos hstart]
    apply ih
    intro i pg2 hg
    have h6 := h (i + 1) pg2 hg
    rw [Nat.succ_mul] at h6
    rw [TPage.endNr, hstart]
    omega

theorem tpCore_get {l l2 : List TPage}
    (h : l2.map tpCore = l.map tpCore) (i : Nat) :
    Option.map tpCore (l2.get? i) = Option.map tpCore (l.get? i) := by
  rw [← List.get?_map, ← List.get?_map, h]

theorem map_loadedT_of_core {l1 l2 : List TPage}
    (h : l1.map tpCore = l2.map tpCore) :
    l1.map loadedT = l2.map loadedT := by
  have he : ∀ l : List TPage, l.map loadedT = (l.map tpCore).map (fun c => { blockNr := c.1, startNr := c.2.1, nextNr := c.2.2.1, entries := c.2.2.2, dirty := false, gen := 0 }) := by
    intro l
    rw [List.map_map]
    rfl
  rw [he, he, h]

theorem blockType_ext (P Q : MTypes) (hbs : P.bs = Q.bs)
    (hbl : P.blocks = Q.blocks.map loadedT) :
    ∀ nr, P.blockType nr = Q.blockType nr := by
  intro nr
  rw [MTypes.blockType, MTypes.blockType, hbs, hbl, List.get?_map]
  cases hq : Q.blocks.get? (nr / lenTypesG Q.bs) with
  | none => rfl
  | some pg => rfl

theorem assertOneType_ok (t : MTypes) (nr : Nat) (want : BlockType)
    (h : t.blockType nr = .ok want) :
    assertOneType t nr want = .ok () := by
  rw [assertOneType, h]
  simp

theorem assertAllTypes_ok (t : MTypes) (want : BlockType) :
    ∀ nrs, (∀ nr ∈ nrs, t.blockType nr = .ok want) →
      assertAllTypes t nrs want = .ok () := by
  intro nrs
  induction nrs with
  | nil =>
    intro h
    rfl
  | cons nr rest ih =>
    intro h
    rw [assertAllTypes, assertOneType_ok t nr want (h nr (by simp))]
    exact ih (fun m hm => h m (by simp [hm]))

theorem pnrP_entry (Y : MPhysical) (hc : physContig Y)
    (hN : 0 < lenPhysicalG Y.bs) (i j : Nat) (pg : PPage)
    (hg : Y.blocks.get? i = some pg) (hj : j < lenPhysicalG Y.bs)
    (u : Nat) (hu : pg.entries.get? j = some u) :
    pnrP Y (pg.startNr + j) = u ∧ pg.startNr + j < coverP Y := by
  obtain ⟨hst, hlen⟩ := hc i pg hg
  have hdiv : (pg.startNr + j) / lenPhysicalG Y.bs = i := by
    rw [hst, Nat.add_comm, Nat.add_mul_div_right _ _ hN,
      Nat.div_eq_of_lt hj]
    omega
  have hiL : i < Y.blocks.length := by
    by_contra h0
    rw [List.get?_eq_none.mpr (by omega)] at hg
    cases hg
  constructor
  · have hg2 : Y.blocks.get? ((pg.startNr + j) / lenPhysicalG Y.bs) =
        some pg := by
      rw [hdiv]
      exact hg
    have hcont : pg.containsNr Y.bs (pg.startNr + j) = true := by
      rw [PPage.containsNr, PPage.endNr]
      simp only [Bool.and_eq_true, decide_eq_true_eq]
      omega
    have hidx : pg.startNr + j - pg.startNr = j := by omega
    rw [pnrP, physicalNr_eq_of_get Y (pg.startNr + j) pg hg2,
      if_pos hcont, hidx, hu]
    rfl
  · rw [coverP, hst]
    have h1 : (i + 1) * lenPhysicalG Y.bs ≤
        Y.blocks.length * lenPhysicalG Y.bs :=
      Nat.mul_le_mul_right _ (by omega)
    rw [Nat.succ_mul] at h1
    omega

theorem cacheFind_mem {u : List (Nat × MBlock)} {nr : Nat} {b : MBlock}
    (h : cacheFind u nr = some b) : (nr, b) ∈ u := by
  rw [cacheFind] at h
  cases hf : u.find? (fun kv => kv.1 = nr) with
  | none =>
    rw [hf] at h
    cases h
  | some kv =>
    rw [hf] at h
    have hmem := List.mem_of_find?_eq_some hf
    have hp := List.find?_some hf
    simp only [decide_eq_true_eq] at hp
    injection h with h
    have : kv = (nr, b) := by
      obtain ⟨k, v⟩ := kv
      simp only at hp h
      rw [hp, h]
    rw [← this]
    exact hmem

theorem cacheFind_none {u : List (Nat × MBlock)} {nr : Nat}
    (h : cacheFind u nr = none) : ∀ kv ∈ u, kv.1 ≠ nr := by
  intro kv hkv h0
  rw [cacheFind] at h
  cases hf : u.find? (fun kv => kv.1 = nr) with
  | none =>
    have := List.find?_eq_none.mp hf kv hkv
    simp only [decide_eq_true_eq] at this
    exact this h0
  | some kv2 =>
    rw [hf] at h
    cases h

theorem cacheFind_unique {u : List (Nat × MBlock)} {nr : Nat} {b : MBlock}
    (hnd : (u.map Prod.fst).Nodup) (h : cacheFind u nr = some b) :
    ∀ kv ∈ u, kv.1 = nr → kv = (nr, b) := by
  intro kv hkv he
  have hmem := cacheFind_mem h
  have h2 : kv = (nr, b) := by
    have := List.inj_on_of_nodup_map hnd hkv hmem
    refine this ?_
    exact he
  exact h2

theorem nodup_pages_length_le (L : List Nat) (flen : Nat)
    (hnd : L.Nodup) (hmem : ∀ v ∈ L, v < flen) :
    L.length ≤ flen := by
  have hsub : L ⊆ List.range flen := by
    intro v hv
    rw [List.mem_range]
    exact hmem v hv
  have := (hnd.subperm hsub).length_le
  rwa [List.length_range] at this

theorem physLoad_ok (x y : MAlloc) (W : WF x) (R : StoreRel x y) :
    ∃ P2, MPhysical.load y.file x.bs (pnrP y.physical 2) = .ok P2 ∧
      P2.bs = x.bs ∧ P2.blocks = y.physical.blocks.map loadedP := by
  have hypbs : y.physical.bs = x.bs := by rw [R.pbs, W.pbs]
  have hNx : 0 < lenPhysicalG x.bs := by
    have h := W.nt6
    rw [lenPhysicalG_eq]
    omega
  have hNy : 0 < lenPhysicalG y.physical.bs := by
    rw [hypbs]
    exact hNx
  have hybnr : y.physical.blocks.map (fun pg => pg.blockNr) =
      x.physical.blocks.map (fun pg => pg.blockNr) :=
    pblockNr_map_of_shape R.pshape
  have hplen : y.physical.blocks.length = x.physical.blocks.length := by
    have h := congrArg List.length hybnr
    rwa [List.length_map, List.length_map] at h
  have hcovyx : coverP y.physical = coverP x.physical := by
    rw [coverP, coverP, hplen, hypbs, W.pbs]
  have hpairs : y.physical.blocks.map (fun pg => (pg.blockNr, pg.nextNr)) =
      x.physical.blocks.map (fun pg => (pg.blockNr, pg.nextNr)) := by
    have h := congrArg
      (List.map (fun c : Nat × Nat × Nat => (c.1, c.2.2))) R.pshape
    rw [List.map_map, List.map_map] at h
    exact h
  have hpchain : chainOk 2
      (y.physical.blocks.map (fun pg => (pg.blockNr, pg.nextNr))) := by
    rw [hpairs]
    exact W.pchain
  have hycov : ∀ i pg, y.physical.blocks.get? i = some pg →
      pg.blockNr < Nat.max i 1 * lenPhysicalG y.physical.bs := by
    intro i pg hg
    have hsh := ppShape_get x.physical.blocks
      y.physical.blocks R.pshape i
    rw [hg] at hsh
    cases hgx : x.physical.blocks.get? i with
    | none =>
      rw [hgx] at hsh
      cases hsh
    | some pgx =>
      rw [hgx] at hsh
      have hf := ppShape_fields (Option.some_inj.mp hsh)
      rw [hf.1, hypbs]
      exact W.pcovP i pgx hgx
  have hynodup : (y.physical.blocks.map (fun pg => pg.blockNr)).Nodup := by
    rw [hybnr]
    exact W.pnodup
  have hynz : ∀ pg ∈ y.physical.blocks, pg.blockNr ≠ 0 := by
    intro pg hpg h0
    have hm : pg.blockNr ∈ x.physical.blocks.map (fun pg => pg.blockNr) := by
      rw [← hybnr]
      exact List.mem_map_of_mem _ hpg
    obtain ⟨pgx, hpgx, he⟩ := List.mem_map.mp hm
    have hr := W.prole pgx hpgx
    rw [he, h0, W.hrole] at hr
    injection hr with hr
    cases hr
  have hycovall : ∀ pg ∈ y.physical.blocks,
      pg.blockNr < coverP y.physical := by
    intro pg hpg
    have hm : pg.blockNr ∈ x.physical.blocks.map (fun pg => pg.blockNr) := by
      rw [← hybnr]
      exact List.mem_map_of_mem _ hpg
    obtain ⟨pgx, hpgx, he⟩ := List.mem_map.mp hm
    rw [hcovyx, ← he]
    exact pcov_all x W pgx hpgx
  have hslotlt : ∀ pg ∈ y.physical.blocks,
      pnrP y.physical pg.blockNr < y.file.length := by
    intro pg hpg
    have h := (R.pmap pg hpg).2
    by_contra h0
    rw [readSlot, List.get?_eq_none.mpr (by omega)] at h
    cases h
  have hlenbound : y.physical.blocks.length ≤ y.file.length := by
    have hnd2 : ((y.physical.blocks.map (fun pg => pg.blockNr)).map
        (fun nr => pnrP y.physical nr)).Nodup := by
      refine List.Nodup.map_on ?_ hynodup
      intro a ha b hb hab
      obtain ⟨pga, hpga, hea⟩ := List.mem_map.mp ha
      obtain ⟨pgb, hpgb, heb⟩ := List.mem_map.mp hb
      refine R.einj a b ?_ ?_ ?_ hab
      · rw [← hea]
        exact hycovall pga hpga
      · rw [← heb]
        exact hycovall pgb hpgb
      · rw [← hea]
        exact (R.pmap pga hpga).1
    have hlen3 := nodup_pages_length_le
      ((y.physical.blocks.map (fun pg => pg.blockNr)).map
        (fun nr => pnrP y.physical nr)) y.file.length hnd2 (by
      intro v hv
      obtain ⟨nr, hnr, he⟩ := List.mem_map.mp hv
      obtain ⟨pg, hpg, he2⟩ := List.mem_map.mp hnr
      rw [← he, ← he2]
      exact hslotlt pg hpg)
    rwa [List.length_map, List.length_map] at hlen3
  obtain ⟨nx2, rest2, hpch⟩ := chainOk_head 2 _ hpchain
  obtain ⟨pg0, tl0, hyblocks0, hpg0nr⟩ :
      ∃ pg tl, y.physical.blocks = pg :: tl ∧ pg.blockNr = 2 := by
    cases hb : y.physical.blocks with
    | nil =>
      rw [hb] at hpch
      cases hpch
    | cons pg tl =>
      rw [hb] at hpch
      simp only [List.map_cons] at hpch
      have h := List.head_eq_of_cons_eq hpch
      exact ⟨pg, tl, rfl, congrArg Prod.fst h⟩
  have hlen1 : 1 ≤ y.physical.blocks.length := by
    rw [hyblocks0]
    simp
  obtain ⟨hpnz2, hprd2⟩ := R.pmap pg0 (by rw [hyblocks0]; simp)
  rw [hpg0nr] at hpnz2 hprd2
  have hroot : loadRawSlot y.file (pnrP y.physical 2) = .ok (phSlot pg0) := by
    rw [loadRawSlot, if_neg hpnz2, hprd2]
  have hchaincond : 1 = y.physical.blocks.length ∧ pg0.nextNr = 0 ∨
      chainOk pg0.nextNr ((y.physical.blocks.drop 1).map
        (fun pg => (pg.blockNr, pg.nextNr))) := by
    rw [hyblocks0] at hpchain ⊢
    rw [List.map_cons] at hpchain
    show 1 = (pg0 :: tl0).length ∧ pg0.nextNr = 0 ∨
      chainOk pg0.nextNr (tl0.map (fun pg => (pg.blockNr, pg.nextNr)))
    cases htl : tl0 with
    | nil =>
      left
      rw [htl, List.map_nil] at hpchain
      exact ⟨rfl, chainOk_single hpchain⟩
    | cons q rest3 =>
      right
      rw [htl, List.map_cons] at hpchain
      rw [List.map_cons]
      exact chainOk_tail hpchain
  have hchainrun := loadChainP_ok y.file y.physical x.bs hNy R.pcontig
    hycov R.pmap hynz (y.file.length + 1) 1 pg0.nextNr (by omega)
    (Nat.le_refl 1) hlen1 hchaincond
  rw [hypbs] at hchainrun
  have hacc0 : ([{ blockNr := 2, startNr := pg0.startNr, nextNr := pg0.nextNr, entries := pg0.entries, dirty := false, gen := 0 }] : List PPage) = (y.physical.blocks.take 1).map loadedP := by
    rw [hyblocks0]
    show _ = [loadedP pg0]
    rw [← hpg0nr]
    rfl
  have hchain2 : MPhysical.loadChain y.file x.bs (y.file.length + 1) { bs := x.bs, blocks := [{ blockNr := 2, startNr := pg0.startNr, nextNr := pg0.nextNr, entries := pg0.entries, dirty := false, gen := 0 }], max := 0, free := [] } pg0.nextNr = .ok { bs := x.bs, blocks := y.physical.blocks.map loadedP, max := 0, free := [] } := by
    rw [hacc0]
    exact hchainrun
  have hverify0 : physVerifyGo x.bs (y.physical.blocks.map loadedP) 0 [] =
      .ok () := by
    refine physVerifyGo_ok x.bs (fun nr => pnrP y.physical nr)
      (coverP y.physical) R.einj (y.physical.blocks.map loadedP) 0 []
      ?_ ?_ ?_ ?_
    · intro i pg hg
      rw [List.get?_map] at hg
      cases hgy : y.physical.blocks.get? i with
      | none =>
        rw [hgy] at hg
        cases hg
      | some pgy =>
        rw [hgy] at hg
        have he : loadedP pgy = pg := Option.some_inj.mp hg
        have hco := (R.pcontig i pgy hgy).1
        rw [← he]
        show pgy.startNr = 0 + i * lenPhysicalG x.bs
        rw [hypbs] at hco
        omega
    · intro pg hpg
      obtain ⟨pgy, hpgy, he⟩ := List.mem_map.mp hpg
      obtain ⟨i, hgy⟩ := List.mem_iff_get?.mp hpgy
      have hl := (R.pcontig i pgy hgy).2
      rw [← he]
      show pgy.entries.length = lenPhysicalG x.bs
      rw [hypbs] at hl
      exact hl
    · intro pg hpg j u hu
      obtain ⟨pgy, hpgy, he⟩ := List.mem_map.mp hpg
      obtain ⟨i, hgy⟩ := List.mem_iff_get?.mp hpgy
      have hu2 : pgy.entries.get? j = some u := by
        rw [← he] at hu
        exact hu
      have hjlt : j < lenPhysicalG y.physical.bs := by
        have hl := (R.pcontig i pgy hgy).2
        by_contra h0
        rw [List.get?_eq_none.mpr (by omega)] at hu2
        cases hu2
      have hpe := pnrP_entry y.physical R.pcontig hNy i j pgy hgy hjlt u hu2
      constructor
      · rw [← he]
        show u = pnrP y.physical (pgy.startNr + j)
        exact hpe.1.symm
      · rw [← he]
        show pgy.startNr + j < coverP y.physical
        exact hpe.2
    · intro q hq
      cases hq
  refine ⟨MPhysical.initFreeList { bs := x.bs, blocks := y.physical.blocks.map loadedP, max := 0, free := [] } (y.file.length * x.bs), ?_, rfl, rfl⟩
  rw [MPhysical.load, hroot, except_bind_ok]
  show (do
    let p1 ← MPhysical.loadChain y.file x.bs (y.file.length + 1) { bs := x.bs, blocks := [{ blockNr := 2, startNr := pg0.startNr, nextNr := pg0.nextNr, entries := pg0.entries, dirty := false, gen := 0 }], max := 0, free := [] } pg0.nextNr
    let p2 := p1.initFreeList (y.file.length * x.bs)
    match p2.verify with
    | .ok _ => .ok p2
    | .error e => .error e) = _
  rw [hchain2, except_bind_ok]
  have hqverify : (MPhysical.initFreeList { bs := x.bs, blocks := y.physical.blocks.map loadedP, max := 0, free := [] } (y.file.length * x.bs)).verify = .ok () := by
    rw [MPhysical.verify]
    exact hverify0
  simp only [hqverify]

theorem typesLoad_ok (x y : MAlloc) (W : WF x) (R : StoreRel x y)
    (phys : MPhysical) (hpbs : phys.bs = x.bs)
    (hpbl : phys.blocks = y.physical.blocks.map loadedP) :
    ∃ T2, MTypes.load y.file phys x.bs (pnrP y.physical 1) = .ok T2 ∧
      T2.bs = x.bs ∧ T2.blocks = y.types.blocks.map loadedT := by
  have hypbs : y.physical.bs = x.bs := by rw [R.pbs, W.pbs]
  have hNx : 0 < lenPhysicalG x.bs := by
    have h := W.nt6
    rw [lenPhysicalG_eq]
    omega
  have hNy : 0 < lenPhysicalG y.physical.bs := by
    rw [hypbs]
    exact hNx
  have hplen : y.physical.blocks.length = x.physical.blocks.length := by
    have h := congrArg List.length (pblockNr_map_of_shape R.pshape)
    rwa [List.length_map, List.length_map] at h
  have hcovyx : coverP y.physical = coverP x.physical := by
    rw [coverP, coverP, hplen, hypbs, W.pbs]
  have hybnrT : y.types.blocks.map (fun pg => pg.blockNr) =
      x.types.blocks.map (fun pg => pg.blockNr) :=
    blockNr_map_of_core R.tcore
  have htpairs : y.types.blocks.map (fun pg => (pg.blockNr, pg.nextNr)) =
      x.types.blocks.map (fun pg => (pg.blockNr, pg.nextNr)) := by
    have h := congrArg
      (List.map (fun c : Nat × Nat × Nat × List BlockType => (c.1, c.2.2.1)))
      R.tcore
    rw [List.map_map, List.map_map] at h
    exact h
  have htchain : chainOk 1
      (y.types.blocks.map (fun pg => (pg.blockNr, pg.nextNr))) := by
    rw [htpairs]
    exact W.tchain
  have hnzT : ∀ pg ∈ y.types.blocks, pg.blockNr ≠ 0 := by
    intro pg hpg h0
    have hm : pg.blockNr ∈ x.types.blocks.map (fun pg => pg.blockNr) := by
      rw [← hybnrT]
      exact List.mem_map_of_mem _ hpg
    obtain ⟨pgx, hpgx, he⟩ := List.mem_map.mp hm
    have hr := W.trole pgx hpgx
    rw [he, h0, W.hrole] at hr
    injection hr with hr
    cases hr
  have hcovT : ∀ pg ∈ y.types.blocks, pg.blockNr < coverP y.physical := by
    intro pg hpg
    have hm : pg.blockNr ∈ x.types.blocks.map (fun pg => pg.blockNr) := by
      rw [← hybnrT]
      exact List.mem_map_of_mem _ hpg
    obtain ⟨pgx, hpgx, he⟩ := List.mem_map.mp hm
    rw [hcovyx, ← he]
    exact W.tcovP pgx hpgx
  have hpnr_ext : ∀ m, phys.physicalNr m = y.physical.physicalNr m := by
    intro m
    refine physicalNr_ext phys y.physical (by rw [hpbs, hypbs]) m ?_
    rw [hpbl, List.get?_map]
  have hpmT : ∀ pg ∈ y.types.blocks, ∃ w,
      phys.physicalNr pg.blockNr = .ok w ∧ w ≠ 0 ∧
      readSlot y.file w = some (tySlot pg) := by
    intro pg hpg
    obtain ⟨hnz, hrd⟩ := R.tmap pg hpg
    refine ⟨pnrP y.physical pg.blockNr, ?_, hnz, hrd⟩
    rw [hpnr_ext]
    refine physicalNr_ok_of_covered y.physical pg.blockNr R.pcontig hNy ?_
    have h := hcovT pg hpg
    rw [coverP] at h
    exact h
  have hslotltT : ∀ pg ∈ y.types.blocks,
      pnrP y.physical pg.blockNr < y.file.length := by
    intro pg hpg
    have h := (R.tmap pg hpg).2
    by_contra h0
    rw [readSlot, List.get?_eq_none.mpr (by omega)] at h
    cases h
  have hynodupT : (y.types.blocks.map (fun pg => pg.blockNr)).Nodup := by
    rw [hybnrT]
    exact W.tnodup
  have hlenboundT : y.types.blocks.length ≤ y.file.length := by
    have hnd2 : ((y.types.blocks.map (fun pg => pg.blockNr)).map
        (fun nr => pnrP y.physical nr)).Nodup := by
      refine List.Nodup.map_on ?_ hynodupT
      intro a ha b hb hab
      obtain ⟨pga, hpga, hea⟩ := List.mem_map.mp ha
      obtain ⟨pgb, hpgb, heb⟩ := List.mem_map.mp hb
      refine R.einj a b ?_ ?_ ?_ hab
      · rw [← hea]
        exact hcovT pga hpga
      · rw [← heb]
        exact hcovT pgb hpgb
      · rw [← hea]
        exact (R.tmap pga hpga).1
    have hlen3 := nodup_pages_length_le
      ((y.types.blocks.map (fun pg => pg.blockNr)).map
        (fun nr => pnrP y.physical nr)) y.file.length hnd2 (by
      intro v hv
      obtain ⟨nr, hnr, he⟩ := List.mem_map.mp hv
      obtain ⟨pg, hpg, he2⟩ := List.mem_map.mp hnr
      rw [← he, ← he2]
      exact hslotltT pg hpg)
    rwa [List.length_map, List.length_map] at hlen3
  obtain ⟨nx1, rest1, htch⟩ := chainOk_head 1 _ htchain
  obtain ⟨pg0, tl0, hyblocks0, hpg0nr⟩ :
      ∃ pg tl, y.types.blocks = pg :: tl ∧ pg.blockNr = 1 := by
    cases hb : y.types.blocks with
    | nil =>
      rw [hb] at htch
      cases htch
    | cons pg tl =>
      rw [hb] at htch
      simp only [List.map_cons] at htch
      have h := List.head_eq_of_cons_eq htch
      exact ⟨pg, tl, rfl, congrArg Prod.fst h⟩
  have hlen1 : 1 ≤ y.types.blocks.length := by
    rw [hyblocks0]
    simp
  obtain ⟨w1, hw1res, hw1nz, hw1rd⟩ := hpmT pg0 (by rw [hyblocks0]; simp)
  have hw1val : w1 = pnrP y.physical 1 := by
    rw [hpnr_ext] at hw1res
    have h2 := physicalNr_ok_of_covered y.physical pg0.blockNr R.pcontig
      hNy (by
        have h := hcovT pg0 (by rw [hyblocks0]; simp)
        rw [coverP] at h
        exact h)
    rw [h2] at hw1res
    injection hw1res with h3
    rw [← h3, hpg0nr]
  have hrootT : loadRawSlot y.file (pnrP y.physical 1) =
      .ok (tySlot pg0) := by
    rw [← hw1val, loadRawSlot, if_neg hw1nz, hw1rd]
  have hchaincond : 1 = y.types.blocks.length ∧ pg0.nextNr = 0 ∨
      chainOk pg0.nextNr ((y.types.blocks.drop 1).map
        (fun pg => (pg.blockNr, pg.nextNr))) := by
    rw [hyblocks0] at htchain ⊢
    rw [List.map_cons] at htchain
    show 1 = (pg0 :: tl0).length ∧ pg0.nextNr = 0 ∨
      chainOk pg0.nextNr (tl0.map (fun pg => (pg.blockNr, pg.nextNr)))
    cases htl : tl0 with
    | nil =>
      left
      rw [htl, List.map_nil] at htchain
      exact ⟨rfl, chainOk_single htchain⟩
    | cons q rest3 =>
      right
      rw [htl, List.map_cons] at htchain
      rw [List.map_cons]
      exact chainOk_tail htchain
  have hchainrun := loadChainT_ok y.file phys y.types x.bs x.bs [] hpmT
    hnzT (y.file.length + 1) 1 pg0.nextNr (by omega) (Nat.le_refl 1) hlen1
    hchaincond
  have hacc0 : ([{ blockNr := 1, startNr := pg0.startNr, nextNr := pg0.nextNr, entries := pg0.entries, dirty := false, gen := 0 }] : List TPage) = (y.types.blocks.take 1).map loadedT := by
    rw [hyblocks0]
    show _ = [loadedT pg0]
    rw [← hpg0nr]
    rfl
  have hchain2 : MTypes.loadChain y.file x.bs phys (y.file.length + 1) { bs := x.bs, blocks := [{ blockNr := 1, startNr := pg0.startNr, nextNr := pg0.nextNr, entries := pg0.entries, dirty := false, gen := 0 }], free := [] } pg0.nextNr = .ok { bs := x.bs, blocks := y.types.blocks.map loadedT, free := [] } := by
    rw [hacc0]
    exact hchainrun
  have hverify0 : typesVerifyGo x.bs (y.types.blocks.map loadedT) 0 =
      .ok () := by
    refine typesVerifyGo_ok x.bs (y.types.blocks.map loadedT) 0 ?_
    intro i pg hg
    rw [List.get?_map] at hg
    cases hgy : y.types.blocks.get? i with
    | none =>
      rw [hgy] at hg
      cases hg
    | some pgy =>
      rw [hgy] at hg
      have he : loadedT pgy = pg := Option.some_inj.mp hg
      have hco := tpCore_get R.tcore i
      rw [hgy] at hco
      cases hgx : x.types.blocks.get? i with
      | none =>
        rw [hgx] at hco
        cases hco
      | some pgx =>
        rw [hgx] at hco
        have hf := tpCore_fields (Option.some_inj.mp hco)
        have hcx := (W.tcontig i pgx hgx).1
        rw [← he]
        show pgy.startNr = 0 + i * lenTypesG x.bs
        rw [hf.2.1, W.tbs] at *
        omega
  refine ⟨{ bs := x.bs, blocks := y.types.blocks.map loadedT, free := typesFreeList (y.types.blocks.map loadedT) }, ?_, rfl, rfl⟩
  rw [MTypes.load, hrootT, except_bind_ok]
  show (do
    let t1 ← MTypes.loadChain y.file x.bs phys (y.file.length + 1) { bs := x.bs, blocks := [{ blockNr := 1, startNr := pg0.startNr, nextNr := pg0.nextNr, entries := pg0.entries, dirty := false, gen := 0 }], free := [] } pg0.nextNr
    let t2 : MTypes := { t1 with free := typesFreeList t1.blocks }
    match t2.verify with
    | .ok _ => .ok t2
    | .error e => .error e) = _
  rw [hchain2, except_bind_ok]
  have hqverify : ({ bs := x.bs, blocks := y.types.blocks.map loadedT, free := typesFreeList (y.types.blocks.map loadedT) } : MTypes).verify = .ok () := by
    rw [MTypes.verify]
    exact hverify0
  simp only [hqverify]

theorem assertBlockType_ok (s : MAlloc) (hbsz : s.header.blockSize = s.bs)
    (h0 : s.types.blockType 0 = .ok .header)
    (hT : ∀ nr ∈ s.types.blocks.map (fun pg => pg.blockNr),
      s.types.blockType nr = .ok .types)
    (hP : ∀ nr ∈ s.physical.blocks.map (fun pg => pg.blockNr),
      s.types.blockType nr = .ok .physicalT) :
    s.assertBlockType = .ok () := by
  rw [MAlloc.assertBlockType, if_neg (by rw [hbsz]; exact fun h => h rfl),
    assertOneType_ok s.types 0 .header h0,
    assertAllTypes_ok s.types .types _ hT,
    assertAllTypes_ok s.types .physicalT _ hP]

theorem load_of_store (x y : MAlloc) (W : WF x) (R : StoreRel x y) :
    ∃ z, MAlloc.load x.bs y.file = .ok z ∧ z.bs = x.bs ∧ z.file = y.file ∧
      z.user = [] ∧ z.types.blocks.length = x.types.blocks.length ∧
      (∀ nr, z.types.blockType nr = x.types.blockType nr) ∧
      (∀ nr, z.physical.physicalNr nr = y.physical.physicalNr nr) := by
  obtain ⟨P2, hP2run, hP2bs, hP2bl⟩ := physLoad_ok x y W R
  obtain ⟨T2, hT2run, hT2bs, hT2bl⟩ := typesLoad_ok x y W R P2 hP2bs hP2bl
  have hypbs : y.physical.bs = x.bs := by rw [R.pbs, W.pbs]
  have hp2nz : pnrP y.physical 2 ≠ 0 := by
    intro h0
    rw [MPhysical.load, loadRawSlot, if_pos h0] at hP2run
    cases hP2run
  have hp1nz : pnrP y.physical 1 ≠ 0 := by
    intro h0
    rw [MTypes.load, loadRawSlot, if_pos h0] at hT2run
    cases hT2run
  have hTx : T2.blocks = x.types.blocks.map loadedT := by
    rw [hT2bl]
    exact map_loadedT_of_core R.tcore
  have hzt : ∀ nr, T2.blockType nr = x.types.blockType nr :=
    blockType_ext T2 x.types (by rw [hT2bs, W.tbs]) hTx
  have hztlen : T2.blocks.length = x.types.blocks.length := by
    rw [hTx, List.length_map]
  have hzp : ∀ nr, P2.physicalNr nr = y.physical.physicalNr nr := by
    intro nr
    refine physicalNr_ext P2 y.physical (by rw [hP2bs, hypbs]) nr ?_
    rw [hP2bl, List.get?_map]
  have hbt0 : T2.blockType 0 = .ok .header := by
    rw [hzt]
    exact W.hrole
  have hTnrs : T2.blocks.map (fun pg => pg.blockNr) =
      x.types.blocks.map (fun pg => pg.blockNr) := by
    rw [hTx, List.map_map]
    rfl
  have hPnrs : P2.blocks.map (fun pg => pg.blockNr) =
      x.physical.blocks.map (fun pg => pg.blockNr) := by
    rw [hP2bl, List.map_map]
    show y.physical.blocks.map (fun pg => pg.blockNr) = _
    exact pblockNr_map_of_shape R.pshape
  have hassertAny : ∀ st : MStreams, MAlloc.assertBlockType { bs := x.bs, file := y.file, header := y.header, types := T2, physical := P2, streams := st, user := [], gen := 0 } = .ok () := by
    intro st
    refine assertBlockType_ok _ ?_ ?_ ?_ ?_
    · show y.header.blockSize = x.bs
      exact R.hdrbs
    · show T2.blockType 0 = _
      exact hbt0
    · show ∀ nr ∈ T2.blocks.map (fun pg => pg.blockNr),
        T2.blockType nr = .ok .types
      intro nr hnr
      rw [hTnrs] at hnr
      obtain ⟨pgx, hpgx, he⟩ := List.mem_map.mp hnr
      rw [hzt, ← he]
      exact W.trole pgx hpgx
    · show ∀ nr ∈ P2.blocks.map (fun pg => pg.blockNr),
        T2.blockType nr = .ok .physicalT
      intro nr hnr
      rw [hPnrs] at hnr
      obtain ⟨pgx, hpgx, he⟩ := List.mem_map.mp hnr
      rw [hzt, ← he]
      exact W.prole pgx hpgx
  cases hstate : y.header.state with
  | low =>
    have hact := R.active
    simp only [activeTriple, hstate] at hact
    rw [Prod.mk.injEq, Prod.mk.injEq] at hact
    obtain ⟨ha1, ha2, ha3⟩ := hact
    by_cases h3z : pnrP y.physical 3 = 0
    · refine ⟨{ bs := x.bs, file := y.file, header := y.header, types := T2, physical := P2, streams := MStreams.init x.bs, user := [], gen := 0 }, ?_, rfl, rfl, rfl, hztlen, hzt, hzp⟩
      rw [MAlloc.load]
      simp only [R.hdr0, hstate, ha1, ha2, ha3]
      rw [if_neg hp2nz]
      simp only [hP2run, except_bind_ok]
      rw [if_neg hp1nz]
      simp only [hT2run, except_bind_ok]
      rw [if_neg (fun h => h h3z)]
      simp only [except_bind_ok, hassertAny]
    · obtain ⟨es, hes⟩ := R.ssync h3z
      have hstr : loadRawSlot y.file (pnrP y.physical 3) =
          .ok (.stS es) := by
        rw [loadRawSlot, if_neg h3z, hes]
      refine ⟨{ bs := x.bs, file := y.file, header := y.header, types := T2, physical := P2, streams := { entries := es, dirty := false, gen := 0 }, user := [], gen := 0 }, ?_, rfl, rfl, rfl, hztlen, hzt, hzp⟩
      rw [MAlloc.load]
      simp only [R.hdr0, hstate, ha1, ha2, ha3]
      rw [if_neg hp2nz]
      simp only [hP2run, except_bind_ok]
      rw [if_neg hp1nz]
      simp only [hT2run, except_bind_ok]
      rw [if_pos h3z]
      simp only [hstr, except_bind_ok, hassertAny]
  | high =>
    have hact := R.active
    simp only [activeTriple, hstate] at hact
    rw [Prod.mk.injEq, Prod.mk.injEq] at hact
    obtain ⟨ha1, ha2, ha3⟩ := hact
    by_cases h3z : pnrP y.physical 3 = 0
    · refine ⟨{ bs := x.bs, file := y.file, header := y.header, types := T2, physical := P2, streams := MStreams.init x.bs, user := [], gen := 0 }, ?_, rfl, rfl, rfl, hztlen, hzt, hzp⟩
      rw [MAlloc.load]
      simp only [R.hdr0, hstate, ha1, ha2, ha3]
      rw [if_neg hp2nz]
      simp only [hP2run, except_bind_ok]
      rw [if_neg hp1nz]
      simp only [hT2run, except_bind_ok]
      rw [if_neg (fun h => h h3z)]
      simp only [except_bind_ok, hassertAny]
    · obtain ⟨es, hes⟩ := R.ssync h3z
      have hstr : loadRawSlot y.file (pnrP y.physical 3) =
          .ok (.stS es) := by
        rw [loadRawSlot, if_neg h3z, hes]
      refine ⟨{ bs := x.bs, file := y.file, header := y.header, types := T2, physical := P2, streams := { entries := es, dirty := false, gen := 0 }, user := [], gen := 0 }, ?_, rfl, rfl, rfl, hztlen, hzt, hzp⟩
      rw [MAlloc.load]
      simp only [R.hdr0, hstate, ha1, ha2, ha3]
      rw [if_neg hp2nz]
      simp only [hP2run, except_bind_ok]
      rw [if_neg hp1nz]
      simp only [hT2run, except_bind_ok]
      rw [if_pos h3z]
      simp only [hstr, except_bind_ok, hassertAny]

theorem obsContent_nocache (s : MAlloc) (nr : Nat)
    (h : ∀ kv ∈ s.user, kv.1 = nr → kv.2.dirty = false) :
    s.obsContent nr = match s.physical.physicalNr nr with
      | .ok 0 => List.replicate s.bs 0
      | .ok (p + 1) => (match readSlot s.file (p + 1) with
          | some (.rawS d) => d
          | _ => [])
      | .error _ => [] := by
  rw [MAlloc.obsContent]
  cases hcf : cacheFind s.user nr with
  | none => rfl
  | some b =>
    have hmem := cacheFind_mem hcf
    have hd := h (nr, b) hmem rfl
    show (if b.dirty = true then b.data else _) = _
    rw [if_neg (by rw [hd]; exact fun h2 => Bool.noConfusion h2)]

theorem obsContent_dirty (s : MAlloc) (nr : Nat) (b : MBlock)
    (hcf : cacheFind s.user nr = some b) (hd : b.dirty = true) :
    s.obsContent nr = b.data := by
  rw [MAlloc.obsContent, hcf]
  show (if b.dirty = true then b.data else _) = b.data
  rw [if_pos hd]

theorem obsContent_eq (x y z : MAlloc) (W : WF x) (R : StoreRel x y)
    (hzbs : z.bs = x.bs) (hzfile : z.file = y.file) (hzuser : z.user = [])
    (hzp : ∀ nr, z.physical.physicalNr nr = y.physical.physicalNr nr)
    (nr : Nat) (hcov : nr < coverP x.physical) (ty : BlockType)
    (hbt : x.types.blockType nr = .ok ty) (hui : ty.isUser = true) :
    z.obsContent nr = x.obsContent nr := by
  have hypbs : y.physical.bs = x.bs := by rw [R.pbs, W.pbs]
  have hNx : 0 < lenPhysicalG x.bs := by
    have h := W.nt6
    rw [lenPhysicalG_eq]
    omega
  have hNy : 0 < lenPhysicalG y.physical.bs := by
    rw [hypbs]
    exact hNx
  have hplen : y.physical.blocks.length = x.physical.blocks.length := by
    have h := congrArg List.length (pblockNr_map_of_shape R.pshape)
    rwa [List.length_map, List.length_map] at h
  have hcovyx : coverP y.physical = coverP x.physical := by
    rw [coverP, coverP, hplen, hypbs, W.pbs]
  have hcovy : nr < coverP y.physical := by
    rw [hcovyx]
    exact hcov
  have hyresolve : y.physical.physicalNr nr = .ok (pnrP y.physical nr) := by
    refine physicalNr_ok_of_covered y.physical nr R.pcontig hNy ?_
    rw [coverP] at hcovy
    exact hcovy
  have hxresolve : x.physical.physicalNr nr = .ok (pnrP x.physical nr) := by
    refine physicalNr_ok_of_covered x.physical nr W.pcontig
      (by rw [W.pbs]; exact hNx) ?_
    rw [coverP] at hcov
    exact hcov
  have hnotT : ∀ pg ∈ x.types.blocks, pg.blockNr ≠ nr := by
    intro pg hpg h0
    have hr := W.trole pg hpg
    rw [h0, hbt] at hr
    injection hr with hr
    rw [hr] at hui
    cases hui
  have hnotP : ∀ pg ∈ x.physical.blocks, pg.blockNr ≠ nr := by
    intro pg hpg h0
    have hr := W.prole pg hpg
    rw [h0, hbt] at hr
    injection hr with hr
    rw [hr] at hui
    cases hui
  have hnot3 : nr ≠ 3 := by
    intro h0
    rw [h0, W.srole] at hbt
    injection hbt with hr
    rw [← hr] at hui
    cases hui
  have hzempty : ∀ kv ∈ z.user, kv.1 = nr → kv.2.dirty = false := by
    intro kv hkv he
    rw [hzuser] at hkv
    exact absurd hkv (List.not_mem_nil kv)
  have hmain : (∀ kv ∈ x.user, kv.1 = nr → kv.2.dirty = false) →
      z.obsContent nr = x.obsContent nr := by
    intro hu
    obtain ⟨e, hw⟩ := R.untouched nr hcov hu hnot3 hnotT hnotP
    rw [obsContent_nocache x nr hu, obsContent_nocache z nr hzempty]
    rw [hzp nr, hyresolve, e, hxresolve]
    cases hv : pnrP x.physical nr with
    | zero =>
      show List.replicate z.bs 0 = List.replicate x.bs 0
      rw [hzbs]
    | succ p =>
      have hw2 := hw (by rw [hv]; exact Nat.succ_ne_zero p)
      rw [hv] at hw2
      show (match readSlot z.file (p + 1) with
        | some (.rawS d) => d
        | _ => []) = (match readSlot x.file (p + 1) with
        | some (.rawS d) => d
        | _ => [])
      rw [hzfile, hw2]
  cases hcf : cacheFind x.user nr with
  | none =>
    exact hmain (fun kv hkv he => absurd he (cacheFind_none hcf kv hkv))
  | some b =>
    cases hd : b.dirty with
    | false =>
      refine hmain ?_
      intro kv hkv he
      have h2 := cacheFind_unique W.cnodup hcf kv hkv he
      rw [h2]
      exact hd
    | true =>
      rw [obsContent_dirty x nr b hcf hd]
      obtain ⟨hunz, hurd⟩ := R.udirty (nr, b) (cacheFind_mem hcf) hd
      obtain ⟨p, hp⟩ : ∃ p, pnrP y.physical nr = p + 1 := by
        cases h2 : pnrP y.physical nr with
        | zero => exact absurd h2 hunz
        | succ p => exact ⟨p, rfl⟩
      rw [obsContent_nocache z nr hzempty, hzp nr, hyresolve, hp]
      rw [hp] at hurd
      show (match readSlot z.file (p + 1) with
        | some (.rawS d) => d
        | _ => []) = b.data
      rw [hzfile, hurd]

theorem obs_of_store (x y z : MAlloc) (W : WF x) (R : StoreRel x y)
    (hzbs : z.bs = x.bs) (hzfile : z.file = y.file) (hzuser : z.user = [])
    (hztlen : z.types.blocks.length = x.types.blocks.length)
    (hzt : ∀ nr, z.types.blockType nr = x.types.blockType nr)
    (hzp : ∀ nr, z.physical.physicalNr nr = y.physical.physicalNr nr) :
    z.obs = x.obs := by
  have hmaxeq : z.maxLogical = x.maxLogical := by
    rw [MAlloc.maxLogical, MAlloc.maxLogical, hztlen, hzbs]
  have hcovmax : x.maxLogical = coverP x.physical := by
    rw [MAlloc.maxLogical, coverP, W.plen, W.pbs, lenPhysicalG_eq]
  rw [MAlloc.obs, MAlloc.obs, hmaxeq]
  refine List.map_congr_left ?_
  intro nr hnr
  rw [List.mem_range] at hnr
  rw [hzt nr]
  cases hbt : x.types.blockType nr with
  | error e => rfl
  | ok ty =>
    show (ty, if ty.isUser = true then z.obsContent nr else []) =
      (ty, if ty.isUser = true then x.obsContent nr else [])
    cases hui : ty.isUser with
    | false =>
      rw [if_neg (fun h2 => Bool.noConfusion h2),
        if_neg (fun h2 => Bool.noConfusion h2)]
    | true =>
      rw [if_pos rfl, if_pos rfl]
      rw [obsContent_eq x y z W R hzbs hzfile hzuser hzp nr
        (by rw [← hcovmax]; exact hnr) ty hbt hui]

theorem blockType_of_cores (P Q : MTypes) (hbs : P.bs = Q.bs)
    (hcore : P.blocks.map tpCore = Q.blocks.map tpCore) :
    ∀ nr, P.blockType nr = Q.blockType nr := by
  intro nr
  have h1 := blockType_ext { bs := P.bs, blocks := P.blocks.map loadedT, free := [] } P rfl rfl nr
  have h2 := blockType_ext { bs := Q.bs, blocks := Q.blocks.map loadedT, free := [] } Q rfl rfl nr
  rw [← h1, ← h2, hbs, map_loadedT_of_core hcore]

theorem typesContig_of_core (P Q : MTypes) (hbs : P.bs = Q.bs)
    (hcore : P.blocks.map tpCore = Q.blocks.map tpCore)
    (hc : typesContig Q) : typesContig P := by
  intro i pg hg
  have hco := tpCore_get hcore i
  rw [hg] at hco
  cases hq : Q.blocks.get? i with
  | none =>
    rw [hq] at hco
    cases hco
  | some pgq =>
    rw [hq] at hco
    have hf := tpCore_fields (Option.some_inj.mp hco)
    have hq2 := hc i pgq hq
    rw [hbs, hf.2.1, hf.2.2.2]
    exact hq2

theorem WF_of_store (x y : MAlloc) (W : WF x) (R : StoreRel x y) :
    WF y := by
  have hypbs : y.physical.bs = x.bs := by rw [R.pbs, W.pbs]
  have hytbs : y.types.bs = x.bs := by rw [R.tbs, W.tbs]
  have hybnr : y.physical.blocks.map (fun pg => pg.blockNr) =
      x.physical.blocks.map (fun pg => pg.blockNr) :=
    pblockNr_map_of_shape R.pshape
  have hybnrT : y.types.blocks.map (fun pg => pg.blockNr) =
      x.types.blocks.map (fun pg => pg.blockNr) :=
    blockNr_map_of_core R.tcore
  have hplen : y.physical.blocks.length = x.physical.blocks.length := by
    have h := congrArg List.length hybnr
    rwa [List.length_map, List.length_map] at h
  have htlen : y.types.blocks.length = x.types.blocks.length := by
    have h := congrArg List.length hybnrT
    rwa [List.length_map, List.length_map] at h
  have hcovyx : coverP y.physical = coverP x.physical := by
    rw [coverP, coverP, hplen, hypbs, W.pbs]
  have hbt : ∀ nr, y.types.blockType nr = x.types.blockType nr :=
    blockType_of_cores y.types x.types (by rw [hytbs, W.tbs]) R.tcore
  refine ⟨?_, ?_, ?_, ?_, R.pcontig, ?_, ?_, ?_, ?_, ?_, ?_, ?_, ?_, ?_,
    ?_, ?_, ?_, R.zfree, R.fnodup, R.fmax, R.emax, R.einj, R.efree, R.elen,
    R.lenmax, Or.inl R.hdr0, ?_, ?_, ?_, R.ukeys, ?_, ?_⟩
  · rw [hypbs, R.bs]
  · rw [hytbs, R.bs]
  · rw [R.hdrbs, R.bs]
  · rw [R.bs]
    exact W.nt6
  · exact typesContig_of_core y.types x.types (by rw [hytbs, W.tbs])
      R.tcore W.tcontig
  · rw [hplen, htlen]
    exact W.plen
  · have hp := congrArg
      (List.map (fun c : Nat × Nat × Nat × List BlockType => (c.1, c.2.2.1)))
      R.tcore
    rw [List.map_map, List.map_map] at hp
    show chainOk 1 (y.types.blocks.map (fun pg => (pg.blockNr, pg.nextNr)))
    rw [show y.types.blocks.map (fun pg => (pg.blockNr, pg.nextNr)) =
      x.types.blocks.map (fun pg => (pg.blockNr, pg.nextNr)) from hp]
    exact W.tchain
  · have hp := congrArg
      (List.map (fun c : Nat × Nat × Nat => (c.1, c.2.2))) R.pshape
    rw [List.map_map, List.map_map] at hp
    show chainOk 2
      (y.physical.blocks.map (fun pg => (pg.blockNr, pg.nextNr)))
    rw [show y.physical.blocks.map (fun pg => (pg.blockNr, pg.nextNr)) =
      x.physical.blocks.map (fun pg => (pg.blockNr, pg.nextNr)) from hp]
    exact W.pchain
  · rw [hybnrT]
    exact W.tnodup
  · rw [hybnr]
    exact W.pnodup
  · intro pg hpg
    have hm : pg.blockNr ∈ x.types.blocks.map (fun pg => pg.blockNr) := by
      rw [← hybnrT]
      exact List.mem_map_of_mem _ hpg
    obtain ⟨pgx, hpgx, he⟩ := List.mem_map.mp hm
    rw [hbt, ← he]
    exact W.trole pgx hpgx
  · intro pg hpg
    have hm : pg.blockNr ∈ x.physical.blocks.map (fun pg => pg.blockNr) := by
      rw [← hybnr]
      exact List.mem_map_of_mem _ hpg
    obtain ⟨pgx, hpgx, he⟩ := List.mem_map.mp hm
    rw [hbt, ← he]
    exact W.prole pgx hpgx
  · rw [hbt]
    exact W.hrole
  · rw [hbt]
    exact W.srole
  · intro pg hpg
    have hm : pg.blockNr ∈ x.types.blocks.map (fun pg => pg.blockNr) := by
      rw [← hybnrT]
      exact List.mem_map_of_mem _ hpg
    obtain ⟨pgx, hpgx, he⟩ := List.mem_map.mp hm
    rw [hcovyx, ← he]
    exact W.tcovP pgx hpgx
  · intro i pg hg
    have hsh := ppShape_get x.physical.blocks
      y.physical.blocks R.pshape i
    rw [hg] at hsh
    cases hgx : x.physical.blocks.get? i with
    | none =>
      rw [hgx] at hsh
      cases hsh
    | some pgx =>
      rw [hgx] at hsh
      have hf := ppShape_fields (Option.some_inj.mp hsh)
      rw [hf.1, R.bs]
      exact W.pcovP i pgx hgx
  · intro pg hpg _
    exact R.tmap pg hpg
  · intro pg hpg _
    exact R.pmap pg hpg
  · intro _ hnz
    exact R.ssync hnz
  · intro kv hkv
    obtain ⟨b, hbmem, _, _⟩ := R.umem kv hkv
    rw [hcovyx]
    exact W.ccov (kv.1, b) hbmem
  · intro kv hkv
    obtain ⟨b, hbmem, _, _⟩ := R.umem kv hkv
    obtain ⟨ty, hty, hui⟩ := W.cuser (kv.1, b) hbmem
    exact ⟨ty, by rw [hbt]; exact hty, hui⟩

theorem FreeOK_of_store (x y : MAlloc) (W : WF x) (R : StoreRel x y)
    (F : FreeOK x) : FreeOK y := by
  have hypbs : y.physical.bs = x.bs := by rw [R.pbs, W.pbs]
  have hytbs : y.types.bs = x.bs := by rw [R.tbs, W.tbs]
  have hplen : y.physical.blocks.length = x.physical.blocks.length := by
    have h := congrArg List.length (pblockNr_map_of_shape R.pshape)
    rwa [List.length_map, List.length_map] at h
  have hcovyx : coverP y.physical = coverP x.physical := by
    rw [coverP, coverP, hplen, hypbs, W.pbs]
  have hbt : ∀ nr, y.types.blockType nr = x.types.blockType nr :=
    blockType_of_cores y.types x.types (by rw [hytbs, W.tbs]) R.tcore
  refine ⟨?_, ?_, ?_⟩
  · intro nr hnr
    rw [R.tfree] at hnr
    rw [hbt]
    exact F.1 nr hnr
  · intro nr hnr
    rw [R.tfree] at hnr
    rw [hcovyx]
    exact F.2.1 nr hnr
  · rw [R.tfree]
    exact F.2.2

theorem cacheInsert_mem {nr : Nat} {b : MBlock} :
    ∀ u, ∀ kv ∈ cacheInsert nr b u, kv = (nr, b) ∨ kv ∈ u := by
  intro u
  induction u with
  | nil =>
    intro kv hkv
    exact Or.inl (List.mem_singleton.mp hkv)
  | cons p rest ih =>
    obtain ⟨k, v⟩ := p
    intro kv hkv
    rw [cacheInsert] at hkv
    by_cases h1 : nr < k
    · rw [if_pos h1] at hkv
      rcases List.mem_cons.mp hkv with h | h
      · exact Or.inl h
      · exact Or.inr h
    · rw [if_neg h1] at hkv
      by_cases h2 : nr = k
      · rw [if_pos h2] at hkv
        rcases List.mem_cons.mp hkv with h | h
        · exact Or.inl h
        · exact Or.inr (List.mem_cons_of_mem _ h)
      · rw [if_neg h2] at hkv
        rcases List.mem_cons.mp hkv with h | h
        · exact Or.inr (by rw [h]; simp)
        · rcases ih kv h with h3 | h3
          · exact Or.inl h3
          · exact Or.inr (List.mem_cons_of_mem _ h3)

theorem cacheInsert_keys_sorted {nr : Nat} {b : MBlock} :
    ∀ u, (u.map Prod.fst).Pairwise (· < ·) →
      ((cacheInsert nr b u).map Prod.fst).Pairwise (· < ·) := by
  intro u
  induction u with
  | nil =>
    intro _
    show ([(nr, b)].map Prod.fst).Pairwise (· < ·)
    simp
  | cons p rest ih =>
    obtain ⟨k, v⟩ := p
    intro h
    rw [List.map_cons, List.pairwise_cons] at h
    obtain ⟨hk, hrest⟩ := h
    rw [cacheInsert]
    by_cases h1 : nr < k
    · rw [if_pos h1]
      rw [List.map_cons, List.map_cons, List.pairwise_cons]
      constructor
      · intro a ha
        rcases List.mem_cons.mp ha with h2 | h2
        · rw [h2]
          exact h1
        · have h3 := hk a h2
          omega
      · rw [List.pairwise_cons]
        exact ⟨hk, hrest⟩
    · rw [if_neg h1]
      by_cases h2 : nr = k
      · rw [if_pos h2]
        subst h2
        rw [List.map_cons, List.pairwise_cons]
        exact ⟨hk, hrest⟩
      · rw [if_neg h2]
        rw [List.map_cons, List.pairwise_cons]
        constructor
        · intro a ha
          obtain ⟨kv2, hkv2, he⟩ := List.mem_map.mp ha
          rcases cacheInsert_mem rest kv2 hkv2 with h3 | h3
          · rw [← he, h3]
            show k < nr
            omega
          · rw [← he]
            exact hk kv2.1 (List.mem_map_of_mem _ h3)
        · exact ih hrest

theorem pairwise_keys_nodup {l : List Nat}
    (h : l.Pairwise (· < ·)) : l.Nodup :=
  h.imp (fun hlt => Nat.ne_of_lt hlt)

theorem dirtyWrite_WF (s : MAlloc) (nr : Nat) (d : List Nat) (W : WF s)
    (hsort : (s.user.map Prod.fst).Pairwise (· < ·)) :
    WF (s.dirtyWrite nr d) ∧
    ((s.dirtyWrite nr d).user.map Prod.fst).Pairwise (· < ·) ∧
    (s.dirtyWrite nr d).types = s.types ∧
    (s.dirtyWrite nr d).physical = s.physical := by
  cases hcf : cacheFind s.user nr with
  | none =>
    have hdw : s.dirtyWrite nr d = s := by
      rw [MAlloc.dirtyWrite, hcf]
    rw [hdw]
    exact ⟨W, hsort, rfl, rfl⟩
  | some b =>
    have hdw : s.dirtyWrite nr d = { s with user := cacheInsert nr { b with data := d, dirty := true } s.user } := by
      rw [MAlloc.dirtyWrite, hcf]
    rw [hdw]
    have hmem0 : (nr, b) ∈ s.user := cacheFind_mem hcf
    have hsort2 : ((cacheInsert nr { b with data := d, dirty := true }
        s.user).map Prod.fst).Pairwise (· < ·) :=
      cacheInsert_keys_sorted s.user hsort
    refine ⟨⟨W.pbs, W.tbs, W.hdrbs, W.nt6, W.pcontig, W.tcontig, W.plen,
      W.tchain, W.pchain, W.tnodup, W.pnodup, W.trole, W.prole, W.hrole,
      W.srole, W.tcovP, W.pcovP, W.zfree, W.fnodup, W.fmax, W.emax, W.einj,
      W.efree, W.elen, W.lenmax, W.hdr, W.tsync, W.psync, W.ssync, ?_, ?_,
      ?_⟩, hsort2, rfl, rfl⟩
    · exact pairwise_keys_nodup hsort2
    · intro kv hkv
      rcases cacheInsert_mem s.user kv hkv with h | h
      · rw [h]
        exact W.ccov (nr, b) hmem0
      · exact W.ccov kv h
    · intro kv hkv
      rcases cacheInsert_mem s.user kv hkv with h | h
      · rw [h]
        obtain ⟨ty, hty, hui⟩ := W.cuser (nr, b) hmem0
        exact ⟨ty, hty, hui⟩
      · exact W.cuser kv h

theorem blockType_covered (t : MTypes) (nr : Nat) (ty : BlockType)
    (hc : typesContig t) (h : t.blockType nr = .ok ty) :
    nr < t.blocks.length * lenTypesG t.bs := by
  rw [MTypes.blockType] at h
  cases hg : t.blocks.get? (nr / lenTypesG t.bs) with
  | none =>
    rw [hg] at h
    cases h
  | some pg =>
    rw [hg] at h
    have h1 : (if pg.containsNr t.bs nr = true then (match pg.entries.get? (nr - pg.startNr) with | some ty2 => Except.ok ty2 | none => Except.error (MErr.invalidBlock nr)) else Except.error (MErr.invalidBlock nr)) = Except.ok ty := h
    by_cases hcont : pg.containsNr t.bs nr = true
    · have hfacts := hc _ _ hg
      rw [TPage.containsNr, TPage.endNr] at hcont
      simp only [Bool.and_eq_true, decide_eq_true_eq] at hcont
      have hi : nr / lenTypesG t.bs < t.blocks.length := by
        by_contra h0
        rw [List.get?_eq_none.mpr (by omega)] at hg
        cases hg
      have h2 : pg.startNr = nr / lenTypesG t.bs * lenTypesG t.bs :=
        hfacts.1
      have h3 : (nr / lenTypesG t.bs + 1) * lenTypesG t.bs ≤
          t.blocks.length * lenTypesG t.bs :=
        Nat.mul_le_mul_right _ (by omega)
      rw [Nat.succ_mul] at h3
      omega
    · rw [if_neg hcont] at h1
      cases h1

theorem setBlockType_blocks (t : MTypes) (x : Nat) (ty : BlockType)
    (t' : MTypes) (h : t.setBlockType x ty = .ok t') :
    ∃ i pg, t.blocks.get? i = some pg ∧
      t'.blocks = t.blocks.set i { pg with entries := pg.entries.set (x - pg.startNr) ty, dirty := true } := by
  rw [MTypes.setBlockType] at h
  cases hg : t.blocks.get? (x / lenTypesG t.bs) with
  | none =>
    rw [hg] at h
    cases h
  | some pg =>
    rw [hg] at h
    have h1 : (if pg.containsNr t.bs x = true then Except.ok { t with blocks := t.blocks.set (x / lenTypesG t.bs) { pg with entries := pg.entries.set (x - pg.startNr) ty, dirty := true } } else Except.error (MErr.invalidBlock x)) = Except.ok t' := h
    by_cases hcont : pg.containsNr t.bs x = true
    · rw [if_pos hcont] at h1
      injection h1 with h1
      exact ⟨x / lenTypesG t.bs, pg, hg, by rw [← h1]⟩
    · rw [if_neg hcont] at h1
      cases h1

theorem setPhysicalNr_blocks (p : MPhysical) (x v : Nat)
    (p' : MPhysical) (h : p.setPhysicalNr x v = .ok p') :
    ∃ i pg, p.blocks.get? i = some pg ∧
      p'.blocks = p.blocks.set i { pg with entries := pg.entries.set (x - pg.startNr) v, dirty := true } := by
  rw [MPhysical.setPhysicalNr] at h
  cases hg : p.blocks.get? (x / lenPhysicalG p.bs) with
  | none =>
    rw [hg] at h
    cases h
  | some pg =>
    rw [hg] at h
    have h1 : (if pg.containsNr p.bs x = true then Except.ok { p with blocks := p.blocks.set (x / lenPhysicalG p.bs) { pg with entries := pg.entries.set (x - pg.startNr) v, dirty := true } } else Except.error (MErr.invalidBlock x)) = Except.ok p' := h
    by_cases hcont : pg.containsNr p.bs x = true
    · rw [if_pos hcont] at h1
      injection h1 with h1
      exact ⟨x / lenPhysicalG p.bs, pg, hg, by rw [← h1]⟩
    · rw [if_neg hcont] at h1
      cases h1

theorem map_set_eq {l : List α} {i : Nat} {a b : α} (f : α → β)
    (hg : l.get? i = some a) (hf : f b = f a) :
    (l.set i b).map f = l.map f := by
  rw [List.map_set, hf,
    list_set_self (l.map f) i (f a) (by rw [List.get?_map, hg]; rfl)]

theorem freeBlock_WF (s : MAlloc) (nr : Nat) (tyu : BlockType)
    (W : WF s) (F : FreeOK s)
    (hsort : (s.user.map Prod.fst).Pairwise (· < ·))
    (hbtnr : s.types.blockType nr = .ok tyu) (hui : tyu.isUser = true) :
    ∀ s', s.freeBlock nr = .ok s' →
      WF s' ∧ FreeOK s' ∧ (s'.user.map Prod.fst).Pairwise (· < ·) := by
  intro s' hrun
  rw [MAlloc.freeBlock] at hrun
  cases hrun1 : s.types.setBlockType nr BlockType.free with
  | error e =>
    rw [hrun1] at hrun
    cases hrun
  | ok t1 =>
    rw [hrun1, except_bind_ok] at hrun
    cases hrunp : s.physical.setPhysicalNr nr 0 with
    | error e =>
      rw [hrunp] at hrun
      cases hrun
    | ok p1 =>
      rw [hrunp, except_bind_ok] at hrun
      injection hrun with hrun
      subst hrun
      have hNt : 0 < lenTypesG s.types.bs := by
        have h := W.nt6
        rw [W.tbs]
        omega
      have hNp : 0 < lenPhysicalG s.physical.bs := by
        have h := W.nt6
        rw [W.pbs, lenPhysicalG_eq]
        omega
      have hcovt : nr < s.types.blocks.length * lenTypesG s.types.bs :=
        blockType_covered s.types nr tyu W.tcontig hbtnr
      have hcovp : nr <
          s.physical.blocks.length * lenPhysicalG s.physical.bs := by
        rw [W.pbs, lenPhysicalG_eq, W.plen]
        rw [W.tbs] at hcovt
        exact hcovt
      obtain ⟨t1b, hrun1b, ht1bs, ht1free, ht1len, ht1contig, ht1pres,
        ht1new⟩ := setBlockType_ok s.types nr .free W.tcontig hNt hcovt
      rw [hrun1] at hrun1b
      injection hrun1b with heq1
      subst heq1
      obtain ⟨p1b, hrunpb, hp1bs, hp1free, hp1max, hp1len, hp1bnr,
        hp1contig, hp1pres, hp1new⟩ :=
        setPhysicalNr_ok s.physical nr 0 W.pcontig hNp hcovp
      rw [hrunp] at hrunpb
      injection hrunpb with heqp
      subst heqp
      obtain ⟨i, pgT, hgT, ht1blocks⟩ :=
        setBlockType_blocks s.types nr .free t1 hrun1
      obtain ⟨j, pgP, hgP, hp1blocks⟩ :=
        setPhysicalNr_blocks s.physical nr 0 p1 hrunp
      have hnrT : ∀ pg ∈ s.types.blocks, pg.blockNr ≠ nr := by
        intro pg hpg h0
        have hr := W.trole pg hpg
        rw [h0, hbtnr] at hr
        injection hr with hr
        rw [hr] at hui
        cases hui
      have hnrP : ∀ pg ∈ s.physical.blocks, pg.blockNr ≠ nr := by
        intro pg hpg h0
        have hr := W.prole pg hpg
        rw [h0, hbtnr] at hr
        injection hr with hr
        rw [hr] at hui
        cases hui
      have hnr3 : nr ≠ 3 := by
        intro h0
        rw [h0, W.srole] at hbtnr
        injection hbtnr with hr
        rw [← hr] at hui
        cases hui
      have hnr0 : nr ≠ 0 := by
        intro h0
        rw [h0, W.hrole] at hbtnr
        injection hbtnr with hr
        rw [← hr] at hui
        cases hui
      have hnrfree : nr ∉ s.types.free := by
        intro h0
        have h1 := F.1 nr h0
        rw [hbtnr] at h1
        injection h1 with h1
        rw [h1] at hui
        cases hui
      have hpnr : ∀ m, m ≠ nr → pnrP p1 m = pnrP s.physical m := by
        intro m hm
        rw [pnrP, pnrP, hp1pres m hm]
      have hpnr0 : pnrP p1 nr = 0 := by
        rw [pnrP, hp1new]
        rfl
      have hshapeP : p1.blocks.map ppShape =
          s.physical.blocks.map ppShape := by
        rw [hp1blocks]
        exact map_set_eq ppShape hgP rfl
      have hpairsT : t1.blocks.map (fun pg => (pg.blockNr, pg.nextNr)) =
          s.types.blocks.map (fun pg => (pg.blockNr, pg.nextNr)) := by
        rw [ht1blocks]
        exact map_set_eq _ hgT rfl
      have hpairsP : p1.blocks.map (fun pg => (pg.blockNr, pg.nextNr)) =
          s.physical.blocks.map (fun pg => (pg.blockNr, pg.nextNr)) := by
        rw [hp1blocks]
        exact map_set_eq _ hgP rfl
      have hbnrT : t1.blocks.map (fun pg => pg.blockNr) =
          s.types.blocks.map (fun pg => pg.blockNr) := by
        rw [ht1blocks]
        exact map_set_eq _ hgT rfl
      have hmemT : ∀ pg ∈ t1.blocks, pg ∈ s.types.blocks ∨
          pg = { pgT with entries := pgT.entries.set (nr - pgT.startNr) BlockType.free, dirty := true } := by
        intro pg hpg
        rw [ht1blocks] at hpg
        exact List.mem_or_eq_of_mem_set hpg
      have hmemP : ∀ pg ∈ p1.blocks, pg ∈ s.physical.blocks ∨
          pg = { pgP with entries := pgP.entries.set (nr - pgP.startNr) 0, dirty := true } := by
        intro pg hpg
        rw [hp1blocks] at hpg
        exact List.mem_or_eq_of_mem_set hpg
      have hcovP1 : coverP p1 = coverP s.physical := by
        rw [coverP, coverP, hp1len, hp1bs]
      have hbt2 : ∀ m, (t1.pushFree nr).blockType m = t1.blockType m :=
        fun m => rfl
      have hW : WF { s with user := cacheRemove s.user nr, types := t1.pushFree nr, physical := p1 } := by
        refine ⟨?_, ?_, W.hdrbs, W.nt6, hp1contig, ?_, ?_, ?_, ?_, ?_, ?_,
          ?_, ?_, ?_, ?_, ?_, ?_, ?_, ?_, ?_, ?_, ?_, ?_, ?_, ?_, W.hdr,
          ?_, ?_, ?_, ?_, ?_, ?_⟩
        · show p1.bs = s.bs
          rw [hp1bs]
          exact W.pbs
        · show t1.bs = s.bs
          rw [ht1bs]
          exact W.tbs
        · show typesContig (t1.pushFree nr)
          intro i2 pg h
          exact ht1contig i2 pg h
        · show p1.blocks.length = t1.blocks.length
          rw [hp1len, ht1len]
          exact W.plen
        · show chainOk 1
            ((t1.pushFree nr).blocks.map (fun pg => (pg.blockNr, pg.nextNr)))
          show chainOk 1
            (t1.blocks.map (fun pg => (pg.blockNr, pg.nextNr)))
          rw [hpairsT]
          exact W.tchain
        · show chainOk 2
            (p1.blocks.map (fun pg => (pg.blockNr, pg.nextNr)))
          rw [hpairsP]
          exact W.pchain
        · show (t1.blocks.map (fun pg => pg.blockNr)).Nodup
          rw [hbnrT]
          exact W.tnodup
        · show (p1.blocks.map (fun pg => pg.blockNr)).Nodup
          rw [hp1bnr]
          exact W.pnodup
        · intro pg hpg
          rw [hbt2]
          rcases hmemT pg hpg with h | h
          · rw [ht1pres pg.blockNr (hnrT pg h)]
            exact W.trole pg h
          · rw [h]
            show t1.blockType pgT.blockNr = .ok .types
            rw [ht1pres pgT.blockNr (hnrT pgT (List.get?_mem hgT))]
            exact W.trole pgT (List.get?_mem hgT)
        · intro pg hpg
          rw [hbt2]
          rcases hmemP pg hpg with h | h
          · rw [ht1pres pg.blockNr (hnrP pg h)]
            exact W.prole pg h
          · rw [h]
            show t1.blockType pgP.blockNr = .ok .physicalT
            rw [ht1pres pgP.blockNr (hnrP pgP (List.get?_mem hgP))]
            exact W.prole pgP (List.get?_mem hgP)
        · rw [hbt2, ht1pres 0 (fun h0 => hnr0 h0.symm)]
          exact W.hrole
        · rw [hbt2, ht1pres 3 (fun h0 => hnr3 h0.symm)]
          exact W.srole
        · intro pg hpg
          rw [show coverP p1 = coverP s.physical from hcovP1]
          rcases hmemT pg hpg with h | h
          · exact W.tcovP pg h
          · rw [h]
            show pgT.blockNr < coverP s.physical
            exact W.tcovP pgT (List.get?_mem hgT)
        · intro i2 pg hg2
          have hsh := ppShape_get s.physical.blocks
            p1.blocks hshapeP i2
          rw [hg2] at hsh
          cases hgx : s.physical.blocks.get? i2 with
          | none =>
            rw [hgx] at hsh
            cases hsh
          | some pgx =>
            rw [hgx] at hsh
            have hf := ppShape_fields (Option.some_inj.mp hsh)
            rw [hf.1]
            exact W.pcovP i2 pgx hgx
        · show 0 ∉ p1.free
          rw [hp1free]
          exact W.zfree
        · show p1.free.Nodup
          rw [hp1free]
          exact W.fnodup
        · intro v hv
          rw [hp1free] at hv
          rw [hp1max]
          exact W.fmax v hv
        · intro m hm
          rw [hcovP1] at hm
          rw [hp1max]
          by_cases hmeq : m = nr
          · rw [hmeq, hpnr0]
            exact Nat.zero_le _
          · rw [hpnr m hmeq]
            exact W.emax m hm
        · intro a b ha hb h0 hab
          rw [hcovP1] at ha hb
          by_cases haeq : a = nr
          · rw [haeq, hpnr0] at h0
            exact absurd rfl h0
          · by_cases hbeq : b = nr
            · rw [hpnr a haeq] at h0 hab
              rw [hbeq, hpnr0] at hab
              exact absurd hab h0
            · rw [hpnr a haeq] at h0 hab
              rw [hpnr b hbeq] at hab
              exact W.einj a b ha hb h0 hab
        · intro m hm
          rw [hcovP1] at hm
          rw [hp1free]
          by_cases hmeq : m = nr
          · rw [hmeq, hpnr0]
            exact W.zfree
          · rw [hpnr m hmeq]
            exact W.efree m hm
        · intro m hm h0
          rw [hcovP1] at hm
          by_cases hmeq : m = nr
          · rw [hmeq, hpnr0] at h0
            exact absurd rfl h0
          · rw [hpnr m hmeq] at h0 ⊢
            exact W.elen m hm h0
        · show s.file.length ≤ p1.max + 1
          rw [hp1max]
          exact W.lenmax
        · intro pg hpg hd
          rcases hmemT pg hpg with h | h
          · obtain ⟨hnz, hrd⟩ := W.tsync pg h hd
            rw [hpnr pg.blockNr (hnrT pg h)]
            exact ⟨hnz, hrd⟩
          · exfalso
            rw [h] at hd
            cases hd
        · intro pg hpg hd
          rcases hmemP pg hpg with h | h
          · obtain ⟨hnz, hrd⟩ := W.psync pg h hd
            rw [hpnr pg.blockNr (hnrP pg h)]
            exact ⟨hnz, hrd⟩
          · exfalso
            rw [h] at hd
            cases hd
        · intro hsd hnz
          rw [hpnr 3 (fun h0 => hnr3 h0.symm)] at hnz ⊢
          exact W.ssync hsd hnz
        · show ((cacheRemove s.user nr).map Prod.fst).Nodup
          exact W.cnodup.sublist
            (List.Sublist.map _ (List.filter_sublist _))
        · intro kv hkv
          have hmem := List.mem_filter.mp hkv |>.1
          rw [hcovP1]
          exact W.ccov kv hmem
        · intro kv hkv
          have hmem := List.mem_filter.mp hkv |>.1
          have hne : kv.1 ≠ nr := by
            have h2 := List.mem_filter.mp hkv |>.2
            simpa using h2
          obtain ⟨ty, hty, hui2⟩ := W.cuser kv hmem
          refine ⟨ty, ?_, hui2⟩
          rw [hbt2, ht1pres kv.1 hne]
          exact hty
      refine ⟨hW, ⟨?_, ?_, ?_⟩, ?_⟩
      · intro m hm
        have hm2 : m ∈ t1.free ++ [nr] := hm
        rw [ht1free] at hm2
        rcases List.mem_append.mp hm2 with h | h
        · have hmne : m ≠ nr := by
            intro h0
            rw [h0] at h
            exact hnrfree h
          rw [hbt2, ht1pres m hmne]
          exact F.1 m h
        · rw [List.mem_singleton.mp h, hbt2]
          exact ht1new
      · intro m hm
        have hm2 : m ∈ t1.free ++ [nr] := hm
        rw [ht1free] at hm2
        rw [hcovP1]
        rcases List.mem_append.mp hm2 with h | h
        · exact F.2.1 m h
        · rw [List.mem_singleton.mp h, coverP]
          exact hcovp
      · show (t1.free ++ [nr]).Nodup
        rw [ht1free]
        rw [List.nodup_append]
        exact ⟨F.2.2, List.nodup_singleton _,
          fun a ha hb => hnrfree (by rw [List.mem_singleton.mp hb] at ha; exact ha)⟩
      · show ((cacheRemove s.user nr).map Prod.fst).Pairwise (· < ·)
        exact hsort.sublist (List.Sublist.map _ (List.filter_sublist _))

theorem listModifyLast_map (f : α → α) (g : α → β) (g' : β → β)
    (h : ∀ a, g (f a) = g' (g a)) :
    ∀ l : List α, (listModifyLast f l).map g = listModifyLast g' (l.map g)
  | [] => rfl
  | [a] => by
    show [g (f a)] = [g' (g a)]
    rw [h a]
  | a :: b :: rest => by
    show g a :: (listModifyLast f (b :: rest)).map g =
      g a :: listModifyLast g' (g b :: rest.map g)
    rw [listModifyLast_map f g g' h (b :: rest)]
    rfl

theorem listModifyLast_map_eq (f : α → α) (g : α → β)
    (h : ∀ a, g (f a) = g a) :
    ∀ l : List α, (listModifyLast f l).map g = l.map g
  | [] => rfl
  | [a] => by
    show [g (f a)] = [g a]
    rw [h a]
  | a :: b :: rest => by
    show g a :: (listModifyLast f (b :: rest)).map g = g a :: g b :: rest.map g
    rw [listModifyLast_map_eq f g h (b :: rest)]
    rfl

theorem listModifyLast_mem (f : α → α) :
    ∀ l : List α, ∀ x ∈ listModifyLast f l, x ∈ l ∨ ∃ a ∈ l, x = f a
  | [], x, hx => absurd hx (by simp [listModifyLast])
  | [a], x, hx => by
    have : x = f a := by simpa [listModifyLast] using hx
    exact Or.inr ⟨a, by simp, this⟩
  | a :: b :: rest, x, hx => by
    have hx2 : x = a ∨ x ∈ listModifyLast f (b :: rest) := by
      simpa [listModifyLast] using hx
    rcases hx2 with h | h
    · exact Or.inl (by simp [h])
    · rcases listModifyLast_mem f (b :: rest) x h with h2 | ⟨a2, ha2, he2⟩
      · exact Or.inl (by simp [List.mem_cons.mp h2])
      · exact Or.inr ⟨a2, by simp [List.mem_cons.mp ha2], he2⟩

/-- Rerooting: extending a chain by pointing the old last element at a new
terminal node keeps it a chain. -/
theorem chainOk_extend (x : Nat) :
    ∀ (l : List (Nat × Nat)) (r : Nat), chainOk r l →
      chainOk r (listModifyLast (fun p => (p.1, x)) l ++ [(x, 0)])
  | [], r, h => absurd h (fun h0 => h0)
  | [(a, b)], r, h => by
    show chainOk r [(a, x), (x, 0)]
    exact ⟨h.1, rfl, rfl⟩
  | (a, b) :: q :: rest, r, h => by
    show chainOk r ((a, b) ::
      (listModifyLast (fun p => (p.1, x)) (q :: rest) ++ [(x, 0)]))
    have hih := chainOk_extend x (q :: rest) b h.2
    rcases hq : listModifyLast (fun p => (p.1, x)) (q :: rest) ++ [(x, 0)]
      with _ | ⟨p2, rest2⟩
    · rw [hq] at hih
      exact absurd hih (fun h0 => h0)
    · rw [hq] at hih
      exact ⟨h.1, hih⟩

/-- `block_type` only looks at the block size and the page found at
`nr / N`, through its `start_nr` and entry array. -/
theorem blockType_congr_at (t t' : MTypes) (hbs : t'.bs = t.bs) (m : Nat)
    (pg pg' : TPage)
    (hg : t.blocks.get? (m / lenTypesG t.bs) = some pg)
    (hg' : t'.blocks.get? (m / lenTypesG t.bs) = some pg')
    (hst : pg'.startNr = pg.startNr) (hen : pg'.entries = pg.entries) :
    t'.blockType m = t.blockType m := by
  rw [MTypes.blockType, MTypes.blockType, hbs, hg, hg']
  simp only [TPage.containsNr, TPage.endNr, hst, hen]

/-- Same for `physical_nr`. -/
theorem physicalNr_congr_at (p p' : MPhysical) (hbs : p'.bs = p.bs) (m : Nat)
    (pg pg' : PPage)
    (hg : p.blocks.get? (m / lenPhysicalG p.bs) = some pg)
    (hg' : p'.blocks.get? (m / lenPhysicalG p.bs) = some pg')
    (hst : pg'.startNr = pg.startNr) (hen : pg'.entries = pg.entries) :
    p'.physicalNr m = p.physicalNr m := by
  rw [MPhysical.physicalNr, MPhysical.physicalNr, hbs, hg, hg']
  simp only [PPage.containsNr, PPage.endNr, hst, hen]

/-- A non-empty list's `getLast?` is its last `get?`. -/
theorem getLast?_get? (l : List α) (a : α) (h : l.getLast? = some a) :
    l.get? (l.length - 1) = some a := by
  rw [List.getLast?_eq_getElem?] at h
  rw [List.get?_eq_getElem?]
  exact h

theorem typesAppend_facts (t : MTypes) (newNr : Nat) (hc : typesContig t)
    (hne : t.blocks ≠ []) (hN : 0 < lenTypesG t.bs) :
    (t.appendBlockmap newNr).bs = t.bs ∧
    (t.appendBlockmap newNr).blocks.length = t.blocks.length + 1 ∧
    (t.appendBlockmap newNr).free =
      (List.range' (t.blocks.length * lenTypesG t.bs)
        (lenTypesG t.bs)).reverse ++ t.free ∧
    typesContig (t.appendBlockmap newNr) ∧
    (∀ m, m < t.blocks.length * lenTypesG t.bs →
      (t.appendBlockmap newNr).blockType m = t.blockType m) ∧
    (∀ m, t.blocks.length * lenTypesG t.bs ≤ m →
      m < t.blocks.length * lenTypesG t.bs + lenTypesG t.bs →
      (t.appendBlockmap newNr).blockType m = .ok BlockType.free) ∧
    (t.appendBlockmap newNr).blocks.map (fun pg => (pg.blockNr, pg.nextNr)) =
      listModifyLast (fun q => (q.1, newNr))
        (t.blocks.map (fun pg => (pg.blockNr, pg.nextNr))) ++ [(newNr, 0)] ∧
    (t.appendBlockmap newNr).blocks.map (fun pg => pg.blockNr) =
      t.blocks.map (fun pg => pg.blockNr) ++ [newNr] ∧
    (∀ pg ∈ (t.appendBlockmap newNr).blocks, pg.dirty = false →
      pg ∈ t.blocks) ∧
    (∀ pg ∈ (t.appendBlockmap newNr).blocks,
      pg.blockNr ∈ t.blocks.map (fun pg2 => pg2.blockNr) ∨
        pg.blockNr = newNr) := by
  have hgl : t.blocks.getLast? = some (t.blocks.getLast hne) :=
    List.getLast?_eq_getLast t.blocks hne
  have hglg : t.blocks.get? (t.blocks.length - 1) =
      some (t.blocks.getLast hne) := getLast?_get? _ _ hgl
  obtain ⟨hstart, hlenE⟩ := hc _ _ hglg
  have hlen1 : 0 < t.blocks.length := List.length_pos.mpr hne
  have hst : (t.blocks.getLast hne).endNr t.bs =
      t.blocks.length * lenTypesG t.bs := by
    rw [TPage.endNr, hstart, ← Nat.succ_mul]
    congr 1
    omega
  have ht3 : t.appendBlockmap newNr = { t with blocks := listModifyLast (fun pg : TPage => { pg with nextNr := newNr, dirty := true }) t.blocks ++ [{ TPage.new newNr t.bs with startNr := (t.blocks.getLast hne).endNr t.bs, dirty := true }], free := (List.range' ((t.blocks.getLast hne).endNr t.bs) (lenTypesG t.bs)).reverse ++ t.free } := by
    rw [MTypes.appendBlockmap, hgl]
  rw [hst] at ht3
  set fmod := fun pg : TPage => { pg with nextNr := newNr, dirty := true } with hfmod
  set newT : TPage := { TPage.new newNr t.bs with startNr := t.blocks.length * lenTypesG t.bs, dirty := true } with hnewT
  set L := listModifyLast fmod t.blocks with hL
  have hLlen : L.length = t.blocks.length := by
    rw [hL]
    exact listModifyLast_length _ _
  have hget3 : ∀ j, j < t.blocks.length → (L ++ [newT]).get? j =
      (if j + 1 = t.blocks.length then (t.blocks.get? j).map fmod
        else t.blocks.get? j) := by
    intro j hj
    rw [List.get?_append (by rw [hLlen]; exact hj), hL, listModifyLast_get?]
  have hgetNew : (L ++ [newT]).get? t.blocks.length = some newT := by
    rw [List.get?_append_right (by rw [hLlen]), hLlen, Nat.sub_self]
    rfl
  have hgetHigh : ∀ j, t.blocks.length < j → (L ++ [newT]).get? j = none := by
    intro j hj
    rw [List.get?_append_right (by rw [hLlen]; omega), hLlen]
    cases hd : j - t.blocks.length with
    | zero => omega
    | succ k => rfl
  refine ⟨by rw [ht3], ?_, by rw [ht3], ?_, ?_, ?_, ?_, ?_, ?_, ?_⟩
  · rw [ht3]
    show (L ++ [newT]).length = _
    rw [List.length_append, hLlen]
    rfl
  · intro j pg hg
    rw [ht3] at hg ⊢
    have hg2 : (L ++ [newT]).get? j = some pg := hg
    by_cases hj : j < t.blocks.length
    · rw [hget3 j hj] at hg2
      by_cases hj2 : j + 1 = t.blocks.length
      · rw [if_pos hj2] at hg2
        cases horig : t.blocks.get? j with
        | none => rw [horig] at hg2; cases hg2
        | some a =>
          rw [horig] at hg2
          have h3 : some (fmod a) = some pg := hg2
          injection h3 with h3
          obtain ⟨h1, h2⟩ := hc j a horig
          rw [← h3]
          exact ⟨h1, h2⟩
      · rw [if_neg hj2] at hg2
        exact hc j pg hg2
    · by_cases hj3 : j = t.blocks.length
      · rw [hj3] at hg2
        rw [hgetNew] at hg2
        injection hg2 with hg2
        rw [← hg2, hj3]
        refine ⟨rfl, ?_⟩
        show (List.replicate (lenTypesG t.bs) BlockType.free).length = _
        rw [List.length_replicate]
      · have h0 : (L ++ [newT]).get? j = none := hgetHigh j (by omega)
        rw [h0] at hg2
        cases hg2
  · intro m hm
    have hidx : m / lenTypesG t.bs < t.blocks.length :=
      (Nat.div_lt_iff_lt_mul hN).mpr hm
    cases horig : t.blocks.get? (m / lenTypesG t.bs) with
    | none =>
      have h2 := List.get?_eq_none.mp horig
      omega
    | some pg =>
      by_cases hj2 : m / lenTypesG t.bs + 1 = t.blocks.length
      · have hg' : (t.appendBlockmap newNr).blocks.get?
            (m / lenTypesG t.bs) = some (fmod pg) := by
          rw [ht3]
          show (L ++ [newT]).get? _ = _
          rw [hget3 _ hidx, if_pos hj2, horig]
          rfl
        exact blockType_congr_at t _ (by rw [ht3]) m pg (fmod pg) horig hg'
          rfl rfl
      · have hg' : (t.appendBlockmap newNr).blocks.get?
            (m / lenTypesG t.bs) = some pg := by
          rw [ht3]
          show (L ++ [newT]).get? _ = _
          rw [hget3 _ hidx, if_neg hj2, horig]
        exact blockType_congr_at t _ (by rw [ht3]) m pg pg horig hg' rfl rfl
  · intro m hm1 hm2
    have hidx : m / lenTypesG t.bs = t.blocks.length :=
      Nat.div_eq_of_lt_le hm1 (by rw [Nat.succ_mul]; exact hm2)
    have hcont : newT.containsNr t.bs m = true := by
      rw [hnewT]
      simp only [TPage.new, TPage.containsNr, TPage.endNr, Bool.and_eq_true,
        decide_eq_true_eq]
      exact ⟨hm1, hm2⟩
    have hent : newT.entries.get? (m - newT.startNr) = some BlockType.free := by
      rw [hnewT]
      show (List.replicate (lenTypesG t.bs) BlockType.free).get?
        (m - t.blocks.length * lenTypesG t.bs) = _
      rw [List.get?_eq_getElem?, List.getElem?_replicate, if_pos (by omega)]
    rw [ht3]
    show (match (L ++ [newT]).get? (m / lenTypesG t.bs) with
      | none => Except.error (MErr.invalidBlock m)
      | some pg =>
        if pg.containsNr t.bs m then
          match pg.entries.get? (m - pg.startNr) with
          | some ty => Except.ok ty
          | none => Except.error (MErr.invalidBlock m)
        else Except.error (MErr.invalidBlock m)) = Except.ok BlockType.free
    rw [hidx, hgetNew]
    show (if newT.containsNr t.bs m then
      match newT.entries.get? (m - newT.startNr) with
      | some ty => Except.ok ty
      | none => Except.error (MErr.invalidBlock m)
      else Except.error (MErr.invalidBlock m)) = Except.ok BlockType.free
    rw [if_pos hcont, hent]
  · rw [ht3]
    show (L ++ [newT]).map _ = _
    rw [List.map_append, hL, listModifyLast_map fmod
      (fun pg : TPage => (pg.blockNr, pg.nextNr))
      (fun q => (q.1, newNr)) (fun a => rfl)]
    rfl
  · rw [ht3]
    show (L ++ [newT]).map _ = _
    rw [List.map_append, hL, listModifyLast_map_eq fmod
      (fun pg : TPage => pg.blockNr) (fun a => rfl)]
    rfl
  · intro pg hpg hd
    rw [ht3] at hpg
    have hpg2 : pg ∈ L ++ [newT] := hpg
    rcases List.mem_append.mp hpg2 with h | h
    · rw [hL] at h
      rcases listModifyLast_mem _ _ _ h with h2 | ⟨a, ha, he⟩
      · exact h2
      · rw [he] at hd
        have hd2 : true = false := hd
        cases hd2
    · have he : pg = newT := List.mem_singleton.mp h
      rw [he] at hd
      have hd2 : true = false := hd
      cases hd2
  · intro pg hpg
    rw [ht3] at hpg
    have hpg2 : pg ∈ L ++ [newT] := hpg
    rcases List.mem_append.mp hpg2 with h | h
    · rw [hL] at h
      rcases listModifyLast_mem _ _ _ h with h2 | ⟨a, ha, he⟩
      · exact Or.inl (List.mem_map.mpr ⟨pg, h2, rfl⟩)
      · refine Or.inl (List.mem_map.mpr ⟨a, ha, ?_⟩)
        rw [he]
    · refine Or.inr ?_
      rw [List.mem_singleton.mp h]
      rfl

theorem physAppend_facts (p : MPhysical) (newNr : Nat) (hc : physContig p)
    (hne : p.blocks ≠ []) (hN : 0 < lenPhysicalG p.bs) :
    ∃ p1, p.appendBlockmap newNr = .ok p1 ∧
      p1.bs = p.bs ∧ p1.free = p.free ∧ p1.max = p.max ∧
      p1.blocks.length = p.blocks.length + 1 ∧
      physContig p1 ∧
      (∀ m, m < p.blocks.length * lenPhysicalG p.bs →
        p1.physicalNr m = p.physicalNr m) ∧
      (∀ m, p.blocks.length * lenPhysicalG p.bs ≤ m →
        m < p.blocks.length * lenPhysicalG p.bs + lenPhysicalG p.bs →
        p1.physicalNr m = .ok 0) ∧
      p1.blocks.map (fun pg => (pg.blockNr, pg.nextNr)) =
        listModifyLast (fun q => (q.1, newNr))
          (p.blocks.map (fun pg => (pg.blockNr, pg.nextNr))) ++ [(newNr, 0)] ∧
      p1.blocks.map (fun pg => pg.blockNr) =
        p.blocks.map (fun pg => pg.blockNr) ++ [newNr] ∧
      (∀ pg ∈ p1.blocks, pg.dirty = false → pg ∈ p.blocks) ∧
      (∀ j pg, p1.blocks.get? j = some pg → j < p.blocks.length →
        ∃ pg0, p.blocks.get? j = some pg0 ∧ pg.blockNr = pg0.blockNr) ∧
      (∀ pg, p1.blocks.get? p.blocks.length = some pg →
        pg.blockNr = newNr) := by
  have hgl : p.blocks.getLast? = some (p.blocks.getLast hne) :=
    List.getLast?_eq_getLast p.blocks hne
  have hglg : p.blocks.get? (p.blocks.length - 1) =
      some (p.blocks.getLast hne) := getLast?_get? _ _ hgl
  obtain ⟨hstart, hlenE⟩ := hc _ _ hglg
  have hlen1 : 0 < p.blocks.length := List.length_pos.mpr hne
  have hst : (p.blocks.getLast hne).endNr p.bs =
      p.blocks.length * lenPhysicalG p.bs := by
    rw [PPage.endNr, hstart, ← Nat.succ_mul]
    congr 1
    omega
  have ht3 : p.appendBlockmap newNr = .ok { p with blocks := listModifyLast (fun pg => { pg with nextNr := newNr, dirty := true }) p.blocks ++ [{ PPage.new newNr p.bs with startNr := (p.blocks.getLast hne).endNr p.bs, dirty := true }] } := by
    rw [MPhysical.appendBlockmap, hgl]
  rw [hst] at ht3
  set fmod := fun pg : PPage => { pg with nextNr := newNr, dirty := true } with hfmod
  set newP : PPage := { PPage.new newNr p.bs with startNr := p.blocks.length * lenPhysicalG p.bs, dirty := true } with hnewP
  set L := listModifyLast fmod p.blocks with hL
  have hLlen : L.length = p.blocks.length := by
    rw [hL]
    exact listModifyLast_length _ _
  have hget3 : ∀ j, j < p.blocks.length → (L ++ [newP]).get? j =
      (if j + 1 = p.blocks.length then (p.blocks.get? j).map fmod
        else p.blocks.get? j) := by
    intro j hj
    rw [List.get?_append (by rw [hLlen]; exact hj), hL, listModifyLast_get?]
  have hgetNew : (L ++ [newP]).get? p.blocks.length = some newP := by
    rw [List.get?_append_right (by rw [hLlen]), hLlen, Nat.sub_self]
    rfl
  have hgetHigh : ∀ j, p.blocks.length < j → (L ++ [newP]).get? j = none := by
    intro j hj
    rw [List.get?_append_right (by rw [hLlen]; omega), hLlen]
    cases hd : j - p.blocks.length with
    | zero => omega
    | succ k => rfl
  refine ⟨{ p with blocks := L ++ [newP] }, ht3, rfl, rfl, rfl, ?_, ?_, ?_,
    ?_, ?_, ?_, ?_, ?_, ?_⟩
  · show (L ++ [newP]).length = _
    rw [List.length_append, hLlen]
    rfl
  · intro j pg hg
    have hg2 : (L ++ [newP]).get? j = some pg := hg
    by_cases hj : j < p.blocks.length
    · rw [hget3 j hj] at hg2
      by_cases hj2 : j + 1 = p.blocks.length
      · rw [if_pos hj2] at hg2
        cases horig : p.blocks.get? j with
        | none => rw [horig] at hg2; cases hg2
        | some a =>
          rw [horig] at hg2
          have h3 : some (fmod a) = some pg := hg2
          injection h3 with h3
          obtain ⟨h1, h2⟩ := hc j a horig
          rw [← h3]
          exact ⟨h1, h2⟩
      · rw [if_neg hj2] at hg2
        exact hc j pg hg2
    · by_cases hj3 : j = p.blocks.length
      · rw [hj3] at hg2
        rw [hgetNew] at hg2
        injection hg2 with hg2
        rw [← hg2, hj3]
        refine ⟨rfl, ?_⟩
        show (List.replicate (lenPhysicalG p.bs) 0).length = _
        rw [List.length_replicate]
      · have h0 : (L ++ [newP]).get? j = none := hgetHigh j (by omega)
        rw [h0] at hg2
        cases hg2
  · intro m hm
    have hidx : m / lenPhysicalG p.bs < p.blocks.length :=
      (Nat.div_lt_iff_lt_mul hN).mpr hm
    cases horig : p.blocks.get? (m / lenPhysicalG p.bs) with
    | none =>
      have h2 := List.get?_eq_none.mp horig
      omega
    | some pg =>
      by_cases hj2 : m / lenPhysicalG p.bs + 1 = p.blocks.length
      · have hg' : (L ++ [newP]).get? (m / lenPhysicalG p.bs) =
            some (fmod pg) := by
          rw [hget3 _ hidx, if_pos hj2, horig]
          rfl
        exact physicalNr_congr_at p { p with blocks := L ++ [newP] } rfl m
          pg (fmod pg) horig hg' rfl rfl
      · have hg' : (L ++ [newP]).get? (m / lenPhysicalG p.bs) = some pg := by
          rw [hget3 _ hidx, if_neg hj2, horig]
        exact physicalNr_congr_at p { p with blocks := L ++ [newP] } rfl m
          pg pg horig hg' rfl rfl
  · intro m hm1 hm2
    have hidx : m / lenPhysicalG p.bs = p.blocks.length :=
      Nat.div_eq_of_lt_le hm1 (by rw [Nat.succ_mul]; exact hm2)
    have hcont : newP.containsNr p.bs m = true := by
      rw [hnewP]
      simp only [PPage.new, PPage.containsNr, PPage.endNr, Bool.and_eq_true,
        decide_eq_true_eq]
      exact ⟨hm1, hm2⟩
    have hent : newP.entries.get? (m - newP.startNr) = some 0 := by
      rw [hnewP]
      show (List.replicate (lenPhysicalG p.bs) 0).get?
        (m - p.blocks.length * lenPhysicalG p.bs) = _
      rw [List.get?_eq_getElem?, List.getElem?_replicate, if_pos (by omega)]
    show (match (L ++ [newP]).get? (m / lenPhysicalG p.bs) with
      | none => Except.error (MErr.invalidBlock m)
      | some pg =>
        if pg.containsNr p.bs m then
          match pg.entries.get? (m - pg.startNr) with
          | some v => Except.ok v
          | none => Except.error (MErr.invalidBlock m)
        else Except.error (MErr.invalidBlock m)) = Except.ok 0
    rw [hidx, hgetNew]
    show (if newP.containsNr p.bs m then
      match newP.entries.get? (m - newP.startNr) with
      | some v => Except.ok v
      | none => Except.error (MErr.invalidBlock m)
      else Except.error (MErr.invalidBlock m)) = Except.ok 0
    rw [if_pos hcont, hent]
  · show (L ++ [newP]).map _ = _
    rw [List.map_append, hL, listModifyLast_map fmod
      (fun pg : PPage => (pg.blockNr, pg.nextNr))
      (fun q => (q.1, newNr)) (fun a => rfl)]
    rfl
  · show (L ++ [newP]).map _ = _
    rw [List.map_append, hL, listModifyLast_map_eq fmod
      (fun pg : PPage => pg.blockNr) (fun a => rfl)]
    rfl
  · intro pg hpg hd
    have hpg2 : pg ∈ L ++ [newP] := hpg
    rcases List.mem_append.mp hpg2 with h | h
    · rw [hL] at h
      rcases listModifyLast_mem _ _ _ h with h2 | ⟨a, ha, he⟩
      · exact h2
      · rw [he] at hd
        have hd2 : true = false := hd
        cases hd2
    · have he : pg = newP := List.mem_singleton.mp h
      rw [he] at hd
      have hd2 : true = false := hd
      cases hd2
  · intro j pg hg hj
    have hg2 : (L ++ [newP]).get? j = some pg := hg
    rw [hget3 j hj] at hg2
    by_cases hj2 : j + 1 = p.blocks.length
    · rw [if_pos hj2] at hg2
      cases horig : p.blocks.get? j with
      | none => rw [horig] at hg2; cases hg2
      | some a =>
        rw [horig] at hg2
        have h3 : some (fmod a) = some pg := hg2
        injection h3 with h3
        refine ⟨a, rfl, ?_⟩
        rw [← h3]
    · rw [if_neg hj2] at hg2
      exact ⟨pg, hg2, rfl⟩
  · intro pg hg
    have hg2 : (L ++ [newP]).get? p.blocks.length = some pg := hg
    rw [hgetNew] at hg2
    injection hg2 with hg2
    rw [← hg2]
    rfl

theorem appendBlockmap_WF (s : MAlloc) (W : WF s) (F : FreeOK s)
    (hfl : s.types.freeLen = 2) :
    ∀ s₁, s.appendBlockmap = .ok s₁ →
      WF s₁ ∧ FreeOK s₁ ∧ s₁.user = s.user ∧ s₁.bs = s.bs := by
  intro s₁ hrun
  have hNpos : 0 < lenTypesG s.types.bs := by
    have h := W.nt6
    rw [W.tbs]
    omega
  have hlen1t : 0 < s.types.blocks.length := by
    cases hbl : s.types.blocks with
    | nil =>
      have h3 := W.tchain
      rw [hbl] at h3
      exact absurd h3 (fun h0 => h0)
    | cons a rest => simp
  have hlen1p : 0 < s.physical.blocks.length := by
    cases hbl : s.physical.blocks with
    | nil =>
      have h3 := W.pchain
      rw [hbl] at h3
      exact absurd h3 (fun h0 => h0)
    | cons a rest => simp
  have hNvalT : 6 ≤ lenTypesG s.types.bs := by
    rw [W.tbs]
    exact W.nt6
  have hcovEq : coverP s.physical =
      s.types.blocks.length * lenTypesG s.types.bs := by
    rw [coverP, W.plen, W.pbs, lenPhysicalG_eq, W.tbs]
  have hNpP : 0 < lenPhysicalG s.physical.bs := by
    rw [W.pbs, lenPhysicalG_eq]
    have h := W.nt6
    omega
  have hNN : lenPhysicalG s.physical.bs = lenTypesG s.types.bs := by
    rw [W.pbs, lenPhysicalG_eq, W.tbs]
  rw [MAlloc.appendBlockmap, MTypes.popFree] at hrun
  cases hgl : s.types.free.getLast? with
  | none =>
    rw [hgl] at hrun
    cases hrun
  | some typesNr =>
    rw [hgl] at hrun
    have hrun2 : (do
        let t2 ← MTypes.setBlockType { s.types with free := s.types.free.dropLast } typesNr BlockType.types
        let t3 := t2.appendBlockmap typesNr
        match t3.popFree with
        | (none, _) => (Except.error MErr.noFreeBlocks : Except MErr MAlloc)
        | (some physicalNr, t4) => do
          let t5 ← t4.setBlockType physicalNr BlockType.physicalT
          let p1 ← s.physical.appendBlockmap physicalNr
          Except.ok { s with types := t5, physical := p1 }) = Except.ok s₁ :=
      hrun
    have htmem : typesNr ∈ s.types.free :=
      List.mem_iff_get?.mpr ⟨_, getLast?_get? _ _ hgl⟩
    have hbtT : s.types.blockType typesNr = Except.ok BlockType.free :=
      F.1 _ htmem
    have hcovT : typesNr < coverP s.physical := F.2.1 _ htmem
    have hcovT2 : typesNr < s.types.blocks.length * lenTypesG s.types.bs := by
      rw [← hcovEq]
      exact hcovT
    have hfne : s.types.free ≠ [] := by
      intro h0
      rw [h0] at hgl
      cases hgl
    have hsplit : s.types.free.dropLast ++ [typesNr] = s.types.free := by
      have h2 := List.dropLast_append_getLast hfne
      rw [List.getLast?_eq_getLast _ hfne] at hgl
      injection hgl with hgl2
      rw [hgl2] at h2
      exact h2
    have htnotd : typesNr ∉ s.types.free.dropLast := by
      have hnd2 : (s.types.free.dropLast ++ [typesNr]).Nodup := by
        rw [hsplit]
        exact F.2.2
      rcases List.nodup_append.mp hnd2 with ⟨_, _, hdisj⟩
      intro hvd
      exact hdisj hvd (List.mem_singleton.mpr rfl)
    have hfl2 : s.types.free.length = 2 := hfl
    have hdl : s.types.free.dropLast.length = 1 := by
      rw [List.length_dropLast, hfl2]
    obtain ⟨a0, ha0⟩ : ∃ a0, s.types.free.dropLast = [a0] := by
      cases hdf : s.types.free.dropLast with
      | nil => rw [hdf] at hdl; simp at hdl
      | cons x xs =>
        cases xs with
        | nil => exact ⟨x, rfl⟩
        | cons y ys => rw [hdf] at hdl; simp at hdl
    have ha0mem : a0 ∈ s.types.free := by
      rw [← hsplit, ha0]
      simp
    have ha0ne : a0 ≠ typesNr := fun h0 =>
      htnotd (by rw [ha0]; exact List.mem_singleton.mpr h0.symm)
    have hbtA : s.types.blockType a0 = Except.ok BlockType.free :=
      F.1 _ ha0mem
    have hcovA : a0 < coverP s.physical := F.2.1 _ ha0mem
    have hcovA2 : a0 < s.types.blocks.length * lenTypesG s.types.bs := by
      rw [← hcovEq]
      exact hcovA
    have hneFree : ∀ b ty', s.types.blockType b = .ok ty' →
        ty' ≠ BlockType.free → b ≠ typesNr ∧ b ≠ a0 := by
      intro b ty' hb hne0
      constructor
      · intro h0
        rw [h0, hbtT] at hb
        injection hb with hb
        exact hne0 hb.symm
      · intro h0
        rw [h0, hbtA] at hb
        injection hb with hb
        exact hne0 hb.symm
    have htc1 : typesContig { s.types with free := s.types.free.dropLast } :=
      W.tcontig
    obtain ⟨t2b, hset1b, ht2bs, ht2free, ht2len, ht2contig, ht2pres,
      ht2new⟩ := setBlockType_ok
        { s.types with free := s.types.free.dropLast } typesNr
        BlockType.types htc1 hNpos hcovT2
    cases hset1 : MTypes.setBlockType { s.types with free := s.types.free.dropLast } typesNr BlockType.types with
    | error e =>
      rw [hset1] at hrun2
      cases hrun2
    | ok t2 =>
      simp only [hset1, except_bind_ok] at hrun2
      rw [hset1] at hset1b
      injection hset1b with heq2
      subst heq2
      have ht2pres' : ∀ y, y ≠ typesNr →
          t2.blockType y = s.types.blockType y := ht2pres
      have ht2free' : t2.free = s.types.free.dropLast := ht2free
      have ht2bs' : t2.bs = s.types.bs := ht2bs
      have ht2len' : t2.blocks.length = s.types.blocks.length := ht2len
      obtain ⟨i1, pgT1, hgT1, ht2blocks⟩ := setBlockType_blocks
        { s.types with free := s.types.free.dropLast } typesNr
        BlockType.types t2 hset1
      have ht2ne : t2.blocks ≠ [] := by
        intro h0
        have h1 := ht2len'
        rw [h0] at h1
        have h2 : s.types.blocks = [] := List.length_eq_zero.mp h1.symm
        have h3 := W.tchain
        rw [h2] at h3
        exact h3
      have hN2 : 0 < lenTypesG t2.bs := by
        rw [ht2bs']
        exact hNpos
      obtain ⟨hA_bs, hA_len, hA_free, hA_contig, hA_pres, hA_new, hA_pairs,
        hA_bnr, hA_clean, hA_roles⟩ :=
        typesAppend_facts t2 typesNr ht2contig ht2ne hN2
      have hA_pres' : ∀ m, m < s.types.blocks.length * lenTypesG s.types.bs →
          (t2.appendBlockmap typesNr).blockType m = t2.blockType m := by
        intro m hm
        exact hA_pres m (by rw [ht2len', ht2bs']; exact hm)
      have hA_new' : ∀ m, s.types.blocks.length * lenTypesG s.types.bs ≤ m →
          m < s.types.blocks.length * lenTypesG s.types.bs +
            lenTypesG s.types.bs →
          (t2.appendBlockmap typesNr).blockType m = .ok BlockType.free := by
        intro m h1 h2
        exact hA_new m (by rw [ht2len', ht2bs']; exact h1)
          (by rw [ht2len', ht2bs']; exact h2)
      have hfree3 : (t2.appendBlockmap typesNr).free =
          (List.range' (t2.blocks.length * lenTypesG t2.bs)
            (lenTypesG t2.bs)).reverse ++ [a0] := by
        rw [hA_free, ht2free', ha0]
      have hgl3 : (t2.appendBlockmap typesNr).free.getLast? = some a0 := by
        rw [hfree3, List.getLast?_concat]
      rw [MTypes.popFree, hgl3] at hrun2
      have hrun3 : (do
          let t5 ← MTypes.setBlockType { t2.appendBlockmap typesNr with free := (t2.appendBlockmap typesNr).free.dropLast } a0 BlockType.physicalT
          let p1 ← s.physical.appendBlockmap a0
          Except.ok { s with types := t5, physical := p1 }) =
          Except.ok s₁ := hrun2
      have ht4contig : typesContig { t2.appendBlockmap typesNr with free := (t2.appendBlockmap typesNr).free.dropLast } := hA_contig
      have hcovA3 : a0 < (t2.appendBlockmap typesNr).blocks.length *
          lenTypesG (t2.appendBlockmap typesNr).bs := by
        rw [hA_len, hA_bs, ht2bs', ht2len']
        calc a0 < s.types.blocks.length * lenTypesG s.types.bs := hcovA2
        _ ≤ (s.types.blocks.length + 1) * lenTypesG s.types.bs :=
          Nat.mul_le_mul_right _ (by omega)
      obtain ⟨t5b, hset2b, ht5bs, ht5free, ht5len, ht5contig, ht5pres,
        ht5new⟩ := setBlockType_ok
          { t2.appendBlockmap typesNr with free := (t2.appendBlockmap typesNr).free.dropLast }
          a0 BlockType.physicalT ht4contig (by rw [hA_bs]; exact hN2) hcovA3
      cases hset2 : MTypes.setBlockType { t2.appendBlockmap typesNr with free := (t2.appendBlockmap typesNr).free.dropLast } a0 BlockType.physicalT with
      | error e =>
        rw [hset2] at hrun3
        cases hrun3
      | ok t5 =>
        simp only [hset2, except_bind_ok] at hrun3
        rw [hset2] at hset2b
        injection hset2b with heq5
        subst heq5
        have ht5pres' : ∀ y, y ≠ a0 → t5.blockType y =
            (t2.appendBlockmap typesNr).blockType y := ht5pres
        have ht5free' : t5.free =
            (t2.appendBlockmap typesNr).free.dropLast := ht5free
        have ht5len' : t5.blocks.length =
            (t2.appendBlockmap typesNr).blocks.length := ht5len
        obtain ⟨i2, pgT2, hgT2, ht5blocks⟩ := setBlockType_blocks _ a0
          BlockType.physicalT t5 hset2
        have hpne : s.physical.blocks ≠ [] := by
          intro h0
          have h3 := W.pchain
          rw [h0] at h3
          exact h3
        obtain ⟨p1b, hPrun, hP_bs, hP_free, hP_max, hP_len, hP_contig,
          hP_pres, hP_new, hP_pairs, hP_bnr, hP_clean, hP_idx, hP_last⟩ :=
          physAppend_facts s.physical a0 W.pcontig hpne hNpP
        rw [hPrun] at hrun3
        simp only [except_bind_ok] at hrun3
        injection hrun3 with hrun3
        subst hrun3
        have hbt5old : ∀ m, m < s.types.blocks.length *
            lenTypesG s.types.bs → m ≠ typesNr → m ≠ a0 →
            t5.blockType m = s.types.blockType m := by
          intro m h h1 h2
          rw [ht5pres' m h2, hA_pres' m h, ht2pres' m h1]
        have hbt5T : t5.blockType typesNr = .ok BlockType.types := by
          rw [ht5pres' _ (fun h => ha0ne h.symm), hA_pres' _ hcovT2, ht2new]
        have hbt5A : t5.blockType a0 = .ok BlockType.physicalT := ht5new
        have hbt5band : ∀ m,
            s.types.blocks.length * lenTypesG s.types.bs ≤ m →
            m < s.types.blocks.length * lenTypesG s.types.bs +
              lenTypesG s.types.bs → m ≠ a0 →
            t5.blockType m = .ok BlockType.free := by
          intro m h1 h2 h3
          rw [ht5pres' m h3]
          exact hA_new' m h1 h2
        have hpnr_old : ∀ m, m < coverP s.physical →
            pnrP p1b m = pnrP s.physical m := by
          intro m hm
          rw [pnrP, pnrP, hP_pres m hm]
        have hpnr_band : ∀ m, coverP s.physical ≤ m →
            m < coverP s.physical + lenPhysicalG s.physical.bs →
            pnrP p1b m = 0 := by
          intro m h1 h2
          rw [pnrP, hP_new m h1 h2]
          rfl
        have hcovP1 : coverP p1b =
            coverP s.physical + lenPhysicalG s.physical.bs := by
          rw [coverP, coverP, hP_len, hP_bs, Nat.succ_mul]
        have hpairs5 : t5.blocks.map (fun pg => (pg.blockNr, pg.nextNr)) =
            (t2.appendBlockmap typesNr).blocks.map
              (fun pg => (pg.blockNr, pg.nextNr)) := by
          rw [ht5blocks]
          exact map_set_eq _ hgT2 rfl
        have hpairs2 : t2.blocks.map (fun pg => (pg.blockNr, pg.nextNr)) =
            s.types.blocks.map (fun pg => (pg.blockNr, pg.nextNr)) := by
          rw [ht2blocks]
          exact map_set_eq _ hgT1 rfl
        have hbnr5 : t5.blocks.map (fun pg => pg.blockNr) =
            (t2.appendBlockmap typesNr).blocks.map
              (fun pg => pg.blockNr) := by
          rw [ht5blocks]
          exact map_set_eq _ hgT2 rfl
        have hbnr2 : t2.blocks.map (fun pg => pg.blockNr) =
            s.types.blocks.map (fun pg => pg.blockNr) := by
          rw [ht2blocks]
          exact map_set_eq _ hgT1 rfl
        have hcov3 : 3 < s.types.blocks.length * lenTypesG s.types.bs := by
          have h1 : 1 * lenTypesG s.types.bs ≤
              s.types.blocks.length * lenTypesG s.types.bs :=
            Nat.mul_le_mul_right _ hlen1t
          omega
        have h0cov : 0 < s.types.blocks.length * lenTypesG s.types.bs := by
          omega
        have hpcov : ∀ pg ∈ s.physical.blocks,
            pg.blockNr < coverP s.physical := by
          intro pg hpg
          obtain ⟨i, hgi⟩ := List.mem_iff_get?.mp hpg
          have hi : i < s.physical.blocks.length := by
            by_contra hle
            rw [List.get?_eq_none.mpr (by omega)] at hgi
            cases hgi
          have h1 := W.pcovP i pg hgi
          calc pg.blockNr < Nat.max i 1 * lenPhysicalG s.bs := h1
          _ ≤ s.physical.blocks.length * lenPhysicalG s.bs :=
            Nat.mul_le_mul_right _ (Nat.max_le.mpr ⟨by omega, hlen1p⟩)
          _ = coverP s.physical := by rw [coverP, W.pbs]
        have hfree5 : t5.free =
            (List.range' (s.types.blocks.length * lenTypesG s.types.bs)
              (lenTypesG s.types.bs)).reverse := by
          rw [ht5free', hfree3, List.dropLast_concat, ht2len', ht2bs']
        refine ⟨⟨?_, ?_, W.hdrbs, W.nt6, hP_contig, ht5contig, ?_, ?_, ?_,
          ?_, ?_, ?_, ?_, ?_, ?_, ?_, ?_, ?_, ?_, ?_, ?_, ?_, ?_, ?_, ?_,
          W.hdr, ?_, ?_, ?_, W.cnodup, ?_, ?_⟩, ⟨?_, ?_, ?_⟩, rfl, rfl⟩
        · show p1b.bs = s.bs
          rw [hP_bs]
          exact W.pbs
        · show t5.bs = s.bs
          rw [ht5bs, hA_bs, ht2bs']
          exact W.tbs
        · show p1b.blocks.length = t5.blocks.length
          rw [hP_len, ht5len', hA_len, ht2len', W.plen]
        · show chainOk 1 (t5.blocks.map (fun pg => (pg.blockNr, pg.nextNr)))
          rw [hpairs5, hA_pairs, hpairs2]
          exact chainOk_extend typesNr _ 1 W.tchain
        · show chainOk 2 (p1b.blocks.map (fun pg => (pg.blockNr, pg.nextNr)))
          rw [hP_pairs]
          exact chainOk_extend a0 _ 2 W.pchain
        · show (t5.blocks.map (fun pg => pg.blockNr)).Nodup
          rw [hbnr5, hA_bnr, hbnr2, List.nodup_append]
          refine ⟨W.tnodup, List.nodup_singleton _, ?_⟩
          intro b hb hb2
          obtain ⟨pg, hpg, hbe⟩ := List.mem_map.mp hb
          have h5 := W.trole pg hpg
          have h6 := (hneFree _ _ h5 (by intro hx; cases hx)).1
          exact h6 (by rw [hbe]; exact List.mem_singleton.mp hb2)
        · show (p1b.blocks.map (fun pg => pg.blockNr)).Nodup
          rw [hP_bnr, List.nodup_append]
          refine ⟨W.pnodup, List.nodup_singleton _, ?_⟩
          intro b hb hb2
          obtain ⟨pg, hpg, hbe⟩ := List.mem_map.mp hb
          have h5 := W.prole pg hpg
          have h6 := (hneFree _ _ h5 (by intro hx; cases hx)).2
          exact h6 (by rw [hbe]; exact List.mem_singleton.mp hb2)
        · intro pg hpg
          have hb : pg.blockNr ∈ (t2.appendBlockmap typesNr).blocks.map
              (fun pg2 => pg2.blockNr) := by
            rw [← hbnr5]
            exact List.mem_map_of_mem _ hpg
          rw [hA_bnr, hbnr2] at hb
          rcases List.mem_append.mp hb with hb1 | hb1
          · obtain ⟨pg0, hpg0, hbe⟩ := List.mem_map.mp hb1
            have hrole0 := W.trole pg0 hpg0
            have hne0 := hneFree _ _ hrole0 (by intro hx; cases hx)
            have hcv := blockType_covered s.types pg0.blockNr BlockType.types
              W.tcontig hrole0
            show t5.blockType pg.blockNr = .ok BlockType.types
            rw [← hbe]
            rw [hbt5old _ hcv hne0.1 hne0.2]
            exact hrole0
          · show t5.blockType pg.blockNr = .ok BlockType.types
            rw [List.mem_singleton.mp hb1]
            exact hbt5T
        · intro pg hpg
          have hb : pg.blockNr ∈ s.physical.blocks.map
              (fun pg2 => pg2.blockNr) ++ [a0] := by
            rw [← hP_bnr]
            exact List.mem_map_of_mem _ hpg
          rcases List.mem_append.mp hb with hb1 | hb1
          · obtain ⟨pg0, hpg0, hbe⟩ := List.mem_map.mp hb1
            have hrole0 := W.prole pg0 hpg0
            have hne0 := hneFree _ _ hrole0 (by intro hx; cases hx)
            have hcv := blockType_covered s.types pg0.blockNr
              BlockType.physicalT W.tcontig hrole0
            show t5.blockType pg.blockNr = .ok BlockType.physicalT
            rw [← hbe]
            rw [hbt5old _ hcv hne0.1 hne0.2]
            exact hrole0
          · show t5.blockType pg.blockNr = .ok BlockType.physicalT
            rw [List.mem_singleton.mp hb1]
            exact hbt5A
        · have hne0 := hneFree 0 BlockType.header W.hrole
            (by intro hx; cases hx)
          show t5.blockType 0 = .ok BlockType.header
          rw [hbt5old 0 h0cov hne0.1 hne0.2]
          exact W.hrole
        · have hne0 := hneFree 3 BlockType.streams W.srole
            (by intro hx; cases hx)
          show t5.blockType 3 = .ok BlockType.streams
          rw [hbt5old 3 hcov3 hne0.1 hne0.2]
          exact W.srole
        · intro pg hpg
          have hb : pg.blockNr ∈ (t2.appendBlockmap typesNr).blocks.map
              (fun pg2 => pg2.blockNr) := by
            rw [← hbnr5]
            exact List.mem_map_of_mem _ hpg
          rw [hA_bnr, hbnr2] at hb
          show pg.blockNr < coverP p1b
          rw [hcovP1]
          rcases List.mem_append.mp hb with hb1 | hb1
          · obtain ⟨pg0, hpg0, hbe⟩ := List.mem_map.mp hb1
            have h1 := W.tcovP pg0 hpg0
            rw [← hbe]
            omega
          · rw [List.mem_singleton.mp hb1]
            omega
        · intro j pg hg
          have hg2 : p1b.blocks.get? j = some pg := hg
          by_cases hj : j < s.physical.blocks.length
          · obtain ⟨pg0, hg0, hbe⟩ := hP_idx j pg hg2 hj
            rw [hbe]
            exact W.pcovP j pg0 hg0
          · by_cases hj2 : j = s.physical.blocks.length
            · rw [hj2] at hg2 ⊢
              have hbe := hP_last pg hg2
              have hmx : Nat.max s.physical.blocks.length 1 =
                  s.physical.blocks.length := Nat.max_eq_left hlen1p
              rw [hbe, hmx]
              have hc2 : coverP s.physical =
                  s.physical.blocks.length * lenPhysicalG s.bs := by
                rw [coverP, W.pbs]
              rw [← hc2]
              exact hcovA
            · have h9 : ¬ p1b.blocks.length ≤ j := fun hle => by
                rw [List.get?_eq_none.mpr hle] at hg2
                cases hg2
              rw [hP_len] at h9
              omega
        · show 0 ∉ p1b.free
          rw [hP_free]
          exact W.zfree
        · show p1b.free.Nodup
          rw [hP_free]
          exact W.fnodup
        · intro v hv
          have hv2 : v ∈ p1b.free := hv
          rw [hP_free] at hv2
          show v ≤ p1b.max
          rw [hP_max]
          exact W.fmax v hv2
        · intro m hm
          rw [hcovP1] at hm
          show pnrP p1b m ≤ p1b.max
          rw [hP_max]
          by_cases hm2 : m < coverP s.physical
          · rw [hpnr_old m hm2]
            exact W.emax m hm2
          · rw [hpnr_band m (by omega) (by omega)]
            exact Nat.zero_le _
        · intro a b ha hb h0 hab
          rw [hcovP1] at ha hb
          by_cases ha2 : a < coverP s.physical
          · by_cases hb2 : b < coverP s.physical
            · rw [hpnr_old a ha2] at h0 hab
              rw [hpnr_old b hb2] at hab
              exact W.einj a b ha2 hb2 h0 hab
            · rw [hpnr_band b (by omega) (by omega)] at hab
              rw [hpnr_old a ha2] at h0 hab
              exact absurd hab h0
          · rw [hpnr_band a (by omega) (by omega)] at h0
            exact absurd rfl h0
        · intro m hm
          rw [hcovP1] at hm
          show pnrP p1b m ∉ p1b.free
          rw [hP_free]
          by_cases hm2 : m < coverP s.physical
          · rw [hpnr_old m hm2]
            exact W.efree m hm2
          · rw [hpnr_band m (by omega) (by omega)]
            exact W.zfree
        · intro m hm h0
          rw [hcovP1] at hm
          by_cases hm2 : m < coverP s.physical
          · rw [hpnr_old m hm2] at h0 ⊢
            exact W.elen m hm2 h0
          · rw [hpnr_band m (by omega) (by omega)] at h0
            exact absurd rfl h0
        · show s.file.length ≤ p1b.max + 1
          rw [hP_max]
          exact W.lenmax
        · intro pg hpg hd
          have hpg2 : pg ∈ ({ t2.appendBlockmap typesNr with free := (t2.appendBlockmap typesNr).free.dropLast } : MTypes).blocks.set i2 { pgT2 with entries := pgT2.entries.set (a0 - pgT2.startNr) BlockType.physicalT, dirty := true } := by
            rw [← ht5blocks]
            exact hpg
          rcases List.mem_or_eq_of_mem_set hpg2 with h | h
          · have h3 : pg ∈ (t2.appendBlockmap typesNr).blocks := h
            have h4 := hA_clean pg h3 hd
            have hpg4 : pg ∈ ({ s.types with free := s.types.free.dropLast } : MTypes).blocks.set i1 { pgT1 with entries := pgT1.entries.set (typesNr - pgT1.startNr) BlockType.types, dirty := true } := by
              rw [← ht2blocks]
              exact h4
            rcases List.mem_or_eq_of_mem_set hpg4 with h5 | h5
            · have hmem : pg ∈ s.types.blocks := h5
              obtain ⟨hnz, hrd⟩ := W.tsync pg hmem hd
              rw [hpnr_old _ (W.tcovP pg hmem)]
              exact ⟨hnz, hrd⟩
            · rw [h5] at hd
              have hd2 : true = false := hd
              cases hd2
          · rw [h] at hd
            have hd2 : true = false := hd
            cases hd2
        · intro pg hpg hd
          have hmem := hP_clean pg hpg hd
          obtain ⟨hnz, hrd⟩ := W.psync pg hmem hd
          rw [hpnr_old _ (hpcov pg hmem)]
          exact ⟨hnz, hrd⟩
        · intro hsd hnz
          have hcov3P : 3 < coverP s.physical := by
            rw [hcovEq]
            exact hcov3
          rw [hpnr_old 3 hcov3P] at hnz ⊢
          exact W.ssync hsd hnz
        · intro kv hkv
          show kv.1 < coverP p1b
          rw [hcovP1]
          have h1 := W.ccov kv hkv
          omega
        · intro kv hkv
          obtain ⟨ty0, hty0, hui0⟩ := W.cuser kv hkv
          refine ⟨ty0, ?_, hui0⟩
          have hne0 := hneFree _ _ hty0
            (by intro hx; rw [hx] at hui0; cases hui0)
          have hcv := blockType_covered s.types kv.1 ty0 W.tcontig hty0
          show t5.blockType kv.1 = .ok ty0
          rw [hbt5old kv.1 hcv hne0.1 hne0.2]
          exact hty0
        · intro m hm
          have hm2 : m ∈ t5.free := hm
          rw [hfree5, List.mem_reverse, List.mem_range'_1] at hm2
          obtain ⟨hm1, hm3⟩ := hm2
          have hma : m ≠ a0 := by omega
          exact hbt5band m hm1 hm3 hma
        · intro m hm
          have hm2 : m ∈ t5.free := hm
          rw [hfree5, List.mem_reverse, List.mem_range'_1] at hm2
          show m < coverP p1b
          rw [hcovP1, hcovEq, hNN]
          omega
        · show t5.free.Nodup
          rw [hfree5]
          exact List.nodup_reverse.mpr (List.nodup_range' _ _)

theorem allocStep_WF (s : MAlloc) (ty : BlockType) (allocNr : Nat)
    (t2 : MTypes) (W : WF s) (F : FreeOK s)
    (hsort : (s.user.map Prod.fst).Pairwise (· < ·))
    (hty : ty.isUser = true)
    (hgl : s.types.free.getLast? = some allocNr)
    (hset : MTypes.setBlockType { s.types with free := s.types.free.dropLast } allocNr ty = .ok t2) :
    WF { s with types := t2, user := cacheInsert allocNr (MBlock.new allocNr s.bs ty) s.user } ∧
    FreeOK { s with types := t2, user := cacheInsert allocNr (MBlock.new allocNr s.bs ty) s.user } ∧
    ((cacheInsert allocNr (MBlock.new allocNr s.bs ty) s.user).map
      Prod.fst).Pairwise (· < ·) := by
  have hNpos : 0 < lenTypesG s.types.bs := by
    have h := W.nt6
    rw [W.tbs]
    omega
  have hcovEq : coverP s.physical =
      s.types.blocks.length * lenTypesG s.types.bs := by
    rw [coverP, W.plen, W.pbs, lenPhysicalG_eq, W.tbs]
  have hamem : allocNr ∈ s.types.free :=
    List.mem_iff_get?.mpr ⟨_, getLast?_get? _ _ hgl⟩
  have hbtF : s.types.blockType allocNr = Except.ok BlockType.free :=
    F.1 _ hamem
  have hcovAl : allocNr < coverP s.physical := F.2.1 _ hamem
  have hcovAl2 : allocNr <
      s.types.blocks.length * lenTypesG s.types.bs := by
    rw [← hcovEq]
    exact hcovAl
  have hfne : s.types.free ≠ [] := by
    intro h0
    rw [h0] at hgl
    cases hgl
  have hsplit : s.types.free.dropLast ++ [allocNr] = s.types.free := by
    have h2 := List.dropLast_append_getLast hfne
    rw [List.getLast?_eq_getLast _ hfne] at hgl
    injection hgl with hgl2
    rw [hgl2] at h2
    exact h2
  have hnotd : allocNr ∉ s.types.free.dropLast := by
    have hnd2 : (s.types.free.dropLast ++ [allocNr]).Nodup := by
      rw [hsplit]
      exact F.2.2
    rcases List.nodup_append.mp hnd2 with ⟨_, _, hdisj⟩
    intro hvd
    exact hdisj hvd (List.mem_singleton.mpr rfl)
  have hneFree : ∀ b ty', s.types.blockType b = .ok ty' →
      ty' ≠ BlockType.free → b ≠ allocNr := by
    intro b ty' hb hne0 h0
    rw [h0, hbtF] at hb
    injection hb with hb
    exact hne0 hb.symm
  obtain ⟨t2b, hsetb, ht2bs, ht2free, ht2len, ht2contig, ht2pres, ht2new⟩ :=
    setBlockType_ok { s.types with free := s.types.free.dropLast } allocNr
      ty W.tcontig hNpos hcovAl2
  rw [hset] at hsetb
  injection hsetb with heq2
  subst heq2
  have ht2pres' : ∀ y, y ≠ allocNr →
      t2.blockType y = s.types.blockType y := ht2pres
  have ht2free' : t2.free = s.types.free.dropLast := ht2free
  have ht2bs' : t2.bs = s.types.bs := ht2bs
  have ht2len' : t2.blocks.length = s.types.blocks.length := ht2len
  obtain ⟨i1, pgT1, hgT1, ht2blocks⟩ := setBlockType_blocks
    { s.types with free := s.types.free.dropLast } allocNr ty t2 hset
  have hpairs2 : t2.blocks.map (fun pg => (pg.blockNr, pg.nextNr)) =
      s.types.blocks.map (fun pg => (pg.blockNr, pg.nextNr)) := by
    rw [ht2blocks]
    exact map_set_eq _ hgT1 rfl
  have hbnr2 : t2.blocks.map (fun pg => pg.blockNr) =
      s.types.blocks.map (fun pg => pg.blockNr) := by
    rw [ht2blocks]
    exact map_set_eq _ hgT1 rfl
  have hmemT : ∀ pg ∈ t2.blocks, pg ∈ s.types.blocks ∨
      pg = { pgT1 with entries := pgT1.entries.set (allocNr - pgT1.startNr) ty, dirty := true } := by
    intro pg hpg
    have hpg2 : pg ∈ ({ s.types with free := s.types.free.dropLast } : MTypes).blocks.set i1 { pgT1 with entries := pgT1.entries.set (allocNr - pgT1.startNr) ty, dirty := true } := by
      rw [← ht2blocks]
      exact hpg
    exact List.mem_or_eq_of_mem_set hpg2
  have hnotc : ∀ kv ∈ s.user, kv.1 ≠ allocNr := by
    intro kv hkv h0
    obtain ⟨ty0, hty0, hui0⟩ := W.cuser kv hkv
    rw [h0, hbtF] at hty0
    injection hty0 with h1
    rw [← h1] at hui0
    cases hui0
  have hsort' : ((cacheInsert allocNr (MBlock.new allocNr s.bs ty)
      s.user).map Prod.fst).Pairwise (· < ·) :=
    cacheInsert_keys_sorted s.user hsort
  refine ⟨⟨W.pbs, ?_, W.hdrbs, W.nt6, W.pcontig, ht2contig, ?_, ?_,
    W.pchain, ?_, W.pnodup, ?_, ?_, ?_, ?_, ?_, W.pcovP, W.zfree, W.fnodup,
    W.fmax, W.emax, W.einj, W.efree, W.elen, W.lenmax, W.hdr, ?_, W.psync,
    W.ssync, ?_, ?_, ?_⟩, ⟨?_, ?_, ?_⟩, hsort'⟩
  · show t2.bs = s.bs
    rw [ht2bs']
    exact W.tbs
  · show s.physical.blocks.length = t2.blocks.length
    rw [ht2len']
    exact W.plen
  · show chainOk 1 (t2.blocks.map (fun pg => (pg.blockNr, pg.nextNr)))
    rw [hpairs2]
    exact W.tchain
  · show (t2.blocks.map (fun pg => pg.blockNr)).Nodup
    rw [hbnr2]
    exact W.tnodup
  · intro pg hpg
    show t2.blockType pg.blockNr = .ok BlockType.types
    rcases hmemT pg hpg with h | h
    · have hr := W.trole pg h
      rw [ht2pres' _ (hneFree _ _ hr (by intro hx; cases hx))]
      exact hr
    · rw [h]
      show t2.blockType pgT1.blockNr = .ok BlockType.types
      have hmem1 : pgT1 ∈ s.types.blocks := List.get?_mem hgT1
      have hr := W.trole pgT1 hmem1
      rw [ht2pres' _ (hneFree _ _ hr (by intro hx; cases hx))]
      exact hr
  · intro pg hpg
    show t2.blockType pg.blockNr = .ok BlockType.physicalT
    have hr := W.prole pg hpg
    rw [ht2pres' _ (hneFree _ _ hr (by intro hx; cases hx))]
    exact hr
  · show t2.blockType 0 = .ok BlockType.header
    rw [ht2pres' 0 (hneFree 0 _ W.hrole (by intro hx; cases hx))]
    exact W.hrole
  · show t2.blockType 3 = .ok BlockType.streams
    rw [ht2pres' 3 (hneFree 3 _ W.srole (by intro hx; cases hx))]
    exact W.srole
  · intro pg hpg
    show pg.blockNr < coverP s.physical
    rcases hmemT pg hpg with h | h
    · exact W.tcovP pg h
    · rw [h]
      show pgT1.blockNr < coverP s.physical
      exact W.tcovP pgT1 (List.get?_mem hgT1)
  · intro pg hpg hd
    rcases hmemT pg hpg with h | h
    · exact W.tsync pg h hd
    · rw [h] at hd
      have hd2 : true = false := hd
      cases hd2
  · show ((cacheInsert allocNr (MBlock.new allocNr s.bs ty)
      s.user).map Prod.fst).Nodup
    exact pairwise_keys_nodup hsort'
  · intro kv hkv
    show kv.1 < coverP s.physical
    rcases cacheInsert_mem s.user kv hkv with h | h
    · rw [h]
      exact hcovAl
    · exact W.ccov kv h
  · intro kv hkv
    rcases cacheInsert_mem s.user kv hkv with h | h
    · refine ⟨ty, ?_, hty⟩
      rw [h]
      exact ht2new
    · obtain ⟨ty0, hty0, hui0⟩ := W.cuser kv h
      refine ⟨ty0, ?_, hui0⟩
      rw [ht2pres' _ (hnotc kv h)]
      exact hty0
  · intro m hm
    have hm2 : m ∈ s.types.free.dropLast := by
      rw [← ht2free']
      exact hm
    have hmne : m ≠ allocNr := by
      intro h0
      rw [h0] at hm2
      exact hnotd hm2
    have hmm : m ∈ s.types.free := by
      rw [← hsplit]
      exact List.mem_append.mpr (Or.inl hm2)
    show t2.blockType m = .ok BlockType.free
    rw [ht2pres' m hmne]
    exact F.1 m hmm
  · intro m hm
    have hm2 : m ∈ s.types.free.dropLast := by
      rw [← ht2free']
      exact hm
    have hmm : m ∈ s.types.free := by
      rw [← hsplit]
      exact List.mem_append.mpr (Or.inl hm2)
    show m < coverP s.physical
    exact F.2.1 m hmm
  · show t2.free.Nodup
    rw [ht2free']
    exact List.Nodup.sublist (List.dropLast_sublist _) F.2.2

theorem allocBlock_WF (s : MAlloc) (ty : BlockType) (W : WF s)
    (F : FreeOK s) (hsort : (s.user.map Prod.fst).Pairwise (· < ·))
    (hty : ty.isUser = true) :
    ∀ nr s', s.allocBlock ty = .ok (nr, s') →
      WF s' ∧ FreeOK s' ∧ (s'.user.map Prod.fst).Pairwise (· < ·) := by
  intro nr s' hrun
  rw [MAlloc.allocBlock] at hrun
  by_cases hfl : s.types.freeLen = 2
  · rw [if_pos hfl] at hrun
    cases happ : s.appendBlockmap with
    | error e =>
      rw [happ] at hrun
      cases hrun
    | ok s₂ =>
      simp only [happ, except_bind_ok] at hrun
      obtain ⟨W₂, F₂, huser₂, hbs₂⟩ := appendBlockmap_WF s W F hfl s₂ happ
      have hsort₂ : (s₂.user.map Prod.fst).Pairwise (· < ·) := by
        rw [huser₂]
        exact hsort
      rw [MTypes.popFree] at hrun
      cases hgl : s₂.types.free.getLast? with
      | none =>
        rw [hgl] at hrun
        cases hrun
      | some allocNr =>
        rw [hgl] at hrun
        have hrun2 : (do
            let t2 ← MTypes.setBlockType { s₂.types with free := s₂.types.free.dropLast } allocNr ty
            let b := MBlock.new allocNr s₂.bs ty
            Except.ok (allocNr, { s₂ with types := t2, user := cacheInsert allocNr b s₂.user })) = Except.ok (nr, s') := hrun
        cases hset : MTypes.setBlockType { s₂.types with free := s₂.types.free.dropLast } allocNr ty with
        | error e =>
          rw [hset] at hrun2
          cases hrun2
        | ok t2 =>
          simp only [hset, except_bind_ok] at hrun2
          injection hrun2 with hrun2
          injection hrun2 with h1 h2
          subst h2
          exact allocStep_WF s₂ ty allocNr t2 W₂ F₂ hsort₂ hty hgl hset
  · rw [if_neg hfl] at hrun
    simp only [except_bind_ok] at hrun
    rw [MTypes.popFree] at hrun
    cases hgl : s.types.free.getLast? with
    | none =>
      rw [hgl] at hrun
      cases hrun
    | some allocNr =>
      rw [hgl] at hrun
      have hrun2 : (do
          let t2 ← MTypes.setBlockType { s.types with free := s.types.free.dropLast } allocNr ty
          let b := MBlock.new allocNr s.bs ty
          Except.ok (allocNr, { s with types := t2, user := cacheInsert allocNr b s.user })) = Except.ok (nr, s') := hrun
      cases hset : MTypes.setBlockType { s.types with free := s.types.free.dropLast } allocNr ty with
      | error e =>
        rw [hset] at hrun2
        cases hrun2
      | ok t2 =>
        simp only [hset, except_bind_ok] at hrun2
        injection hrun2 with hrun2
        injection hrun2 with h1 h2
        subst h2
        exact allocStep_WF s ty allocNr t2 W F hsort hty hgl hset

theorem WF_init (bs : Nat) (h32 : 32 ≤ bs) :
    WF (MAlloc.init bs) ∧ FreeOK (MAlloc.init bs) ∧
    ((MAlloc.init bs).user.map Prod.fst).Pairwise (· < ·) := by
  have h6 := lenTypesG_ge bs h32
  have hNp6 : 6 ≤ lenPhysicalG bs := by
    rw [lenPhysicalG_eq]
    exact h6
  obtain ⟨hr0, hr1, hr2, hr3⟩ := (GInv_init bs h32).2.2
  have hpinit : MPhysical.init bs = { bs := bs, blocks := [{ PPage.new 2 bs with dirty := true }], max := 0, free := [] } := by
    rw [MPhysical.init, MPhysical.initFreeList]
    rw [Nat.zero_div]
    rfl
  have hfr : (MPhysical.init bs).free = [] := by
    rw [hpinit]
  have hpnr0 : ∀ m, pnrP (MPhysical.init bs) m = 0 := by
    intro m
    rw [hpinit, pnrP]
    show ((match ([{ PPage.new 2 bs with dirty := true }] : List PPage).get?
        (m / lenPhysicalG bs) with
      | none => Except.error (MErr.invalidBlock m)
      | some pg =>
        if pg.containsNr bs m then
          match pg.entries.get? (m - pg.startNr) with
          | some v => Except.ok v
          | none => Except.error (MErr.invalidBlock m)
        else Except.error (MErr.invalidBlock m)).toOption.getD 0) = 0
    by_cases hm : m < lenPhysicalG bs
    · have hdiv : m / lenPhysicalG bs = 0 := Nat.div_eq_of_lt hm
      rw [hdiv]
      show ((if ({ PPage.new 2 bs with dirty := true } : PPage).containsNr bs m then
          match ({ PPage.new 2 bs with dirty := true } : PPage).entries.get?
            (m - ({ PPage.new 2 bs with dirty := true } : PPage).startNr) with
          | some v => Except.ok v
          | none => Except.error (MErr.invalidBlock m)
        else Except.error (MErr.invalidBlock m)).toOption.getD 0) = 0
      have hcont : ({ PPage.new 2 bs with dirty := true } : PPage).containsNr
          bs m = true := by
        simp only [PPage.new, PPage.containsNr, PPage.endNr,
          Bool.and_eq_true, decide_eq_true_eq]
        omega
      rw [if_pos hcont]
      have hent : ({ PPage.new 2 bs with dirty := true } :
          PPage).entries.get?
          (m - ({ PPage.new 2 bs with dirty := true } : PPage).startNr) =
          some 0 := by
        show (List.replicate (lenPhysicalG bs) 0).get? (m - 0) = some 0
        rw [List.get?_eq_getElem?, List.getElem?_replicate,
          if_pos (by omega)]
      rw [hent]
      rfl
    · cases hd : m / lenPhysicalG bs with
      | zero =>
        have h1 : 1 ≤ m / lenPhysicalG bs :=
          (Nat.le_div_iff_mul_le (by omega)).mpr (by omega)
        omega
      | succ k => rfl
  have hbtinit : ∀ m, 4 ≤ m → m < lenTypesG bs →
      (MAlloc.init bs).types.blockType m = .ok BlockType.free := by
    intro m h4 hmN
    have hdiv : m / lenTypesG bs = 0 := Nat.div_eq_of_lt hmN
    show (match ([({ TPage.initPage bs with dirty := true } :
        TPage)]).get? (m / lenTypesG bs) with
      | none => Except.error (MErr.invalidBlock m)
      | some pg =>
        if pg.containsNr bs m then
          match pg.entries.get? (m - pg.startNr) with
          | some ty => Except.ok ty
          | none => Except.error (MErr.invalidBlock m)
        else Except.error (MErr.invalidBlock m)) = Except.ok BlockType.free
    rw [hdiv]
    show (if ({ TPage.initPage bs with dirty := true } :
        TPage).containsNr bs m then
        match ({ TPage.initPage bs with dirty := true } :
          TPage).entries.get?
          (m - ({ TPage.initPage bs with dirty := true } :
            TPage).startNr) with
        | some ty => Except.ok ty
        | none => Except.error (MErr.invalidBlock m)
      else Except.error (MErr.invalidBlock m)) = Except.ok BlockType.free
    have hcont : ({ TPage.initPage bs with dirty := true } :
        TPage).containsNr bs m = true := by
      simp only [TPage.initPage, TPage.containsNr, TPage.endNr,
        Bool.and_eq_true, decide_eq_true_eq]
      omega
    rw [if_pos hcont]
    have hent : ({ TPage.initPage bs with dirty := true } :
        TPage).entries.get?
        (m - ({ TPage.initPage bs with dirty := true } : TPage).startNr) =
        some BlockType.free := by
      show (((((List.replicate (lenTypesG bs) BlockType.free).set 0
        BlockType.header).set 1 BlockType.types).set 2
        BlockType.physicalT).set 3 BlockType.streams).get? (m - 0) =
        some BlockType.free
      rw [List.get?_eq_getElem?, List.getElem?_set, if_neg (by omega),
        List.getElem?_set, if_neg (by omega), List.getElem?_set,
        if_neg (by omega), List.getElem?_set, if_neg (by omega),
        List.getElem?_replicate, if_pos (by omega)]
    rw [hent]
  refine ⟨⟨?_, rfl, rfl, lenTypesG_ge bs h32, ?_, ?_, rfl, ⟨rfl, rfl⟩,
    ⟨rfl, rfl⟩, ?_, ?_, ?_, ?_, hr0, hr3, ?_, ?_, ?_, ?_, ?_, ?_, ?_, ?_,
    ?_, Nat.zero_le _, Or.inr ⟨rfl, rfl⟩, ?_, ?_, ?_, List.nodup_nil, ?_,
    ?_⟩, ⟨?_, ?_, ?_⟩, List.Pairwise.nil⟩
  · show (MPhysical.init bs).bs = bs
    rw [hpinit]
  · show physContig (MPhysical.init bs)
    intro i pg hg
    have hg2 : ([({ PPage.new 2 bs with dirty := true } : PPage)]).get? i =
        some pg := hg
    match i, hg2 with
    | 0, hg2 =>
      have hg3 : some ({ PPage.new 2 bs with dirty := true } : PPage) =
          some pg := hg2
      injection hg3 with hg3
      rw [← hg3]
      constructor
      · show (0 : Nat) = 0 * lenPhysicalG (MPhysical.init bs).bs
        rw [Nat.zero_mul]
      · show (List.replicate (lenPhysicalG bs) 0).length =
          lenPhysicalG (MPhysical.init bs).bs
        rw [List.length_replicate, hpinit]
    | n + 1, hg2 => simp at hg2
  · intro i pg hpg
    rw [init_types_blocks] at hpg
    match i, hpg with
    | n + 1, hpg => simp at hpg
    | 0, hpg =>
      simp only [List.get?_cons_zero, Option.some_inj] at hpg
      subst hpg
      refine ⟨by simp [TPage.initPage], ?_⟩
      show (((((List.replicate (lenTypesG bs) BlockType.free).set 0
        .header).set 1 .types).set 2 .physicalT).set 3 .streams).length = _
      simp
      rfl
  · show ([(1 : Nat)]).Nodup
    exact List.nodup_singleton _
  · show ([(2 : Nat)]).Nodup
    exact List.nodup_singleton _
  · intro pg hpg
    have hpg2 : pg ∈ [({ TPage.initPage bs with dirty := true } : TPage)] :=
      hpg
    rw [List.mem_singleton.mp hpg2]
    exact hr1
  · intro pg hpg
    have hpg2 : pg ∈ [({ PPage.new 2 bs with dirty := true } : PPage)] :=
      hpg
    rw [List.mem_singleton.mp hpg2]
    exact hr2
  · intro pg hpg
    have hpg2 : pg ∈ [({ TPage.initPage bs with dirty := true } : TPage)] :=
      hpg
    rw [List.mem_singleton.mp hpg2]
    show (1 : Nat) < coverP (MPhysical.init bs)
    rw [hpinit, coverP]
    show (1 : Nat) < 1 * lenPhysicalG bs
    omega
  · intro i pg hg
    have hg2 : ([({ PPage.new 2 bs with dirty := true } : PPage)]).get? i =
        some pg := hg
    match i, hg2 with
    | 0, hg2 =>
      have hg3 : some ({ PPage.new 2 bs with dirty := true } : PPage) =
          some pg := hg2
      injection hg3 with hg3
      rw [← hg3]
      show (2 : Nat) < Nat.max 0 1 * lenPhysicalG bs
      have hmx : Nat.max 0 1 = 1 := rfl
      rw [hmx]
      omega
    | n + 1, hg2 => simp at hg2
  · show (0 : Nat) ∉ (MPhysical.init bs).free
    rw [hfr]
    exact List.not_mem_nil 0
  · show ((MPhysical.init bs).free).Nodup
    rw [hfr]
    exact List.nodup_nil
  · intro v hv
    have hv2 : v ∈ (MPhysical.init bs).free := hv
    rw [hfr] at hv2
    cases hv2
  · intro m hm
    show pnrP (MPhysical.init bs) m ≤ (MPhysical.init bs).max
    rw [hpnr0]
    exact Nat.zero_le _
  · intro a b ha hb h0 hab
    have h0' : pnrP (MPhysical.init bs) a ≠ 0 := h0
    rw [hpnr0] at h0'
    exact absurd rfl h0'
  · intro m hm
    show pnrP (MPhysical.init bs) m ∉ (MPhysical.init bs).free
    rw [hfr]
    exact List.not_mem_nil _
  · intro m hm h0
    have h0' : pnrP (MPhysical.init bs) m ≠ 0 := h0
    rw [hpnr0] at h0'
    exact absurd rfl h0'
  · intro pg hpg hd
    have hpg2 : pg ∈ [({ TPage.initPage bs with dirty := true } : TPage)] :=
      hpg
    rw [List.mem_singleton.mp hpg2] at hd
    have hd2 : true = false := hd
    cases hd2
  · intro pg hpg hd
    have hpg2 : pg ∈ [({ PPage.new 2 bs with dirty := true } : PPage)] :=
      hpg
    rw [List.mem_singleton.mp hpg2] at hd
    have hd2 : true = false := hd
    cases hd2
  · intro hsd hnz
    have hnz' : pnrP (MPhysical.init bs) 3 ≠ 0 := hnz
    rw [hpnr0] at hnz'
    exact absurd rfl hnz'
  · intro kv hkv
    have hkv2 : kv ∈ ([] : List (Nat × MBlock)) := hkv
    cases hkv2
  · intro kv hkv
    have hkv2 : kv ∈ ([] : List (Nat × MBlock)) := hkv
    cases hkv2
  · intro m hm
    have hm2 : m ∈ (MAlloc.init bs).types.free := hm
    rw [init_types_free bs h32, List.mem_reverse, List.mem_range'_1] at hm2
    exact hbtinit m hm2.1 (by omega)
  · intro m hm
    have hm2 : m ∈ (MAlloc.init bs).types.free := hm
    rw [init_types_free bs h32, List.mem_reverse, List.mem_range'_1] at hm2
    show m < coverP (MPhysical.init bs)
    rw [hpinit, coverP]
    show m < 1 * lenPhysicalG bs
    rw [Nat.one_mul, lenPhysicalG_eq]
    omega
  · show ((MAlloc.init bs).types.free).Nodup
    rw [init_types_free bs h32]
    exact List.nodup_reverse.mpr (List.nodup_range' _ _)

theorem applyPOp_WF (s : MAlloc) (op : POp)
    (W : WF s) (F : FreeOK s)
    (hsort : (s.user.map Prod.fst).Pairwise (· < ·)) (hok : op.okIn s) :
    WF (applyPOp s op) ∧ FreeOK (applyPOp s op) ∧
    ((applyPOp s op).user.map Prod.fst).Pairwise (· < ·) := by
  cases op with
  | allocB ty =>
    cases hrun : s.allocBlock ty with
    | error e =>
      have heq : applyPOp s (.allocB ty) = s := by
        simp only [applyPOp, hrun]
      rw [heq]
      exact ⟨W, F, hsort⟩
    | ok r =>
      obtain ⟨nr, s1⟩ := r
      have heq : applyPOp s (.allocB ty) = s1 := by
        simp only [applyPOp, hrun]
      rw [heq]
      exact allocBlock_WF s ty W F hsort hok nr s1 hrun
  | freeB nr =>
    obtain ⟨tyu, hbt, hui⟩ := hok
    cases hrun : s.freeBlock nr with
    | error e =>
      have heq : applyPOp s (.freeB nr) = s := by
        simp only [applyPOp, hrun]
      rw [heq]
      exact ⟨W, F, hsort⟩
    | ok s1 =>
      have heq : applyPOp s (.freeB nr) = s1 := by
        simp only [applyPOp, hrun]
      rw [heq]
      exact freeBlock_WF s nr tyu W F hsort hbt hui s1 hrun
  | writeB nr d =>
    obtain ⟨W', hsort', ht, hp⟩ := dirtyWrite_WF s nr d W hsort
    refine ⟨W', ⟨?_, ?_, ?_⟩, hsort'⟩
    · show ∀ m ∈ (s.dirtyWrite nr d).types.free,
        (s.dirtyWrite nr d).types.blockType m = .ok BlockType.free
      rw [ht]
      exact F.1
    · show ∀ m ∈ (s.dirtyWrite nr d).types.free,
        m < coverP (s.dirtyWrite nr d).physical
      rw [ht, hp]
      exact F.2.1
    · show (s.dirtyWrite nr d).types.free.Nodup
      rw [ht]
      exact F.2.2
  | storeB =>
    obtain ⟨y, hrun, R⟩ := store_ok s W
    have heq : applyPOp s .storeB = y := by
      simp only [applyPOp, hrun]
    rw [heq]
    exact ⟨WF_of_store s y W R, FreeOK_of_store s y W R F,
      hsort.sublist R.ukeysub⟩

theorem applyPOps_WF (s : MAlloc) (ops : List POp)
    (W : WF s) (F : FreeOK s)
    (hsort : (s.user.map Prod.fst).Pairwise (· < ·))
    (hops : POps.okFrom s ops) :
    WF (applyPOps s ops) ∧ FreeOK (applyPOps s ops) ∧
    ((applyPOps s ops).user.map Prod.fst).Pairwise (· < ·) := by
  induction ops generalizing s with
  | nil => exact ⟨W, F, hsort⟩
  | cons op rest ih =>
    obtain ⟨hok, hrest⟩ := hops
    obtain ⟨W', F', hsort'⟩ := applyPOp_WF s op W F hsort hok
    show WF (applyPOps (applyPOp s op) rest) ∧ _ ∧ _
    exact ih (applyPOp s op) W' F' hsort' hrest

/-- C2 (corrected): the round trip needs frees restricted to user-typed
blocks — `free_block` on a map-page number breaks it
(`reserved_free_breaks_the_round_trip`).  With that proviso it holds: in
every state reachable from `Alloc::init` (block size ≥ 32) by public calls
(`alloc_block` with a user type, `free_block` on a block that is user-typed
at call time, block writes, commits), `store` succeeds and re-`load`ing the
resulting file reconstructs the same observable state: the same
logical-to-type map and the same observable content for every logical
number, where never-dirtied blocks read as all zeros. -/
theorem store_load_round_trip (bs : Nat) (ops : List POp)
    (h32 : 32 ≤ bs) (hops : POps.okFrom (MAlloc.init bs) ops) :
    ∃ y z, (applyPOps (MAlloc.init bs) ops).store = .ok y ∧
      MAlloc.load (applyPOps (MAlloc.init bs) ops).bs y.file = .ok z ∧
      z.obs = (applyPOps (MAlloc.init bs) ops).obs := by
  obtain ⟨W0, F0, hsort0⟩ := WF_init bs h32
  obtain ⟨W, F, hsort⟩ :=
    applyPOps_WF (MAlloc.init bs) ops W0 F0 hsort0 hops
  obtain ⟨y, hstore, R⟩ := store_ok (applyPOps (MAlloc.init bs) ops) W
  obtain ⟨z, hload, hzbs, hzfile, hzuser, hztlen, hzt, hzp⟩ :=
    load_of_store (applyPOps (MAlloc.init bs) ops) y W R
  exact ⟨y, z, hstore, hload,
    obs_of_store (applyPOps (MAlloc.init bs) ops) y z W R hzbs hzfile
      hzuser hztlen hzt hzp⟩

theorem store_load_round_trip_witness :
    ∃ y z, (applyPOps (MAlloc.init 32)
        [.allocB .user1, .writeB 4 [7], .storeB]).store = .ok y ∧
      MAlloc.load (applyPOps (MAlloc.init 32)
        [.allocB .user1, .writeB 4 [7], .storeB]).bs y.file = .ok z ∧
      z.obs = (applyPOps (MAlloc.init 32)
        [.allocB .user1, .writeB 4 [7], .storeB]).obs :=
  store_load_round_trip 32 [.allocB .user1, .writeB 4 [7], .storeB]
    (by decide) ⟨rfl, trivial, trivial, trivial⟩

theorem popFreeU32_eq_popFree (p : MPhysical) (h : p.max + 1 < 4294967296) :
    p.popFreeU32 = p.popFree := by
  rw [MPhysical.popFreeU32, MPhysical.popFree]
  cases hl : p.free.getLast? with
  | some nr => rfl
  | none =>
    rw [Nat.mod_eq_of_lt h]

/-- C9 counterexample: with the `u32` wrap modelled, the fallback arm of
`pop_free` *can* return `PhysicalNr(0)`: on an empty free list with
`max_pnr = u32::MAX` the increment wraps to 0, so "the fallback path
returns `max_pnr + 1` which is at least 1" is false at the wrap. -/
theorem pop_free_wraps_to_zero_at_u32_max :
    wrapPhys.free = [] ∧ wrapPhys.blocks ≠ [] ∧
    (wrapPhys.popFreeU32).1 = 0 := by
  refine ⟨rfl, by decide, rfl⟩

/-- C9 (corrected): `Physical::pop_free` never returns `PhysicalNr(0)`
*below the `u32` wrap*: the rebuilt free list never contains slot 0 (the
rebuild always marks slot 0 used once the map has a page), and on an empty
free list `pop_free` returns `(max_pnr + 1) mod 2^32`, which is non-zero
whenever `max_pnr + 1 < 2^32` — that is, until `2^32` physical blocks have
been handed out; at `max_pnr = u32::MAX` the increment wraps and `pop_free`
does return `PhysicalNr(0)`. -/
theorem pop_free_nonzero_below_wrap (p : MPhysical) (fs : Nat)
    (hblocks : p.blocks ≠ []) (hfree : 0 ∉ p.free)
    (hmax : p.max + 1 < 4294967296) :
    0 ∉ (p.initFreeList fs).free ∧ (p.popFreeU32).1 ≠ 0 := by
  rw [popFreeU32_eq_popFree p hmax]
  exact pop_free_never_returns_zero p fs hblocks hfree

/-- Closed instance for `pop_free_nonzero_below_wrap`: the fresh physical
map of a 32-byte-block store with a three-block file. -/
theorem pop_free_nonzero_below_wrap_witness :
    0 ∉ ((MPhysical.init 32).initFreeList 96).free ∧
    ((MPhysical.init 32).popFreeU32).1 ≠ 0 :=
  pop_free_nonzero_below_wrap (MPhysical.init 32) 96 (by decide) (by decide)
    (by decide)

/-- C2 counterexample: the unrestricted round trip is false.  `free_block`
has no type guard, so `free_block(1)` is a public call that retypes the
root type-map page's number to `Free`; from the resulting state `store`
still succeeds, but reopening the stored file fails: `Alloc::load`'s role
check finds type-map page nr 1 typed `Free` and rejects the file with
`InvalidBlockType(1)`.  The round trip therefore needs the proviso that
`free_block` is only applied to user-typed blocks. -/
theorem reserved_free_breaks_the_round_trip :
    (do
      let s1 ← (MAlloc.init 32).freeBlock 1
      s1.store : Except MErr MAlloc).isOk = true ∧
    (do
      let s1 ← (MAlloc.init 32).freeBlock 1
      let y ← s1.store
      MAlloc.load 32 y.file) = .error (.invalidBlockType 1) := by
  exact ⟨rfl, rfl⟩

/-- Entries per type-map page once the four reserved entries fit: every
valid block size (≥ 24) gives at least four. -/
theorem lenTypesG_ge4 (bs : Nat) (h : 24 ≤ bs) : 4 ≤ lenTypesG bs := by
  rw [lenTypesG]
  rw [Nat.le_div_iff_mul_le (by omega)]
  omega

/-- A successful `set_block_type` implies the target is covered by the
map (its page was found and its `contains` check passed). -/
theorem setBlockType_cov_of_ok (t : MTypes) (x : Nat) (ty : BlockType)
    (t' : MTypes) (hc : typesContig t) (h : t.setBlockType x ty = .ok t') :
    x < t.blocks.length * lenTypesG t.bs := by
  rw [MTypes.setBlockType] at h
  cases hg : t.blocks.get? (x / lenTypesG t.bs) with
  | none =>
    rw [hg] at h
    cases h
  | some pg =>
    rw [hg] at h
    have h1 : (if pg.containsNr t.bs x = true then Except.ok { t with blocks := t.blocks.set (x / lenTypesG t.bs) { pg with entries := pg.entries.set (x - pg.startNr) ty, dirty := true } } else Except.error (MErr.invalidBlock x)) = Except.ok t' := h
    by_cases hcont : pg.containsNr t.bs x = true
    · obtain ⟨hst, hlen⟩ := hc _ _ hg
      have hidx : x / lenTypesG t.bs < t.blocks.length := by
        by_contra hle
        rw [List.get?_eq_none.mpr (by omega)] at hg
        cases hg
      simp only [TPage.containsNr, TPage.endNr, Bool.and_eq_true,
        decide_eq_true_eq] at hcont
      have h2 : x < (x / lenTypesG t.bs) * lenTypesG t.bs +
          lenTypesG t.bs := by
        rw [← hst]
        exact hcont.2
      calc x < (x / lenTypesG t.bs) * lenTypesG t.bs + lenTypesG t.bs := h2
      _ = (x / lenTypesG t.bs + 1) * lenTypesG t.bs := (Nat.succ_mul _ _).symm
      _ ≤ t.blocks.length * lenTypesG t.bs :=
        Nat.mul_le_mul_right _ (by omega)
    · rw [if_neg hcont] at h1
      cases h1

/-- The facts of `setBlockType_ok`, derived from a successful run instead
of a coverage hypothesis. -/
theorem setBlockType_pres_of_ok (t : MTypes) (x : Nat) (ty : BlockType)
    (t' : MTypes) (hc : typesContig t) (hN : 0 < lenTypesG t.bs)
    (h : t.setBlockType x ty = .ok t') :
    t'.bs = t.bs ∧ t'.free = t.free ∧
    t'.blocks.length = t.blocks.length ∧ typesContig t' ∧
    (∀ y, y ≠ x → t'.blockType y = t.blockType y) ∧
    t'.blockType x = .ok ty := by
  have hcov := setBlockType_cov_of_ok t x ty t' hc h
  obtain ⟨t2, h2, hbs2, hfree2, hlen2, hc2, hpres2, hnew2⟩ :=
    setBlockType_ok t x ty hc hN hcov
  rw [h] at h2
  injection h2 with h2
  subst h2
  exact ⟨hbs2, hfree2, hlen2, hc2, hpres2, hnew2⟩

/-- A successful one-role assertion is exactly the role equation. -/
theorem assertOneType_inv (t : MTypes) (nr : Nat) (want : BlockType)
    (h : assertOneType t nr want = .ok ()) :
    t.blockType nr = .ok want := by
  rw [assertOneType] at h
  cases hb : t.blockType nr with
  | error e =>
    rw [hb] at h
    cases h
  | ok ty =>
    rw [hb] at h
    have h1 : (if ty = want then Except.ok () else Except.error (MErr.invalidBlockType nr)) = (Except.ok () : Except MErr Unit) := h
    by_cases he : ty = want
    · rw [he]
    · rw [if_neg he] at h1
      cases h1

/-- A successful role sweep gives the role at every listed number. -/
theorem assertAllTypes_inv (t : MTypes) (want : BlockType) :
    ∀ l : List Nat, assertAllTypes t l want = .ok () →
      ∀ nr ∈ l, t.blockType nr = .ok want := by
  intro l
  induction l with
  | nil =>
    intro _ nr hnr
    cases hnr
  | cons a rest ih =>
    intro h nr hnr
    rw [assertAllTypes] at h
    cases ho : assertOneType t a want with
    | error e =>
      rw [ho] at h
      cases h
    | ok u =>
      rw [ho] at h
      rcases List.mem_cons.mp hnr with h1 | h1
      · rw [h1]
        have := assertOneType_inv t a want (by rw [ho])
        exact this
      · exact ih h nr h1

/-- Where a slot of `writeSlot`'s output can come from. -/
theorem readSlot_writeSlot_cases (f : MFile) (bs i : Nat) (sl : Slot)
    (j : Nat) (sl' : Slot)
    (h : readSlot (writeSlot f bs i sl) j = some sl') :
    sl' = sl ∨ readSlot f j = some sl' ∨ sl' = zeroSlot bs := by
  rw [writeSlot] at h
  by_cases hi : i < f.length
  · rw [if_pos hi] at h
    rw [readSlot, List.get?_eq_getElem?, List.getElem?_set] at h
    by_cases hj : i = j
    · rw [if_pos hj, if_pos hi] at h
      injection h with h
      exact Or.inl h.symm
    · rw [if_neg hj] at h
      refine Or.inr (Or.inl ?_)
      rw [readSlot, List.get?_eq_getElem?]
      exact h
  · rw [if_neg hi] at h
    rw [readSlot] at h
    by_cases hj1 : j < f.length
    · have he : ((f ++ List.replicate (i - f.length) (zeroSlot bs)) ++
          [sl]).get? j = f.get? j := by
        rw [List.get?_append (by rw [List.length_append, List.length_replicate]; omega),
          List.get?_append hj1]
      rw [he] at h
      exact Or.inr (Or.inl h)
    · by_cases hj2 : j < i
      · have he : ((f ++ List.replicate (i - f.length) (zeroSlot bs)) ++
            [sl]).get? j = some (zeroSlot bs) := by
          rw [List.get?_append (by rw [List.length_append, List.length_replicate]; omega)]
          rw [List.get?_append_right (by omega)]
          rw [List.get?_eq_getElem?, List.getElem?_replicate,
            if_pos (by omega)]
        rw [he] at h
        injection h with h
        exact Or.inr (Or.inr h.symm)
      · by_cases hj3 : j = i
        · have hlen1 : (f ++ List.replicate (i - f.length)
              (zeroSlot bs)).length = i := by
            rw [List.length_append, List.length_replicate]
            omega
          have he : ((f ++ List.replicate (i - f.length) (zeroSlot bs)) ++
              [sl]).get? j = some sl := by
            rw [List.get?_append_right (by rw [hlen1]; omega), hlen1, hj3,
              Nat.sub_self]
            rfl
          rw [he] at h
          injection h with h
          exact Or.inl h.symm
        · exfalso
          have he : ((f ++ List.replicate (i - f.length) (zeroSlot bs)) ++
              [sl]).get? j = none := by
            rw [List.get?_eq_none]
            rw [List.length_append, List.length_append,
              List.length_replicate]
            simp only [List.length_singleton]
            omega
          rw [he] at h
          cases h

theorem tyFileOK_writeSlot (bs bs2 i : Nat) (f : MFile) (sl : Slot)
    (hok : tyFileOK bs f)
    (hsl : ∀ st nx es, sl = .tyS st nx es →
      es.length = lenTypesG bs ∧
      (st = 0 → es.get? 3 = some BlockType.streams)) :
    tyFileOK bs (writeSlot f bs2 i sl) := by
  intro pnr st nx es hr
  rcases readSlot_writeSlot_cases f bs2 i sl pnr (.tyS st nx es) hr with
    h | h | h
  · exact hsl st nx es h.symm
  · exact hok pnr st nx es h
  · rw [zeroSlot] at h
    cases h

theorem tyFileOK_storeRaw (bs bs2 pnr : Nat) (f f2 : MFile) (sl : Slot)
    (hok : tyFileOK bs f)
    (hsl : ∀ st nx es, sl = .tyS st nx es →
      es.length = lenTypesG bs ∧
      (st = 0 → es.get? 3 = some BlockType.streams))
    (h : storeRaw f bs2 pnr sl = .ok f2) : tyFileOK bs f2 := by
  rw [storeRaw] at h
  by_cases h0 : pnr = 0
  · rw [if_pos h0] at h
    cases h
  · rw [if_neg h0] at h
    injection h with h
    rw [← h]
    exact tyFileOK_writeSlot bs bs2 pnr f sl hok hsl

theorem tyFileOK_set0 (bs : Nat) (f : MFile) (hd : MHeader)
    (hok : tyFileOK bs f) : tyFileOK bs (f.set 0 (.hdrS hd)) := by
  intro pnr st nx es hr
  rw [readSlot, List.get?_eq_getElem?, List.getElem?_set] at hr
  by_cases h0 : 0 = pnr
  · rw [if_pos h0] at hr
    by_cases hl : 0 < f.length
    · rw [if_pos hl] at hr
      injection hr with hr
      cases hr
    · rw [if_neg hl] at hr
      cases hr
  · rw [if_neg h0] at hr
    exact hok pnr st nx es (by rw [readSlot, List.get?_eq_getElem?]; exact hr)

/-- The in-memory counterpart of `tyFileOK`: what a contiguous role-correct
type map guarantees about each of its pages. -/
theorem tyPagesGood_of (s : MAlloc) (htbs : s.types.bs = s.bs)
    (hN : 4 ≤ lenTypesG s.bs) (hc : typesContig s.types)
    (hrole : roleInv s) :
    ∀ pg ∈ s.types.blocks, pg.entries.length = lenTypesG s.bs ∧
      (pg.startNr = 0 → pg.entries.get? 3 = some BlockType.streams) := by
  intro pg hpg
  obtain ⟨i, hgi⟩ := List.mem_iff_get?.mp hpg
  obtain ⟨hst, hlen⟩ := hc i pg hgi
  refine ⟨by rw [hlen, htbs], ?_⟩
  intro h0
  have hNpos : 0 < lenTypesG s.types.bs := by
    rw [htbs]
    omega
  have hi0 : i = 0 := by
    rcases Nat.eq_zero_or_pos i with h | h
    · exact h
    · exfalso
      rw [h0] at hst
      have h2 : 0 < i * lenTypesG s.types.bs := Nat.mul_pos h hNpos
      omega
  subst hi0
  have hr3 := hrole.2.2.2
  rw [MTypes.blockType] at hr3
  have hdiv : 3 / lenTypesG s.types.bs = 0 :=
    Nat.div_eq_of_lt (by rw [htbs]; omega)
  rw [hdiv, hgi] at hr3
  have hr3b : (if pg.containsNr s.types.bs 3 = true then (match pg.entries.get? (3 - pg.startNr) with | some ty => Except.ok ty | none => Except.error (MErr.invalidBlock 3)) else Except.error (MErr.invalidBlock 3)) = (Except.ok BlockType.streams : Except MErr BlockType) := hr3
  by_cases hcont : pg.containsNr s.types.bs 3 = true
  · rw [if_pos hcont, h0, Nat.sub_zero] at hr3b
    cases hg3 : pg.entries.get? 3 with
    | none =>
      rw [hg3] at hr3b
      cases hr3b
    | some ty =>
      rw [hg3] at hr3b
      have h2 : (Except.ok ty : Except MErr BlockType) = Except.ok BlockType.streams := hr3b
      injection h2 with h2
      rw [h2]
  · rw [if_neg hcont] at hr3b
    cases hr3b

/-- A successful raw read names a real slot at a non-zero number. -/
theorem loadRawSlot_inv (f : MFile) (pnr : Nat) (sl : Slot)
    (h : loadRawSlot f pnr = .ok sl) :
    pnr ≠ 0 ∧ readSlot f pnr = some sl := by
  rw [loadRawSlot] at h
  by_cases h0 : pnr = 0
  · rw [if_pos h0] at h
    cases h
  · rw [if_neg h0] at h
    refine ⟨h0, ?_⟩
    cases hr : readSlot f pnr with
    | none =>
      rw [hr] at h
      cases h
    | some sl2 =>
      rw [hr] at h
      have h2 : (Except.ok sl2 : Except MErr Slot) = .ok sl := h
      injection h2 with h2
      rw [h2]

/-- The type-map chain walk keeps the accumulator's pages as a prefix,
leaves `bs` and `free` alone, and reads every appended page from a `tyS`
slot of the file. -/
theorem tyLoadChain_inv (f : MFile) (bs : Nat) (phys : MPhysical) :
    ∀ fuel next acc t1,
      MTypes.loadChain f bs phys fuel acc next = .ok t1 →
      t1.bs = acc.bs ∧ t1.free = acc.free ∧
      ∃ ext, t1.blocks = acc.blocks ++ ext ∧
        ∀ pg ∈ ext, ∃ pnr, pnr ≠ 0 ∧
          readSlot f pnr = some (.tyS pg.startNr pg.nextNr pg.entries) := by
  intro fuel
  induction fuel with
  | zero =>
    intro next acc t1 h
    cases h
  | succ n ih =>
    intro next acc t1 h
    rw [MTypes.loadChain] at h
    by_cases h0 : next = 0
    · rw [if_pos h0] at h
      have h2 : (Except.ok acc : Except MErr MTypes) = .ok t1 := h
      injection h2 with h2
      subst h2
      exact ⟨rfl, rfl, [], by simp, by intro pg hpg; cases hpg⟩
    · rw [if_neg h0] at h
      cases hp : phys.physicalNr next with
      | error e =>
        rw [hp] at h
        cases h
      | ok pnr =>
        rw [hp, except_bind_ok] at h
        cases hsl : loadRawSlot f pnr with
        | error e =>
          rw [hsl] at h
          cases h
        | ok sl =>
          rw [hsl, except_bind_ok] at h
          obtain ⟨hpnr0, hread⟩ := loadRawSlot_inv f pnr sl hsl
          cases sl with
          | tyS st nx es =>
            obtain ⟨hbs, hfree, ext, hblocks, hext⟩ := ih nx _ t1 h
            refine ⟨hbs, hfree,
              { blockNr := next, startNr := st, nextNr := nx, entries := es, dirty := false, gen := 0 } :: ext, ?_, ?_⟩
            · rw [hblocks]
              simp only at hblocks ⊢
              rw [List.append_assoc]
              rfl
            · intro pg hpg
              rcases List.mem_cons.mp hpg with h1 | h1
              · subst h1
                exact ⟨pnr, hpnr0, hread⟩
              · exact hext pg h1
          | hdrS hd => cases h
          | phS st nx es => cases h
          | stS es => cases h
          | rawS d => cases h

/-- The physical-map chain walk keeps the accumulator's pages as a
prefix. -/
theorem phLoadChain_prefix (f : MFile) (bs : Nat) :
    ∀ fuel next acc p1,
      MPhysical.loadChain f bs fuel acc next = .ok p1 →
      ∃ ext, p1.blocks = acc.blocks ++ ext := by
  intro fuel
  induction fuel with
  | zero =>
    intro next acc p1 h
    cases h
  | succ n ih =>
    intro next acc p1 h
    rw [MPhysical.loadChain] at h
    by_cases h0 : next = 0
    · rw [if_pos h0] at h
      have h2 : (Except.ok acc : Except MErr MPhysical) = .ok p1 := h
      injection h2 with h2
      subst h2
      exact ⟨[], by simp⟩
    · rw [if_neg h0] at h
      cases hp : acc.physicalNr next with
      | error e =>
        rw [hp] at h
        cases h
      | ok pnr =>
        rw [hp, except_bind_ok] at h
        cases hsl : loadRawSlot f pnr with
        | error e =>
          rw [hsl] at h
          cases h
        | ok sl =>
          rw [hsl, except_bind_ok] at h
          cases sl with
          | phS st nx es =>
            obtain ⟨ext, hblocks⟩ := ih nx _ p1 h
            refine ⟨{ blockNr := next, startNr := st, nextNr := nx, entries := es, dirty := false, gen := 0 } :: ext, ?_⟩
            rw [hblocks]
            simp only
            rw [List.append_assoc]
            rfl
          | hdrS hd => cases h
          | tyS st nx es => cases h
          | stS es => cases h
          | rawS d => cases h

/-- A successful `Types::verify` pins every page's `start_nr` to its chain
position. -/
theorem typesVerifyGo_contig (bs : Nat) :
    ∀ (l : List TPage) (e : Nat), typesVerifyGo bs l e = .ok () →
      ∀ i pg, l.get? i = some pg → pg.startNr = e + i * lenTypesG bs := by
  intro l
  induction l with
  | nil =>
    intro e h i pg hpg
    rw [List.get?_nil] at hpg
    cases hpg
  | cons a rest ih =>
    intro e h i pg hpg
    rw [typesVerifyGo] at h
    by_cases hst : a.startNr = e
    · rw [if_pos hst] at h
      cases i with
      | zero =>
        rw [List.get?_cons_zero] at hpg
        injection hpg with hpg
        subst hpg
        rw [hst]
        omega
      | succ j =>
        rw [List.get?_cons_succ] at hpg
        have h1 := ih (a.endNr bs) h j pg hpg
        rw [TPage.endNr, hst] at h1
        have h2 : (j + 1) * lenTypesG bs =
            j * lenTypesG bs + lenTypesG bs := Nat.succ_mul _ _
        omega
    · rw [if_neg hst] at h
      cases h

/-- Membership in `enumFrom` is indexed access. -/
theorem mem_enumFrom_get {α : Type} (p : Nat × α) :
    ∀ (l : List α) (k : Nat), p ∈ l.enumFrom k →
      k ≤ p.1 ∧ l.get? (p.1 - k) = some p.2 := by
  intro l
  induction l with
  | nil =>
    intro k h
    cases h
  | cons a rest ih =>
    intro k h
    rw [List.enumFrom] at h
    rcases List.mem_cons.mp h with h1 | h1
    · rw [h1]
      exact ⟨Nat.le_refl k, by simp⟩
    · obtain ⟨hk, hget⟩ := ih (k + 1) h1
      refine ⟨by omega, ?_⟩
      have h2 : p.1 - k = (p.1 - (k + 1)) + 1 := by omega
      rw [h2, List.get?_cons_succ]
      exact hget

/-- A member of the rebuilt free list is a `Free` entry of some page. -/
theorem mem_typesFreeList (blocks : List TPage) (m : Nat)
    (h : m ∈ typesFreeList blocks) :
    ∃ pg ∈ blocks, ∃ j, pg.entries.get? j = some BlockType.free ∧
      m = pg.startNr + j := by
  rw [typesFreeList, List.mem_flatten] at h
  obtain ⟨l, hl, hml⟩ := h
  rw [List.mem_map] at hl
  obtain ⟨pg, hpg, hleq⟩ := hl
  rw [List.mem_reverse] at hpg
  refine ⟨pg, hpg, ?_⟩
  rw [← hleq, List.mem_map] at hml
  obtain ⟨q, hq, hqm⟩ := hml
  rw [List.mem_filter] at hq
  obtain ⟨hqpairs, hqfree⟩ := hq
  rw [List.mem_reverse, TPage.pairs, List.mem_map] at hqpairs
  obtain ⟨r, hr, hrq⟩ := hqpairs
  rw [List.enum] at hr
  obtain ⟨hk, hget⟩ := mem_enumFrom_get r pg.entries 0 hr
  rw [Nat.sub_zero] at hget
  have hq2 : q.2 = BlockType.free := by
    rw [decide_eq_true_eq] at hqfree
    exact hqfree
  have hr2 : r.2 = BlockType.free := by
    rw [← hrq] at hq2
    exact hq2
  refine ⟨r.1, by rw [← hr2]; exact hget, ?_⟩
  rw [← hqm, ← hrq]

/-- On a contiguous map, every member of the rebuilt free list is typed
`Free`. -/
theorem typesFreeList_blockType (t : MTypes) (hc : typesContig t)
    (hN : 0 < lenTypesG t.bs) (m : Nat) (h : m ∈ typesFreeList t.blocks) :
    t.blockType m = .ok .free := by
  obtain ⟨pg, hpg, j, hget, hm⟩ := mem_typesFreeList t.blocks m h
  obtain ⟨i, hgi⟩ := List.mem_iff_get?.mp hpg
  obtain ⟨hst, hlen⟩ := hc i pg hgi
  have hjlen : j < pg.entries.length := by
    by_contra hle
    rw [List.get?_eq_none.mpr (by omega)] at hget
    cases hget
  have hj : j < lenTypesG t.bs := by
    rw [hlen] at hjlen
    exact hjlen
  have hdiv : m / lenTypesG t.bs = i := by
    rw [hm, hst, Nat.add_comm, Nat.add_mul_div_right _ _ hN,
      Nat.div_eq_of_lt hj]
    omega
  rw [blockType_eq_of_get t m pg (by rw [hdiv]; exact hgi)]
  have hcont : pg.containsNr t.bs m = true := by
    simp only [TPage.containsNr, TPage.endNr, Bool.and_eq_true,
      decide_eq_true_eq]
    constructor <;> omega
  rw [if_pos hcont]
  have hsub : m - pg.startNr = j := by omega
  rw [hsub, hget]

/-- `RInv` only looks at the block size, the type map and the file. -/
theorem RInv_congr (s s2 : MAlloc) (hbs : s2.bs = s.bs)
    (hty : s2.types = s.types) (hf : s2.file = s.file) (hR : RInv s) :
    RInv s2 := by
  obtain ⟨h1, h2, h3, h4, h5, h6, h7⟩ := hR
  refine ⟨?_, ?_, ?_, ?_, ?_, ?_, ?_⟩
  · rw [hty, hbs]
    exact h1
  · rw [hbs]
    exact h2
  · rw [hty]
    exact h3
  · rw [hty]
    exact h4
  · rw [hty]
    exact h5
  · show s2.types.blockType 0 = _ ∧ s2.types.blockType 1 = _ ∧
      s2.types.blockType 2 = _ ∧ s2.types.blockType 3 = _
    rw [hty]
    exact h6
  · rw [hbs, hf]
    exact h7

theorem init_blockType_lt4g (bs : Nat) (h : 4 ≤ lenTypesG bs) (y : Nat)
    (hy : y < 4) :
    (MAlloc.init bs).types.blockType y =
      match ((((List.replicate (lenTypesG bs) BlockType.free).set 0
          .header).set 1 .types).set 2 .physicalT).set 3 .streams |>.get? y with
      | some ty => .ok ty
      | none => .error (.invalidBlock y) := by
  have hdiv : y / lenTypesG bs = 0 := Nat.div_eq_of_lt (by omega)
  have hget : (MAlloc.init bs).types.blocks.get?
      (y / lenTypesG (MAlloc.init bs).types.bs) =
      some { TPage.initPage bs with dirty := true } := by
    show ([{ TPage.initPage bs with dirty := true }] : List TPage).get?
      (y / lenTypesG bs) = _
    rw [hdiv]
    rfl
  rw [blockType_eq_of_get _ _ _ hget]
  have hcont : ({ TPage.initPage bs with dirty := true } : TPage).containsNr
      (MAlloc.init bs).types.bs y = true := by
    show (decide (0 ≤ y) && decide (y < 0 + lenTypesG bs)) = true
    simp
    omega
  rw [if_pos hcont]
  rfl

theorem roleInv_init (bs : Nat) (h : 4 ≤ lenTypesG bs) :
    roleInv (MAlloc.init bs) := by
  obtain ⟨m, hm⟩ : ∃ m, lenTypesG bs = m + 4 := ⟨lenTypesG bs - 4, by omega⟩
  have hrep : List.replicate (lenTypesG bs) BlockType.free =
      BlockType.free :: BlockType.free :: BlockType.free :: BlockType.free ::
        List.replicate m BlockType.free := by
    rw [hm]
    show List.replicate (m + 1 + 1 + 1 + 1) BlockType.free = _
    simp [List.replicate_succ]
  refine ⟨?_, ?_, ?_, ?_⟩
  · rw [init_blockType_lt4g bs h 0 (by omega), hrep]
    simp [List.set]
  · rw [init_blockType_lt4g bs h 1 (by omega), hrep]
    simp [List.set]
  · rw [init_blockType_lt4g bs h 2 (by omega), hrep]
    simp [List.set]
  · rw [init_blockType_lt4g bs h 3 (by omega), hrep]
    simp [List.set]

/-- `RInv` holds right after `Alloc::init`, for every valid block size. -/
theorem RInv_init (bs : Nat) (h24 : 24 ≤ bs) : RInv (MAlloc.init bs) := by
  have h4 := lenTypesG_ge4 bs h24
  refine ⟨rfl, h4, ?_, by rw [init_types_blocks]; simp, ?_, roleInv_init bs h4, ?_⟩
  · intro i pg hpg
    rw [init_types_blocks] at hpg
    match i, hpg with
    | n + 1, hpg => simp at hpg
    | 0, hpg =>
      simp only [List.get?_cons_zero, Option.some_inj] at hpg
      subst hpg
      refine ⟨by simp [TPage.initPage], ?_⟩
      show (((((List.replicate (lenTypesG bs) BlockType.free).set 0
        .header).set 1 .types).set 2 .physicalT).set 3 .streams).length = _
      simp
      rfl
  · intro m hm
    have hfeq : (MAlloc.init bs).types.free =
        (List.range' 4 (lenTypesG bs - 4)).reverse :=
      typesFreeList_initPage bs h4
    rw [hfeq, List.mem_reverse, List.mem_range'_1] at hm
    omega
  · intro pnr st nx es hr
    have hr2 : (([] : MFile)).get? pnr = some (Slot.tyS st nx es) := hr
    rw [List.get?_nil] at hr2
    cases hr2

/-- `Alloc::append_blockmap` preserves `RInv`: both popped page numbers come
from the free list (or the appended fresh range), so they are ≥ 4 and the
reserved roles survive; the fresh range starts past the old coverage. -/
theorem appendBlockmapA_RInv (s sA : MAlloc) (hR : RInv s)
    (h : s.appendBlockmap = .ok sA) :
    RInv sA ∧ sA.bs = s.bs ∧ sA.file = s.file := by
  obtain ⟨htbs, hN4, hcontig, htne, hfour, hrole, hfile⟩ := hR
  have hN : 0 < lenTypesG s.types.bs := by
    rw [htbs]
    omega
  rw [MAlloc.appendBlockmap] at h
  rcases List.eq_nil_or_concat s.types.free with hnil | ⟨l1, a, hfeq⟩
  · have hpop : s.types.popFree =
        (none, { s.types with free := ([] : List Nat) }) := by
      rw [MTypes.popFree, hnil]
      rfl
    rw [hpop] at h
    cases h
  · rw [List.concat_eq_append] at hfeq
    have hpop := popFree_concat s.types l1 a hfeq
    rw [hpop] at h
    have h2 : (({ s.types with free := l1 } : MTypes).setBlockType a .types >>= fun t2 =>
        match (t2.appendBlockmap a).popFree with
        | (none, _) => Except.error MErr.noFreeBlocks
        | (some physicalNr, t4) => t4.setBlockType physicalNr .physicalT >>= fun t5 =>
            s.physical.appendBlockmap physicalNr >>= fun p1 =>
            Except.ok { s with types := t5, physical := p1 }) = Except.ok sA := h
    have ha4 : 4 ≤ a := hfour a (by rw [hfeq]; simp)
    have ht1c : typesContig ({ s.types with free := l1 } : MTypes) :=
      fun i pg hp => hcontig i pg hp
    cases hset1 : ({ s.types with free := l1 } : MTypes).setBlockType a .types with
    | error e =>
      rw [hset1] at h2
      cases h2
    | ok t2 =>
      simp only [hset1, except_bind_ok] at h2
      obtain ⟨ht2bs, ht2free, ht2len, ht2c, ht2pres, ht2new⟩ :=
        setBlockType_pres_of_ok { s.types with free := l1 } a .types t2
          ht1c hN hset1
      have hbsq : t2.bs = s.bs := by
        rw [ht2bs]
        exact htbs
      have hN4q : 4 ≤ lenTypesG t2.bs := by
        rw [hbsq]
        exact hN4
      have ht2ne : t2.blocks ≠ [] := by
        intro h0
        have h1 : t2.blocks.length = 0 := by rw [h0]; rfl
        rw [ht2len] at h1
        exact htne (List.length_eq_zero.mp h1)
      have hL : 0 < t2.blocks.length := by
        rw [ht2len]
        exact List.length_pos.mpr htne
      have hlenN : lenTypesG t2.bs ≤ t2.blocks.length * lenTypesG t2.bs := by
        calc lenTypesG t2.bs = 1 * lenTypesG t2.bs := by omega
        _ ≤ t2.blocks.length * lenTypesG t2.bs :=
          Nat.mul_le_mul_right _ hL
      obtain ⟨habs, hablen, habc, habfree, habpres⟩ :=
        appendBlockmap_facts t2 a ht2c ht2ne
      have hfree3four : ∀ m ∈ (t2.appendBlockmap a).free, 4 ≤ m := by
        intro m hm
        rw [habfree] at hm
        rcases List.mem_append.mp hm with hrr | hll
        · rw [List.mem_reverse, List.mem_range'_1] at hrr
          omega
        · rw [ht2free] at hll
          exact hfour m (by rw [hfeq]; exact List.mem_append.mpr (Or.inl hll))
      rcases List.eq_nil_or_concat (t2.appendBlockmap a).free with hnil3 | ⟨l2, b, hfeq3⟩
      · have hpop2 : (t2.appendBlockmap a).popFree =
            (none, { t2.appendBlockmap a with free := ([] : List Nat) }) := by
          rw [MTypes.popFree, hnil3]
          rfl
        rw [hpop2] at h2
        cases h2
      · rw [List.concat_eq_append] at hfeq3
        have hpop2 := popFree_concat (t2.appendBlockmap a) l2 b hfeq3
        rw [hpop2] at h2
        have h3 : (({ t2.appendBlockmap a with free := l2 } : MTypes).setBlockType b .physicalT >>= fun t5 =>
            s.physical.appendBlockmap b >>= fun p1 =>
            Except.ok { s with types := t5, physical := p1 }) = Except.ok sA := h2
        have hb4 : 4 ≤ b := hfree3four b (by rw [hfeq3]; simp)
        have ht4c : typesContig ({ t2.appendBlockmap a with free := l2 } : MTypes) :=
          fun i pg hp => habc i pg hp
        have hNt4 : 0 < lenTypesG ({ t2.appendBlockmap a with free := l2 } : MTypes).bs := by
          show 0 < lenTypesG (t2.appendBlockmap a).bs
          rw [habs]
          omega
        cases hset2 : ({ t2.appendBlockmap a with free := l2 } : MTypes).setBlockType b .physicalT with
        | error e =>
          rw [hset2] at h3
          cases h3
        | ok t5 =>
          simp only [hset2, except_bind_ok] at h3
          obtain ⟨ht5bs, ht5free, ht5len, ht5c, ht5pres, ht5new⟩ :=
            setBlockType_pres_of_ok { t2.appendBlockmap a with free := l2 }
              b .physicalT t5 ht4c hNt4 hset2
          cases hph : s.physical.appendBlockmap b with
          | error e =>
            rw [hph] at h3
            cases h3
          | ok p1 =>
            simp only [hph, except_bind_ok] at h3
            have h4 : (Except.ok { s with types := t5, physical := p1 } : Except MErr MAlloc) = Except.ok sA := h3
            injection h4 with h4
            subst h4
            have ht5bsq : t5.bs = s.bs := by
              rw [ht5bs]
              show (t2.appendBlockmap a).bs = s.bs
              rw [habs]
              exact hbsq
            have hrolepres : ∀ y, y < 4 →
                t5.blockType y = s.types.blockType y := by
              intro y hy
              have e1 : t5.blockType y =
                  ({ t2.appendBlockmap a with free := l2 } : MTypes).blockType y :=
                ht5pres y (by omega)
              have e2 : ({ t2.appendBlockmap a with free := l2 } : MTypes).blockType y =
                  (t2.appendBlockmap a).blockType y := rfl
              have e3 : (t2.appendBlockmap a).blockType y = t2.blockType y :=
                habpres y (by omega)
              have e4 : t2.blockType y =
                  ({ s.types with free := l1 } : MTypes).blockType y :=
                ht2pres y (by omega)
              have e5 : ({ s.types with free := l1 } : MTypes).blockType y =
                  s.types.blockType y := rfl
              rw [e1, e2, e3, e4, e5]
            refine ⟨⟨?_, ?_, ?_, ?_, ?_, ?_, ?_⟩, rfl, rfl⟩
            · show t5.bs = s.bs
              exact ht5bsq
            · show 4 ≤ lenTypesG s.bs
              exact hN4
            · show typesContig t5
              exact ht5c
            · show t5.blocks ≠ []
              intro h0
              have h1 : t5.blocks.length = 0 := by rw [h0]; rfl
              rw [ht5len] at h1
              have h5 : (t2.appendBlockmap a).blocks.length = 0 := h1
              rw [hablen] at h5
              omega
            · intro m hm
              have hm2 : m ∈ l2 := by
                have : m ∈ t5.free := hm
                rw [ht5free] at this
                exact this
              exact hfree3four m (by rw [hfeq3]; exact List.mem_append.mpr (Or.inl hm2))
            · show t5.blockType 0 = _ ∧ t5.blockType 1 = _ ∧
                t5.blockType 2 = _ ∧ t5.blockType 3 = _
              refine ⟨?_, ?_, ?_, ?_⟩
              · rw [hrolepres 0 (by omega)]
                exact hrole.1
              · rw [hrolepres 1 (by omega)]
                exact hrole.2.1
              · rw [hrolepres 2 (by omega)]
                exact hrole.2.2.1
              · rw [hrolepres 3 (by omega)]
                exact hrole.2.2.2
            · show tyFileOK s.bs s.file
              exact hfile

/-- The tail of `Alloc::alloc_block` after the optional map extension. -/
theorem allocBlock_tail_RInv (sA : MAlloc) (ty : BlockType) (nr : Nat)
    (s1 : MAlloc) (hR : RInv sA)
    (h : (match sA.types.popFree with
      | (none, _) => Except.error MErr.noFreeBlocks
      | (some allocNr, t1) => t1.setBlockType allocNr ty >>= fun t2 =>
          Except.ok (allocNr, { sA with types := t2, user := cacheInsert allocNr (MBlock.new allocNr sA.bs ty) sA.user })) = Except.ok (nr, s1)) :
    RInv s1 ∧ s1.bs = sA.bs ∧ s1.file = sA.file := by
  obtain ⟨htbs, hN4, hcontig, htne, hfour, hrole, hfile⟩ := hR
  have hN : 0 < lenTypesG sA.types.bs := by
    rw [htbs]
    omega
  rcases List.eq_nil_or_concat sA.types.free with hnil | ⟨l1, x, hfeq⟩
  · have hpop : sA.types.popFree =
        (none, { sA.types with free := ([] : List Nat) }) := by
      rw [MTypes.popFree, hnil]
      rfl
    rw [hpop] at h
    cases h
  · rw [List.concat_eq_append] at hfeq
    have hpop := popFree_concat sA.types l1 x hfeq
    rw [hpop] at h
    have hx4 : 4 ≤ x := hfour x (by rw [hfeq]; simp)
    have ht1c : typesContig ({ sA.types with free := l1 } : MTypes) :=
      fun i pg hp => hcontig i pg hp
    have h2 : (({ sA.types with free := l1 } : MTypes).setBlockType x ty >>= fun t2 =>
        Except.ok (x, { sA with types := t2, user := cacheInsert x (MBlock.new x sA.bs ty) sA.user })) = Except.ok (nr, s1) := h
    cases hset : ({ sA.types with free := l1 } : MTypes).setBlockType x ty with
    | error e =>
      rw [hset] at h2
      cases h2
    | ok t2 =>
      simp only [hset, except_bind_ok] at h2
      obtain ⟨ht2bs, ht2free, ht2len, ht2c, ht2pres, ht2new⟩ :=
        setBlockType_pres_of_ok { sA.types with free := l1 } x ty t2
          ht1c hN hset
      have h3 : (Except.ok (x, { sA with types := t2, user := cacheInsert x (MBlock.new x sA.bs ty) sA.user }) : Except MErr (Nat × MAlloc)) = Except.ok (nr, s1) := h2
      injection h3 with h3
      injection h3 with h3a h3b
      subst h3b
      refine ⟨⟨?_, ?_, ?_, ?_, ?_, ?_, ?_⟩, rfl, rfl⟩
      · show t2.bs = sA.bs
        rw [ht2bs]
        exact htbs
      · show 4 ≤ lenTypesG sA.bs
        exact hN4
      · show typesContig t2
        exact ht2c
      · show t2.blocks ≠ []
        intro h0
        have h1 : t2.blocks.length = 0 := by rw [h0]; rfl
        rw [ht2len] at h1
        exact htne (List.length_eq_zero.mp h1)
      · intro m hm
        have hm2 : m ∈ l1 := by
          have hmm : m ∈ t2.free := hm
          rw [ht2free] at hmm
          exact hmm
        exact hfour m (by rw [hfeq]; exact List.mem_append.mpr (Or.inl hm2))
      · show t2.blockType 0 = _ ∧ t2.blockType 1 = _ ∧
          t2.blockType 2 = _ ∧ t2.blockType 3 = _
        have hrolepres : ∀ y, y < 4 →
            t2.blockType y = sA.types.blockType y := by
          intro y hy
          have e4 : t2.blockType y =
              ({ sA.types with free := l1 } : MTypes).blockType y :=
            ht2pres y (by omega)
          have e5 : ({ sA.types with free := l1 } : MTypes).blockType y =
              sA.types.blockType y := rfl
          rw [e4, e5]
        refine ⟨?_, ?_, ?_, ?_⟩
        · rw [hrolepres 0 (by omega)]
          exact hrole.1
        · rw [hrolepres 1 (by omega)]
          exact hrole.2.1
        · rw [hrolepres 2 (by omega)]
          exact hrole.2.2.1
        · rw [hrolepres 3 (by omega)]
          exact hrole.2.2.2
      · show tyFileOK sA.bs sA.file
        exact hfile

/-- `Alloc::alloc_block` preserves `RInv` whenever it succeeds. -/
theorem allocBlock_RInv (s : MAlloc) (ty : BlockType) (nr : Nat)
    (s1 : MAlloc) (hR : RInv s) (h : s.allocBlock ty = .ok (nr, s1)) :
    RInv s1 ∧ s1.bs = s.bs ∧ s1.file = s.file := by
  rw [MAlloc.allocBlock] at h
  by_cases hif : s.types.freeLen = 2
  · rw [if_pos hif] at h
    cases happ : s.appendBlockmap with
    | error e =>
      rw [happ] at h
      cases h
    | ok sA =>
      simp only [happ, except_bind_ok] at h
      obtain ⟨hRA, hAbs, hAfile⟩ := appendBlockmapA_RInv s sA hR happ
      obtain ⟨hR1, h1bs, h1file⟩ := allocBlock_tail_RInv sA ty nr s1 hRA h
      exact ⟨hR1, by rw [h1bs, hAbs], by rw [h1file, hAfile]⟩
  · rw [if_neg hif, except_bind_ok] at h
    exact allocBlock_tail_RInv s ty nr s1 hR h

/-- `Alloc::free_block` on a non-reserved number preserves `RInv`. -/
theorem freeBlock_RInv (s : MAlloc) (nr : Nat) (s1 : MAlloc) (hR : RInv s)
    (h4 : 4 ≤ nr) (h : s.freeBlock nr = .ok s1) :
    RInv s1 ∧ s1.bs = s.bs ∧ s1.file = s.file := by
  obtain ⟨htbs, hN4, hcontig, htne, hfour, hrole, hfile⟩ := hR
  have hN : 0 < lenTypesG s.types.bs := by
    rw [htbs]
    omega
  rw [MAlloc.freeBlock] at h
  have h2 : (s.types.setBlockType nr .free >>= fun t1 =>
      s.physical.setPhysicalNr nr 0 >>= fun p1 =>
      Except.ok { s with user := cacheRemove s.user nr, types := t1.pushFree nr, physical := p1 }) = Except.ok s1 := h
  cases hset : s.types.setBlockType nr .free with
  | error e =>
    rw [hset] at h2
    cases h2
  | ok t1 =>
    simp only [hset, except_bind_ok] at h2
    obtain ⟨ht1bs, ht1free, ht1len, ht1c, ht1pres, ht1new⟩ :=
      setBlockType_pres_of_ok s.types nr .free t1 hcontig hN hset
    cases hp : s.physical.setPhysicalNr nr 0 with
    | error e =>
      rw [hp] at h2
      cases h2
    | ok p1 =>
      simp only [hp, except_bind_ok] at h2
      have h3 : (Except.ok { s with user := cacheRemove s.user nr, types := t1.pushFree nr, physical := p1 } : Except MErr MAlloc) = Except.ok s1 := h2
      injection h3 with h3
      subst h3
      refine ⟨⟨?_, ?_, ?_, ?_, ?_, ?_, ?_⟩, rfl, rfl⟩
      · show (t1.pushFree nr).bs = s.bs
        show t1.bs = s.bs
        rw [ht1bs]
        exact htbs
      · show 4 ≤ lenTypesG s.bs
        exact hN4
      · show typesContig (t1.pushFree nr)
        intro i pg hp2
        exact ht1c i pg hp2
      · show (t1.pushFree nr).blocks ≠ []
        show t1.blocks ≠ []
        intro h0
        have h1 : t1.blocks.length = 0 := by rw [h0]; rfl
        rw [ht1len] at h1
        exact htne (List.length_eq_zero.mp h1)
      · intro m hm
        have hm2 : m ∈ t1.free ++ [nr] := hm
        rcases List.mem_append.mp hm2 with h1 | h1
        · rw [ht1free] at h1
          exact hfour m h1
        · have : m = nr := List.mem_singleton.mp h1
          omega
      · show (t1.pushFree nr).blockType 0 = _ ∧
          (t1.pushFree nr).blockType 1 = _ ∧
          (t1.pushFree nr).blockType 2 = _ ∧
          (t1.pushFree nr).blockType 3 = _
        have hrolepres : ∀ y, y < 4 →
            (t1.pushFree nr).blockType y = s.types.blockType y := by
          intro y hy
          have e1 : (t1.pushFree nr).blockType y = t1.blockType y := rfl
          rw [e1]
          exact ht1pres y (by omega)
        refine ⟨?_, ?_, ?_, ?_⟩
        · rw [hrolepres 0 (by omega)]
          exact hrole.1
        · rw [hrolepres 1 (by omega)]
          exact hrole.2.1
        · rw [hrolepres 2 (by omega)]
          exact hrole.2.2.1
        · rw [hrolepres 3 (by omega)]
          exact hrole.2.2.2
      · show tyFileOK s.bs s.file
        exact hfile

/-- The cache write path touches only the user cache. -/
theorem dirtyWrite_frame (s : MAlloc) (nr : Nat) (data : List Nat) :
    (s.dirtyWrite nr data).bs = s.bs ∧
    (s.dirtyWrite nr data).types = s.types ∧
    (s.dirtyWrite nr data).file = s.file := by
  have hrun : s.dirtyWrite nr data = match cacheFind s.user nr with
    | none => s
    | some b => { s with user := cacheInsert nr { b with data := data, dirty := true } s.user } := rfl
  cases hcf : cacheFind s.user nr with
  | none =>
    rw [hcf] at hrun
    have h2 : s.dirtyWrite nr data = s := hrun
    rw [h2]
    exact ⟨rfl, rfl, rfl⟩
  | some b =>
    rw [hcf] at hrun
    have h2 : s.dirtyWrite nr data = { s with user := cacheInsert nr { b with data := data, dirty := true } s.user } := hrun
    rw [h2]
    exact ⟨rfl, rfl, rfl⟩

/-- `Alloc::discard_block` touches only the user cache. -/
theorem discardBlock_frame (s : MAlloc) (nr : Nat) :
    (s.discardBlock nr).bs = s.bs ∧
    (s.discardBlock nr).types = s.types ∧
    (s.discardBlock nr).file = s.file := by
  have hrun : s.discardBlock nr = match cacheFind s.user nr with
    | none => s
    | some b =>
      if b.dirty then
        { s with user := cacheInsert nr { b with discard := true } s.user }
      else { s with user := cacheRemove s.user nr } := rfl
  cases hcf : cacheFind s.user nr with
  | none =>
    rw [hcf] at hrun
    have h2 : s.discardBlock nr = s := hrun
    rw [h2]
    exact ⟨rfl, rfl, rfl⟩
  | some b =>
    rw [hcf] at hrun
    have h3 : s.discardBlock nr = if b.dirty = true then { s with user := cacheInsert nr { b with discard := true } s.user } else { s with user := cacheRemove s.user nr } := hrun
    by_cases hd : b.dirty = true
    · rw [if_pos hd] at h3
      rw [h3]
      exact ⟨rfl, rfl, rfl⟩
    · rw [if_neg hd] at h3
      rw [h3]
      exact ⟨rfl, rfl, rfl⟩

/-- Reading off a user-cache-only update. -/
theorem ok_user_update_frame (s : MAlloc) (u : List (Nat × MBlock))
    (s1 : MAlloc)
    (h : (Except.ok { s with user := u } : Except MErr MAlloc) =
      Except.ok s1) :
    s1.bs = s.bs ∧ s1.types = s.types ∧ s1.file = s.file := by
  injection h with h
  subst h
  exact ⟨rfl, rfl, rfl⟩

/-- `Alloc::load_block` mutates only the user cache. -/
theorem loadBlock_frame (s : MAlloc) (nr : Nat) (s1 : MAlloc)
    (h : s.loadBlock nr = .ok s1) :
    s1.bs = s.bs ∧ s1.types = s.types ∧ s1.file = s.file := by
  rw [MAlloc.loadBlock] at h
  cases hty : s.types.blockType nr with
  | error e =>
    rw [hty] at h
    cases h
  | ok ty =>
    simp only [hty, except_bind_ok] at h
    cases ty
    case free => cases h
    case header => cases h
    case types => cases h
    case physicalT => cases h
    all_goals
      cases hpn : s.physical.physicalNr nr with
      | error e =>
        rw [hpn] at h
        cases h
      | ok pnr =>
        simp only [hpn, except_bind_ok] at h
        by_cases hz : pnr ≠ 0
        · rw [if_pos hz] at h
          cases hrs : readSlot s.file pnr with
          | none =>
            rw [hrs] at h
            cases h
          | some sl =>
            rw [hrs] at h
            cases sl with
            | rawS d => exact ok_user_update_frame s _ s1 h
            | hdrS hd => cases h
            | tyS a b c => cases h
            | phS a b c => cases h
            | stS a => cases h
        · rw [if_neg hz] at h
          exact ok_user_update_frame s _ s1 h

/-- `Alloc::block` (the `get` read path) mutates only the user cache. -/
theorem blockGet_frame (s : MAlloc) (nr : Nat) (b : MBlock) (s1 : MAlloc)
    (h : s.blockGet nr = .ok (b, s1)) :
    s1.bs = s.bs ∧ s1.types = s.types ∧ s1.file = s.file := by
  rw [MAlloc.blockGet] at h
  by_cases hc : (cacheFind s.user nr).isSome = true
  · rw [if_pos hc] at h
    simp only [except_bind_ok] at h
    cases hcf : cacheFind s.user nr with
    | none =>
      rw [hcf] at h
      cases h
    | some b1 =>
      rw [hcf] at h
      have h2 : (Except.ok (b1, s) : Except MErr (MBlock × MAlloc)) = Except.ok (b, s1) := h
      injection h2 with h2
      injection h2 with h2a h2b
      subst h2b
      exact ⟨rfl, rfl, rfl⟩
  · rw [if_neg hc] at h
    cases hlb : s.loadBlock nr with
    | error e =>
      rw [hlb] at h
      cases h
    | ok sB =>
      simp only [hlb, except_bind_ok] at h
      cases hcf : cacheFind sB.user nr with
      | none =>
        rw [hcf] at h
        cases h
      | some b1 =>
        rw [hcf] at h
        have h2 : (Except.ok (b1, sB) : Except MErr (MBlock × MAlloc)) = Except.ok (b, s1) := h
        injection h2 with h2
        injection h2 with h2a h2b
        subst h2b
        exact loadBlock_frame s nr sB hlb

/-- A found page is a member of the map. -/
theorem findPage_mem (t : MTypes) (nr : Nat) (pg : TPage)
    (h : t.findPage nr = .ok pg) : pg ∈ t.blocks := by
  rw [MTypes.findPage] at h
  cases hf : t.blocks.find? (fun pg => pg.blockNr = nr) with
  | none =>
    rw [hf] at h
    cases h
  | some pg0 =>
    rw [hf] at h
    have h2 : (Except.ok pg0 : Except MErr TPage) = .ok pg := h
    injection h2 with h2
    subst h2
    exact List.mem_of_find?_eq_some hf

/-- Page well-formedness transfers along equal cores. -/
theorem tyGood_of_cores (B : Nat) (P Q : List TPage)
    (hcore : P.map tpCore = Q.map tpCore)
    (hg : ∀ pg ∈ Q, pg.entries.length = lenTypesG B ∧
      (pg.startNr = 0 → pg.entries.get? 3 = some BlockType.streams)) :
    ∀ pg ∈ P, pg.entries.length = lenTypesG B ∧
      (pg.startNr = 0 → pg.entries.get? 3 = some BlockType.streams) := by
  intro pg hpg
  obtain ⟨q, hq, he⟩ := mem_of_core_map hcore pg hpg
  obtain ⟨h1, h2, h3, h4⟩ := tpCore_fields he
  obtain ⟨hga, hgb⟩ := hg q hq
  refine ⟨by rw [← h4]; exact hga, fun h0 => ?_⟩
  rw [← h4]
  exact hgb (by rw [h2]; exact h0)

/-- Page well-formedness survives `clearDirty`. -/
theorem tyGood_clearDirty (B : Nat) (t : MTypes) (nr g : Nat)
    (hg : ∀ pg ∈ t.blocks, pg.entries.length = lenTypesG B ∧
      (pg.startNr = 0 → pg.entries.get? 3 = some BlockType.streams)) :
    ∀ pg ∈ (t.clearDirty nr g).blocks, pg.entries.length = lenTypesG B ∧
      (pg.startNr = 0 → pg.entries.get? 3 = some BlockType.streams) := by
  exact tyGood_of_cores B _ _ (clearDirty_facts t nr g).2.2.1 hg

/-- The user-block write loop of store step 3 writes only raw slots. -/
theorem storeUserGo_tyfile (bs g B : Nat) :
    ∀ (u : List (Nat × MBlock)) (p : MPhysical) (f : MFile) r,
      storeUserGo bs g u p f = .ok r →
      tyFileOK B f → tyFileOK B r.2.2 := by
  intro u
  induction u with
  | nil =>
    intro p f r h hf
    have h2 : (Except.ok (([] : List (Nat × MBlock)), p, f) : Except MErr (List (Nat × MBlock) × MPhysical × MFile)) = .ok r := h
    injection h2 with h2
    subst h2
    exact hf
  | cons kv rest ih =>
    obtain ⟨nr, b⟩ := kv
    intro p f r h hf
    by_cases hd : b.dirty = true
    · have h2 : ((p.popFree).2.setPhysicalNr nr (p.popFree).1 >>= fun p2 => storeRaw f bs (p.popFree).1 (.rawS b.data) >>= fun f1 => storeUserGo bs g rest p2 f1 >>= fun r2 => Except.ok ((nr, { b with dirty := false, gen := g }) :: r2.1, r2.2.1, r2.2.2)) = Except.ok r := by
        rw [← h]
        show _ = storeUserGo bs g ((nr, b) :: rest) p f
        rw [storeUserGo, if_pos hd]
      cases hsp : (p.popFree).2.setPhysicalNr nr (p.popFree).1 with
      | error e =>
        rw [hsp] at h2
        cases h2
      | ok p2 =>
        simp only [hsp, except_bind_ok] at h2
        cases hsr : storeRaw f bs (p.popFree).1 (.rawS b.data) with
        | error e =>
          rw [hsr] at h2
          cases h2
        | ok f1 =>
          simp only [hsr, except_bind_ok] at h2
          cases hrec : storeUserGo bs g rest p2 f1 with
          | error e =>
            rw [hrec] at h2
            cases h2
          | ok r2 =>
            simp only [hrec, except_bind_ok] at h2
            have h3 : (Except.ok ((nr, { b with dirty := false, gen := g }) :: r2.1, r2.2.1, r2.2.2) : Except MErr (List (Nat × MBlock) × MPhysical × MFile)) = .ok r := h2
            injection h3 with h3
            subst h3
            have hf1 : tyFileOK B f1 :=
              tyFileOK_storeRaw B bs (p.popFree).1 f f1 _ hf
                (by intro st nx es heq; cases heq) hsr
            exact ih p2 f1 r2 hrec hf1
    · have h2 : (storeUserGo bs g rest p f >>= fun r2 => Except.ok ((nr, b) :: r2.1, r2.2.1, r2.2.2)) = Except.ok r := by
        rw [← h]
        show _ = storeUserGo bs g ((nr, b) :: rest) p f
        rw [storeUserGo, if_neg hd]
      cases hrec : storeUserGo bs g rest p f with
      | error e =>
        rw [hrec] at h2
        cases h2
      | ok r2 =>
        simp only [hrec, except_bind_ok] at h2
        have h3 : (Except.ok ((nr, b) :: r2.1, r2.2.1, r2.2.2) : Except MErr (List (Nat × MBlock) × MPhysical × MFile)) = .ok r := h2
        injection h3 with h3
        subst h3
        exact ih p f r2 hrec hf

/-- The dirty-type-page write loop of store step 5: cores and free list of
the map survive, and it writes only well-formed `tyS` slots. -/
theorem storeTypesGo_tyframe (bs g B : Nat) :
    ∀ (l : List Nat) (t : MTypes) (p : MPhysical) (f : MFile) r,
      storeTypesGo bs g l t p f = .ok r →
      (∀ pg ∈ t.blocks, pg.entries.length = lenTypesG B ∧
        (pg.startNr = 0 → pg.entries.get? 3 = some BlockType.streams)) →
      tyFileOK B f →
      r.1.bs = t.bs ∧ r.1.free = t.free ∧
      r.1.blocks.map tpCore = t.blocks.map tpCore ∧ tyFileOK B r.2.2 := by
  intro l
  induction l with
  | nil =>
    intro t p f r h hg hf
    have h2 : (Except.ok (t, p, f) : Except MErr (MTypes × MPhysical × MFile)) = .ok r := h
    injection h2 with h2
    subst h2
    exact ⟨rfl, rfl, rfl, hf⟩
  | cons nr rest ih =>
    intro t p f r h hg hf
    have h2 : ((p.popFree).2.setPhysicalNr nr (p.popFree).1 >>= fun p2 => t.findPage nr >>= fun pg => storeRaw f bs (p.popFree).1 (.tyS pg.startNr pg.nextNr pg.entries) >>= fun f1 => storeTypesGo bs g rest (t.clearDirty nr g) p2 f1) = Except.ok r := by
      rw [← h]
      show _ = storeTypesGo bs g (nr :: rest) t p f
      rw [storeTypesGo]
    cases hsp : (p.popFree).2.setPhysicalNr nr (p.popFree).1 with
    | error e =>
      rw [hsp] at h2
      cases h2
    | ok p2 =>
      simp only [hsp, except_bind_ok] at h2
      cases hfp : t.findPage nr with
      | error e =>
        rw [hfp] at h2
        cases h2
      | ok pg =>
        simp only [hfp, except_bind_ok] at h2
        cases hsr : storeRaw f bs (p.popFree).1 (.tyS pg.startNr pg.nextNr pg.entries) with
        | error e =>
          rw [hsr] at h2
          cases h2
        | ok f1 =>
          simp only [hsr, except_bind_ok] at h2
          have hgood := hg pg (findPage_mem t nr pg hfp)
          have hf1 : tyFileOK B f1 :=
            tyFileOK_storeRaw B bs (p.popFree).1 f f1 _ hf
              (by
                intro st nx es heq
                injection heq with e1 e2 e3
                subst e1
                subst e2
                subst e3
                exact hgood) hsr
          obtain ⟨hb1, hb2, hb3, hb4⟩ := ih (t.clearDirty nr g) p2 f1 r h2
            (tyGood_clearDirty B t nr g hg) hf1
          refine ⟨?_, ?_, ?_, hb4⟩
          · rw [hb1]
            rfl
          · rw [hb2]
            rfl
          · rw [hb3]
            exact (clearDirty_facts t nr g).2.2.1

/-- The dirty-physical-page write loop of store step 7 writes only `phS`
slots. -/
theorem storePhysGo_tyfile (bs g B : Nat) :
    ∀ (l : List Nat) (p : MPhysical) (f : MFile) r,
      storePhysGo bs g l p f = .ok r →
      tyFileOK B f → tyFileOK B r.2 := by
  intro l
  induction l with
  | nil =>
    intro p f r h hf
    have h2 : (Except.ok (p, f) : Except MErr (MPhysical × MFile)) = .ok r := h
    injection h2 with h2
    subst h2
    exact hf
  | cons nr rest ih =>
    intro p f r h hf
    have h2 : (p.physicalNr nr >>= fun v => p.findPage nr >>= fun pg => storeRaw f bs v (.phS pg.startNr pg.nextNr pg.entries) >>= fun f1 => storePhysGo bs g rest (p.clearDirty nr g) f1) = Except.ok r := by
      rw [← h]
      show _ = storePhysGo bs g (nr :: rest) p f
      rw [storePhysGo]
    cases hv : p.physicalNr nr with
    | error e =>
      rw [hv] at h2
      cases h2
    | ok v =>
      simp only [hv, except_bind_ok] at h2
      cases hfp : p.findPage nr with
      | error e =>
        rw [hfp] at h2
        cases h2
      | ok pg =>
        simp only [hfp, except_bind_ok] at h2
        cases hsr : storeRaw f bs v (.phS pg.startNr pg.nextNr pg.entries) with
        | error e =>
          rw [hsr] at h2
          cases h2
        | ok f1 =>
          simp only [hsr, except_bind_ok] at h2
          have hf1 : tyFileOK B f1 :=
            tyFileOK_storeRaw B bs v f f1 _ hf
              (by intro st nx es heq; cases heq) hsr
          exact ih (p.clearDirty nr g) f1 r h2 hf1

/-- `HeaderBlock::store_low` rewrites only the header slot. -/
theorem storeLow_tyframe (B : Nat) (s : MAlloc) (t p st : Nat)
    (s1 : MAlloc) (h : s.storeLow t p st = .ok s1) (hf : tyFileOK B s.file) :
    s1.bs = s.bs ∧ s1.types = s.types ∧ tyFileOK B s1.file := by
  rw [MAlloc.storeLow] at h
  cases hr : readSlot s.file 0 with
  | none =>
    rw [hr] at h
    cases h
  | some sl =>
    rw [hr] at h
    cases sl with
    | hdrS hd =>
      have h2 : (Except.ok { s with header := { s.header with lowTypes := t, lowPhysical := p, lowStreams := st }, file := s.file.set 0 (.hdrS { hd with lowTypes := t, lowPhysical := p, lowStreams := st }) } : Except MErr MAlloc) = .ok s1 := h
      injection h2 with h2
      subst h2
      exact ⟨rfl, rfl, tyFileOK_set0 B s.file _ hf⟩
    | tyS a b c => cases h
    | phS a b c => cases h
    | stS a => cases h
    | rawS d => cases h

/-- `HeaderBlock::store_high` rewrites only the header slot. -/
theorem storeHigh_tyframe (B : Nat) (s : MAlloc) (t p st : Nat)
    (s1 : MAlloc) (h : s.storeHigh t p st = .ok s1) (hf : tyFileOK B s.file) :
    s1.bs = s.bs ∧ s1.types = s.types ∧ tyFileOK B s1.file := by
  rw [MAlloc.storeHigh] at h
  cases hr : readSlot s.file 0 with
  | none =>
    rw [hr] at h
    cases h
  | some sl =>
    rw [hr] at h
    cases sl with
    | hdrS hd =>
      have h2 : (Except.ok { s with header := { s.header with highTypes := t, highPhysical := p, highStreams := st }, file := s.file.set 0 (.hdrS { hd with highTypes := t, highPhysical := p, highStreams := st }) } : Except MErr MAlloc) = .ok s1 := h
      injection h2 with h2
      subst h2
      exact ⟨rfl, rfl, tyFileOK_set0 B s.file _ hf⟩
    | tyS a b c => cases h
    | phS a b c => cases h
    | stS a => cases h
    | rawS d => cases h

/-- `HeaderBlock::store_state` rewrites only the header slot. -/
theorem storeState_tyframe (B : Nat) (s : MAlloc) (st : MState)
    (s1 : MAlloc) (h : s.storeState st = .ok s1) (hf : tyFileOK B s.file) :
    s1.bs = s.bs ∧ s1.types = s.types ∧ tyFileOK B s1.file := by
  rw [MAlloc.storeState] at h
  cases hr : readSlot s.file 0 with
  | none =>
    rw [hr] at h
    cases h
  | some sl =>
    rw [hr] at h
    cases sl with
    | hdrS hd =>
      have h2 : (Except.ok { s with header := { s.header with state := st }, file := s.file.set 0 (.hdrS { hd with state := st }) } : Except MErr MAlloc) = .ok s1 := h
      injection h2 with h2
      subst h2
      exact ⟨rfl, rfl, tyFileOK_set0 B s.file _ hf⟩
    | tyS a b c => cases h
    | phS a b c => cases h
    | stS a => cases h
    | rawS d => cases h

/-- Store step 1/2: generation bump and optional fresh header slot. -/
theorem storePhase0_tyframe (B : Nat) (s s1 : MAlloc)
    (h : storePhase0 s = .ok s1) (hf : tyFileOK B s.file) :
    s1.bs = s.bs ∧ s1.types = s.types ∧ tyFileOK B s1.file := by
  rw [storePhase0] at h
  have h2 : (if s.file.length = 0 then Except.ok { s with gen := s.gen + 1, file := storeRaw0 s.file s.bs (.hdrS (MHeader.init s.bs)) } else Except.ok { s with gen := s.gen + 1 }) = .ok s1 := h
  by_cases h0 : s.file.length = 0
  · rw [if_pos h0] at h2
    injection h2 with h2
    subst h2
    refine ⟨rfl, rfl, ?_⟩
    show tyFileOK B (writeSlot s.file s.bs 0 (.hdrS (MHeader.init s.bs)))
    exact tyFileOK_writeSlot B s.bs 0 s.file _ hf
      (by intro a b c heq; cases heq)
  · rw [if_neg h0] at h2
    injection h2 with h2
    subst h2
    exact ⟨rfl, rfl, hf⟩

/-- Store step 3: user blocks go to raw slots; the type map is untouched. -/
theorem storePhase1_tyframe (B : Nat) (s s1 : MAlloc)
    (h : storePhase1 s = .ok s1) (hf : tyFileOK B s.file) :
    s1.bs = s.bs ∧ s1.types = s.types ∧ tyFileOK B s1.file := by
  rw [storePhase1] at h
  cases hr : storeUserGo s.bs s.gen s.user s.physical s.file with
  | error e =>
    rw [hr] at h
    cases h
  | ok r =>
    simp only [hr, except_bind_ok] at h
    have h2 : (Except.ok { s with user := r.1, physical := r.2.1, file := r.2.2 } : Except MErr MAlloc) = .ok s1 := h
    injection h2 with h2
    subst h2
    exact ⟨rfl, rfl, storeUserGo_tyfile s.bs s.gen B s.user s.physical s.file r hr hf⟩

/-- Store step 4: the streams block goes to an `stS` slot. -/
theorem storePhase2_tyframe (B : Nat) (s s1 : MAlloc)
    (h : storePhase2 s = .ok s1) (hf : tyFileOK B s.file) :
    s1.bs = s.bs ∧ s1.types = s.types ∧ tyFileOK B s1.file := by
  rw [storePhase2] at h
  by_cases hd : s.streams.dirty = true
  · rw [if_pos hd] at h
    have h2 : ((s.physical.popFree).2.setPhysicalNr 3 (s.physical.popFree).1 >>= fun p2 => storeRaw s.file s.bs (s.physical.popFree).1 (.stS s.streams.entries) >>= fun f1 => Except.ok { s with physical := p2, file := f1, streams := { s.streams with dirty := false, gen := s.gen } }) = .ok s1 := h
    cases hsp : (s.physical.popFree).2.setPhysicalNr 3 (s.physical.popFree).1 with
    | error e =>
      rw [hsp] at h2
      cases h2
    | ok p2 =>
      simp only [hsp, except_bind_ok] at h2
      cases hsr : storeRaw s.file s.bs (s.physical.popFree).1 (.stS s.streams.entries) with
      | error e =>
        rw [hsr] at h2
        cases h2
      | ok f1 =>
        simp only [hsr, except_bind_ok] at h2
        have h3 : (Except.ok { s with physical := p2, file := f1, streams := { s.streams with dirty := false, gen := s.gen } } : Except MErr MAlloc) = .ok s1 := h2
        injection h3 with h3
        subst h3
        exact ⟨rfl, rfl, tyFileOK_storeRaw B s.bs (s.physical.popFree).1 s.file f1 _ hf (by intro a b c heq; cases heq) hsr⟩
  · rw [if_neg hd] at h
    injection h with h
    subst h
    exact ⟨rfl, rfl, hf⟩

/-- Store step 5: type-map pages go out as faithful `tyS` images. -/
theorem storePhase3_tyframe (B : Nat) (s s1 : MAlloc)
    (h : storePhase3 s = .ok s1)
    (hg : ∀ pg ∈ s.types.blocks, pg.entries.length = lenTypesG B ∧
      (pg.startNr = 0 → pg.entries.get? 3 = some BlockType.streams))
    (hf : tyFileOK B s.file) :
    s1.bs = s.bs ∧ s1.types.bs = s.types.bs ∧
    s1.types.free = s.types.free ∧
    s1.types.blocks.map tpCore = s.types.blocks.map tpCore ∧
    tyFileOK B s1.file := by
  rw [storePhase3] at h
  cases hr : storeTypesGo s.bs s.gen s.types.iterDirty s.types s.physical s.file with
  | error e =>
    rw [hr] at h
    cases h
  | ok r =>
    simp only [hr, except_bind_ok] at h
    have h2 : (Except.ok { s with types := r.1, physical := r.2.1, file := r.2.2 } : Except MErr MAlloc) = .ok s1 := h
    injection h2 with h2
    subst h2
    obtain ⟨hb1, hb2, hb3, hb4⟩ :=
      storeTypesGo_tyframe s.bs s.gen B s.types.iterDirty s.types
        s.physical s.file r hr hg hf
    exact ⟨rfl, hb1, hb2, hb3, hb4⟩

/-- Store step 6: the assignment pass never touches the file or types. -/
theorem storePhase4_tyframe (B : Nat) (s s1 : MAlloc)
    (h : storePhase4 s = .ok s1) (hf : tyFileOK B s.file) :
    s1.bs = s.bs ∧ s1.types = s.types ∧ tyFileOK B s1.file := by
  rw [storePhase4] at h
  cases hr : storeAssignGo s.physical.iterDirty s.physical with
  | error e =>
    rw [hr] at h
    cases h
  | ok p =>
    simp only [hr, except_bind_ok] at h
    have h2 : (Except.ok { s with physical := p } : Except MErr MAlloc) = .ok s1 := h
    injection h2 with h2
    subst h2
    exact ⟨rfl, rfl, hf⟩

/-- Store step 7: physical-map pages go out as `phS` slots. -/
theorem storePhase5_tyframe (B : Nat) (s s1 : MAlloc)
    (h : storePhase5 s = .ok s1) (hf : tyFileOK B s.file) :
    s1.bs = s.bs ∧ s1.types = s.types ∧ tyFileOK B s1.file := by
  rw [storePhase5] at h
  cases hr : storePhysGo s.bs s.gen s.physical.iterDirty s.physical s.file with
  | error e =>
    rw [hr] at h
    cases h
  | ok r =>
    simp only [hr, except_bind_ok] at h
    have h2 : (Except.ok { s with physical := r.1, file := r.2 } : Except MErr MAlloc) = .ok s1 := h
    injection h2 with h2
    subst h2
    exact ⟨rfl, rfl, storePhysGo_tyfile s.bs s.gen B s.physical.iterDirty s.physical s.file r hr hf⟩

/-- Store step 8: the inactive root triple lands in the header slot. -/
theorem storePhase6_tyframe (B : Nat) (s s1 : MAlloc)
    (h : storePhase6 s = .ok s1) (hf : tyFileOK B s.file) :
    s1.bs = s.bs ∧ s1.types = s.types ∧ tyFileOK B s1.file := by
  rw [storePhase6] at h
  cases h1 : s.physical.physicalNr 1 with
  | error e =>
    rw [h1] at h
    cases h
  | ok tyP =>
    simp only [h1, except_bind_ok] at h
    cases h2 : s.physical.physicalNr 2 with
    | error e =>
      rw [h2] at h
      cases h
    | ok phP =>
      simp only [h2, except_bind_ok] at h
      cases h3 : s.physical.physicalNr 3 with
      | error e =>
        rw [h3] at h
        cases h
      | ok stP =>
        simp only [h3, except_bind_ok] at h
        cases hst : s.header.state with
        | low =>
          rw [hst] at h
          exact storeHigh_tyframe B s tyP phP stP s1 h hf
        | high =>
          rw [hst] at h
          exact storeLow_tyframe B s tyP phP stP s1 h hf

/-- Store step 9: the state flip lands in the header slot. -/
theorem storePhase7_tyframe (B : Nat) (s s1 : MAlloc)
    (h : storePhase7 s = .ok s1) (hf : tyFileOK B s.file) :
    s1.bs = s.bs ∧ s1.types = s.types ∧ tyFileOK B s1.file := by
  rw [storePhase7] at h
  exact storeState_tyframe B s s.header.state.other s1 h hf

/-- Store steps 10/11: cache and free-list upkeep only. -/
theorem storePhase8_tyframe (B : Nat) (s s1 : MAlloc)
    (h : storePhase8 s = .ok s1) (hf : tyFileOK B s.file) :
    s1.bs = s.bs ∧ s1.types = s.types ∧ tyFileOK B s1.file := by
  have h2 : (Except.ok (MAlloc.retainBlocks { s with physical := s.physical.initFreeList (s.file.length * s.bs) } (fun _ v => !v.discard)) : Except MErr MAlloc) = .ok s1 := h
  injection h2 with h2
  subst h2
  exact ⟨rfl, rfl, hf⟩

/-- `Alloc::store` preserves the block size, the type map's cores and free
list, and the file invariant on `tyS` slots. -/
theorem store_tyframe (B : Nat) (s s9 : MAlloc) (h : s.store = .ok s9)
    (hg : ∀ pg ∈ s.types.blocks, pg.entries.length = lenTypesG B ∧
      (pg.startNr = 0 → pg.entries.get? 3 = some BlockType.streams))
    (hf : tyFileOK B s.file) :
    s9.bs = s.bs ∧ s9.types.bs = s.types.bs ∧
    s9.types.free = s.types.free ∧
    s9.types.blocks.map tpCore = s.types.blocks.map tpCore ∧
    tyFileOK B s9.file := by
  rw [MAlloc.store, storeUpTo, storePhases] at h
  simp only [List.take, List.foldlM] at h
  cases h0 : storePhase0 s with
  | error e =>
    rw [h0] at h
    cases h
  | ok s1 =>
  simp only [h0, except_bind_ok] at h
  obtain ⟨f0bs, f0ty, f0file⟩ := storePhase0_tyframe B s s1 h0 hf
  cases h1 : storePhase1 s1 with
  | error e =>
    rw [h1] at h
    cases h
  | ok s2 =>
  simp only [h1, except_bind_ok] at h
  obtain ⟨f1bs, f1ty, f1file⟩ := storePhase1_tyframe B s1 s2 h1 f0file
  cases h2 : storePhase2 s2 with
  | error e =>
    rw [h2] at h
    cases h
  | ok s3 =>
  simp only [h2, except_bind_ok] at h
  obtain ⟨f2bs, f2ty, f2file⟩ := storePhase2_tyframe B s2 s3 h2 f1file
  have hty3 : s3.types = s.types := by
    rw [f2ty, f1ty, f0ty]
  cases h3 : storePhase3 s3 with
  | error e =>
    rw [h3] at h
    cases h
  | ok s4 =>
  simp only [h3, except_bind_ok] at h
  obtain ⟨f3bs, f3tbs, f3free, f3core, f3file⟩ :=
    storePhase3_tyframe B s3 s4 h3 (by rw [hty3]; exact hg) f2file
  cases h4 : storePhase4 s4 with
  | error e =>
    rw [h4] at h
    cases h
  | ok s5 =>
  simp only [h4, except_bind_ok] at h
  obtain ⟨f4bs, f4ty, f4file⟩ := storePhase4_tyframe B s4 s5 h4 f3file
  cases h5 : storePhase5 s5 with
  | error e =>
    rw [h5] at h
    cases h
  | ok s6 =>
  simp only [h5, except_bind_ok] at h
  obtain ⟨f5bs, f5ty, f5file⟩ := storePhase5_tyframe B s5 s6 h5 f4file
  cases h6 : storePhase6 s6 with
  | error e =>
    rw [h6] at h
    cases h
  | ok s7 =>
  simp only [h6, except_bind_ok] at h
  obtain ⟨f6bs, f6ty, f6file⟩ := storePhase6_tyframe B s6 s7 h6 f5file
  cases h7 : storePhase7 s7 with
  | error e =>
    rw [h7] at h
    cases h
  | ok s8 =>
  simp only [h7, except_bind_ok] at h
  obtain ⟨f7bs, f7ty, f7file⟩ := storePhase7_tyframe B s7 s8 h7 f6file
  cases h8 : storePhase8 s8 with
  | error e =>
    rw [h8] at h
    cases h
  | ok s9f =>
  simp only [h8, except_bind_ok] at h
  obtain ⟨f8bs, f8ty, f8file⟩ := storePhase8_tyframe B s8 s9f h8 f7file
  have h9 : (Except.ok s9f : Except MErr MAlloc) = .ok s9 := h
  injection h9 with h9
  subst h9
  have hty9 : s9f.types = s4.types := by
    rw [f8ty, f7ty, f6ty, f5ty, f4ty]
  refine ⟨by rw [f8bs, f7bs, f6bs, f5bs, f4bs, f3bs, f2bs, f1bs, f0bs], ?_, ?_, ?_, ?_⟩
  · rw [hty9, f3tbs, hty3]
  · rw [hty9, f3free, hty3]
  · rw [hty9, f3core, hty3]
  · exact f8file

/-- What a successful `Types::load` guarantees, given well-formed `tyS`
slots on file: correct block size, contiguity, the root page (logical nr 1)
with entry 3 `Streams`, and a free list typed `Free` throughout. -/
theorem tyLoad_inv (f : MFile) (phys : MPhysical) (bs tpnr : Nat)
    (ts : MTypes) (hN4 : 4 ≤ lenTypesG bs) (hf : tyFileOK bs f)
    (h : MTypes.load f phys bs tpnr = .ok ts) :
    ts.bs = bs ∧ typesContig ts ∧ ts.blocks ≠ [] ∧
    ts.blockType 3 = .ok .streams ∧
    (∀ m ∈ ts.free, ts.blockType m = .ok .free) ∧
    1 ∈ ts.blocks.map (fun pg => pg.blockNr) := by
  rw [MTypes.load] at h
  cases hlr : loadRawSlot f tpnr with
  | error e =>
    rw [hlr] at h
    cases h
  | ok sl =>
    simp only [hlr, except_bind_ok] at h
    obtain ⟨hpnr0, hread⟩ := loadRawSlot_inv f tpnr sl hlr
    cases sl with
    | hdrS hd => cases h
    | phS a b c => cases h
    | stS a => cases h
    | rawS d => cases h
    | tyS st nx es =>
      have hA : (MTypes.loadChain f bs phys (f.length + 1) { bs := bs, blocks := [{ blockNr := 1, startNr := st, nextNr := nx, entries := es, dirty := false, gen := 0 }], free := [] } nx >>= fun t1 => match ({ t1 with free := typesFreeList t1.blocks } : MTypes).verify with | Except.ok a => Except.ok ({ t1 with free := typesFreeList t1.blocks } : MTypes) | Except.error e => Except.error e) = Except.ok ts := h
      cases hch : MTypes.loadChain f bs phys (f.length + 1) { bs := bs, blocks := [{ blockNr := 1, startNr := st, nextNr := nx, entries := es, dirty := false, gen := 0 }], free := [] } nx with
      | error e =>
        rw [hch] at hA
        cases hA
      | ok t1 =>
        simp only [hch, except_bind_ok] at hA
        cases hv : ({ t1 with free := typesFreeList t1.blocks } : MTypes).verify with
        | error e =>
          rw [hv] at hA
          cases hA
        | ok u =>
          cases u
          rw [hv] at hA
          have h2 : (Except.ok ({ t1 with free := typesFreeList t1.blocks } : MTypes) : Except MErr MTypes) = .ok ts := hA
          injection h2 with h2
          obtain ⟨hbs1, hfree1, ext, hblocks1, hext⟩ :=
            tyLoadChain_inv f bs phys (f.length + 1) nx _ t1 hch
          have hb1 : t1.blocks = { blockNr := 1, startNr := st, nextNr := nx, entries := es, dirty := false, gen := 0 } :: ext := hblocks1
          have hv2 : typesVerifyGo bs t1.blocks 0 = .ok () := by
            have h3 : typesVerifyGo t1.bs t1.blocks 0 = .ok () := hv
            rw [hbs1] at h3
            exact h3
          have hwit : ∀ pg ∈ t1.blocks, ∃ pnr, pnr ≠ 0 ∧
              readSlot f pnr = some (.tyS pg.startNr pg.nextNr pg.entries) := by
            intro pg hpg
            rw [hb1] at hpg
            rcases List.mem_cons.mp hpg with h1 | h1
            · subst h1
              exact ⟨tpnr, hpnr0, hread⟩
            · exact hext pg h1
          have hgood : ∀ pg ∈ t1.blocks, pg.entries.length = lenTypesG bs ∧
              (pg.startNr = 0 → pg.entries.get? 3 = some BlockType.streams) := by
            intro pg hpg
            obtain ⟨pnr, hp0, hrd⟩ := hwit pg hpg
            exact hf pnr _ _ _ hrd
          have hstart : ∀ i pg, t1.blocks.get? i = some pg →
              pg.startNr = i * lenTypesG bs := by
            intro i pg hp
            have h4 := typesVerifyGo_contig bs t1.blocks 0 hv2 i pg hp
            omega
          subst h2
          have htsbs : ({ t1 with free := typesFreeList t1.blocks } : MTypes).bs = bs := hbs1
          have hcg : typesContig ({ t1 with free := typesFreeList t1.blocks } : MTypes) := by
            intro i pg hp
            have hp1 : t1.blocks.get? i = some pg := hp
            have hlen := (hgood pg (List.get?_mem hp1)).1
            have hs := hstart i pg hp1
            have hlq : lenTypesG ({ t1 with free := typesFreeList t1.blocks } : MTypes).bs = lenTypesG bs := by
              rw [htsbs]
            rw [hlq]
            exact ⟨hs, hlen⟩
          have hroot0 : st = 0 := by
            have h5 := hstart 0 { blockNr := 1, startNr := st, nextNr := nx, entries := es, dirty := false, gen := 0 } (by rw [hb1]; rfl)
            simpa using h5
          refine ⟨htsbs, hcg, ?_, ?_, ?_, ?_⟩
          · show t1.blocks ≠ []
            rw [hb1]
            simp
          · have hget0 : ({ t1 with free := typesFreeList t1.blocks } : MTypes).blocks.get? ((3 : Nat) / lenTypesG ({ t1 with free := typesFreeList t1.blocks } : MTypes).bs) = some { blockNr := 1, startNr := st, nextNr := nx, entries := es, dirty := false, gen := 0 } := by
              have hdiv : (3 : Nat) / lenTypesG ({ t1 with free := typesFreeList t1.blocks } : MTypes).bs = 0 := by
                rw [htsbs]
                exact Nat.div_eq_of_lt (by omega)
              rw [hdiv]
              show t1.blocks.get? 0 = _
              rw [hb1]
              rfl
            rw [blockType_eq_of_get _ 3 _ hget0]
            have hcont : ({ blockNr := 1, startNr := st, nextNr := nx, entries := es, dirty := false, gen := 0 } : TPage).containsNr ({ t1 with free := typesFreeList t1.blocks } : MTypes).bs 3 = true := by
              show (decide (st ≤ 3) && decide (3 < st + lenTypesG t1.bs)) = true
              rw [hbs1]
              simp only [Bool.and_eq_true, decide_eq_true_eq]
              constructor <;> omega
            rw [if_pos hcont]
            show (match es.get? (3 - st) with
              | some ty => (Except.ok ty : Except MErr BlockType)
              | none => Except.error (MErr.invalidBlock 3)) = Except.ok BlockType.streams
            have h3i : (3 : Nat) - st = 3 := by omega
            rw [h3i]
            have hes3 : es.get? 3 = some BlockType.streams :=
              (hf tpnr st nx es hread).2 hroot0
            rw [hes3]
          · intro m hm
            have hNpos : 0 < lenTypesG ({ t1 with free := typesFreeList t1.blocks } : MTypes).bs := by
              rw [htsbs]
              omega
            exact typesFreeList_blockType _ hcg hNpos m hm
          · show 1 ∈ t1.blocks.map (fun pg => pg.blockNr)
            rw [hb1]
            exact List.mem_map.mpr ⟨{ blockNr := 1, startNr := st, nextNr := nx, entries := es, dirty := false, gen := 0 }, List.mem_cons_self _ _, rfl⟩

/-- A successful `Physical::load` carries the root page, logical nr 2. -/
theorem phLoad_blocks (f : MFile) (bs pnr : Nat) (phys : MPhysical)
    (h : MPhysical.load f bs pnr = .ok phys) :
    2 ∈ phys.blocks.map (fun pg => pg.blockNr) := by
  rw [MPhysical.load] at h
  cases hlr : loadRawSlot f pnr with
  | error e =>
    rw [hlr] at h
    cases h
  | ok sl =>
    simp only [hlr, except_bind_ok] at h
    cases sl with
    | hdrS hd => cases h
    | tyS a b c => cases h
    | stS a => cases h
    | rawS d => cases h
    | phS st nx es =>
      have hA : (MPhysical.loadChain f bs (f.length + 1) { bs := bs, blocks := [{ blockNr := 2, startNr := st, nextNr := nx, entries := es, dirty := false, gen := 0 }], max := 0, free := [] } nx >>= fun p1 => match (p1.initFreeList (f.length * bs)).verify with | Except.ok a => Except.ok (p1.initFreeList (f.length * bs)) | Except.error e => Except.error e) = Except.ok phys := h
      cases hch : MPhysical.loadChain f bs (f.length + 1) { bs := bs, blocks := [{ blockNr := 2, startNr := st, nextNr := nx, entries := es, dirty := false, gen := 0 }], max := 0, free := [] } nx with
      | error e =>
        rw [hch] at hA
        cases hA
      | ok p1 =>
        simp only [hch, except_bind_ok] at hA
        cases hv : (p1.initFreeList (f.length * bs)).verify with
        | error e =>
          rw [hv] at hA
          cases hA
        | ok u =>
          cases u
          rw [hv] at hA
          have h2 : (Except.ok (p1.initFreeList (f.length * bs)) : Except MErr MPhysical) = .ok phys := hA
          injection h2 with h2
          subst h2
          obtain ⟨ext, hb⟩ := phLoadChain_prefix f bs (f.length + 1) nx _ p1 hch
          have hb1 : p1.blocks = { blockNr := 2, startNr := st, nextNr := nx, entries := es, dirty := false, gen := 0 } :: ext := hb
          show 2 ∈ p1.blocks.map (fun pg => pg.blockNr)
          rw [hb1]
          exact List.mem_map.mpr ⟨{ blockNr := 2, startNr := st, nextNr := nx, entries := es, dirty := false, gen := 0 }, List.mem_cons_self _ _, rfl⟩

/-- Inversion of `Alloc::assert_block_type`. -/
theorem assertBlockType_inv (s : MAlloc) (h : s.assertBlockType = .ok ()) :
    s.types.blockType 0 = .ok .header ∧
    (∀ nr ∈ s.types.blocks.map (fun pg => pg.blockNr),
      s.types.blockType nr = .ok .types) ∧
    (∀ nr ∈ s.physical.blocks.map (fun pg => pg.blockNr),
      s.types.blockType nr = .ok .physicalT) := by
  rw [MAlloc.assertBlockType] at h
  by_cases hbsz : s.header.blockSize ≠ s.bs
  · rw [if_pos hbsz] at h
    cases h
  · rw [if_neg hbsz] at h
    cases h1 : assertOneType s.types 0 .header with
    | error e =>
      rw [h1] at h
      cases h
    | ok u1 =>
      cases u1
      rw [h1] at h
      cases h2 : assertAllTypes s.types
          (s.types.blocks.map (fun pg => pg.blockNr)) .types with
      | error e =>
        rw [h2] at h
        cases h
      | ok u2 =>
        cases u2
        rw [h2] at h
        exact ⟨assertOneType_inv _ _ _ h1,
          fun nr hnr => assertAllTypes_inv s.types .types _ h2 nr hnr,
          fun nr hnr => assertAllTypes_inv s.types .physicalT _ h nr hnr⟩

/-- The final role-check step of `Alloc::load`. -/
theorem load_assert_tail (z0 z : MAlloc)
    (h : (match z0.assertBlockType with
      | Except.ok _ => Except.ok z0
      | Except.error e => Except.error e) = Except.ok z) :
    z = z0 ∧ z0.assertBlockType = .ok () := by
  cases ha : z0.assertBlockType with
  | error e =>
    rw [ha] at h
    cases h
  | ok u =>
    cases u
    rw [ha] at h
    have h2 : (Except.ok z0 : Except MErr MAlloc) = .ok z := h
    injection h2 with h2
    refine ⟨h2.symm, ?_⟩
    rfl

/-- A successful `Alloc::store` preserves `RInv`. -/
theorem store_RInv (s s1 : MAlloc) (hR : RInv s) (h : s.store = .ok s1) :
    RInv s1 := by
  obtain ⟨htbs, hN4, hcontig, htne, hfour, hrole, hfile⟩ := hR
  have hg := tyPagesGood_of s htbs hN4 hcontig hrole
  obtain ⟨hbs, htbs9, hfree9, hcore9, hfile9⟩ :=
    store_tyframe s.bs s s1 h hg hfile
  have hbseq : s1.types.bs = s.types.bs := htbs9
  refine ⟨?_, ?_, ?_, ?_, ?_, ?_, ?_⟩
  · rw [htbs9, htbs, hbs]
  · rw [hbs]
    exact hN4
  · exact typesContig_of_core s1.types s.types hbseq hcore9 hcontig
  · intro h0
    have h1 := congrArg List.length hcore9
    rw [h0] at h1
    simp only [List.map_nil, List.length_nil, List.length_map] at h1
    exact htne (List.length_eq_zero.mp h1.symm)
  · intro m hm
    rw [hfree9] at hm
    exact hfour m hm
  · have hbtr := blockType_of_cores s1.types s.types hbseq hcore9
    exact ⟨by rw [hbtr 0]; exact hrole.1, by rw [hbtr 1]; exact hrole.2.1,
      by rw [hbtr 2]; exact hrole.2.2.1, by rw [hbtr 3]; exact hrole.2.2.2⟩
  · rw [hbs]
    exact hfile9

/-- `Alloc::load` on a file with well-formed `tyS` slots yields a state
satisfying `RInv` with that file and block size. -/
theorem load_RInv (bs : Nat) (f : MFile) (z : MAlloc)
    (hN4 : 4 ≤ lenTypesG bs) (hf : tyFileOK bs f)
    (h : MAlloc.load bs f = .ok z) :
    RInv z ∧ z.bs = bs ∧ z.file = f := by
  rw [MAlloc.load] at h
  cases hr0 : readSlot f 0 with
  | none =>
    rw [hr0] at h
    cases h
  | some sl =>
    rw [hr0] at h
    cases sl with
    | tyS a b c => cases h
    | phS a b c => cases h
    | stS a => cases h
    | rawS d => cases h
    | hdrS hd =>
      have hB : (if (match hd.state with | MState.low => hd.lowPhysical | MState.high => hd.highPhysical) = 0 then Except.error MErr.headerCorrupted else MPhysical.load f bs (match hd.state with | MState.low => hd.lowPhysical | MState.high => hd.highPhysical) >>= fun phys => if (match hd.state with | MState.low => hd.lowTypes | MState.high => hd.highTypes) = 0 then Except.error MErr.headerCorrupted else MTypes.load f phys bs (match hd.state with | MState.low => hd.lowTypes | MState.high => hd.highTypes) >>= fun ts => if (match hd.state with | MState.low => hd.lowStreams | MState.high => hd.highStreams) ≠ 0 then loadRawSlot f (match hd.state with | MState.low => hd.lowStreams | MState.high => hd.highStreams) >>= fun sl => (match sl with | Slot.stS es => Except.ok ({ entries := es, dirty := false, gen := 0 } : MStreams) >>= fun strm => (match ({ bs := bs, file := f, header := hd, types := ts, physical := phys, streams := strm, user := [], gen := 0 } : MAlloc).assertBlockType with | Except.ok a => Except.ok ({ bs := bs, file := f, header := hd, types := ts, physical := phys, streams := strm, user := [], gen := 0 } : MAlloc) | Except.error e => Except.error e) | _ => Except.error (MErr.badSlotCast (match hd.state with | MState.low => hd.lowStreams | MState.high => hd.highStreams)) >>= fun strm => (match ({ bs := bs, file := f, header := hd, types := ts, physical := phys, streams := strm, user := [], gen := 0 } : MAlloc).assertBlockType with | Except.ok a => Except.ok ({ bs := bs, file := f, header := hd, types := ts, physical := phys, streams := strm, user := [], gen := 0 } : MAlloc) | Except.error e => Except.error e)) else Except.ok (MStreams.init bs) >>= fun strm => (match ({ bs := bs, file := f, header := hd, types := ts, physical := phys, streams := strm, user := [], gen := 0 } : MAlloc).assertBlockType with | Except.ok a => Except.ok ({ bs := bs, file := f, header := hd, types := ts, physical := phys, streams := strm, user := [], gen := 0 } : MAlloc) | Except.error e => Except.error e)) = Except.ok z := h
      by_cases hpp : (match hd.state with | MState.low => hd.lowPhysical | MState.high => hd.highPhysical) = 0
      · rw [if_pos hpp] at hB
        cases hB
      · rw [if_neg hpp] at hB
        cases hphl : MPhysical.load f bs (match hd.state with | MState.low => hd.lowPhysical | MState.high => hd.highPhysical) with
        | error e =>
          rw [hphl] at hB
          cases hB
        | ok phys =>
          simp only [hphl, except_bind_ok] at hB
          by_cases htp : (match hd.state with | MState.low => hd.lowTypes | MState.high => hd.highTypes) = 0
          · rw [if_pos htp] at hB
            cases hB
          · rw [if_neg htp] at hB
            cases htl : MTypes.load f phys bs (match hd.state with | MState.low => hd.lowTypes | MState.high => hd.highTypes) with
            | error e =>
              rw [htl] at hB
              cases hB
            | ok ts =>
              simp only [htl, except_bind_ok] at hB
              obtain ⟨htsbs, hcg, htne, hrole3, hfreety, h1mem⟩ :=
                tyLoad_inv f phys bs _ ts hN4 hf htl
              have h2mem := phLoad_blocks f bs _ phys hphl
              have hgoal : ∀ strm, (match ({ bs := bs, file := f, header := hd, types := ts, physical := phys, streams := strm, user := [], gen := 0 } : MAlloc).assertBlockType with | Except.ok a => Except.ok ({ bs := bs, file := f, header := hd, types := ts, physical := phys, streams := strm, user := [], gen := 0 } : MAlloc) | Except.error e => Except.error e) = Except.ok z → RInv z ∧ z.bs = bs ∧ z.file = f := by
                intro strm hT
                obtain ⟨hz, ha⟩ := load_assert_tail _ z hT
                subst hz
                obtain ⟨ha0, haty, haph⟩ := assertBlockType_inv _ ha
                have hfour : ∀ m ∈ ts.free, 4 ≤ m := by
                  intro m hm
                  by_contra hlt
                  have hfree := hfreety m hm
                  have h4 : m = 0 ∨ m = 1 ∨ m = 2 ∨ m = 3 := by omega
                  rcases h4 with rfl | rfl | rfl | rfl
                  · rw [ha0] at hfree
                    injection hfree with he
                    cases he
                  · rw [haty 1 h1mem] at hfree
                    injection hfree with he
                    cases he
                  · rw [haph 2 h2mem] at hfree
                    injection hfree with he
                    cases he
                  · rw [hrole3] at hfree
                    injection hfree with he
                    cases he
                exact ⟨⟨htsbs, hN4, hcg, htne, hfour,
                  ⟨ha0, haty 1 h1mem, haph 2 h2mem, hrole3⟩, hf⟩, rfl, rfl⟩
              by_cases hsp : (match hd.state with | MState.low => hd.lowStreams | MState.high => hd.highStreams) ≠ 0
              · rw [if_pos hsp] at hB
                cases hls : loadRawSlot f (match hd.state with | MState.low => hd.lowStreams | MState.high => hd.highStreams) with
                | error e =>
                  rw [hls] at hB
                  cases hB
                | ok sl2 =>
                  simp only [hls, except_bind_ok] at hB
                  cases sl2 with
                  | hdrS hd2 => cases hB
                  | tyS a b c => cases hB
                  | phS a b c => cases hB
                  | rawS d => cases hB
                  | stS es2 =>
                    exact hgoal ({ entries := es2, dirty := false, gen := 0 } : MStreams) hB
              · rw [if_neg hsp] at hB
                exact hgoal (MStreams.init bs) hB

/-- One legal public call preserves `RInv`. -/
theorem applyPubOp_RInv (s : MAlloc) (op : PubOp) (hR : RInv s)
    (hl : op.legal) : RInv (applyPubOp s op) := by
  cases op with
  | allocB ty =>
    cases hrun : s.allocBlock ty with
    | error e =>
      have he : applyPubOp s (.allocB ty) = s := by
        simp only [applyPubOp, hrun]
      rw [he]
      exact hR
    | ok pr =>
      obtain ⟨nr0, s1⟩ := pr
      have he : applyPubOp s (.allocB ty) = s1 := by
        simp only [applyPubOp, hrun]
      rw [he]
      exact (allocBlock_RInv s ty nr0 s1 hR hrun).1
  | freeB nr =>
    cases hrun : s.freeBlock nr with
    | error e =>
      have he : applyPubOp s (.freeB nr) = s := by
        simp only [applyPubOp, hrun]
      rw [he]
      exact hR
    | ok s1 =>
      have he : applyPubOp s (.freeB nr) = s1 := by
        simp only [applyPubOp, hrun]
      rw [he]
      exact (freeBlock_RInv s nr s1 hR hl hrun).1
  | getB nr =>
    cases hrun : s.blockGet nr with
    | error e =>
      have he : applyPubOp s (.getB nr) = s := by
        simp only [applyPubOp, hrun]
      rw [he]
      exact hR
    | ok pr =>
      obtain ⟨b, s1⟩ := pr
      have he : applyPubOp s (.getB nr) = s1 := by
        simp only [applyPubOp, hrun]
      rw [he]
      obtain ⟨hbs, hty, hfile⟩ := blockGet_frame s nr b s1 hrun
      exact RInv_congr s s1 hbs hty hfile hR
  | writeB nr data =>
    cases hrun : s.blockGet nr with
    | error e =>
      have he : applyPubOp s (.writeB nr data) = s := by
        simp only [applyPubOp, hrun]
      rw [he]
      exact hR
    | ok pr =>
      obtain ⟨b, s1⟩ := pr
      have he : applyPubOp s (.writeB nr data) = s1.dirtyWrite nr data := by
        simp only [applyPubOp, hrun]
      rw [he]
      obtain ⟨hbs, hty, hfile⟩ := blockGet_frame s nr b s1 hrun
      obtain ⟨hbs2, hty2, hfile2⟩ := dirtyWrite_frame s1 nr data
      exact RInv_congr s (s1.dirtyWrite nr data) (hbs2.trans hbs)
        (hty2.trans hty) (hfile2.trans hfile) hR
  | discardB nr =>
    obtain ⟨hbs, hty, hfile⟩ := discardBlock_frame s nr
    exact RInv_congr s (s.discardBlock nr) hbs hty hfile hR
  | streamReadB ty =>
    exact hR
  | streamWriteB ty idx =>
    cases hrun : s.streams.setHeadIdx ty idx with
    | error e =>
      have he : applyPubOp s (.streamWriteB ty idx) = s := by
        simp only [applyPubOp, hrun]
      rw [he]
      exact hR
    | ok st =>
      have he : applyPubOp s (.streamWriteB ty idx) = { s with streams := st } := by
        simp only [applyPubOp, hrun]
      rw [he]
      exact RInv_congr s { s with streams := st } rfl rfl rfl hR
  | storeB =>
    cases hrun : s.store with
    | error e =>
      have he : applyPubOp s .storeB = s := by
        simp only [applyPubOp, hrun]
      rw [he]
      exact hR
    | ok s1 =>
      have he : applyPubOp s .storeB = s1 := by
        simp only [applyPubOp, hrun]
      rw [he]
      exact store_RInv s s1 hR hrun
  | loadB =>
    cases hrun : MAlloc.load s.bs s.file with
    | error e =>
      have he : applyPubOp s .loadB = s := by
        simp only [applyPubOp, hrun]
      rw [he]
      exact hR
    | ok s1 =>
      have he : applyPubOp s .loadB = s1 := by
        simp only [applyPubOp, hrun]
      rw [he]
      exact (load_RInv s.bs s.file s1 hR.2.1 hR.2.2.2.2.2.2 hrun).1

/-- A sequence of legal public calls preserves `RInv`. -/
theorem applyPubOps_RInv (s : MAlloc) (ops : List PubOp) (hR : RInv s)
    (hops : ∀ op ∈ ops, PubOp.legal op) : RInv (applyPubOps s ops) := by
  induction ops generalizing s with
  | nil => exact hR
  | cons op rest ih =>
    show RInv (applyPubOps (applyPubOp s op) rest)
    exact ih (applyPubOp s op)
      (applyPubOp_RInv s op hR (hops op (by simp)))
      (fun o ho => hops o (by simp [ho]))

/-- C7 (amended): the reserved roles of logical blocks 0..3 — header,
type map, physical map, streams — survive every sequence of public calls
(`alloc_block`, `free_block`, `get`, `get_mut` with a buffer write,
`discard_block`, stream head reads and writes, `store`, `load` of the
current file) from `Alloc::init` at every valid block size (≥ 24),
provided `free_block` is never called on a reserved number 0..3; the
public call `free_block(1)` retypes entry 1, so that proviso is forced
(`free_of_reserved_nr_clears_its_type`). -/
theorem reserved_roles_survive_legal_calls (bs : Nat) (ops : List PubOp)
    (h24 : 24 ≤ bs) (hops : ∀ op ∈ ops, PubOp.legal op) :
    (applyPubOps (MAlloc.init bs) ops).types.blockType 0 = .ok .header ∧
    (applyPubOps (MAlloc.init bs) ops).types.blockType 1 = .ok .types ∧
    (applyPubOps (MAlloc.init bs) ops).types.blockType 2 = .ok .physicalT ∧
    (applyPubOps (MAlloc.init bs) ops).types.blockType 3 = .ok .streams := by
  have hR := applyPubOps_RInv (MAlloc.init bs) ops (RInv_init bs h24) hops
  exact hR.2.2.2.2.2.1

/-- Closed instance of `reserved_roles_survive_legal_calls`: a mixed call
sequence with a commit and a reopen, at the minimum block size 24. -/
theorem reserved_roles_survive_legal_calls_witness :
    (applyPubOps (MAlloc.init 24) [.allocB .user1, .getB 4, .writeB 4 [7], .streamWriteB .user1 9, .streamReadB .user1, .storeB, .loadB, .discardB 4, .freeB 4]).types.blockType 0 = .ok .header ∧
    (applyPubOps (MAlloc.init 24) [.allocB .user1, .getB 4, .writeB 4 [7], .streamWriteB .user1 9, .streamReadB .user1, .storeB, .loadB, .discardB 4, .freeB 4]).types.blockType 1 = .ok .types ∧
    (applyPubOps (MAlloc.init 24) [.allocB .user1, .getB 4, .writeB 4 [7], .streamWriteB .user1 9, .streamReadB .user1, .storeB, .loadB, .discardB 4, .freeB 4]).types.blockType 2 = .ok .physicalT ∧
    (applyPubOps (MAlloc.init 24) [.allocB .user1, .getB 4, .writeB 4 [7], .streamWriteB .user1 9, .streamReadB .user1, .storeB, .loadB, .discardB 4, .freeB 4]).types.blockType 3 = .ok .streams :=
  reserved_roles_survive_legal_calls 24
    [.allocB .user1, .getB 4, .writeB 4 [7], .streamWriteB .user1 9, .streamReadB .user1, .storeB, .loadB, .discardB 4, .freeB 4]
    (by decide) (by simp [PubOp.legal])
